import Mathlib

/-!
ALPACA: remeshing decision, remeshing, load balancing and jump-flux adjustment

A shallow embedding of the parts of `ModularAlgorithmAssembler`
(`src/modular_algorithm_assembler.cpp`) and `Block` (`src/block_definitions/block.cpp`)
that decide the properties proved below.

Conventions of the embedding.

* Node ids (`nid_t`, a `std::uint64_t`) are natural numbers; no arithmetic is performed on
  them by the embedded functions.  Ranks (`int`) are integers.
* The replicated light data (`TopologyManager`) is a record of the queries the assembler
  issues.  Its implementation lives outside the embedded files, so the answers are
  parameters.
* Helpers of the id scheme (`IdsOfChildren`, `ParentIdOfNode`, `LevelOfNode`), compile-time
  constants (`CC::...`, `MF::...`) and the wavelet analysis
  (`Multiresolution::ChildNeedsRemeshing`) are parameters as well.
* A thrown `std::logic_error` is the `Except.error` result.  The exception with which
  `Advance()` can leave `ComputeLoop` is the field `exception` of the run.
* The `PERFORMANCE` preprocessor switch is the boolean field `performance`.
* Floating-point buffers are modelled in exact arithmetic over `ℚ`: every `double` is the
  rational number it holds and no operation rounds.  Statements about computed values are
  statements of exact arithmetic.
-/

namespace Alpaca

/-- Node identifier, `nid_t` in the source. -/
abbrev nid_t := Nat

/-- Material identifier, `MaterialName` in the source. -/
abbrev MaterialName := Nat

/-- Outcome of the wavelet analysis of one child, `RemeshIdentifier` in the source. -/
inductive RemeshIdentifier where
  | Coarse
  | Neutral
  | Refine
  deriving DecidableEq, Repr

/-- The queries of `TopologyManager` (topology/topology_manager.h) used by the assembler. -/
structure TopologyManager where
  NodeExists : nid_t → Bool
  IsNodeMultiPhase : nid_t → Bool
  NodeIsLeaf : nid_t → Bool
  NodeIsOnRank : nid_t → Int → Bool
  GetRankOfNode : nid_t → Int
  GlobalIdsOnLevel : Nat → List nid_t
  LeafIdsOnLevel : Nat → List nid_t
  GetMaterialsOfNode : nid_t → List MaterialName
  GetCurrentMaximumLevel : Nat

/-- Everything `DetermineRemeshingNodes` and `Remesh` read besides their arguments. -/
structure RemeshEnv where
  topology_ : TopologyManager
  /-- Result of `communicator_.MyRankId()`. -/
  my_rank : Int
  IdsOfChildren : nid_t → List nid_t
  ParentIdOfNode : nid_t → nid_t
  LevelOfNode : nid_t → Nat
  /-- Result of `multiresolution_.ChildNeedsRemeshing` for the blocks of parent and child. -/
  ChildNeedsRemeshing : nid_t → nid_t → RemeshIdentifier
  all_levels_ : List Nat
  /-- Whether the code is compiled with `PERFORMANCE` defined. -/
  performance : Bool

/-- Body of the loop over the children of one parent in `DetermineRemeshingNodes`
(lines 1865-1908): the entry, if any, the executing rank appends to `remesh_list`. -/
def collectChild (env : RemeshEnv) (parent_id child_id : nid_t)
    (remesh_list : List RemeshIdentifier) : List RemeshIdentifier :=
  let parent_on_my_rank := env.topology_.NodeIsOnRank parent_id env.my_rank
  if env.topology_.NodeExists child_id then
    if !env.topology_.IsNodeMultiPhase child_id then
      if env.topology_.NodeIsLeaf child_id then
        let child_on_my_rank := env.topology_.NodeIsOnRank child_id env.my_rank
        if parent_on_my_rank then
          if child_on_my_rank then
            -- parent and child are held locally
            remesh_list ++ [env.ChildNeedsRemeshing parent_id child_id]
          else
            -- the child block is received from its owner
            remesh_list ++ [env.ChildNeedsRemeshing parent_id child_id]
        else
          -- the child block is sent to the owner of the parent, or nothing happens
          remesh_list
      else
        if parent_on_my_rank then remesh_list ++ [RemeshIdentifier.Neutral] else remesh_list
    else
      if parent_on_my_rank then remesh_list ++ [RemeshIdentifier.Neutral] else remesh_list
  else
    remesh_list

/-- The `remesh_list` after the loop over all children of `parent_id`; the list is empty
when the loop starts because it is cleared at the end of every parent iteration. -/
def collectIndicators (env : RemeshEnv) (parent_id : nid_t) : List RemeshIdentifier :=
  (env.IdsOfChildren parent_id).foldl (fun remesh_list child_id =>
    collectChild env parent_id child_id remesh_list) []

/-- The loop of lines 1916-1920: index `i` runs over `remesh_list`, and `children[i]` is
appended to `refine_list` whenever `remesh_list[i]` is `Refine`. -/
def appendRefined : List RemeshIdentifier → List nid_t → List nid_t → List nid_t
  | r :: rs, c :: cs, refine_list =>
      appendRefined rs cs (if r = RemeshIdentifier.Refine then refine_list ++ [c] else refine_list)
  | _, _, refine_list => refine_list

/-- One iteration of the loop over parents in `DetermineRemeshingNodes` (lines 1862-1927),
acting on `(remove_list, refine_list)`. -/
def visitParent (env : RemeshEnv) (parent_id : nid_t) (lists : List nid_t × List nid_t) :
    Except String (List nid_t × List nid_t) :=
  let children := env.IdsOfChildren parent_id
  let remesh_list := collectIndicators env parent_id
  if !env.performance && (!remesh_list.isEmpty && remesh_list.length != children.length) then
    Except.error "This must not happen"
  else
    let refine_list := appendRefined remesh_list children lists.2
    if !remesh_list.isEmpty && !env.topology_.IsNodeMultiPhase parent_id &&
        remesh_list.all (fun condition => condition == RemeshIdentifier.Coarse) then
      Except.ok (lists.1 ++ children, refine_list)
    else
      Except.ok (lists.1, refine_list)

/-- `ModularAlgorithmAssembler::DetermineRemeshingNodes` (lines 1850-1929); the two lists
are the in/out parameters `remove_list` and `refine_list`. -/
def DetermineRemeshingNodes (env : RemeshEnv) (parent_levels : List Nat)
    (remove_list refine_list : List nid_t) : Except String (List nid_t × List nid_t) :=
  parent_levels.foldlM (fun lists level_of_parent =>
    (env.topology_.GlobalIdsOnLevel level_of_parent).foldlM (fun lists parent_id =>
      visitParent env parent_id lists) lists) (remove_list, refine_list)

/-! ### Derived notions used to state the remeshing properties -/

/-- The parents `DetermineRemeshingNodes` visits, in visiting order. -/
def visitedParents (env : RemeshEnv) (parent_levels : List Nat) : List nid_t :=
  parent_levels.flatMap env.topology_.GlobalIdsOnLevel

/-- The remesh indicator of an existing child as the rank owning the parent collects it. -/
def childIndicator (env : RemeshEnv) (parent_id child_id : nid_t) : RemeshIdentifier :=
  if env.topology_.IsNodeMultiPhase child_id then RemeshIdentifier.Neutral
  else if env.topology_.NodeIsLeaf child_id then env.ChildNeedsRemeshing parent_id child_id
  else RemeshIdentifier.Neutral

/-- Whether the consistency check of lines 1911-1915 lets the parent pass. -/
def checkPasses (env : RemeshEnv) (parent_id : nid_t) : Bool :=
  !(!env.performance && (!(collectIndicators env parent_id).isEmpty &&
      (collectIndicators env parent_id).length != (env.IdsOfChildren parent_id).length))

/-- The entries one parent contributes to the coarsen (remove) list. -/
def coarsenGroup (env : RemeshEnv) (parent_id : nid_t) : List nid_t :=
  if !(collectIndicators env parent_id).isEmpty && !env.topology_.IsNodeMultiPhase parent_id &&
      (collectIndicators env parent_id).all (fun condition => condition == RemeshIdentifier.Coarse)
  then env.IdsOfChildren parent_id else []

/-- The entries one parent contributes to the refine list. -/
def refineGroup (env : RemeshEnv) (parent_id : nid_t) : List nid_t :=
  appendRefined (collectIndicators env parent_id) (env.IdsOfChildren parent_id) []

/-- The environment in which the wavelet analysis of child `c` of parent `p` yields `v`
and every other analysis is unchanged. -/
def RemeshEnv.setIndicator (env : RemeshEnv) (p c : nid_t) (v : RemeshIdentifier) : RemeshEnv :=
  { env with ChildNeedsRemeshing := fun q d =>
      if q = p ∧ d = c then v else env.ChildNeedsRemeshing q d }

/-! ### Remeshing -/

/-- The structural operations `Remesh` issues, in program order. -/
inductive RemeshEvent where
  /-- Call of `ModularAlgorithmAssembler::RefineNode`. -/
  | RefineNode (id : nid_t)
  /-- Call of `topology_.UpdateTopology()`, the collective commit. -/
  | TopologyCommit
  /-- Call of `communicator_.InvalidateCache()`. -/
  | InvalidateCache
  /-- Call of `halo_manager_.MaterialHaloUpdate` for conservatives on the given levels. -/
  | MaterialHaloUpdate (levels : List Nat)
  /-- Call of `topology_.CoarseNodeWithId`. -/
  | CoarseNodeWithId (parent_id : nid_t)
  /-- Call of `tree_.RemoveNodeWithId`. -/
  | RemoveNodeWithId (id : nid_t)
  deriving DecidableEq, Repr

/-- What `Remesh` needs from the collective commit in its middle: the answer of
`topology_.UpdateTopology()` and the light data after it. -/
structure RemeshCommit where
  changed : Bool
  topology_after : TopologyManager

/-- Modelled from the spec: `MpiUtilities::LocalToGlobalData`, whose code is not part of the
embedded files.  "Decisions are gathered globally (all-to-all)": every rank obtains the
local lists of all ranks, here concatenated in rank order. -/
def LocalToGlobalData (local_lists : List (List nid_t)) : List nid_t :=
  local_lists.flatMap id

/-- `std::unique`: of every run of equal neighbours only one element is kept. -/
def unique : List nid_t → List nid_t
  | [] => []
  | [a] => [a]
  | a :: b :: l => if a = b then unique (b :: l) else a :: unique (b :: l)

/-- `ModularAlgorithmAssembler::UpdateTopology` (lines 1745-1750). -/
def UpdateTopology (changed : Bool) : List RemeshEvent :=
  RemeshEvent.TopologyCommit :: (if changed then [RemeshEvent.InvalidateCache] else [])

/-- The cut of lines 1777-1779 applied to a local refinement list: non-leaves and leaves on
the maximum level `all_levels_.back()` are erased. -/
def cutRefinementList (env : RemeshEnv) (nodes_needing_refinement : List nid_t) : List nid_t :=
  nodes_needing_refinement.filter (fun id =>
    !(!env.topology_.NodeIsLeaf id || env.LevelOfNode id == env.all_levels_.getLastD 0))

/-- `ModularAlgorithmAssembler::Remesh` from line 1776 on, for arbitrary outcomes of the
remeshing decision: `decisions` holds for every rank (position = rank id) the pair
`(nodes_to_be_coarsened, nodes_needing_refinement)` it determined.  Every rank applies the
cut of the refinement list to its own list before the lists are gathered; the light data
is identical on all ranks. -/
def RemeshWithLists (env : RemeshEnv) (commit : RemeshCommit)
    (levels_to_update_ascending : List Nat) (decisions : List (List nid_t × List nid_t)) :
    List RemeshEvent :=
  let global_refine_list :=
    LocalToGlobalData (decisions.map (fun lists => cutRefinementList env lists.2))
  let refinements :=
    (global_refine_list.filter (fun leaf_id =>
      env.topology_.NodeIsOnRank leaf_id env.my_rank)).map RemeshEvent.RefineNode
  let halo_levels := levels_to_update_ascending.tail
  let global_remove_list := LocalToGlobalData (decisions.map (fun lists => lists.1))
  let local_cut := global_remove_list.filter (fun id =>
    commit.topology_after.NodeIsOnRank id env.my_rank)
  let parents_of_coarsened := global_remove_list.map env.ParentIdOfNode
  let parents_of_coarsened := unique (parents_of_coarsened.insertionSort (· ≤ ·))
  let parents_of_coarsened :=
    parents_of_coarsened.filter (fun parent_id => !(env.LevelOfNode parent_id == 0))
  let local_cut := unique (local_cut.insertionSort (· ≤ ·))
  let local_cut := local_cut.filter (fun id => !(env.LevelOfNode id == 1))
  refinements ++ UpdateTopology commit.changed ++
    [RemeshEvent.MaterialHaloUpdate halo_levels] ++
    parents_of_coarsened.map RemeshEvent.CoarseNodeWithId ++
    (if !parents_of_coarsened.isEmpty then [RemeshEvent.InvalidateCache] else []) ++
    local_cut.map RemeshEvent.RemoveNodeWithId

/-- The levels handed to `DetermineRemeshingNodes` by `Remesh` (lines 1761-1767). -/
def parentLevels (env : RemeshEnv) (levels_to_update_ascending : List Nat) : List Nat :=
  levels_to_update_ascending.filter (fun level =>
    !(decide (level ≥ env.topology_.GetCurrentMaximumLevel)))

/-- `ModularAlgorithmAssembler::Remesh` (lines 1758-1842) on the rank `env.my_rank` of
`number_of_ranks` ranks; every rank runs `DetermineRemeshingNodes` on empty lists, and an
exception on any rank ends the run. -/
def Remesh (env : RemeshEnv) (commit : RemeshCommit) (number_of_ranks : Nat)
    (levels_to_update_ascending : List Nat) : Except String (List RemeshEvent) := do
  let parent_levels := parentLevels env levels_to_update_ascending
  let decisions ← (List.range number_of_ranks).mapM (fun (rank : Nat) =>
    DetermineRemeshingNodes { env with my_rank := Int.ofNat rank } parent_levels [] [])
  pure (RemeshWithLists env commit levels_to_update_ascending decisions)

/-! ### Load balancing -/

/-- Element counts of the messages of `LoadBalancing`: `MF::ANOE()`, `CC::SIDES()`,
`MF::ANOP()` and `FullBlockSendingSize()`. -/
structure SendingSizes where
  ANOE : Nat
  SIDES : Nat
  ANOP : Nat
  FullBlockSendingSize : Nat

/-- The MPI datatypes of the messages of `LoadBalancing`. -/
inductive MpiDatatype where
  /-- Value of `communicator_.ConservativesDatatype()`. -/
  | conservatives_datatype
  /-- Value of `communicator_.JumpSurfaceDatatype()`. -/
  | boundary_jump_datatype
  | MPI_INT8_T
  | MPI_DOUBLE
  deriving DecidableEq, Repr

/-- The buffers of a node that `LoadBalancing` addresses. -/
inductive BufferKind where
  | RightHandSideBuffer (material : MaterialName)
  | AverageBuffer (material : MaterialName)
  | InitialBuffer (material : MaterialName)
  | BoundaryJumpFluxes (material : MaterialName)
  | BoundaryJumpConservatives (material : MaterialName)
  | InterfaceTagsReinitialized
  | PrimeStateBuffer (material : MaterialName)
  | LevelsetReinitialized
  | VolumeFractionReinitialized
  | InterfaceVelocity
  deriving DecidableEq, Repr

/-- One posted buffer: which buffer of which node, how many elements of which datatype. -/
structure Transfer where
  id : nid_t
  buffer : BufferKind
  count : Nat
  datatype : MpiDatatype
  deriving DecidableEq, Repr

/-- The operations `LoadBalancing` issues, in program order. -/
inductive BalanceEvent where
  /-- Call of `communicator_.InvalidateCache()`. -/
  | InvalidateCache
  /-- Call of `communicator_.Send` towards rank `destination`. -/
  | Send (transfer : Transfer) (destination : Int)
  /-- Call of `communicator_.Recv` from rank `source`. -/
  | Recv (transfer : Transfer) (source : Int)
  /-- Call of `tree_.CreateNode( id, materials )`. -/
  | CreateNode (id : nid_t)
  /-- Call of `new_node.SetInterfaceBlock( std::make_unique<InterfaceBlock>( 0.0 ) )`. -/
  | SetInterfaceBlock (id : nid_t)
  /-- Call of `BO::SetSingleBuffer( new_tags, uniform_tag )`. -/
  | SetUniformInterfaceTags (id : nid_t)
  /-- Call of `MPI_Waitall` on all posted requests. -/
  | Waitall
  /-- Call of `tree_.RemoveNodeWithId`. -/
  | RemoveNodeWithId (id : nid_t)
  /-- Call of `DoObtainPrimeStatesFromConservativesForLevelsetNodes<Average>`. -/
  | ObtainPrimeStatesForLevelsetNode (id : nid_t)
  /-- Call of `DoObtainPrimeStatesFromConservativesForNonLevelsetNodes<Average>`. -/
  | ObtainPrimeStatesForNonLevelsetNode (id : nid_t)
  /-- Call of `logger_.LogMessage`. -/
  | LogMessage
  deriving DecidableEq, Repr

/-- The heavy data one rank holds, as far as load balancing observes it: which nodes are
held and which of them carry a level-set block (`Node::HasLevelset`). -/
structure Tree where
  ids : List nid_t
  HasLevelset : nid_t → Bool

/-- Modelled from the spec: `Tree::CreateNode`, whose code is not part of the embedded files.
"`CreateNode(id, materials, ...)` allocates zeroed buffers for a node not previously owned
locally"; the node shell is created without a level-set block. -/
def Tree.CreateNode (tree : Tree) (id : nid_t) : Tree :=
  { ids := if id ∈ tree.ids then tree.ids else id :: tree.ids
    HasLevelset := fun n => if n = id then false else tree.HasLevelset n }

/-- Modelled from the spec: `Tree::RemoveNodeWithId`, whose code is not part of the embedded
files.  "`RemoveNodeWithId(id)` deallocates a node's heavy data". -/
def Tree.RemoveNodeWithId (tree : Tree) (id : nid_t) : Tree :=
  { ids := tree.ids.filter (fun n => n != id)
    HasLevelset := fun n => if n = id then false else tree.HasLevelset n }

/-- Modelled from the spec: `Node::SetInterfaceBlock` with a freshly made `InterfaceBlock`,
whose code is not part of the embedded files; afterwards the node has a level-set block. -/
def Tree.SetInterfaceBlock (tree : Tree) (id : nid_t) : Tree :=
  { tree with HasLevelset := fun n => if n = id then true else tree.HasLevelset n }

/-- Everything `LoadBalancing` reads besides its arguments and the tree. -/
structure BalanceEnv where
  /-- The light data after `PrepareLoadBalancedTopology`. -/
  topology_ : TopologyManager
  /-- Result of `topology_.IsLoadBalancingNecessary()`. -/
  IsLoadBalancingNecessary : Bool
  /-- Result of `topology_.PrepareLoadBalancedTopology`: id, current rank, future rank. -/
  ids_rank_map : List (nid_t × Int × Int)
  LevelOfNode : nid_t → Nat
  all_levels_ : List Nat
  sizes : SendingSizes
  /-- Result of `MpiUtilities::MyRankId()`. -/
  my_rank_id : Int

/-- The state the loops of `LoadBalancing` thread through. -/
structure BalanceState where
  tree_ : Tree
  events : List BalanceEvent
  received_nodes_not_updated : List nid_t

/-- `node_not_updated` of line 1598. -/
def nodeNotUpdated (env : BalanceEnv) (updated_levels_descending : List Nat) (id : nid_t) : Bool :=
  !(updated_levels_descending.contains (env.LevelOfNode id))

/-- The buffers addressed for one material in the loops of lines 1602-1613 (sender) and
1639-1649 (receiver), in program order. -/
def materialTransfers (env : BalanceEnv) (id : nid_t) (node_not_updated : Bool)
    (material : MaterialName) : List Transfer :=
  [⟨id, BufferKind.RightHandSideBuffer material, env.sizes.ANOE,
      MpiDatatype.conservatives_datatype⟩] ++
  (if node_not_updated then
    [⟨id, BufferKind.AverageBuffer material, env.sizes.ANOE, MpiDatatype.conservatives_datatype⟩,
     ⟨id, BufferKind.InitialBuffer material, env.sizes.ANOE, MpiDatatype.conservatives_datatype⟩]
  else []) ++
  [⟨id, BufferKind.BoundaryJumpFluxes material, env.sizes.SIDES,
      MpiDatatype.boundary_jump_datatype⟩,
   ⟨id, BufferKind.BoundaryJumpConservatives material, env.sizes.SIDES,
      MpiDatatype.boundary_jump_datatype⟩]

/-- The buffers the current owner sends for one move (lines 1600-1628), in program order. -/
def sentTransfers (env : BalanceEnv) (tree_ : Tree) (updated_levels_descending : List Nat)
    (id : nid_t) : List Transfer :=
  let node_not_updated := nodeNotUpdated env updated_levels_descending id
  (env.topology_.GetMaterialsOfNode id).flatMap (materialTransfers env id node_not_updated) ++
  (if env.topology_.IsNodeMultiPhase id then
    [⟨id, BufferKind.InterfaceTagsReinitialized, env.sizes.FullBlockSendingSize,
        MpiDatatype.MPI_INT8_T⟩] ++
    (if tree_.HasLevelset id then
      (env.topology_.GetMaterialsOfNode id).map (fun material =>
        (⟨id, BufferKind.PrimeStateBuffer material, env.sizes.ANOP,
          MpiDatatype.conservatives_datatype⟩ : Transfer)) ++
      [⟨id, BufferKind.LevelsetReinitialized, env.sizes.FullBlockSendingSize,
          MpiDatatype.MPI_DOUBLE⟩,
       ⟨id, BufferKind.VolumeFractionReinitialized, env.sizes.FullBlockSendingSize,
          MpiDatatype.MPI_DOUBLE⟩,
       ⟨id, BufferKind.InterfaceVelocity, env.sizes.FullBlockSendingSize,
          MpiDatatype.MPI_DOUBLE⟩]
    else [])
  else [])

/-- The operations of the future owner for one move after the node shell is created
(lines 1639-1666), in program order, with the interleaved changes of the new node. -/
def receiveOperations (env : BalanceEnv) (updated_levels_descending : List Nat)
    (id : nid_t) (current_rank : Int) : List BalanceEvent :=
  let node_not_updated := nodeNotUpdated env updated_levels_descending id
  ((env.topology_.GetMaterialsOfNode id).flatMap
      (materialTransfers env id node_not_updated)).map
    (fun transfer => BalanceEvent.Recv transfer current_rank) ++
  (if env.topology_.IsNodeMultiPhase id then
    [BalanceEvent.Recv ⟨id, BufferKind.InterfaceTagsReinitialized,
        env.sizes.FullBlockSendingSize, MpiDatatype.MPI_INT8_T⟩ current_rank] ++
    (if env.LevelOfNode id == env.all_levels_.getLastD 0 then
      (env.topology_.GetMaterialsOfNode id).map (fun material =>
        BalanceEvent.Recv ⟨id, BufferKind.PrimeStateBuffer material, env.sizes.ANOP,
          MpiDatatype.conservatives_datatype⟩ current_rank) ++
      [BalanceEvent.SetInterfaceBlock id,
       BalanceEvent.Recv ⟨id, BufferKind.LevelsetReinitialized,
          env.sizes.FullBlockSendingSize, MpiDatatype.MPI_DOUBLE⟩ current_rank,
       BalanceEvent.Recv ⟨id, BufferKind.VolumeFractionReinitialized,
          env.sizes.FullBlockSendingSize, MpiDatatype.MPI_DOUBLE⟩ current_rank,
       BalanceEvent.Recv ⟨id, BufferKind.InterfaceVelocity,
          env.sizes.FullBlockSendingSize, MpiDatatype.MPI_DOUBLE⟩ current_rank]
    else [])
  else [BalanceEvent.SetUniformInterfaceTags id])

/-- One iteration of the loop over the moves (lines 1596-1671). -/
def postMove (env : BalanceEnv) (updated_levels_descending : List Nat)
    (state : BalanceState) (move : nid_t × Int × Int) : BalanceState :=
  let id := move.1
  let current_rank := move.2.1
  let future_rank := move.2.2
  let node_not_updated := nodeNotUpdated env updated_levels_descending id
  if current_rank = env.my_rank_id then
    { state with
      events := state.events ++
        (sentTransfers env state.tree_ updated_levels_descending id).map
          (fun transfer => BalanceEvent.Send transfer future_rank) }
  else if future_rank = env.my_rank_id then
    let new_tree := state.tree_.CreateNode id
    { tree_ :=
        if env.topology_.IsNodeMultiPhase id &&
            (env.LevelOfNode id == env.all_levels_.getLastD 0) then
          new_tree.SetInterfaceBlock id
        else new_tree
      events := state.events ++ [BalanceEvent.CreateNode id] ++
        receiveOperations env updated_levels_descending id current_rank
      received_nodes_not_updated :=
        if node_not_updated then state.received_nodes_not_updated ++ [id]
        else state.received_nodes_not_updated }
  else state

/-- One iteration of the removal loop (lines 1676-1682). -/
def removeMoved (env : BalanceEnv) (state : BalanceState) (move : nid_t × Int × Int) :
    BalanceState :=
  if move.2.1 = env.my_rank_id then
    { state with
      tree_ := state.tree_.RemoveNodeWithId move.1
      events := state.events ++ [BalanceEvent.RemoveNodeWithId move.1] }
  else state

/-- One iteration of the loop over the received nodes (lines 1685-1694). -/
def recomputePrimeStates (env : BalanceEnv) (state : BalanceState) (id : nid_t) :
    BalanceState :=
  if env.topology_.NodeIsLeaf id then
    if state.tree_.HasLevelset id then
      { state with events := state.events ++ [BalanceEvent.ObtainPrimeStatesForLevelsetNode id] }
    else
      { state with
        events := state.events ++ [BalanceEvent.ObtainPrimeStatesForNonLevelsetNode id] }
  else state

/-- `ModularAlgorithmAssembler::LoadBalancing` (lines 1580-1698) on the rank
`env.my_rank_id`, started with the tree `tree_`. -/
def LoadBalancing (env : BalanceEnv) (updated_levels_descending : List Nat) (force : Bool)
    (tree_ : Tree) : BalanceState :=
  if env.IsLoadBalancingNecessary || force then
    let state : BalanceState :=
      { tree_ := tree_, events := [BalanceEvent.InvalidateCache],
        received_nodes_not_updated := [] }
    let state := env.ids_rank_map.foldl (postMove env updated_levels_descending) state
    let state := { state with events := state.events ++ [BalanceEvent.Waitall] }
    let state := env.ids_rank_map.foldl (removeMoved env) state
    let state := state.received_nodes_not_updated.foldl (recomputePrimeStates env) state
    { state with events := state.events ++ [BalanceEvent.LogMessage] }
  else
    { tree_ := tree_, events := [], received_nodes_not_updated := [] }

/-- The projection of a posted buffer the receiver has to match: which buffer, how many
elements, which datatype. -/
def Transfer.shape (transfer : Transfer) : BufferKind × Nat × MpiDatatype :=
  (transfer.buffer, transfer.count, transfer.datatype)

/-- The buffers for which sends are posted in a sequence of operations, in order. -/
def sendsOf (events : List BalanceEvent) : List Transfer :=
  events.filterMap (fun event =>
    match event with
    | BalanceEvent.Send transfer _ => some transfer
    | _ => none)

/-- The buffers for which receives are posted in a sequence of operations, in order. -/
def recvsOf (events : List BalanceEvent) : List Transfer :=
  events.filterMap (fun event =>
    match event with
    | BalanceEvent.Recv transfer _ => some transfer
    | _ => none)

/-- The posted sends of a sequence of operations that address buffers of node `id`. -/
def sendsFor (id : nid_t) (events : List BalanceEvent) : List Transfer :=
  (sendsOf events).filter (fun transfer => transfer.id == id)

/-- The posted receives of a sequence of operations that address buffers of node `id`. -/
def recvsFor (id : nid_t) (events : List BalanceEvent) : List Transfer :=
  (recvsOf events).filter (fun transfer => transfer.id == id)

/-- The ranks `0, ..., number_of_ranks - 1` of the communicator. -/
def ranksOf (number_of_ranks : Nat) : List Int :=
  (List.range number_of_ranks).map Int.ofNat

/-- The tree of rank `rank` after that rank executed `LoadBalancing`, every rank starting
from its own tree `trees rank` and using the same light data and move list. -/
def treeAfterBalancing (env : BalanceEnv) (updated_levels_descending : List Nat) (force : Bool)
    (trees : Int → Tree) (rank : Int) : Tree :=
  (LoadBalancing { env with my_rank_id := rank } updated_levels_descending force
    (trees rank)).tree_

/-- Whether a buffer addressed by `LoadBalancing` is a prime-state buffer. -/
def BufferKind.isPrimeState : BufferKind → Bool
  | BufferKind.PrimeStateBuffer _ => true
  | _ => false

/-- The prime-state buffers of a node as lines 1619 and 1652 address them: one per material,
`MF::ANOP()` elements of the conservatives datatype. -/
def primeStateTransfers (env : BalanceEnv) (id : nid_t) : List Transfer :=
  (env.topology_.GetMaterialsOfNode id).map (fun material =>
    (⟨id, BufferKind.PrimeStateBuffer material, env.sizes.ANOP,
      MpiDatatype.conservatives_datatype⟩ : Transfer))

/-- Whether an operation posts a send or a receive. -/
def BalanceEvent.isTransfer : BalanceEvent → Bool
  | BalanceEvent.Send _ _ => true
  | BalanceEvent.Recv _ _ => true
  | _ => false

/-- Whether an operation is one the loop over the moves (lines 1596-1671) can issue. -/
def BalanceEvent.isPosting : BalanceEvent → Bool
  | BalanceEvent.Send _ _ => true
  | BalanceEvent.Recv _ _ => true
  | BalanceEvent.CreateNode _ => true
  | BalanceEvent.SetInterfaceBlock _ => true
  | BalanceEvent.SetUniformInterfaceTags _ => true
  | _ => false

/-- The ids pushed to `received_nodes_not_updated` by the loop over the moves: the nodes
the executing rank receives whose level is not among the updated ones, in move order. -/
def receivedNotUpdated (env : BalanceEnv) (updated_levels_descending : List Nat)
    (moves : List (nid_t × Int × Int)) : List nid_t :=
  (moves.filter (fun move =>
    decide (move.2.1 ≠ env.my_rank_id) && decide (move.2.2 = env.my_rank_id) &&
      nodeNotUpdated env updated_levels_descending move.1)).map (fun move => move.1)

/-- The removals of the loop of lines 1676-1682, in program order. -/
def removalEvents (env : BalanceEnv) (moves : List (nid_t × Int × Int)) : List BalanceEvent :=
  (moves.filter (fun move => decide (move.2.1 = env.my_rank_id))).map
    (fun move => BalanceEvent.RemoveNodeWithId move.1)

/-- The recomputations of the loop of lines 1685-1694 over the list `ids`, in program
order, for the tree the loop runs on. -/
def recomputationEvents (env : BalanceEnv) (tree_ : Tree) (ids : List nid_t) :
    List BalanceEvent :=
  ids.filterMap (fun id =>
    if env.topology_.NodeIsLeaf id then
      some (if tree_.HasLevelset id then BalanceEvent.ObtainPrimeStatesForLevelsetNode id
        else BalanceEvent.ObtainPrimeStatesForNonLevelsetNode id)
    else none)

/-! ### Order of operations and the cache of the communicator -/

/-- Whether an operation of `Remesh` is one the refinement part (lines 1786-1791) can
issue. -/
def RemeshEvent.isRefinementStep : RemeshEvent → Bool
  | RemeshEvent.RefineNode _ => true
  | RemeshEvent.TopologyCommit => true
  | RemeshEvent.InvalidateCache => true
  | _ => false

/-- Whether an operation of `Remesh` is one the coarsening part (lines 1824-1841) can
issue. -/
def RemeshEvent.isCoarseningStep : RemeshEvent → Bool
  | RemeshEvent.CoarseNodeWithId _ => true
  | RemeshEvent.InvalidateCache => true
  | RemeshEvent.RemoveNodeWithId _ => true
  | _ => false

/-- The coarsening of `CreateNewSimulation` for a level above 1 (lines 368-390), for
arbitrary outcomes of the remeshing decision: `coarsable_list` is the list the executing
rank determined and `lists_of_ranks` holds the lists of all ranks (position = rank id), as
`LocalToGlobalData` gathers them into `globally_coarsable`. -/
def coarsenInitialLevelWithLists (env : RemeshEnv) (coarsable_list : List nid_t)
    (lists_of_ranks : List (List nid_t)) : List RemeshEvent :=
  let globally_coarsable := LocalToGlobalData lists_of_ranks
  let parents_of_coarsable := globally_coarsable.map env.ParentIdOfNode
  (coarsable_list.filter (fun coarsable_id =>
      env.topology_.NodeIsOnRank coarsable_id env.my_rank)).map RemeshEvent.RemoveNodeWithId ++
    parents_of_coarsable.map RemeshEvent.CoarseNodeWithId ++
    (if !parents_of_coarsable.isEmpty then [RemeshEvent.InvalidateCache] else [])

/-- The block `if( level > 1 )` of `CreateNewSimulation` (lines 368-390) on the rank
`env.my_rank` of `number_of_ranks` ranks; every rank runs `DetermineRemeshingNodes` on the
parent level with a cleared `coarsable_list`, and `refinement_list` is the stub list the
rank passes. -/
def coarsenInitialLevel (env : RemeshEnv) (number_of_ranks level : Nat)
    (refinement_list : Nat → List nid_t) : Except String (List RemeshEvent) :=
  if level > 1 then do
    let decisions ← (List.range number_of_ranks).mapM (fun (rank : Nat) =>
      DetermineRemeshingNodes { env with my_rank := Int.ofNat rank } [level - 1] []
        (refinement_list rank))
    let own ← DetermineRemeshingNodes env [level - 1] [] (refinement_list env.my_rank.toNat)
    pure (coarsenInitialLevelWithLists env own.1 (decisions.map (fun lists => lists.1)))
  else pure []

/-- What the cache of the communicator observes of an operation of the assembler. -/
inductive CacheEvent where
  /-- A topology commit that reported a change, a coarsening of a parent in the topology,
  or a reassignment of ranks. -/
  | ShapeChange
  /-- Call of `communicator_.InvalidateCache()`. -/
  | InvalidateCache
  /-- A halo update, which uses the cache. -/
  | HaloUpdate
  | Other
  deriving DecidableEq, Repr

/-- Runs a sequence of operations against the cache: `stale` tells whether the tree shape
or the ownership changed since the last invalidation.  The result is `none` if a halo
update is issued while the cache is stale, and the final flag otherwise. -/
def cacheProtocol : Bool → List CacheEvent → Option Bool
  | stale, [] => some stale
  | _, CacheEvent.ShapeChange :: rest => cacheProtocol true rest
  | _, CacheEvent.InvalidateCache :: rest => cacheProtocol false rest
  | stale, CacheEvent.HaloUpdate :: rest => if stale then none else cacheProtocol false rest
  | stale, CacheEvent.Other :: rest => cacheProtocol stale rest

/-- What the cache observes of an operation of `Remesh` or of the coarsening of
`CreateNewSimulation`; `changed` is the answer of the topology commit. -/
def RemeshEvent.cacheView (changed : Bool) : RemeshEvent → CacheEvent
  | RemeshEvent.TopologyCommit => if changed then CacheEvent.ShapeChange else CacheEvent.Other
  | RemeshEvent.InvalidateCache => CacheEvent.InvalidateCache
  | RemeshEvent.MaterialHaloUpdate _ => CacheEvent.HaloUpdate
  | RemeshEvent.CoarseNodeWithId _ => CacheEvent.ShapeChange
  | _ => CacheEvent.Other

/-- What the cache observes of an operation of `LoadBalancing`. -/
def BalanceEvent.cacheView : BalanceEvent → CacheEvent
  | BalanceEvent.InvalidateCache => CacheEvent.InvalidateCache
  | _ => CacheEvent.Other

/-- What the cache observes of a call of `LoadBalancing`: when it runs, the reassignment of
ranks by `PrepareLoadBalancedTopology` (line 1583) precedes its operations. -/
def balanceCacheTrace (env : BalanceEnv) (updated_levels_descending : List Nat) (force : Bool)
    (tree_ : Tree) : List CacheEvent :=
  (if env.IsLoadBalancingNecessary || force then [CacheEvent.ShapeChange] else []) ++
    (LoadBalancing env updated_levels_descending force tree_).events.map BalanceEvent.cacheView

/-! ### Blocks and their jump buffers -/

/-- Values of `BoundaryLocation`: the six natural sides, and the remaining values of the
enumeration (sticks and cubes), which are told apart by an index. -/
inductive BoundaryLocation where
  | East
  | West
  | North
  | South
  | Top
  | Bottom
  | Diagonal (index : Nat)
  deriving DecidableEq, Repr

/-- Whether a location is one of the six natural sides. -/
def BoundaryLocation.isNatural : BoundaryLocation → Bool
  | BoundaryLocation.Diagonal _ => false
  | _ => true

/-- A field buffer of one equation, `double[CC::TCX()][CC::TCY()][CC::TCZ()]`. -/
abbrev FieldArray := Nat → Nat → Nat → ℚ

/-- The jump buffer of one face, `double[MF::ANOE()][CC::ICY()][CC::ICZ()]`. -/
abbrev JumpArray := Nat → Nat → Nat → ℚ

/-- The six arrays of a `SurfaceBuffer`. -/
inductive JumpFace where
  | east_
  | west_
  | north_
  | south_
  | top_
  | bottom_
  deriving DecidableEq, Repr

/-- `SurfaceBuffer`: one jump array per face. -/
structure SurfaceBuffer where
  east_ : JumpArray
  west_ : JumpArray
  north_ : JumpArray
  south_ : JumpArray
  top_ : JumpArray
  bottom_ : JumpArray

/-- The array of a `SurfaceBuffer` a reference returned by `GetBoundaryJump` points to. -/
def SurfaceBuffer.face (jump : SurfaceBuffer) : JumpFace → JumpArray
  | JumpFace.east_ => jump.east_
  | JumpFace.west_ => jump.west_
  | JumpFace.north_ => jump.north_
  | JumpFace.south_ => jump.south_
  | JumpFace.top_ => jump.top_
  | JumpFace.bottom_ => jump.bottom_

/-- Writing through a reference returned by `GetBoundaryJump`. -/
def SurfaceBuffer.setFace (jump : SurfaceBuffer) (which : JumpFace) (values : JumpArray) :
    SurfaceBuffer :=
  match which with
  | JumpFace.east_ => { jump with east_ := values }
  | JumpFace.west_ => { jump with west_ := values }
  | JumpFace.north_ => { jump with north_ := values }
  | JumpFace.south_ => { jump with south_ := values }
  | JumpFace.top_ => { jump with top_ := values }
  | JumpFace.bottom_ => { jump with bottom_ := values }

/-- `GetBoundaryJump` (block.cpp, lines 480-516, the overload on `SurfaceBuffer&`; the
const overload is `GetBoundaryJumpConst`): the array of the `SurfaceBuffer` the returned
reference points to.  With `PERFORMANCE` the `default` label returns `top_`; without it
`Top` returns `top_` and `default` throws. -/
def GetBoundaryJump (performance : Bool) (location : BoundaryLocation) : Except String JumpFace :=
  match location with
  | BoundaryLocation.East => Except.ok JumpFace.east_
  | BoundaryLocation.West => Except.ok JumpFace.west_
  | BoundaryLocation.North => Except.ok JumpFace.north_
  | BoundaryLocation.South => Except.ok JumpFace.south_
  | BoundaryLocation.Bottom => Except.ok JumpFace.bottom_
  | BoundaryLocation.Top => Except.ok JumpFace.top_
  | BoundaryLocation.Diagonal _ =>
      if performance then Except.ok JumpFace.top_
      else Except.error "Jump flux Buffer with given Index does not exist"

/-- The buffers of a `Block`; a conservative buffer holds one field array per equation. -/
structure Block where
  average_ : Nat → FieldArray
  right_hand_side_ : Nat → FieldArray
  initial_ : Nat → FieldArray
  prime_states_ : Nat → FieldArray
  parameters_ : Nat → FieldArray
  jump_fluxes_ : SurfaceBuffer
  jump_conservatives_ : SurfaceBuffer

/-- The heavy data of a node as far as the jump-flux adjustment reads it. -/
structure Node where
  /-- Result of `GetCellSize()`. -/
  cell_size : ℚ
  /-- The materials for which `GetPhases()` holds a block. -/
  materials : List MaterialName
  /-- Result of `GetPhaseByMaterial`. -/
  phases : MaterialName → Block

/-- The heavy data held by the executing rank: `tree_.NodesOnLevel` and
`tree_.GetNodeWithId`. -/
structure BlockTree where
  NodesOnLevel : Nat → List nid_t
  GetNodeWithId : nid_t → Node

/-- The tree after the block of material `material` of node `id` was changed by `change`. -/
def BlockTree.modifyBlock (tree : BlockTree) (id : nid_t) (material : MaterialName)
    (change : Block → Block) : BlockTree :=
  { tree with GetNodeWithId := fun n =>
      if n = id then
        { tree.GetNodeWithId n with phases := fun m =>
            if m = material then change ((tree.GetNodeWithId n).phases m)
            else (tree.GetNodeWithId n).phases m }
      else tree.GetNodeWithId n }

/-- Setting the entries of the declared extent `[ANOE][ICY][ICZ]` of a jump array. -/
def overwriteJump (ANOE ICY ICZ : Nat) (target source : JumpArray) : JumpArray :=
  fun e i j => if e < ANOE ∧ i < ICY ∧ j < ICZ then source e i j else target e i j

/-- `Block::ResetJumpConservatives` (block.cpp, lines 467-478). -/
def Block.ResetJumpConservatives (performance : Bool) (ANOE ICY ICZ : Nat) (block : Block)
    (location : BoundaryLocation) : Except String Block :=
  match GetBoundaryJump performance location with
  | Except.error message => Except.error message
  | Except.ok which =>
      Except.ok { block with jump_conservatives_ :=
        (block.jump_conservatives_.setFace which
          (overwriteJump ANOE ICY ICZ (block.jump_conservatives_.face which) (fun _ _ _ => 0))) }

/-- `Block::ResetJumpFluxes` (block.cpp, lines 450-461). -/
def Block.ResetJumpFluxes (performance : Bool) (ANOE ICY ICZ : Nat) (block : Block)
    (location : BoundaryLocation) : Except String Block :=
  match GetBoundaryJump performance location with
  | Except.error message => Except.error message
  | Except.ok which =>
      Except.ok { block with jump_fluxes_ :=
        (block.jump_fluxes_.setFace which
          (overwriteJump ANOE ICY ICZ (block.jump_fluxes_.face which) (fun _ _ _ => 0))) }

/-! ### Jump-flux adjustment

The embedding follows the program of one rank.  A buffer obtained by `MPI_Recv` is a
parameter: it is what the matching `MPI_Send` of the owning rank transmits (lines
1077 and 1254), namely the jump-conservative buffer of the child, respectively the
jump-conservative buffer of the neighbor on the opposite face. -/

/-- Everything `JumpFluxAdjustment` reads besides its argument and the tree. -/
structure JumpEnv where
  topology_ : TopologyManager
  /-- Result of `communicator_.MyRankId()`. -/
  my_rank : Int
  ParentIdOfNode : nid_t → nid_t
  /-- Result of `topology_.GetTopologyNeighborId`. -/
  GetTopologyNeighborId : nid_t → BoundaryLocation → nid_t
  OppositeDirection : BoundaryLocation → BoundaryLocation
  /-- Location to index. -/
  LTI : BoundaryLocation → Nat
  /-- `CC::ANBS()`, the active natural boundary sides. -/
  ANBS : List BoundaryLocation
  /-- `MF::ASOE()`, every equation given by its index `ETI( eq )`. -/
  ASOE : List Nat
  ANOE : Nat
  FICX : Nat
  LICX : Nat
  FICY : Nat
  LICY : Nat
  FICZ : Nat
  LICZ : Nat
  ICX : Nat
  ICY : Nat
  ICZ : Nat
  TCX : Nat
  TCY : Nat
  TCZ : Nat
  /-- Whether the code is compiled with `PERFORMANCE` defined. -/
  performance : Bool
  /-- `Multiresolution::AverageJumpBuffer( child, parent, child_id )`: the jump buffer of the
  parent after the call. -/
  AverageJumpBuffer : SurfaceBuffer → SurfaceBuffer → nid_t → SurfaceBuffer
  /-- The buffer `MPI_Recv` of line 1086 delivers for a child and a material. -/
  receivedChildJump : nid_t → MaterialName → SurfaceBuffer
  /-- The buffer `MPI_Recv` of line 1227 delivers for a leaf, a material and a face. -/
  receivedNeighborJump : nid_t → MaterialName → BoundaryLocation → JumpArray

/-- Modelled from the spec: `ConsistencyManagedSum`, whose code is not part of the embedded
files.  The corrections are added "using a fixed, deterministic summation order"; in exact
arithmetic the result is the sum of the three arguments. -/
def ConsistencyManagedSum (a b c : ℚ) : ℚ := a + b + c

/-- One iteration of the loop over the children in the first phase of `JumpFluxAdjustment`
(lines 1062-1090). -/
def averageDownChild (env : JumpEnv) (tree : BlockTree) (child_id : nid_t) : BlockTree :=
  let parent_id := env.ParentIdOfNode child_id
  let rank_of_child := env.topology_.GetRankOfNode child_id
  let rank_of_parent := env.topology_.GetRankOfNode parent_id
  if rank_of_child = env.my_rank ∧ rank_of_parent = env.my_rank then
    (env.topology_.GetMaterialsOfNode child_id).foldl (fun tree material =>
      tree.modifyBlock parent_id material (fun parent_block =>
        { parent_block with jump_conservatives_ :=
            (env.AverageJumpBuffer
              ((tree.GetNodeWithId child_id).phases material).jump_conservatives_
              parent_block.jump_conservatives_ child_id) })) tree
  else if rank_of_child = env.my_rank ∧ rank_of_parent ≠ env.my_rank then
    -- the jump buffers of the child are sent to the rank of the parent
    tree
  else if rank_of_child ≠ env.my_rank ∧ rank_of_parent = env.my_rank then
    (env.topology_.GetMaterialsOfNode child_id).foldl (fun tree material =>
      tree.modifyBlock parent_id material (fun parent_block =>
        { parent_block with jump_conservatives_ :=
            (env.AverageJumpBuffer (env.receivedChildJump child_id material)
              parent_block.jump_conservatives_ child_id) })) tree
  else tree

/-- The first phase of `JumpFluxAdjustment`, "Sending Down" (lines 1061-1091). -/
def averageDown (env : JumpEnv) (levels_averaging_down : List Nat) (tree : BlockTree) :
    BlockTree :=
  levels_averaging_down.foldl (fun tree level =>
    (env.topology_.GlobalIdsOnLevel level).foldl (averageDownChild env) tree) tree

/-- The loop bounds and the sign set by the `switch` of lines 1153-1185. -/
structure FaceGeometry where
  x_start : Nat
  x_end : Nat
  y_start : Nat
  y_end : Nat
  z_start : Nat
  z_end : Nat
  direction : ℚ

/-- The bounds of lines 1144-1149 before the `switch`, with `direction = 0.0`. -/
def interiorGeometry (env : JumpEnv) : FaceGeometry :=
  { x_start := env.FICX, x_end := env.LICX, y_start := env.FICY, y_end := env.LICY,
    z_start := env.FICZ, z_end := env.LICZ, direction := 0 }

/-- The `switch` of lines 1153-1185 followed by the check of line 1187. -/
def faceGeometry (env : JumpEnv) (location : BoundaryLocation) : Except String FaceGeometry :=
  match location with
  | BoundaryLocation.East =>
      Except.ok { interiorGeometry env with x_start := env.LICX, direction := -1 }
  | BoundaryLocation.West =>
      Except.ok { interiorGeometry env with x_end := env.FICX, direction := 1 }
  | BoundaryLocation.North =>
      Except.ok { interiorGeometry env with y_start := env.LICY, direction := -1 }
  | BoundaryLocation.South =>
      Except.ok { interiorGeometry env with y_end := env.FICY, direction := 1 }
  | BoundaryLocation.Top =>
      Except.ok { interiorGeometry env with z_start := env.LICZ, direction := -1 }
  | BoundaryLocation.Bottom =>
      Except.ok { interiorGeometry env with z_end := env.FICZ, direction := 1 }
  | BoundaryLocation.Diagonal _ =>
      if env.performance then Except.ok (interiorGeometry env)
      else Except.error " Why, oh why, did my simulation break?"

/-- The values `first, ..., last` of a loop `for( i = first; i <= last; ++i )`. -/
def cellRange (first last : Nat) : List Nat :=
  (List.range (last + 1 - first)).map (fun n => first + n)

/-- The cells visited by the three nested loops over a face layer, in iteration order. -/
def layerCells (geometry : FaceGeometry) : List (Nat × Nat × Nat) :=
  (cellRange geometry.x_start geometry.x_end).flatMap (fun i =>
    (cellRange geometry.y_start geometry.y_end).flatMap (fun j =>
      (cellRange geometry.z_start geometry.z_end).map (fun k => (i, j, k))))

/-- The interior cells, in the iteration order of lines 1266-1268. -/
def interiorCells (env : JumpEnv) : List (Nat × Nat × Nat) :=
  layerCells (interiorGeometry env)

/-- State of the innermost loops of lines 1200-1212 and 1236-1248. -/
structure FillState where
  fluxes : FieldArray
  jump_index_one : Nat
  jump_index_two : Nat

/-- Body of the innermost loop of lines 1200-1212 and 1236-1248 for one cell; `wrap` is
`std::min( CC::ICX(), std::min( CC::ICY(), CC::ICZ() ) )`.  The product of lines 1203 and
1239 is the exact one; the source rounds it to `double`. -/
def fillCell (wrap : Nat) (jump_buffer : Nat → Nat → ℚ) (one_cell_size direction : ℚ)
    (state : FillState) (cell : Nat × Nat × Nat) : FillState :=
  let fluxes : FieldArray := fun i j k =>
    if (i, j, k) = cell then
      jump_buffer state.jump_index_one state.jump_index_two * one_cell_size * direction
    else state.fluxes i j k
  let jump_index_two := state.jump_index_two + 1
  if jump_index_two = wrap then
    { fluxes := fluxes, jump_index_one := state.jump_index_one + 1, jump_index_two := 0 }
  else
    { fluxes := fluxes, jump_index_one := state.jump_index_one, jump_index_two := jump_index_two }

/-- The loops "Update Setup One" and "Update Step 2" (lines 1197-1213 and 1233-1249): the
slot `[LTI( location )]` of `coarse_fluxes` or `fine_fluxes` after they ran. -/
def fillFluxes (env : JumpEnv) (geometry : FaceGeometry) (one_cell_size : ℚ)
    (jump_buffer : JumpArray) (slot : Nat → FieldArray) : Nat → FieldArray :=
  env.ASOE.foldl (fun slot eq =>
    let filled := (layerCells geometry).foldl
      (fillCell (min env.ICX (min env.ICY env.ICZ)) (jump_buffer eq) one_cell_size
        geometry.direction)
      { fluxes := slot eq, jump_index_one := 0, jump_index_two := 0 }
    fun e => if e = eq then filled.fluxes else slot e) slot

/-- The state of the exchange phase: the tree and the two scratch arrays. -/
structure ExchangeState where
  tree_ : BlockTree
  coarse_fluxes : Nat → Nat → FieldArray
  fine_fluxes : Nat → Nat → FieldArray

/-- Lines 1153-1249: the executing rank holds the leaf, whose neighbor qualifies. -/
def exchangeOwnFace (env : JumpEnv) (leaf_id : nid_t) (material : MaterialName)
    (location : BoundaryLocation) (neighbor_id : nid_t) (state : ExchangeState) :
    Except String ExchangeState := do
  let geometry ← faceGeometry env location
  if !env.performance && decide (geometry.direction = 0) then
    throw "No no no"
  let node := state.tree_.GetNodeWithId leaf_id
  let one_cell_size := 1 / node.cell_size
  let which ← GetBoundaryJump env.performance location
  let jump_buffer := (node.phases material).jump_conservatives_.face which
  let coarse_fluxes := fun b =>
    if b = env.LTI location then
      fillFluxes env geometry one_cell_size jump_buffer (state.coarse_fluxes b)
    else state.coarse_fluxes b
  let neighbor_location := env.OppositeDirection location
  let incoming ←
    if env.topology_.NodeIsOnRank neighbor_id env.my_rank then do
      let neighbor_which ← GetBoundaryJump env.performance neighbor_location
      pure (((state.tree_.GetNodeWithId neighbor_id).phases material).jump_conservatives_.face
        neighbor_which)
    else
      pure (env.receivedNeighborJump leaf_id material location)
  let new_jump_buffer := overwriteJump env.ANOE env.ICY env.ICZ jump_buffer incoming
  let tree := state.tree_.modifyBlock leaf_id material (fun block =>
    { block with jump_conservatives_ :=
        (block.jump_conservatives_.setFace which new_jump_buffer) })
  let fine_fluxes := fun b =>
    if b = env.LTI location then
      fillFluxes env geometry one_cell_size new_jump_buffer (state.fine_fluxes b)
    else state.fine_fluxes b
  pure { tree_ := tree, coarse_fluxes := coarse_fluxes, fine_fluxes := fine_fluxes }

/-- Whether the neighbor of a leaf across a face qualifies for the exchange (lines
1136-1150): it exists and is not a leaf. -/
def neighborQualifies (env : JumpEnv) (leaf_id : nid_t) (location : BoundaryLocation) : Bool :=
  let neighbor_id := env.GetTopologyNeighborId leaf_id location
  let neighbor_exists := env.topology_.NodeExists neighbor_id
  let neighbor_is_leaf := if neighbor_exists then env.topology_.NodeIsLeaf neighbor_id else false
  neighbor_exists && !neighbor_is_leaf

/-- One iteration of the loop over the locations (lines 1135-1258). -/
def exchangeLocation (env : JumpEnv) (leaf_id : nid_t) (material : MaterialName)
    (state : ExchangeState) (location : BoundaryLocation) : Except String ExchangeState :=
  let neighbor_id := env.GetTopologyNeighborId leaf_id location
  if neighborQualifies env leaf_id location then
    if env.topology_.NodeIsOnRank leaf_id env.my_rank then
      exchangeOwnFace env leaf_id material location neighbor_id state
    else
      if env.topology_.NodeIsOnRank neighbor_id env.my_rank then
        -- the jump buffer of the neighbor is sent to the rank of the leaf
        match GetBoundaryJump env.performance (env.OppositeDirection location) with
        | Except.error message => Except.error message
        | Except.ok _ => Except.ok state
      else Except.ok state
  else Except.ok state

/-- State of the loops of lines 1264-1282 for one equation: the cells of the right-hand
side buffer and the scratch arrays. -/
structure ApplyState where
  cells : FieldArray
  coarse_fluxes : Nat → Nat → FieldArray
  fine_fluxes : Nat → Nat → FieldArray

/-- Body of the innermost loop of lines 1266-1280 for one cell of equation `eq`.  The sums
and differences of lines 1269-1274 are the exact ones; the source rounds them to
`double`. -/
def applyCell (eq : Nat) (state : ApplyState) (cell : Nat × Nat × Nat) : ApplyState :=
  let i := cell.1
  let j := cell.2.1
  let k := cell.2.2
  let subtracted := state.cells i j k -
    ConsistencyManagedSum
      (state.coarse_fluxes 0 eq i j k + state.coarse_fluxes 1 eq i j k)
      (state.coarse_fluxes 2 eq i j k + state.coarse_fluxes 3 eq i j k)
      (state.coarse_fluxes 4 eq i j k + state.coarse_fluxes 5 eq i j k)
  let added := subtracted +
    ConsistencyManagedSum
      (state.fine_fluxes 0 eq i j k + state.fine_fluxes 1 eq i j k)
      (state.fine_fluxes 2 eq i j k + state.fine_fluxes 3 eq i j k)
      (state.fine_fluxes 4 eq i j k + state.fine_fluxes 5 eq i j k)
  { cells := fun i' j' k' => if (i', j', k') = cell then added else state.cells i' j' k'
    coarse_fluxes := fun b e i' j' k' =>
      if b < 6 ∧ e = eq ∧ (i', j', k') = cell then 0 else state.coarse_fluxes b e i' j' k'
    fine_fluxes := fun b e i' j' k' =>
      if b < 6 ∧ e = eq ∧ (i', j', k') = cell then 0 else state.fine_fluxes b e i' j' k' }

/-- One iteration of the loop over the equations of lines 1264-1282. -/
def applyEquation (env : JumpEnv) (leaf_id : nid_t) (material : MaterialName)
    (state : ExchangeState) (eq : Nat) : ExchangeState :=
  let block := (state.tree_.GetNodeWithId leaf_id).phases material
  let applied := (interiorCells env).foldl (applyCell eq)
    { cells := block.right_hand_side_ eq, coarse_fluxes := state.coarse_fluxes,
      fine_fluxes := state.fine_fluxes }
  { tree_ := state.tree_.modifyBlock leaf_id material (fun block =>
      { block with right_hand_side_ := fun e =>
          if e = eq then applied.cells else block.right_hand_side_ e })
    coarse_fluxes := applied.coarse_fluxes
    fine_fluxes := applied.fine_fluxes }

/-- "Now add up/subtract everything here" (lines 1260-1283). -/
def applyFluxes (env : JumpEnv) (leaf_id : nid_t) (material : MaterialName)
    (state : ExchangeState) : ExchangeState :=
  if env.topology_.NodeIsOnRank leaf_id env.my_rank then
    env.ASOE.foldl (applyEquation env leaf_id material) state
  else state

/-- One iteration of the loop over the materials of a leaf (lines 1134-1284). -/
def exchangeMaterial (env : JumpEnv) (leaf_id : nid_t) (state : ExchangeState)
    (material : MaterialName) : Except String ExchangeState := do
  let state ← env.ANBS.foldlM (exchangeLocation env leaf_id material) state
  pure (applyFluxes env leaf_id material state)

/-- One iteration of the loop over the leaves of a level (lines 1133-1285). -/
def exchangeLeaf (env : JumpEnv) (state : ExchangeState) (leaf_id : nid_t) :
    Except String ExchangeState :=
  (env.topology_.GetMaterialsOfNode leaf_id).foldlM (exchangeMaterial env leaf_id) state

/-- The second phase of `JumpFluxAdjustment`, "Exchanging" (lines 1131-1286). -/
def exchange (env : JumpEnv) (level_exchanging : List Nat) (state : ExchangeState) :
    Except String ExchangeState :=
  level_exchanging.foldlM (fun state level =>
    (env.topology_.LeafIdsOnLevel level).foldlM (exchangeLeaf env) state) state

/-- The scratch arrays after the initialisation of lines 1119-1130; `uninitialised` holds
the indeterminate values the arrays have when they are declared. -/
def initialFluxes (env : JumpEnv) (uninitialised : Nat → Nat → FieldArray) :
    Nat → Nat → FieldArray :=
  fun b e i j k =>
    if b < 6 ∧ e ∈ env.ASOE ∧ i < env.TCX ∧ j < env.TCY ∧ k < env.TCZ then 0
    else uninitialised b e i j k

/-- The loops over the phases and locations of one node in `ResetJumpConservativeBuffers`
(lines 1566-1570). -/
def resetNode (env : JumpEnv) (tree : BlockTree) (id : nid_t) : Except String BlockTree :=
  (tree.GetNodeWithId id).materials.foldlM (fun tree material =>
    env.ANBS.foldlM (fun tree location =>
      match Block.ResetJumpConservatives env.performance env.ANOE env.ICY env.ICZ
          ((tree.GetNodeWithId id).phases material) location with
      | Except.error message => Except.error message
      | Except.ok block => Except.ok (tree.modifyBlock id material (fun _ => block)))
      tree) tree

/-- `ModularAlgorithmAssembler::ResetJumpConservativeBuffers` (lines 1562-1573). -/
def ResetJumpConservativeBuffers (env : JumpEnv) (levels : List Nat) (tree : BlockTree) :
    Except String BlockTree :=
  levels.foldlM (fun tree level =>
    (tree.NodesOnLevel level).foldlM (resetNode env) tree) tree

/-- `ModularAlgorithmAssembler::JumpFluxAdjustment` (lines 1048-1290) on the rank
`env.my_rank`; `coarse_garbage` and `fine_garbage` are the indeterminate contents of the
scratch arrays at their declaration. -/
def JumpFluxAdjustment (env : JumpEnv) (finished_levels_descending : List Nat)
    (coarse_garbage fine_garbage : Nat → Nat → FieldArray) (tree : BlockTree) :
    Except String BlockTree := do
  let levels_averaging_down := finished_levels_descending.filter (fun level => level != 0)
  let level_exchanging := finished_levels_descending.tail
  let tree := averageDown env levels_averaging_down tree
  let state ← exchange env level_exchanging
    { tree_ := tree, coarse_fluxes := initialFluxes env coarse_garbage,
      fine_fluxes := initialFluxes env fine_garbage }
  ResetJumpConservativeBuffers env finished_levels_descending state.tree_

/-- The block of material `material` of node `id`. -/
def BlockTree.block (tree : BlockTree) (id : nid_t) (material : MaterialName) : Block :=
  (tree.GetNodeWithId id).phases material

/-- The array `GetBoundaryJump` selects for a natural side. -/
def naturalFace : BoundaryLocation → JumpFace
  | BoundaryLocation.East => JumpFace.east_
  | BoundaryLocation.West => JumpFace.west_
  | BoundaryLocation.North => JumpFace.north_
  | BoundaryLocation.South => JumpFace.south_
  | BoundaryLocation.Bottom => JumpFace.bottom_
  | _ => JumpFace.top_

/-- The jump array of the natural side `location` in a `SurfaceBuffer`. -/
def SurfaceBuffer.side (jump : SurfaceBuffer) (location : BoundaryLocation) : JumpArray :=
  jump.face (naturalFace location)

/-- The loop bounds and the sign the `switch` of lines 1153-1185 sets for a natural side. -/
def naturalGeometry (env : JumpEnv) (location : BoundaryLocation) : FaceGeometry :=
  match location with
  | BoundaryLocation.East => { interiorGeometry env with x_start := env.LICX, direction := -1 }
  | BoundaryLocation.West => { interiorGeometry env with x_end := env.FICX, direction := 1 }
  | BoundaryLocation.North => { interiorGeometry env with y_start := env.LICY, direction := -1 }
  | BoundaryLocation.South => { interiorGeometry env with y_end := env.FICY, direction := 1 }
  | BoundaryLocation.Top => { interiorGeometry env with z_start := env.LICZ, direction := -1 }
  | BoundaryLocation.Bottom => { interiorGeometry env with z_end := env.FICZ, direction := 1 }
  | BoundaryLocation.Diagonal _ => interiorGeometry env

/-- The right-hand sides of all blocks agree. -/
def SameRhs (tree tree' : BlockTree) : Prop :=
  ∀ id material,
    (tree'.block id material).right_hand_side_ = (tree.block id material).right_hand_side_

/-- The jump conservatives of material `material` of node `id` vanish on the side
`location`, over the declared extent `[ANOE][ICY][ICZ]` of the jump array. -/
def JumpConservativesZero (env : JumpEnv) (tree : BlockTree) (id : nid_t)
    (material : MaterialName) (location : BoundaryLocation) : Prop :=
  ∀ e i j, e < env.ANOE → i < env.ICY → j < env.ICZ →
    (tree.block id material).jump_conservatives_.side location e i j = 0

/-- The natural sides in use are well formed: every active side and its opposite is one
of the six natural sides. -/
def NaturalSides (env : JumpEnv) : Prop :=
  ∀ location ∈ env.ANBS,
    location.isNatural = true ∧ (env.OppositeDirection location).isNatural = true

/-- What no phase of `JumpFluxAdjustment` changes: the shape of the tree, the cell sizes
and every buffer other than the right-hand side and the jump conservatives. -/
def Frame (tree tree' : BlockTree) : Prop :=
  tree'.NodesOnLevel = tree.NodesOnLevel ∧
  ∀ id, (tree'.GetNodeWithId id).cell_size = (tree.GetNodeWithId id).cell_size ∧
    (tree'.GetNodeWithId id).materials = (tree.GetNodeWithId id).materials ∧
    ∀ material,
      (tree'.block id material).average_ = (tree.block id material).average_ ∧
      (tree'.block id material).initial_ = (tree.block id material).initial_ ∧
      (tree'.block id material).prime_states_ = (tree.block id material).prime_states_ ∧
      (tree'.block id material).parameters_ = (tree.block id material).parameters_ ∧
      (tree'.block id material).jump_fluxes_ = (tree.block id material).jump_fluxes_

/-- The relation between the trees before and after any part of
`ResetJumpConservativeBuffers`: the frame and the right-hand sides are kept, and jump
conservatives that vanish keep vanishing. -/
def ResetStep (env : JumpEnv) (tree tree' : BlockTree) : Prop :=
  Frame tree tree' ∧ SameRhs tree tree' ∧
    ∀ id material location, JumpConservativesZero env tree id material location →
      JumpConservativesZero env tree' id material location

/-- The buffer that replaces the jump buffer of the leaf on the side `location`: the jump
conservatives of the neighbor on the opposite face, read from the tree when the executing
rank holds the neighbor and received from the rank of the neighbor otherwise. -/
def incomingJump (env : JumpEnv) (tree : BlockTree) (leaf_id : nid_t) (material : MaterialName)
    (location : BoundaryLocation) : JumpArray :=
  if env.topology_.NodeIsOnRank (env.GetTopologyNeighborId leaf_id location) env.my_rank then
    (tree.block (env.GetTopologyNeighborId leaf_id location)
      material).jump_conservatives_.side (env.OppositeDirection location)
  else env.receivedNeighborJump leaf_id material location

/-- The state after lines 1153-1249 for a natural side whose opposite is natural. -/
def ownFaceResult (env : JumpEnv) (leaf_id : nid_t) (material : MaterialName)
    (location : BoundaryLocation) (state : ExchangeState) : ExchangeState :=
  { tree_ := state.tree_.modifyBlock leaf_id material (fun block =>
      { block with jump_conservatives_ :=
          (block.jump_conservatives_.setFace (naturalFace location)
            (overwriteJump env.ANOE env.ICY env.ICZ
              ((state.tree_.block leaf_id material).jump_conservatives_.side location)
              (incomingJump env state.tree_ leaf_id material location))) })
    coarse_fluxes := fun b =>
      if b = env.LTI location then
        fillFluxes env (naturalGeometry env location)
          (1 / (state.tree_.GetNodeWithId leaf_id).cell_size)
          ((state.tree_.block leaf_id material).jump_conservatives_.side location)
          (state.coarse_fluxes b)
      else state.coarse_fluxes b
    fine_fluxes := fun b =>
      if b = env.LTI location then
        fillFluxes env (naturalGeometry env location)
          (1 / (state.tree_.GetNodeWithId leaf_id).cell_size)
          (overwriteJump env.ANOE env.ICY env.ICZ
            ((state.tree_.block leaf_id material).jump_conservatives_.side location)
            (incomingJump env state.tree_ leaf_id material location))
          (state.fine_fluxes b)
      else state.fine_fluxes b }

/-- The state after one iteration of the loop over the locations, for natural sides. -/
def exchangeLocationResult (env : JumpEnv) (leaf_id : nid_t) (material : MaterialName)
    (state : ExchangeState) (location : BoundaryLocation) : ExchangeState :=
  if neighborQualifies env leaf_id location = true ∧
      env.topology_.NodeIsOnRank leaf_id env.my_rank = true then
    ownFaceResult env leaf_id material location state
  else state

/-- The state after one iteration of the loop over the materials, for natural sides. -/
def exchangeMaterialResult (env : JumpEnv) (state : ExchangeState)
    (pair : nid_t × MaterialName) : ExchangeState :=
  applyFluxes env pair.1 pair.2
    (env.ANBS.foldl (exchangeLocationResult env pair.1 pair.2) state)

/-- The (leaf, material) pairs the exchange phase visits, in visiting order. -/
def exchangePairs (env : JumpEnv) (level_exchanging : List Nat) : List (nid_t × MaterialName) :=
  level_exchanging.flatMap (fun level =>
    (env.topology_.LeafIdsOnLevel level).flatMap (fun leaf_id =>
      (env.topology_.GetMaterialsOfNode leaf_id).map (fun material => (leaf_id, material))))

/-- The scratch arrays vanish on the interior cells, for the six slots and every active
equation. -/
def ScratchZero (env : JumpEnv) (state : ExchangeState) : Prop :=
  ∀ b e i j k, b < 6 → e ∈ env.ASOE → (i, j, k) ∈ interiorCells env →
    state.coarse_fluxes b e i j k = 0 ∧ state.fine_fluxes b e i j k = 0

/-- The sum over the six slots of a scratch array that lines 1269-1274 subtract from or
add to a cell. -/
def slotSum (fluxes : Nat → Nat → FieldArray) (eq i j k : Nat) : ℚ :=
  ConsistencyManagedSum (fluxes 0 eq i j k + fluxes 1 eq i j k)
    (fluxes 2 eq i j k + fluxes 3 eq i j k) (fluxes 4 eq i j k + fluxes 5 eq i j k)

/-- The interior cells lie inside the declared extent `[TCX][TCY][TCZ]` of a field
buffer. -/
def InteriorInsideBlock (env : JumpEnv) : Prop :=
  env.LICX < env.TCX ∧ env.LICY < env.TCY ∧ env.LICZ < env.TCZ

/-- Whether `JumpFluxAdjustment` on the executing rank adjusts the right-hand side of node
`id`: the rank holds the node, the node is listed as a leaf of an exchanging level, and on
some active side its neighbor exists and is not a leaf. -/
def isAdjusted (env : JumpEnv) (level_exchanging : List Nat) (id : nid_t) : Prop :=
  env.topology_.NodeIsOnRank id env.my_rank = true ∧
  (∃ level ∈ level_exchanging, id ∈ env.topology_.LeafIdsOnLevel level) ∧
  ∃ location ∈ env.ANBS, neighborQualifies env id location = true

/-- The tree after the first phase of `JumpFluxAdjustment`. -/
def treeAfterAveraging (env : JumpEnv) (finished_levels_descending : List Nat)
    (tree : BlockTree) : BlockTree :=
  averageDown env (finished_levels_descending.filter (fun level => level != 0)) tree

/-- The state after the second phase of `JumpFluxAdjustment`, for natural sides. -/
def stateAfterExchange (env : JumpEnv) (finished_levels_descending : List Nat)
    (coarse_garbage fine_garbage : Nat → Nat → FieldArray) (tree : BlockTree) : ExchangeState :=
  (exchangePairs env finished_levels_descending.tail).foldl (exchangeMaterialResult env)
    { tree_ := treeAfterAveraging env finished_levels_descending tree,
      coarse_fluxes := initialFluxes env coarse_garbage,
      fine_fluxes := initialFluxes env fine_garbage }

/-- The pair `(jump_index_one, jump_index_two)` at which the loops of lines 1200-1212 read
the jump buffer for a cell of the layer of a natural side: with `n` the position of the
cell in the iteration order of the layer and `wrap` the minimum of `ICX`, `ICY`, `ICZ`,
the pair is `(n / wrap, n % wrap)`. -/
def jumpIndexOf (env : JumpEnv) (location : BoundaryLocation) (cell : Nat × Nat × Nat) :
    Nat × Nat :=
  ((layerCells (naturalGeometry env location)).indexOf cell / min env.ICX (min env.ICY env.ICZ),
   (layerCells (naturalGeometry env location)).indexOf cell % min env.ICX (min env.ICY env.ICZ))

/-- The value of `direction` the `switch` of lines 1153-1185 sets for a location; it
stays `0.0` when no case matches. -/
def directionOf : BoundaryLocation → ℚ
  | BoundaryLocation.East => -1
  | BoundaryLocation.West => 1
  | BoundaryLocation.North => -1
  | BoundaryLocation.South => 1
  | BoundaryLocation.Top => -1
  | BoundaryLocation.Bottom => 1
  | BoundaryLocation.Diagonal _ => 0

/-- The value line 1203 stores for equation `e` and cell `(i, j, k)` on the side
`location` of a leaf held by the executing rank, read from the tree `tree`: the entry of the
jump conservatives of the leaf at the jump index of the cell, times the inverse cell size,
times `direction`.  It is `0` when the neighbor does not qualify or the cell lies outside
the layer of the side. -/
def staleContribution (env : JumpEnv) (tree : BlockTree) (leaf_id : nid_t)
    (material : MaterialName) (e i j k : Nat) (location : BoundaryLocation) : ℚ :=
  if neighborQualifies env leaf_id location = true ∧
      (i, j, k) ∈ layerCells (naturalGeometry env location) then
    (tree.block leaf_id material).jump_conservatives_.side location e
        (jumpIndexOf env location (i, j, k)).1 (jumpIndexOf env location (i, j, k)).2 *
      (1 / (tree.GetNodeWithId leaf_id).cell_size) * (naturalGeometry env location).direction
  else 0

/-- The value line 1239 stores for equation `e` and cell `(i, j, k)` on the side
`location`, with the entry of the jump conservatives of the neighbor on the opposite face
in place of the entry of the leaf. -/
def correctedContribution (env : JumpEnv) (tree : BlockTree) (leaf_id : nid_t)
    (material : MaterialName) (e i j k : Nat) (location : BoundaryLocation) : ℚ :=
  if neighborQualifies env leaf_id location = true ∧
      (i, j, k) ∈ layerCells (naturalGeometry env location) then
    incomingJump env tree leaf_id material location e
        (jumpIndexOf env location (i, j, k)).1 (jumpIndexOf env location (i, j, k)).2 *
      (1 / (tree.GetNodeWithId leaf_id).cell_size) * (naturalGeometry env location).direction
  else 0

/-- The change `- J_own * d / dx + J_nbr * d / dx` one side contributes to the right-hand
side value of equation `e` in cell `(i, j, k)`, with `d` the value of `direction`; `0` when
the neighbor does not qualify or the cell lies outside the layer of the side. -/
def faceCorrection (env : JumpEnv) (tree : BlockTree) (leaf_id : nid_t)
    (material : MaterialName) (e i j k : Nat) (location : BoundaryLocation) : ℚ :=
  if neighborQualifies env leaf_id location = true ∧
      (i, j, k) ∈ layerCells (naturalGeometry env location) then
    - ((tree.block leaf_id material).jump_conservatives_.side location e
          (jumpIndexOf env location (i, j, k)).1 (jumpIndexOf env location (i, j, k)).2 *
        directionOf location / (tree.GetNodeWithId leaf_id).cell_size) +
      incomingJump env tree leaf_id material location e
          (jumpIndexOf env location (i, j, k)).1 (jumpIndexOf env location (i, j, k)).2 *
        directionOf location / (tree.GetNodeWithId leaf_id).cell_size
  else 0

/-! ### Construction of a block and access to its jump buffers -/

/-- The const overload of `GetBoundaryJump` (block.cpp, lines 518-551). -/
def GetBoundaryJumpConst (performance : Bool) (location : BoundaryLocation) :
    Except String JumpFace :=
  match location with
  | BoundaryLocation.East => Except.ok JumpFace.east_
  | BoundaryLocation.West => Except.ok JumpFace.west_
  | BoundaryLocation.North => Except.ok JumpFace.north_
  | BoundaryLocation.South => Except.ok JumpFace.south_
  | BoundaryLocation.Bottom => Except.ok JumpFace.bottom_
  | BoundaryLocation.Top => Except.ok JumpFace.top_
  | BoundaryLocation.Diagonal _ =>
      if performance then Except.ok JumpFace.top_
      else Except.error "Jump flux Buffer with given Index does not exist"

/-- `Block::GetBoundaryJumpFluxes( location )` (block.cpp, lines 389-391): the array the
returned reference points to. -/
def Block.GetBoundaryJumpFluxes (performance : Bool) (block : Block)
    (location : BoundaryLocation) : Except String JumpArray :=
  match GetBoundaryJump performance location with
  | Except.error message => Except.error message
  | Except.ok which => Except.ok (block.jump_fluxes_.face which)

/-- The const overload of `Block::GetBoundaryJumpFluxes( location )` (block.cpp, lines
396-398). -/
def Block.GetBoundaryJumpFluxesConst (performance : Bool) (block : Block)
    (location : BoundaryLocation) : Except String JumpArray :=
  match GetBoundaryJumpConst performance location with
  | Except.error message => Except.error message
  | Except.ok which => Except.ok (block.jump_fluxes_.face which)

/-- `Block::GetBoundaryJumpConservatives( location )` (block.cpp, lines 405-407): the array
the returned reference points to. -/
def Block.GetBoundaryJumpConservatives (performance : Bool) (block : Block)
    (location : BoundaryLocation) : Except String JumpArray :=
  match GetBoundaryJump performance location with
  | Except.error message => Except.error message
  | Except.ok which => Except.ok (block.jump_conservatives_.face which)

/-- The const overload of `Block::GetBoundaryJumpConservatives( location )` (block.cpp,
lines 412-414). -/
def Block.GetBoundaryJumpConservativesConst (performance : Bool) (block : Block)
    (location : BoundaryLocation) : Except String JumpArray :=
  match GetBoundaryJumpConst performance location with
  | Except.error message => Except.error message
  | Except.ok which => Except.ok (block.jump_conservatives_.face which)

/-- The compile-time constants the constructor of `Block` reads. -/
structure BlockConfig where
  /-- Whether the code is compiled with `PERFORMANCE` defined. -/
  performance : Bool
  /-- Result of `CC::ParameterModelActive()`. -/
  ParameterModelActive : Bool
  /-- The number of fields of the parameter buffer. -/
  ANOPA : Nat
  /-- `CC::NBS()`, the natural boundary sides. -/
  NBS : List BoundaryLocation
  ANOE : Nat
  ICY : Nat
  ICZ : Nat

/-- Modelled from the spec: `BO::SetFieldBuffer`, whose code is not part of the embedded
files.  Buffers are "zeroed on construction": every entry of every field of the buffer is
set to the given value. -/
def SetFieldBuffer (value : ℚ) : Nat → FieldArray :=
  fun _ _ _ _ => value

/-- `Block::Block` (block.cpp, lines 76-96); `uninitialised` holds the indeterminate
contents the members have when the body of the constructor starts. -/
def Block.construct (config : BlockConfig) (uninitialised : Block) : Except String Block := do
  let block : Block :=
    { uninitialised with
      average_ := SetFieldBuffer 0
      right_hand_side_ := SetFieldBuffer 0
      initial_ := SetFieldBuffer 0
      prime_states_ := SetFieldBuffer 0 }
  let block : Block :=
    if config.ParameterModelActive then { block with parameters_ := SetFieldBuffer 0 }
    else block
  let block ← config.NBS.foldlM (fun block location =>
    Block.ResetJumpFluxes config.performance config.ANOE config.ICY config.ICZ block location)
    block
  config.NBS.foldlM (fun block location =>
    Block.ResetJumpConservatives config.performance config.ANOE config.ICY config.ICZ block
      location) block

/-- A jump array vanishes over its declared extent `[ANOE][ICY][ICZ]`. -/
def JumpZero (ANOE ICY ICZ : Nat) (jump : JumpArray) : Prop :=
  ∀ e i j, e < ANOE → i < ICY → j < ICZ → jump e i j = 0

/-- A surface buffer after the declared extent of the arrays of the given natural sides
was set to zero, side by side. -/
def resetFaces (ANOE ICY ICZ : Nat) (locations : List BoundaryLocation)
    (jump : SurfaceBuffer) : SurfaceBuffer :=
  locations.foldl (fun jump location =>
    jump.setFace (naturalFace location)
      (overwriteJump ANOE ICY ICZ (jump.face (naturalFace location)) (fun _ _ _ => 0))) jump

/-! ### The outermost time loop -/

/-- The constants and members `ComputeLoop` reads. -/
structure LoopConfig where
  start_time_ : ℚ
  end_time_ : ℚ
  /-- `CC::MTS()`, the minimum micro time step size. -/
  MTS : ℚ
  /-- `CC::WTL()`. -/
  WTL : Bool
  /-- `CC::TR()`. -/
  TR : Bool
  /-- `DP::Profile()`. -/
  Profile : Bool

/-- What one macro time step lets `ComputeLoop` observe. -/
structure MacroStep where
  /-- The exception with which the call `Advance()` of line 171 leaves, if it throws: the
  `std::runtime_error` of lines 721-724, thrown after a micro time step when the file
  `ABORTFILE` exists, or an exception of one of its callees.  It is `none` when `Advance()`
  returns; the other fields are observed only then. -/
  advance_exception : Option String
  /-- Result of `time_integrator_.MicroTimestepSizes().back()` after `Advance()`. -/
  micro_timestep_back : ℚ
  /-- Result of `time_integrator_.CurrentRunTime()` after `FinishMacroTimestep()`. -/
  run_time : ℚ
  /-- Result of `input_output_.WriteFullOutput`. -/
  full_output_written : Bool

/-- The calls `ComputeLoop` issues, in program order. -/
inductive LoopEvent where
  | MPI_Barrier
  | Advance
  | ResetAllJumpBuffers
  | LogNodeNumbers
  | LogPerformanceNumbers
  | WriteTimestepFile
  | FinishMacroTimestep
  | LogMessage
  | FlushAlpaca
  /-- Call of `input_output_.WriteRestartFile( time, force )`. -/
  | WriteRestartFile (time : ℚ) (force : Bool)
  /-- Call of `input_output_.WriteFullOutput( time, force )`. -/
  | WriteFullOutput (time : ℚ) (force : Bool)
  deriving DecidableEq

/-- The state of the loop of `ComputeLoop` after one pass of its body, with the calls of
the pass and the exception that cut the pass short, if any. -/
structure LoopPass where
  events : List LoopEvent
  current_simulation_time : ℚ
  timestep_size_is_healthy : Bool
  exception : Option String

/-- The calls of a run of `ComputeLoop`, or of its `while` loop, and the exception with
which the run ended, if any. -/
structure LoopRun where
  events : List LoopEvent
  exception : Option String

/-- One pass of the body of the `while` loop of `ComputeLoop` (lines 169-210), entered with
the given values of `current_simulation_time` and `timestep_size_is_healthy`.  The body
has no handler: when `Advance()` throws, the pass ends at that call and the exception
leaves the body. -/
def loopBody (config : LoopConfig) (step : MacroStep) (current_simulation_time : ℚ)
    (timestep_size_is_healthy : Bool) : LoopPass :=
  match step.advance_exception with
  | some what =>
    { events := [LoopEvent.MPI_Barrier, LoopEvent.Advance]
      current_simulation_time := current_simulation_time
      timestep_size_is_healthy := timestep_size_is_healthy
      exception := some what }
  | none =>
    let timestep_size_is_healthy :=
      if step.micro_timestep_back < config.MTS ∧ step.micro_timestep_back > 0 then false
      else timestep_size_is_healthy
    let current_simulation_time := step.run_time
    { events :=
        [LoopEvent.MPI_Barrier, LoopEvent.Advance, LoopEvent.ResetAllJumpBuffers,
          LoopEvent.MPI_Barrier, LoopEvent.LogNodeNumbers, LoopEvent.LogPerformanceNumbers] ++
        (if config.WTL then [LoopEvent.WriteTimestepFile] else []) ++
        [LoopEvent.FinishMacroTimestep, LoopEvent.LogMessage, LoopEvent.FlushAlpaca] ++
        (if config.TR then [LoopEvent.MPI_Barrier] else []) ++
        [LoopEvent.WriteRestartFile current_simulation_time (!timestep_size_is_healthy),
          LoopEvent.WriteFullOutput current_simulation_time (!timestep_size_is_healthy)] ++
        (if step.full_output_written && config.Profile then [LoopEvent.LogMessage] else []) ++
        (if config.TR then [LoopEvent.MPI_Barrier] else [])
      current_simulation_time := current_simulation_time
      timestep_size_is_healthy := timestep_size_is_healthy
      exception := none }

/-- The `while` loop of `ComputeLoop` (line 168) from its pass number `pass` on, entered
with the given values of `current_simulation_time` and `timestep_size_is_healthy`;
`steps` tells what each macro time step lets the loop observe.  An exception of a pass ends
the loop with that exception.  The result is `none` when the loop has not ended after
`fuel` passes. -/
def loopFrom (config : LoopConfig) (steps : Nat → MacroStep) :
    Nat → Nat → ℚ → Bool → Option LoopRun
  | 0, _, current_simulation_time, timestep_size_is_healthy =>
      if current_simulation_time < config.end_time_ ∧ timestep_size_is_healthy = true then none
      else some { events := [], exception := none }
  | fuel + 1, pass, current_simulation_time, timestep_size_is_healthy =>
      if current_simulation_time < config.end_time_ ∧ timestep_size_is_healthy = true then
        match (loopBody config (steps pass) current_simulation_time
            timestep_size_is_healthy).exception with
        | some what =>
          some { events := (loopBody config (steps pass) current_simulation_time
                   timestep_size_is_healthy).events
                 exception := some what }
        | none =>
          (loopFrom config steps fuel (pass + 1)
            (loopBody config (steps pass) current_simulation_time
              timestep_size_is_healthy).current_simulation_time
            (loopBody config (steps pass) current_simulation_time
              timestep_size_is_healthy).timestep_size_is_healthy).map
            (fun rest =>
              { events := (loopBody config (steps pass) current_simulation_time
                    timestep_size_is_healthy).events ++ rest.events
                exception := rest.exception })
      else some { events := [], exception := none }

/-- `ModularAlgorithmAssembler::ComputeLoop` (lines 152-220); `current_run_time` is the
result of `time_integrator_.CurrentRunTime()` at the start.  The function has no handler
either: an exception of the loop leaves it before the closing log messages of lines
213-219. -/
def ComputeLoop (config : LoopConfig) (steps : Nat → MacroStep) (current_run_time : ℚ)
    (fuel : Nat) : Option LoopRun :=
  (loopFrom config steps fuel 0 current_run_time true).map (fun passes =>
    match passes.exception with
    | some what => { events := [LoopEvent.FlushAlpaca] ++ passes.events, exception := some what }
    | none =>
      { events := [LoopEvent.FlushAlpaca] ++ passes.events ++
          (if config.Profile then [LoopEvent.LogMessage] else []) ++ [LoopEvent.LogMessage] ++
          (if config.TR then [LoopEvent.LogMessage] else [])
        exception := none })

/-- The calls of the passes `pass, ..., pass + count - 1` of the loop, the first of them
entered at `current_simulation_time` and every pass entered with a healthy time step
size. -/
def passEvents (config : LoopConfig) (steps : Nat → MacroStep) : Nat → Nat → ℚ → List LoopEvent
  | _, 0, _ => []
  | pass, count + 1, current_simulation_time =>
      (loopBody config (steps pass) current_simulation_time true).events ++
        passEvents config steps (pass + 1) count
          (loopBody config (steps pass) current_simulation_time true).current_simulation_time

/-- Whether the time step size of a macro step collapsed: its last micro time step size
lies strictly between 0 and `CC::MTS()`. -/
def collapsed (config : LoopConfig) (step : MacroStep) : Prop :=
  step.micro_timestep_back < config.MTS ∧ step.micro_timestep_back > 0

/-! ### Neighbor ids

`TopologyManager::GetTopologyNeighborId` and `TopologyManager::IsExternalTopologyBoundary`
(topology/topology_manager.h, lines 195-197 and 208-210) pass the id, the location and two
members of the manager on to `GetPeriodicNeighborId` and `PeriodicIsExternalBoundary`. -/

/-- Modelled from the spec: the identifier scheme, whose code is not part of the embedded
files.  "NodeId: opaque integer encoding (level, spatial index)": the level and the spatial
index of an id, and the id of a level and a spatial index. -/
structure IdScheme where
  LevelOfNode : nid_t → Nat
  IndexOfNode : nid_t → Nat × Nat × Nat
  IdOfIndex : Nat → Nat × Nat × Nat → nid_t

/-- The members of `TopologyManager` the two functions pass on, with the identifier scheme
in use. -/
structure NeighborTopology where
  scheme : IdScheme
  /-- The number of nodes on level zero along the three axes. -/
  number_of_nodes_on_level_zero_ : Nat × Nat × Nat
  /-- Whether the domain is periodic across its boundary in the direction of a location. -/
  active_periodic_locations_ : BoundaryLocation → Bool

/-- Modelled from the spec: the number of nodes along one axis on a level; a node has
"`2^d` children in d dimensions", two along every axis. -/
def nodesAlongAxis (number_on_level_zero level : Nat) : Nat :=
  number_on_level_zero * 2 ^ level

/-- A spatial index lies inside the domain on a level. -/
def InDomain (number_of_nodes_on_level_zero : Nat × Nat × Nat) (level : Nat)
    (index : Nat × Nat × Nat) : Prop :=
  index.1 < nodesAlongAxis number_of_nodes_on_level_zero.1 level ∧
  index.2.1 < nodesAlongAxis number_of_nodes_on_level_zero.2.1 level ∧
  index.2.2 < nodesAlongAxis number_of_nodes_on_level_zero.2.2 level

/-- The index one step further along an axis with `count` nodes, wrapping around from the
last node to the first one if the axis is periodic. -/
def stepUp (periodic : Bool) (count position : Nat) : Nat :=
  if periodic = true ∧ position + 1 = count then 0 else position + 1

/-- The index one step back along an axis with `count` nodes, wrapping around from the
first node to the last one if the axis is periodic. -/
def stepDown (periodic : Bool) (count position : Nat) : Nat :=
  if periodic = true ∧ position = 0 then count - 1 else position - 1

/-- Modelled from the spec: `GetPeriodicNeighborId`, whose code is not part of the embedded
files.  "parent/child/neighbor derivable by pure bit arithmetic" from an id that encodes
"(level, spatial index)": the neighbor across a natural side is the id of the same level
whose spatial index is one step further in the direction of the side, across the domain
boundary in periodic directions.  Other locations are not modelled and yield the id. -/
def GetPeriodicNeighborId (scheme : IdScheme) (id : nid_t) (location : BoundaryLocation)
    (number_of_nodes_on_level_zero : Nat × Nat × Nat)
    (active_periodic_locations : BoundaryLocation → Bool) : nid_t :=
  let level := scheme.LevelOfNode id
  let index := scheme.IndexOfNode id
  let periodic := active_periodic_locations location
  match location with
  | BoundaryLocation.East => scheme.IdOfIndex level
      (stepUp periodic (nodesAlongAxis number_of_nodes_on_level_zero.1 level) index.1,
        index.2.1, index.2.2)
  | BoundaryLocation.West => scheme.IdOfIndex level
      (stepDown periodic (nodesAlongAxis number_of_nodes_on_level_zero.1 level) index.1,
        index.2.1, index.2.2)
  | BoundaryLocation.North => scheme.IdOfIndex level
      (index.1, stepUp periodic (nodesAlongAxis number_of_nodes_on_level_zero.2.1 level)
        index.2.1, index.2.2)
  | BoundaryLocation.South => scheme.IdOfIndex level
      (index.1, stepDown periodic (nodesAlongAxis number_of_nodes_on_level_zero.2.1 level)
        index.2.1, index.2.2)
  | BoundaryLocation.Top => scheme.IdOfIndex level
      (index.1, index.2.1,
        stepUp periodic (nodesAlongAxis number_of_nodes_on_level_zero.2.2 level) index.2.2)
  | BoundaryLocation.Bottom => scheme.IdOfIndex level
      (index.1, index.2.1,
        stepDown periodic (nodesAlongAxis number_of_nodes_on_level_zero.2.2 level) index.2.2)
  | BoundaryLocation.Diagonal _ => id

/-- Modelled from the spec: `PeriodicIsExternalBoundary`, whose code is not part of the
embedded files.  A direction is "*external* (domain boundary)" when the node is the last
one of the domain in that direction and the domain is not periodic there.  Other locations
are not modelled. -/
def PeriodicIsExternalBoundary (scheme : IdScheme) (location : BoundaryLocation) (id : nid_t)
    (number_of_nodes_on_level_zero : Nat × Nat × Nat)
    (active_periodic_locations : BoundaryLocation → Bool) : Bool :=
  let level := scheme.LevelOfNode id
  let index := scheme.IndexOfNode id
  let periodic := active_periodic_locations location
  match location with
  | BoundaryLocation.East =>
      !periodic && (index.1 + 1 == nodesAlongAxis number_of_nodes_on_level_zero.1 level)
  | BoundaryLocation.West => !periodic && (index.1 == 0)
  | BoundaryLocation.North =>
      !periodic && (index.2.1 + 1 == nodesAlongAxis number_of_nodes_on_level_zero.2.1 level)
  | BoundaryLocation.South => !periodic && (index.2.1 == 0)
  | BoundaryLocation.Top =>
      !periodic && (index.2.2 + 1 == nodesAlongAxis number_of_nodes_on_level_zero.2.2 level)
  | BoundaryLocation.Bottom => !periodic && (index.2.2 == 0)
  | BoundaryLocation.Diagonal _ => false

/-- `TopologyManager::GetTopologyNeighborId` (topology/topology_manager.h, lines
195-197). -/
def NeighborTopology.GetTopologyNeighborId (topology : NeighborTopology) (id : nid_t)
    (location : BoundaryLocation) : nid_t :=
  GetPeriodicNeighborId topology.scheme id location topology.number_of_nodes_on_level_zero_
    topology.active_periodic_locations_

/-- `TopologyManager::IsExternalTopologyBoundary` (topology/topology_manager.h, lines
208-210). -/
def NeighborTopology.IsExternalTopologyBoundary (topology : NeighborTopology)
    (location : BoundaryLocation) (id : nid_t) : Bool :=
  PeriodicIsExternalBoundary topology.scheme location id
    topology.number_of_nodes_on_level_zero_ topology.active_periodic_locations_

/-- The identifier scheme encodes level and spatial index: inside the domain, the level and
the index of the id of a level and an index are that level and that index. -/
def EncodesLevelAndIndex (topology : NeighborTopology) : Prop :=
  ∀ level index, InDomain topology.number_of_nodes_on_level_zero_ level index →
    topology.scheme.LevelOfNode (topology.scheme.IdOfIndex level index) = level ∧
    topology.scheme.IndexOfNode (topology.scheme.IdOfIndex level index) = index

/-- The id is the identifier of a node of the domain: it is the id of its own level and
spatial index, and the index lies inside the domain. -/
def IsNodeId (topology : NeighborTopology) (id : nid_t) : Prop :=
  topology.scheme.IdOfIndex (topology.scheme.LevelOfNode id)
      (topology.scheme.IndexOfNode id) = id ∧
    InDomain topology.number_of_nodes_on_level_zero_ (topology.scheme.LevelOfNode id)
      (topology.scheme.IndexOfNode id)

/-! ### Levels of a micro time step -/

/-- `std::bitset<16>( value ).count()`: the number of set bits among the sixteen lowest bits
of `value`. -/
def bitsetCount16 (value : Nat) : Nat :=
  ((List.range 16).filter (fun i => value.testBit i)).length

/-- `std::iota` on a `std::vector<unsigned int>` of `length` elements with a start value of
type `std::size_t`: the running value wraps at `2 ^ 64` and every stored element at
`2 ^ 32`. -/
def iota (length first : Nat) : List Nat :=
  (List.range length).map (fun n => (first + n) % 2 ^ 64 % 2 ^ 32)

/-- `ModularAlgorithmAssembler::GetLevels` (lines 1957-1965).  `timestep + 1` is computed
in `unsigned int`, and `all_levels_.back() - height + 1` in `std::size_t`. -/
def GetLevels (all_levels_ : List Nat) (timestep : Nat) : List Nat :=
  let height := bitsetCount16 (((timestep + 1) % 2 ^ 32) ^^^ timestep)
  let first := ((all_levels_.getLastD 0 + 2 ^ 64 - height) % 2 ^ 64 + 1) % 2 ^ 64
  (iota height first).reverse

/-- One pass of the loop over the levels in `Integrate`: the leaves of `level` are advanced
in stage `stage` by `number_of_timesteps` steps of the finest level. -/
structure IntegrationStep where
  level : Nat
  stage : Nat
  number_of_timesteps : Nat
  deriving DecidableEq, Repr

/-- `ModularAlgorithmAssembler::Integrate` (lines 843-869): one step per level of
`updated_levels`, with `number_of_timesteps = 1 << ( all_levels_.back() - level )`; the
difference is computed in `unsigned int` and the result is stored in one. -/
def Integrate (all_levels_ : List Nat) (updated_levels : List Nat) (stage : Nat) :
    List IntegrationStep :=
  updated_levels.map (fun level =>
    { level := level, stage := stage,
      number_of_timesteps :=
        (1 <<< ((all_levels_.getLastD 0 + 2 ^ 32 - level) % 2 ^ 32)) % 2 ^ 32 })

/-- The calls of `Integrate` issued by `ModularAlgorithmAssembler::Advance` (lines
470-700): the loop over the `1 << maximum_level` micro time steps, inside it the loop over
the stages of the time integrator, each with `Integrate( GetLevels( timestep ), stage )`. -/
def Advance (all_levels_ : List Nat) (NumberOfStages : Nat) : List IntegrationStep :=
  let maximum_level := all_levels_.getLastD 0
  let number_of_timesteps_on_finest_level := (1 <<< maximum_level) % 2 ^ 32
  (List.range number_of_timesteps_on_finest_level).flatMap (fun timestep =>
    (List.range NumberOfStages).flatMap (fun stage =>
      Integrate all_levels_ (GetLevels all_levels_ timestep) stage))

/-- The number of finest-level steps by which `Advance` advances level `level` in stage
`stage`. -/
def stepsAdvanced (all_levels_ : List Nat) (NumberOfStages level stage : Nat) : Nat :=
  (((Advance all_levels_ NumberOfStages).filter (fun step =>
    decide (step.level = level ∧ step.stage = stage))).map
      (fun step => step.number_of_timesteps)).sum

/-- The number of micro time steps of one macro time step in which `GetLevels` lists
`level`. -/
def timesListed (all_levels_ : List Nat) (level : Nat) : Nat :=
  ((List.range (2 ^ all_levels_.getLastD 0)).filter (fun timestep =>
    decide (level ∈ GetLevels all_levels_ timestep))).length

/-- The number of trailing 1-bits of `t`. -/
def trailingOnes (t : Nat) : Nat :=
  if h : t % 2 = 1 then trailingOnes (t / 2) + 1 else 0
termination_by t
decreasing_by omega

/-! ### Sequences of structural operations of `Remesh` -/

/-- The ids passed to `RefineNode`, in program order. -/
def refinedIds (trace : List RemeshEvent) : List nid_t :=
  trace.filterMap (fun event =>
    match event with
    | RemeshEvent.RefineNode id => some id
    | _ => none)

/-- The parents passed to `topology_.CoarseNodeWithId`, in program order. -/
def coarsenedParents (trace : List RemeshEvent) : List nid_t :=
  trace.filterMap (fun event =>
    match event with
    | RemeshEvent.CoarseNodeWithId parent_id => some parent_id
    | _ => none)

/-- The ids passed to `tree_.RemoveNodeWithId`, in program order. -/
def removedIds (trace : List RemeshEvent) : List nid_t :=
  trace.filterMap (fun event =>
    match event with
    | RemeshEvent.RemoveNodeWithId id => some id
    | _ => none)

/-- The pair `(remove_list, refine_list)` the rank `rank` determines in `Remesh` when no
consistency check fails: the groups of the visited parents, appended to empty lists. -/
def rankDecision (env : RemeshEnv) (levels_to_update_ascending : List Nat) (rank : Nat) :
    List nid_t × List nid_t :=
  ((visitedParents env (parentLevels env levels_to_update_ascending)).flatMap
      (coarsenGroup { env with my_rank := Int.ofNat rank }),
    (visitedParents env (parentLevels env levels_to_update_ascending)).flatMap
      (refineGroup { env with my_rank := Int.ofNat rank }))

/-! ### The WENO7 reconstruction stencil

The embedding of `WENO7` (`src/stencils/spatial_reconstruction_stencils/weno7.h`) in exact
arithmetic: every `double` is a rational number and a quotient of two literals is the
rational quotient.  The constants of lines 83-150 follow, in the order of the source. -/

def WENO7.coef_smoothness_0_01_ : ℚ := 547
def WENO7.coef_smoothness_0_02_ : ℚ := -3882
def WENO7.coef_smoothness_0_03_ : ℚ := 4642
def WENO7.coef_smoothness_0_04_ : ℚ := -1854
def WENO7.coef_smoothness_0_06_ : ℚ := 7043
def WENO7.coef_smoothness_0_07_ : ℚ := -17246
def WENO7.coef_smoothness_0_08_ : ℚ := 7042
def WENO7.coef_smoothness_0_10_ : ℚ := 11003
def WENO7.coef_smoothness_0_11_ : ℚ := -9402
def WENO7.coef_smoothness_0_13_ : ℚ := 2107

def WENO7.coef_smoothness_1_01_ : ℚ := 267
def WENO7.coef_smoothness_1_02_ : ℚ := -1642
def WENO7.coef_smoothness_1_03_ : ℚ := 1602
def WENO7.coef_smoothness_1_04_ : ℚ := -494
def WENO7.coef_smoothness_1_06_ : ℚ := 2843
def WENO7.coef_smoothness_1_07_ : ℚ := -5966
def WENO7.coef_smoothness_1_08_ : ℚ := 1922
def WENO7.coef_smoothness_1_10_ : ℚ := 3443
def WENO7.coef_smoothness_1_11_ : ℚ := -2522
def WENO7.coef_smoothness_1_13_ : ℚ := 547

def WENO7.coef_smoothness_2_01_ : ℚ := 547
def WENO7.coef_smoothness_2_02_ : ℚ := -2522
def WENO7.coef_smoothness_2_03_ : ℚ := 1922
def WENO7.coef_smoothness_2_04_ : ℚ := -494
def WENO7.coef_smoothness_2_06_ : ℚ := 3443
def WENO7.coef_smoothness_2_07_ : ℚ := -5966
def WENO7.coef_smoothness_2_08_ : ℚ := 1602
def WENO7.coef_smoothness_2_10_ : ℚ := 2843
def WENO7.coef_smoothness_2_11_ : ℚ := -1642
def WENO7.coef_smoothness_2_13_ : ℚ := 267

def WENO7.coef_smoothness_3_01_ : ℚ := 2107
def WENO7.coef_smoothness_3_02_ : ℚ := -9402
def WENO7.coef_smoothness_3_03_ : ℚ := 7042
def WENO7.coef_smoothness_3_04_ : ℚ := -1854
def WENO7.coef_smoothness_3_06_ : ℚ := 11003
def WENO7.coef_smoothness_3_07_ : ℚ := -17246
def WENO7.coef_smoothness_3_08_ : ℚ := 4642
def WENO7.coef_smoothness_3_10_ : ℚ := 7043
def WENO7.coef_smoothness_3_11_ : ℚ := -3882
def WENO7.coef_smoothness_3_13_ : ℚ := 547

def WENO7.coef_weights_1_ : ℚ := 1 / 35
def WENO7.coef_weights_2_ : ℚ := 12 / 35
def WENO7.coef_weights_3_ : ℚ := 18 / 35
def WENO7.coef_weights_4_ : ℚ := 4 / 35

def WENO7.coef_stencils_1_ : ℚ := -3 / 12
def WENO7.coef_stencils_2_ : ℚ := 13 / 12
def WENO7.coef_stencils_3_ : ℚ := -23 / 12
def WENO7.coef_stencils_4_ : ℚ := 25 / 12

def WENO7.coef_stencils_6_ : ℚ := 1 / 12
def WENO7.coef_stencils_7_ : ℚ := -5 / 12
def WENO7.coef_stencils_8_ : ℚ := 13 / 12
def WENO7.coef_stencils_9_ : ℚ := 3 / 12

def WENO7.coef_stencils_11_ : ℚ := -1 / 12
def WENO7.coef_stencils_12_ : ℚ := 7 / 12
def WENO7.coef_stencils_13_ : ℚ := 7 / 12
def WENO7.coef_stencils_14_ : ℚ := -1 / 12

def WENO7.coef_stencils_16_ : ℚ := 3 / 12
def WENO7.coef_stencils_17_ : ℚ := 13 / 12
def WENO7.coef_stencils_18_ : ℚ := -5 / 12
def WENO7.coef_stencils_19_ : ℚ := 1 / 12

def WENO7.epsilon_weno7_ : ℚ := 1 / 10 ^ 10

/-- The constant `stencil_size_` of `WENO7`. -/
def WENO7.stencil_size_ : Nat := 8

/-- The constant `downstream_stencil_size_` of `WENO7`. -/
def WENO7.downstream_stencil_size_ : Nat := 3

/-- The index `downstream_stencil_size_ + evaluation_properties[0] + n * evaluation_properties[1]`
of lines 161-167, computed in `unsigned int` as the source does: the `int` operands are
converted and the result wraps at `2 ^ 32`. -/
def WENO7.index (evaluation_properties : Int × Int) (n : Int) : Nat :=
  (((WENO7.downstream_stencil_size_ : Int) + evaluation_properties.1 +
    n * evaluation_properties.2) % 2 ^ 32).toNat

/-- Access `array[i]` to a `std::array<double, stencil_size_>`; an index outside the array
has no defined result. -/
def WENO7.entry (array : Fin 8 → ℚ) (i : Nat) : Option ℚ :=
  if h : i < 8 then some (array ⟨i, h⟩) else none

/-- The smoothness indicators `s1, s2, s3, s4` of lines 170-196. -/
def WENO7.smoothnessIndicators (v1 v2 v3 v4 v5 v6 v7 : ℚ) : ℚ × ℚ × ℚ × ℚ :=
  let s11 := WENO7.coef_smoothness_0_01_ * v1 + WENO7.coef_smoothness_0_02_ * v2 +
    WENO7.coef_smoothness_0_03_ * v3 + WENO7.coef_smoothness_0_04_ * v4
  let s12 := WENO7.coef_smoothness_0_06_ * v2 + WENO7.coef_smoothness_0_07_ * v3 +
    WENO7.coef_smoothness_0_08_ * v4
  let s13 := WENO7.coef_smoothness_0_10_ * v3 + WENO7.coef_smoothness_0_11_ * v4
  let s14 := WENO7.coef_smoothness_0_13_ * v4
  let s1 := v1 * s11 + v2 * s12 + v3 * s13 + v4 * s14
  let s21 := WENO7.coef_smoothness_1_01_ * v2 + WENO7.coef_smoothness_1_02_ * v3 +
    WENO7.coef_smoothness_1_03_ * v4 + WENO7.coef_smoothness_1_04_ * v5
  let s22 := WENO7.coef_smoothness_1_06_ * v3 + WENO7.coef_smoothness_1_07_ * v4 +
    WENO7.coef_smoothness_1_08_ * v5
  let s23 := WENO7.coef_smoothness_1_10_ * v4 + WENO7.coef_smoothness_1_11_ * v5
  let s24 := WENO7.coef_smoothness_1_13_ * v5
  let s2 := v2 * s21 + v3 * s22 + v4 * s23 + v5 * s24
  let s31 := WENO7.coef_smoothness_2_01_ * v3 + WENO7.coef_smoothness_2_02_ * v4 +
    WENO7.coef_smoothness_2_03_ * v5 + WENO7.coef_smoothness_2_04_ * v6
  let s32 := WENO7.coef_smoothness_2_06_ * v4 + WENO7.coef_smoothness_2_07_ * v5 +
    WENO7.coef_smoothness_2_08_ * v6
  let s33 := WENO7.coef_smoothness_2_10_ * v5 + WENO7.coef_smoothness_2_11_ * v6
  let s34 := WENO7.coef_smoothness_2_13_ * v6
  let s3 := v3 * s31 + v4 * s32 + v5 * s33 + v6 * s34
  let s41 := WENO7.coef_smoothness_3_01_ * v4 + WENO7.coef_smoothness_3_02_ * v5 +
    WENO7.coef_smoothness_3_03_ * v6 + WENO7.coef_smoothness_3_04_ * v7
  let s42 := WENO7.coef_smoothness_3_06_ * v5 + WENO7.coef_smoothness_3_07_ * v6 +
    WENO7.coef_smoothness_3_08_ * v7
  let s43 := WENO7.coef_smoothness_3_10_ * v6 + WENO7.coef_smoothness_3_11_ * v7
  let s44 := WENO7.coef_smoothness_3_13_ * v7
  let s4 := v4 * s41 + v5 * s42 + v6 * s43 + v7 * s44
  (s1, s2, s3, s4)

/-- The nonlinear weights `w1, w2, w3, w4` of lines 202-212 for the smoothness indicators
`s`. -/
def WENO7.nonlinearWeights (s : ℚ × ℚ × ℚ × ℚ) : ℚ × ℚ × ℚ × ℚ :=
  let a1 := WENO7.coef_weights_1_ /
    ((s.1 + WENO7.epsilon_weno7_) * (s.1 + WENO7.epsilon_weno7_))
  let a2 := WENO7.coef_weights_2_ /
    ((s.2.1 + WENO7.epsilon_weno7_) * (s.2.1 + WENO7.epsilon_weno7_))
  let a3 := WENO7.coef_weights_3_ /
    ((s.2.2.1 + WENO7.epsilon_weno7_) * (s.2.2.1 + WENO7.epsilon_weno7_))
  let a4 := WENO7.coef_weights_4_ /
    ((s.2.2.2 + WENO7.epsilon_weno7_) * (s.2.2.2 + WENO7.epsilon_weno7_))
  let one_a_sum := 1 / (a1 + a2 + a3 + a4)
  (a1 * one_a_sum, a2 * one_a_sum, a3 * one_a_sum, a4 * one_a_sum)

/-- The value of the four candidate stencils in the `return` statement of line 215. -/
def WENO7.candidates (v1 v2 v3 v4 v5 v6 v7 : ℚ) : ℚ × ℚ × ℚ × ℚ :=
  (WENO7.coef_stencils_1_ * v1 + WENO7.coef_stencils_2_ * v2 + WENO7.coef_stencils_3_ * v3 +
      WENO7.coef_stencils_4_ * v4,
    WENO7.coef_stencils_6_ * v2 + WENO7.coef_stencils_7_ * v3 + WENO7.coef_stencils_8_ * v4 +
      WENO7.coef_stencils_9_ * v5,
    WENO7.coef_stencils_11_ * v3 + WENO7.coef_stencils_12_ * v4 + WENO7.coef_stencils_13_ * v5 +
      WENO7.coef_stencils_14_ * v6,
    WENO7.coef_stencils_16_ * v4 + WENO7.coef_stencils_17_ * v5 + WENO7.coef_stencils_18_ * v6 +
      WENO7.coef_stencils_19_ * v7)

/-- The weighted average returned in line 215. -/
def WENO7.weightedAverage (w q : ℚ × ℚ × ℚ × ℚ) : ℚ :=
  w.1 * q.1 + w.2.1 * q.2.1 + w.2.2.1 * q.2.2.1 + w.2.2.2 * q.2.2.2

/-- `WENO7::ApplyImplementation` (lines 159-216); the third parameter, the cell size, is
not used by the source either.  The result is `none` when one of the seven accesses falls
outside the array. -/
def WENO7.ApplyImplementation (array : Fin 8 → ℚ) (evaluation_properties : Int × Int)
    (_cell_size : ℚ) : Option ℚ := do
  let v1 ← WENO7.entry array (WENO7.index evaluation_properties (-3))
  let v2 ← WENO7.entry array (WENO7.index evaluation_properties (-2))
  let v3 ← WENO7.entry array (WENO7.index evaluation_properties (-1))
  let v4 ← WENO7.entry array (WENO7.index evaluation_properties 0)
  let v5 ← WENO7.entry array (WENO7.index evaluation_properties 1)
  let v6 ← WENO7.entry array (WENO7.index evaluation_properties 2)
  let v7 ← WENO7.entry array (WENO7.index evaluation_properties 3)
  pure (WENO7.weightedAverage
    (WENO7.nonlinearWeights (WENO7.smoothnessIndicators v1 v2 v3 v4 v5 v6 v7))
    (WENO7.candidates v1 v2 v3 v4 v5 v6 v7))

/-- An evaluation offset and direction are admissible when the seven accesses of
`ApplyImplementation` stay inside the array. -/
def WENO7.Admissible (evaluation_properties : Int × Int) : Prop :=
  ∀ n ∈ ([-3, -2, -1, 0, 1, 2, 3] : List Int),
    WENO7.index evaluation_properties n < WENO7.stencil_size_

instance (evaluation_properties : Int × Int) :
    Decidable (WENO7.Admissible evaluation_properties) := by
  unfold WENO7.Admissible
  infer_instance

/-! ### The scratch arrays of the jump-flux adjustment -/

/-- The scratch arrays `coarse_fluxes` and `fine_fluxes` are zero over their whole declared
extent `[6][ANOE][TCX][TCY][TCZ]`. -/
def ScratchEntirelyZero (env : JumpEnv) (state : ExchangeState) : Prop :=
  ∀ b e i j k, b < 6 → e < env.ANOE → i < env.TCX → j < env.TCY → k < env.TCZ →
    state.coarse_fluxes b e i j k = 0 ∧ state.fine_fluxes b e i j k = 0

/-- The state in which the exchange phase of `JumpFluxAdjustment` starts the processing of
the (leaf, material) pair at position `n`: the loops of lines 1131-1286 have processed the
first `n` pairs, starting from the averaged tree and the initialised scratch arrays. -/
def stateBeforePair (env : JumpEnv) (finished_levels_descending : List Nat)
    (coarse_garbage fine_garbage : Nat → Nat → FieldArray) (tree : BlockTree) (n : Nat) :
    Except String ExchangeState :=
  ((exchangePairs env finished_levels_descending.tail).take n).foldlM
    (fun state pair => exchangeMaterial env pair.1 state pair.2)
    { tree_ := treeAfterAveraging env finished_levels_descending tree,
      coarse_fluxes := initialFluxes env coarse_garbage,
      fine_fluxes := initialFluxes env fine_garbage }

/-- The state with the same tree and scratch arrays that are zero everywhere. -/
def ExchangeState.withFreshScratch (state : ExchangeState) : ExchangeState :=
  { tree_ := state.tree_,
    coarse_fluxes := fun _ _ _ _ _ => 0,
    fine_fluxes := fun _ _ _ _ _ => 0 }

/-! ### A concrete forest used to instantiate the theorems

A one-dimensional binary tree: the root has id 1, the children of `p` are `2 p` and
`2 p + 1`, levels 0, 1 and 2 are fully refined, and everything is held by rank 0. -/

/-- Topology of the example forest: nodes 1..7, leaves 4..7, one material, rank 0. -/
def exampleTopology : TopologyManager where
  NodeExists := fun id => decide (1 ≤ id ∧ id ≤ 7)
  IsNodeMultiPhase := fun _ => false
  NodeIsLeaf := fun id => decide (4 ≤ id ∧ id ≤ 7)
  NodeIsOnRank := fun _ rank => decide (rank = 0)
  GetRankOfNode := fun _ => 0
  GlobalIdsOnLevel := fun level =>
    match level with
    | 0 => [1]
    | 1 => [2, 3]
    | 2 => [4, 5, 6, 7]
    | _ => []
  LeafIdsOnLevel := fun level =>
    match level with
    | 2 => [4, 5, 6, 7]
    | _ => []
  GetMaterialsOfNode := fun _ => [0]
  GetCurrentMaximumLevel := 2

/-- Remeshing environment of the example forest; every wavelet analysis yields `Coarse`. -/
def exampleEnv : RemeshEnv where
  topology_ := exampleTopology
  my_rank := 0
  IdsOfChildren := fun p => [2 * p, 2 * p + 1]
  ParentIdOfNode := fun c => c / 2
  LevelOfNode := fun id => if id < 2 then 0 else if id < 4 then 1 else if id < 8 then 2 else 3
  ChildNeedsRemeshing := fun _ _ => RemeshIdentifier.Coarse
  all_levels_ := [0, 1, 2, 3]
  performance := false

/-- Load-balancing environment on the example forest: node 5 moves from rank 0 to rank 1. -/
def exampleBalanceEnv : BalanceEnv where
  topology_ := exampleTopology
  IsLoadBalancingNecessary := true
  ids_rank_map := [(5, 0, 1)]
  LevelOfNode := fun id => if id < 2 then 0 else if id < 4 then 1 else if id < 8 then 2 else 3
  all_levels_ := [0, 1, 2, 3]
  sizes := { ANOE := 3, SIDES := 6, ANOP := 4, FullBlockSendingSize := 64 }
  my_rank_id := 0

/-- Trees of the example before load balancing: rank 0 holds every node. -/
def exampleTrees (rank : Int) : Tree :=
  { ids := if rank = 0 then [1, 2, 3, 4, 5, 6, 7] else []
    HasLevelset := fun _ => false }

/-- Load-balancing environment in which node 5 is a two-material node on the maximum
level 2 and moves from rank 0 to rank 1. -/
def exampleInterfaceBalanceEnv : BalanceEnv where
  topology_ := { exampleTopology with
    IsNodeMultiPhase := fun id => decide (id = 5)
    GetMaterialsOfNode := fun id => if id = 5 then [0, 1] else [0] }
  IsLoadBalancingNecessary := false
  ids_rank_map := [(5, 0, 1)]
  LevelOfNode := fun id => if id < 2 then 0 else if id < 4 then 1 else if id < 8 then 2 else 3
  all_levels_ := [0, 1, 2]
  sizes := { ANOE := 3, SIDES := 6, ANOP := 4, FullBlockSendingSize := 64 }
  my_rank_id := 0

/-- Trees matching `exampleInterfaceBalanceEnv`: rank 0 holds every node, and node 5
carries a level-set block. -/
def exampleInterfaceTrees (rank : Int) : Tree :=
  { ids := if rank = 0 then [1, 2, 3, 4, 5, 6, 7] else []
    HasLevelset := fun id => decide (rank = 0 ∧ id = 5) }

/-- Load-balancing environment on the example forest in which node 2, the parent of the
nodes 4 and 5, moves from rank 0 to rank 1; the executing rank is rank 1. -/
def exampleParentBalanceEnv : BalanceEnv :=
  { exampleBalanceEnv with ids_rank_map := [(2, 0, 1)], my_rank_id := 1 }

/-- A build without `PERFORMANCE` and without parameter model, with one equation and jump
arrays of extent `[1][1][1]`. -/
def exampleBlockConfig : BlockConfig where
  performance := false
  ParameterModelActive := false
  ANOPA := 0
  NBS := [BoundaryLocation.East, BoundaryLocation.West, BoundaryLocation.North,
    BoundaryLocation.South, BoundaryLocation.Top, BoundaryLocation.Bottom]
  ANOE := 1
  ICY := 1
  ICZ := 1

/-- Remeshing environment on a forest in which node 7 does not exist, so that parent 3
has the children 6 and 7 of which only 6 exists; `performance` selects the build. -/
def exampleIncompleteEnv (performance : Bool) : RemeshEnv :=
  { exampleEnv with
    performance := performance
    topology_ := { exampleTopology with
      NodeExists := fun id => decide (1 ≤ id ∧ id ≤ 6)
      NodeIsLeaf := fun id => decide (4 ≤ id ∧ id ≤ 6)
      GlobalIdsOnLevel := fun level =>
        match level with
        | 0 => [1]
        | 1 => [2, 3]
        | 2 => [4, 5, 6]
        | _ => []
      LeafIdsOnLevel := fun level =>
        match level with
        | 2 => [4, 5, 6]
        | _ => [] } }

/-- The example forest with the nodes of `multi` multi-material; `indicator` is the answer
of every wavelet analysis and `performance` selects the build. -/
def exampleMultiPhaseEnv (multi : List nid_t) (indicator : RemeshIdentifier)
    (performance : Bool) : RemeshEnv :=
  { exampleEnv with
    performance := performance
    topology_ := { exampleTopology with IsNodeMultiPhase := fun id => decide (id ∈ multi) }
    ChildNeedsRemeshing := fun _ _ => indicator }

/-- A loop configuration with end time 10 and minimum micro time step size 1/1000. -/
def exampleLoopConfig : LoopConfig where
  start_time_ := 0
  end_time_ := 10
  MTS := 1 / 1000
  WTL := false
  TR := false
  Profile := false

/-- Macro steps of the loop example: every call of `Advance()` returns; the first macro
step is healthy and ends at time 1, every later one has the last micro time step size
1/10000 and ends at time 2. -/
def exampleSteps (pass : Nat) : MacroStep :=
  if pass = 0 then
    { advance_exception := none, micro_timestep_back := 1, run_time := 1,
      full_output_written := false }
  else
    { advance_exception := none, micro_timestep_back := 1 / 10000, run_time := 2,
      full_output_written := true }

/-- Macro steps as in `exampleSteps`, but the file `ABORTFILE` is found during the second
call of `Advance()`. -/
def exampleAbortedSteps (pass : Nat) : MacroStep :=
  if pass = 1 then
    { exampleSteps pass with
      advance_exception := some "The simulation was aborted by the user! \n" }
  else exampleSteps pass

/-- An identifier scheme that pairs the level with the paired coordinates. -/
def examplePairScheme : IdScheme where
  LevelOfNode := fun id => (Nat.unpair id).1
  IndexOfNode := fun id =>
    ((Nat.unpair (Nat.unpair id).2).1, (Nat.unpair (Nat.unpair (Nat.unpair id).2).2).1,
      (Nat.unpair (Nat.unpair (Nat.unpair id).2).2).2)
  IdOfIndex := fun level index => Nat.pair level (Nat.pair index.1 (Nat.pair index.2.1 index.2.2))

/-- A domain of two by one by one nodes on level zero that is periodic along no axis. -/
def exampleNeighborTopology : NeighborTopology where
  scheme := examplePairScheme
  number_of_nodes_on_level_zero_ := (2, 1, 1)
  active_periodic_locations_ := fun _ => false

/-- The example forest with a wavelet analysis that asks to refine leaf 6 and allows to
coarsen every other leaf. -/
def exampleMixedEnv : RemeshEnv :=
  { exampleEnv with
    ChildNeedsRemeshing := fun _ child_id =>
      if child_id = 6 then RemeshIdentifier.Refine else RemeshIdentifier.Coarse }

/-- The example forest distributed over two ranks: node 2 is held by rank 1 and every other
node by rank 0; `indicator` is the answer of every wavelet analysis. -/
def exampleSplitEnv (indicator : RemeshIdentifier) : RemeshEnv :=
  { exampleEnv with
    topology_ :=
      { exampleTopology with
        NodeIsOnRank := fun id rank => decide (rank = if id = 2 then 1 else 0)
        GetRankOfNode := fun id => if id = 2 then 1 else 0 }
    ChildNeedsRemeshing := fun _ _ => indicator }

/-- Topology of the jump example. -/
def exampleJumpTopology : TopologyManager where
  NodeExists := fun id => decide (1 ≤ id ∧ id ≤ 5)
  IsNodeMultiPhase := fun _ => false
  NodeIsLeaf := fun id => decide (3 ≤ id ∧ id ≤ 5)
  NodeIsOnRank := fun _ rank => decide (rank = 0)
  GetRankOfNode := fun _ => 0
  GlobalIdsOnLevel := fun level =>
    match level with
    | 0 => [1]
    | 1 => [2, 3]
    | 2 => [4, 5]
    | _ => []
  LeafIdsOnLevel := fun level =>
    match level with
    | 1 => [3]
    | 2 => [4, 5]
    | _ => []
  GetMaterialsOfNode := fun _ => [0]
  GetCurrentMaximumLevel := 2

/-- Environment of the jump example; the averaging of a child into its parent is taken to
replace the jump buffer of the parent by the one of the child. -/
def exampleJumpEnv : JumpEnv where
  topology_ := exampleJumpTopology
  my_rank := 0
  ParentIdOfNode := fun id => id / 2
  GetTopologyNeighborId := fun id location =>
    match location with
    | BoundaryLocation.East => if id = 2 then 3 else if id = 4 then 5 else 0
    | BoundaryLocation.West => if id = 3 then 2 else if id = 5 then 4 else 0
    | _ => 0
  OppositeDirection := fun location =>
    match location with
    | BoundaryLocation.East => BoundaryLocation.West
    | BoundaryLocation.West => BoundaryLocation.East
    | BoundaryLocation.North => BoundaryLocation.South
    | BoundaryLocation.South => BoundaryLocation.North
    | BoundaryLocation.Top => BoundaryLocation.Bottom
    | BoundaryLocation.Bottom => BoundaryLocation.Top
    | BoundaryLocation.Diagonal index => BoundaryLocation.Diagonal index
  LTI := fun location =>
    match location with
    | BoundaryLocation.East => 0
    | BoundaryLocation.West => 1
    | BoundaryLocation.North => 2
    | BoundaryLocation.South => 3
    | BoundaryLocation.Top => 4
    | BoundaryLocation.Bottom => 5
    | BoundaryLocation.Diagonal index => 6 + index
  ANBS := [BoundaryLocation.East, BoundaryLocation.West]
  ASOE := [0]
  ANOE := 1
  FICX := 1
  LICX := 1
  FICY := 0
  LICY := 0
  FICZ := 0
  LICZ := 0
  ICX := 1
  ICY := 1
  ICZ := 1
  TCX := 3
  TCY := 1
  TCZ := 1
  performance := false
  AverageJumpBuffer := fun child _ _ => child
  receivedChildJump := fun _ _ =>
    { east_ := fun _ _ _ => 0, west_ := fun _ _ _ => 0, north_ := fun _ _ _ => 0,
      south_ := fun _ _ _ => 0, top_ := fun _ _ _ => 0, bottom_ := fun _ _ _ => 0 }
  receivedNeighborJump := fun _ _ _ => fun _ _ _ => 0

/-- A surface buffer whose six arrays hold the same value everywhere. -/
def constantSurface (value : ℚ) : SurfaceBuffer :=
  { east_ := fun _ _ _ => value, west_ := fun _ _ _ => value, north_ := fun _ _ _ => value,
    south_ := fun _ _ _ => value, top_ := fun _ _ _ => value, bottom_ := fun _ _ _ => value }

/-- Tree of the jump example: every block has right-hand side 10, jump fluxes 1 and jump
conservatives 2, except that the jump conservatives of leaf 3 are 1; cells have size 1. -/
def exampleBlockTree : BlockTree where
  NodesOnLevel := fun level =>
    match level with
    | 0 => [1]
    | 1 => [2, 3]
    | 2 => [4, 5]
    | _ => []
  GetNodeWithId := fun id =>
    { cell_size := 1
      materials := [0]
      phases := fun _ =>
        { average_ := fun _ _ _ _ => 0
          right_hand_side_ := fun _ _ _ _ => 10
          initial_ := fun _ _ _ _ => 0
          prime_states_ := fun _ _ _ _ => 0
          parameters_ := fun _ _ _ _ => 0
          jump_fluxes_ := constantSurface 1
          jump_conservatives_ := if id = 3 then constantSurface 1 else constantSurface 2 } }

/-! ## Theorems -/

/-! ### Remeshing decision -/

theorem collectChild_append (env : RemeshEnv) (p c : nid_t) (rl : List RemeshIdentifier) :
    collectChild env p c rl = rl ++ collectChild env p c [] := by
  unfold collectChild
  simp only []
  split_ifs <;> simp

theorem foldl_collectChild (env : RemeshEnv) (p : nid_t) (cs : List nid_t)
    (rl : List RemeshIdentifier) :
    cs.foldl (fun remesh_list child_id => collectChild env p child_id remesh_list) rl
      = rl ++ cs.flatMap (fun c => collectChild env p c []) := by
  induction cs generalizing rl with
  | nil => simp
  | cons c cs ih =>
    rw [List.foldl_cons, ih, collectChild_append]
    simp [List.flatMap_cons, List.append_assoc]

theorem collectIndicators_eq_flatMap (env : RemeshEnv) (p : nid_t) :
    collectIndicators env p = (env.IdsOfChildren p).flatMap (fun c => collectChild env p c []) := by
  unfold collectIndicators
  rw [foldl_collectChild]
  simp

theorem collectChild_owner (env : RemeshEnv) (p c : nid_t)
    (hown : env.topology_.NodeIsOnRank p env.my_rank = true)
    (hex : env.topology_.NodeExists c = true) :
    collectChild env p c [] = [childIndicator env p c] := by
  unfold collectChild childIndicator
  simp only [hown, hex]
  cases env.topology_.IsNodeMultiPhase c <;> cases env.topology_.NodeIsLeaf c <;>
    cases env.topology_.NodeIsOnRank c env.my_rank <;> simp

theorem collectChild_not_owner (env : RemeshEnv) (p c : nid_t)
    (hown : env.topology_.NodeIsOnRank p env.my_rank = false) :
    collectChild env p c [] = [] := by
  unfold collectChild
  simp only [hown]
  cases env.topology_.IsNodeMultiPhase c <;> cases env.topology_.NodeIsLeaf c <;>
    cases env.topology_.NodeExists c <;> simp

theorem collectChild_absent (env : RemeshEnv) (p c : nid_t)
    (hex : env.topology_.NodeExists c = false) :
    collectChild env p c [] = [] := by
  unfold collectChild
  simp [hex]

theorem flatMap_eq_map_of_singleton {α β : Type} (f : α → List β) (g : α → β) (l : List α)
    (h : ∀ a ∈ l, f a = [g a]) : l.flatMap f = l.map g := by
  induction l with
  | nil => rfl
  | cons a l ih =>
    rw [List.flatMap_cons, List.map_cons, h a (List.mem_cons_self a l),
      ih (fun b hb => h b (List.mem_cons_of_mem a hb))]
    rfl

theorem flatMap_eq_nil_of_forall {α β : Type} (f : α → List β) (l : List α)
    (h : ∀ a ∈ l, f a = []) : l.flatMap f = [] := by
  induction l with
  | nil => rfl
  | cons a l ih =>
    rw [List.flatMap_cons, h a (List.mem_cons_self a l),
      ih (fun b hb => h b (List.mem_cons_of_mem a hb))]
    rfl

/-- On the rank owning the parent, a complete sibling group yields one indicator per child. -/
theorem collectIndicators_owner (env : RemeshEnv) (p : nid_t)
    (hown : env.topology_.NodeIsOnRank p env.my_rank = true)
    (hall : ∀ c ∈ env.IdsOfChildren p, env.topology_.NodeExists c = true) :
    collectIndicators env p = (env.IdsOfChildren p).map (childIndicator env p) := by
  rw [collectIndicators_eq_flatMap]
  exact flatMap_eq_map_of_singleton _ _ _ (fun c hc => collectChild_owner env p c hown (hall c hc))

/-- A rank that does not own the parent collects no indicator. -/
theorem collectIndicators_not_owner (env : RemeshEnv) (p : nid_t)
    (hown : env.topology_.NodeIsOnRank p env.my_rank = false) :
    collectIndicators env p = [] := by
  rw [collectIndicators_eq_flatMap]
  exact flatMap_eq_nil_of_forall _ _ (fun c _ => collectChild_not_owner env p c hown)

/-- When no child exists, no indicator is collected. -/
theorem collectIndicators_absent (env : RemeshEnv) (p : nid_t)
    (hnone : ∀ c ∈ env.IdsOfChildren p, env.topology_.NodeExists c = false) :
    collectIndicators env p = [] := by
  rw [collectIndicators_eq_flatMap]
  exact flatMap_eq_nil_of_forall _ _ (fun c hc => collectChild_absent env p c (hnone c hc))

theorem appendRefined_append (rl : List RemeshIdentifier) (cs rf : List nid_t) :
    appendRefined rl cs rf = rf ++ appendRefined rl cs [] := by
  induction rl generalizing cs rf with
  | nil => simp [appendRefined]
  | cons r rl ih =>
    cases cs with
    | nil => simp [appendRefined]
    | cons c cs =>
      simp only [appendRefined]
      rw [ih cs (if r = RemeshIdentifier.Refine then rf ++ [c] else rf),
        ih cs (if r = RemeshIdentifier.Refine then [] ++ [c] else [])]
      split_ifs <;> simp

/-- Closed form of one parent iteration. -/
theorem visitParent_eq (env : RemeshEnv) (p : nid_t) (rm rf : List nid_t) :
    visitParent env p (rm, rf) =
      if checkPasses env p then Except.ok (rm ++ coarsenGroup env p, rf ++ refineGroup env p)
      else Except.error "This must not happen" := by
  unfold visitParent checkPasses coarsenGroup refineGroup
  simp only []
  rw [appendRefined_append]
  split_ifs <;> simp_all

theorem foldlM_visitParent (env : RemeshEnv) (ps : List nid_t) (rm rf : List nid_t) :
    ps.foldlM (fun lists parent_id => visitParent env parent_id lists) (rm, rf) =
      if ps.all (checkPasses env) then
        Except.ok (rm ++ ps.flatMap (coarsenGroup env), rf ++ ps.flatMap (refineGroup env))
      else Except.error "This must not happen" := by
  induction ps generalizing rm rf with
  | nil => simp [pure, Except.pure]
  | cons p ps ih =>
    rw [List.foldlM_cons, visitParent_eq]
    by_cases hp : checkPasses env p = true
    · simp only [hp, if_true, bind, Except.bind, ih, List.all_cons, Bool.true_and,
        List.flatMap_cons, List.append_assoc]
    · simp [hp, bind, Except.bind]

/-- Closed form of `DetermineRemeshingNodes`: it throws exactly when the consistency check
fails for a visited parent, and otherwise appends the groups of the visited parents. -/
theorem DetermineRemeshingNodes_eq (env : RemeshEnv) (parent_levels : List Nat)
    (rm rf : List nid_t) :
    DetermineRemeshingNodes env parent_levels rm rf =
      if (visitedParents env parent_levels).all (checkPasses env) then
        Except.ok (rm ++ (visitedParents env parent_levels).flatMap (coarsenGroup env),
          rf ++ (visitedParents env parent_levels).flatMap (refineGroup env))
      else Except.error "This must not happen" := by
  unfold DetermineRemeshingNodes visitedParents
  induction parent_levels generalizing rm rf with
  | nil => simp [pure, Except.pure]
  | cons l ls ih =>
    rw [List.foldlM_cons, foldlM_visitParent]
    by_cases hp : (env.topology_.GlobalIdsOnLevel l).all (checkPasses env) = true
    · simp only [hp, if_true, bind, Except.bind, ih, List.flatMap_cons, List.all_append,
        Bool.true_and, List.flatMap_append, List.append_assoc]
    · simp only [hp, bind, Except.bind, List.flatMap_cons, List.all_append]
      simp

theorem isEmpty_eq_length {α : Type} (l : List α) : l.isEmpty = decide (l.length = 0) := by
  cases l <;> simp

theorem collectChild_setIndicator_length (env : RemeshEnv) (p c : nid_t) (v : RemeshIdentifier)
    (q d : nid_t) :
    (collectChild (env.setIndicator p c v) q d []).length = (collectChild env q d []).length := by
  unfold collectChild RemeshEnv.setIndicator
  simp only []
  split_ifs <;> simp

theorem collectIndicators_setIndicator_length (env : RemeshEnv) (p c : nid_t)
    (v : RemeshIdentifier) (q : nid_t) :
    (collectIndicators (env.setIndicator p c v) q).length = (collectIndicators env q).length := by
  rw [collectIndicators_eq_flatMap, collectIndicators_eq_flatMap]
  show (List.flatMap (env.IdsOfChildren q) _).length = _
  induction env.IdsOfChildren q with
  | nil => rfl
  | cons d ds ih =>
    simp only [List.flatMap_cons, List.length_append, ih, collectChild_setIndicator_length]

theorem checkPasses_setIndicator (env : RemeshEnv) (p c : nid_t) (v : RemeshIdentifier)
    (q : nid_t) : checkPasses (env.setIndicator p c v) q = checkPasses env q := by
  unfold checkPasses
  rw [isEmpty_eq_length, isEmpty_eq_length, collectIndicators_setIndicator_length]
  rfl

theorem collectIndicators_setIndicator_other (env : RemeshEnv) (p c : nid_t)
    (v : RemeshIdentifier) (q : nid_t) (hq : q ≠ p) :
    collectIndicators (env.setIndicator p c v) q = collectIndicators env q := by
  unfold collectIndicators
  have h : ∀ d rl, collectChild (env.setIndicator p c v) q d rl = collectChild env q d rl := by
    intro d rl
    unfold collectChild RemeshEnv.setIndicator
    simp [hq]
  simp only [h]
  rfl

theorem coarsenGroup_setIndicator_other (env : RemeshEnv) (p c : nid_t)
    (v : RemeshIdentifier) (q : nid_t) (hq : q ≠ p) :
    coarsenGroup (env.setIndicator p c v) q = coarsenGroup env q := by
  unfold coarsenGroup
  rw [collectIndicators_setIndicator_other env p c v q hq]
  rfl

/-- The group of a complete sibling group on the owning rank, in terms of the indicators. -/
theorem coarsenGroup_owner (env : RemeshEnv) (p : nid_t)
    (hown : env.topology_.NodeIsOnRank p env.my_rank = true)
    (hall : ∀ c ∈ env.IdsOfChildren p, env.topology_.NodeExists c = true)
    (hne : env.IdsOfChildren p ≠ []) :
    coarsenGroup env p =
      if (∀ c ∈ env.IdsOfChildren p, childIndicator env p c = RemeshIdentifier.Coarse) ∧
          env.topology_.IsNodeMultiPhase p = false
      then env.IdsOfChildren p else [] := by
  unfold coarsenGroup
  rw [collectIndicators_owner env p hown hall]
  have h1 : ((env.IdsOfChildren p).map (childIndicator env p)).isEmpty = false := by
    cases h : env.IdsOfChildren p with
    | nil => exact absurd h hne
    | cons a l => rfl
  have h2 : (((env.IdsOfChildren p).map (childIndicator env p)).all
      (fun condition => condition == RemeshIdentifier.Coarse) = true) ↔
      ∀ c ∈ env.IdsOfChildren p, childIndicator env p c = RemeshIdentifier.Coarse := by
    simp only [List.all_eq_true, List.mem_map]
    constructor
    · intro h c hc
      simpa using h (childIndicator env p c) ⟨c, hc, rfl⟩
    · rintro h x ⟨c, hc, rfl⟩
      simp [h c hc]
  have key : ∀ (P : Prop) [Decidable P] (b : Bool), (b = true ↔ P) →
      (if b = true then env.IdsOfChildren p else []) = if P then env.IdsOfChildren p else [] := by
    intro P _ b h
    by_cases hP : P
    · rw [if_pos hP, if_pos (h.mpr hP)]
    · rw [if_neg hP, if_neg (fun hb => hP (h.mp hb))]
  apply key
  rw [h1, Bool.and_eq_true, h2]
  cases env.topology_.IsNodeMultiPhase p <;> simp

theorem coarsenGroup_setIndicator_self (env : RemeshEnv) (p c : nid_t) (v : RemeshIdentifier)
    (hown : env.topology_.NodeIsOnRank p env.my_rank = true)
    (hall : ∀ d ∈ env.IdsOfChildren p, env.topology_.NodeExists d = true)
    (hc : c ∈ env.IdsOfChildren p) (hv : v ≠ RemeshIdentifier.Coarse) :
    coarsenGroup (env.setIndicator p c v) p = [] := by
  have hne : (env.setIndicator p c v).IdsOfChildren p ≠ [] := by
    intro h
    have : c ∈ (env.setIndicator p c v).IdsOfChildren p := hc
    rw [h] at this
    exact absurd this (List.not_mem_nil c)
  rw [coarsenGroup_owner (env.setIndicator p c v) p hown hall hne]
  have : childIndicator (env.setIndicator p c v) p c ≠ RemeshIdentifier.Coarse := by
    unfold childIndicator RemeshEnv.setIndicator
    simp only []
    split_ifs <;> simp_all
  rw [if_neg]
  rintro ⟨h, _⟩
  exact this (h c hc)

theorem checkPasses_owner (env : RemeshEnv) (p : nid_t)
    (hown : env.topology_.NodeIsOnRank p env.my_rank = true)
    (hall : ∀ c ∈ env.IdsOfChildren p, env.topology_.NodeExists c = true) :
    checkPasses env p = true := by
  unfold checkPasses
  rw [collectIndicators_owner env p hown hall]
  simp

/-- C1: on the rank owning parent `p`, with all children of `p` existing, one parent
iteration appends the children of `p` to the coarsen (remove) list if and only if every
child's indicator is `Coarse` and `p` is not multi-material (otherwise the list is left as
it is).  Moreover, whenever `DetermineRemeshingNodes` returns, its coarsen list is the
input list followed by the groups of the visited parents, and after changing the indicator
of one child `c` of `p` to `Refine` or `Neutral` it returns as well, with the group of `p`
removed and the group of every other visited parent unchanged. -/
theorem C1_sibling_group_coarsening (env : RemeshEnv) (p c : nid_t) (v : RemeshIdentifier)
    (hown : env.topology_.NodeIsOnRank p env.my_rank = true)
    (hall : ∀ d ∈ env.IdsOfChildren p, env.topology_.NodeExists d = true)
    (hc : c ∈ env.IdsOfChildren p)
    (hv : v = RemeshIdentifier.Refine ∨ v = RemeshIdentifier.Neutral) :
    (∀ rm rf : List nid_t, ∃ rm' rf', visitParent env p (rm, rf) = Except.ok (rm', rf') ∧
        (rm' = rm ++ env.IdsOfChildren p ∨ rm' = rm) ∧
        (rm' = rm ++ env.IdsOfChildren p ↔
          ((∀ d ∈ env.IdsOfChildren p, childIndicator env p d = RemeshIdentifier.Coarse) ∧
            env.topology_.IsNodeMultiPhase p = false))) ∧
    (∀ (parent_levels : List Nat) (rm rf : List nid_t) (out : List nid_t × List nid_t),
        DetermineRemeshingNodes env parent_levels rm rf = Except.ok out →
        out.1 = rm ++ (visitedParents env parent_levels).flatMap (coarsenGroup env) ∧
        ∃ out', DetermineRemeshingNodes (env.setIndicator p c v) parent_levels rm rf
            = Except.ok out' ∧
          out'.1 = rm ++ (visitedParents env parent_levels).flatMap
            (fun q => if q = p then [] else coarsenGroup env q)) := by
  have hne : env.IdsOfChildren p ≠ [] := by
    intro h
    rw [h] at hc
    exact absurd hc (List.not_mem_nil c)
  have hvc : v ≠ RemeshIdentifier.Coarse := by
    rcases hv with h | h <;> rw [h] <;> decide
  constructor
  · intro rm rf
    refine ⟨rm ++ coarsenGroup env p, rf ++ refineGroup env p, ?_, ?_, ?_⟩
    · rw [visitParent_eq, checkPasses_owner env p hown hall]
      rfl
    · rw [coarsenGroup_owner env p hown hall hne]
      split_ifs
      · exact Or.inl rfl
      · exact Or.inr (List.append_nil rm)
    · rw [coarsenGroup_owner env p hown hall hne]
      split_ifs with h
      · exact ⟨fun _ => h, fun _ => rfl⟩
      · constructor
        · intro he
          have := List.append_cancel_left he
          exact absurd this.symm hne
        · intro h'
          exact absurd h' h
  · intro parent_levels rm rf out hrun
    rw [DetermineRemeshingNodes_eq] at hrun
    by_cases hchk : (visitedParents env parent_levels).all (checkPasses env) = true
    · rw [if_pos hchk] at hrun
      have hout : out = (rm ++ (visitedParents env parent_levels).flatMap (coarsenGroup env),
          rf ++ (visitedParents env parent_levels).flatMap (refineGroup env)) := by
        injection hrun with h
        exact h.symm
      refine ⟨by rw [hout], ?_⟩
      have hvis : visitedParents (env.setIndicator p c v) parent_levels
          = visitedParents env parent_levels := rfl
      have hchk' : (visitedParents env parent_levels).all
          (checkPasses (env.setIndicator p c v)) = true := by
        rw [← hchk]
        congr 1
        funext q
        exact checkPasses_setIndicator env p c v q
      have hgroups : (visitedParents env parent_levels).flatMap
          (coarsenGroup (env.setIndicator p c v)) =
          (visitedParents env parent_levels).flatMap
            (fun q => if q = p then [] else coarsenGroup env q) := by
        congr 1
        funext q
        by_cases hq : q = p
        · rw [if_pos hq, hq]
          exact coarsenGroup_setIndicator_self env p c v hown hall hc hvc
        · rw [if_neg hq]
          exact coarsenGroup_setIndicator_other env p c v q hq
      refine ⟨(rm ++ (visitedParents env parent_levels).flatMap
          (coarsenGroup (env.setIndicator p c v)),
        rf ++ (visitedParents env parent_levels).flatMap
          (refineGroup (env.setIndicator p c v))), ?_, ?_⟩
      · rw [DetermineRemeshingNodes_eq, hvis, if_pos hchk']
      · rw [← hgroups]
    · rw [if_neg hchk] at hrun
      exact Except.noConfusion hrun

/-- Instance of C1 on the example forest: with every analysis `Coarse` the parents 2 and 3
contribute `[4, 5]` and `[6, 7]`; after node 4 reports `Refine` only `[6, 7]` remains. -/
theorem C1_sibling_group_coarsening_witness :
    (exampleEnv.topology_.NodeIsOnRank 2 exampleEnv.my_rank = true ∧
      (∀ d ∈ exampleEnv.IdsOfChildren 2, exampleEnv.topology_.NodeExists d = true) ∧
      4 ∈ exampleEnv.IdsOfChildren 2 ∧
      DetermineRemeshingNodes exampleEnv [1] [] [] = Except.ok ([4, 5, 6, 7], [])) ∧
    ∃ out', DetermineRemeshingNodes (exampleEnv.setIndicator 2 4 RemeshIdentifier.Refine) [1] [] []
        = Except.ok out' ∧
      out'.1 = [] ++ (visitedParents exampleEnv [1]).flatMap
        (fun q => if q = 2 then [] else coarsenGroup exampleEnv q) :=
  ⟨⟨by decide, by decide, by decide, rfl⟩,
    ((C1_sibling_group_coarsening exampleEnv 2 4 RemeshIdentifier.Refine (by decide) (by decide)
      (by decide) (Or.inl rfl)).2 [1] [] [] ([4, 5, 6, 7], []) rfl).2⟩

theorem appendRefined_map (f : nid_t → RemeshIdentifier) (cs : List nid_t) :
    appendRefined (cs.map f) cs [] = cs.filter (fun c => decide (f c = RemeshIdentifier.Refine)) := by
  induction cs with
  | nil => rfl
  | cons c cs ih =>
    simp only [List.map_cons, appendRefined]
    rw [appendRefined_append, ih, List.filter_cons]
    by_cases h : f c = RemeshIdentifier.Refine <;> simp [h]

theorem refineGroup_owner (env : RemeshEnv) (p : nid_t)
    (hown : env.topology_.NodeIsOnRank p env.my_rank = true)
    (hall : ∀ c ∈ env.IdsOfChildren p, env.topology_.NodeExists c = true) :
    refineGroup env p = (env.IdsOfChildren p).filter
      (fun c => decide (childIndicator env p c = RemeshIdentifier.Refine)) := by
  unfold refineGroup
  rw [collectIndicators_owner env p hown hall, appendRefined_map]

theorem checkPasses_of_nil (env : RemeshEnv) (p : nid_t) (h : collectIndicators env p = []) :
    checkPasses env p = true := by
  unfold checkPasses
  rw [h]
  simp

theorem coarsenGroup_of_nil (env : RemeshEnv) (p : nid_t) (h : collectIndicators env p = []) :
    coarsenGroup env p = [] := by
  unfold coarsenGroup
  rw [h]
  rfl

theorem refineGroup_of_nil (env : RemeshEnv) (p : nid_t) (h : collectIndicators env p = []) :
    refineGroup env p = [] := by
  unfold refineGroup
  rw [h]
  cases env.IdsOfChildren p <;> rfl

/-- C5: for a parent whose children all exist, one parent iteration of
`DetermineRemeshingNodes` returns and appends to the refine list exactly those children
whose own indicator, collected on the executing rank, is `Refine`: the appended entries are
the children filtered by a test on the child's own indicator, in which neither the
indicators of the siblings nor the material count of the parent occur.  Indicators are
collected only on the rank owning the parent; on other ranks nothing is appended. -/
theorem C5_refine_is_per_child (env : RemeshEnv) (p : nid_t) (rm rf : List nid_t)
    (hall : ∀ c ∈ env.IdsOfChildren p, env.topology_.NodeExists c = true) :
    ∃ rm', visitParent env p (rm, rf) = Except.ok (rm',
      rf ++ (env.IdsOfChildren p).filter (fun c =>
        env.topology_.NodeIsOnRank p env.my_rank &&
          decide (childIndicator env p c = RemeshIdentifier.Refine))) := by
  refine ⟨rm ++ coarsenGroup env p, ?_⟩
  rw [visitParent_eq]
  by_cases hown : env.topology_.NodeIsOnRank p env.my_rank = true
  · rw [checkPasses_owner env p hown hall, if_pos rfl, refineGroup_owner env p hown hall, hown]
    simp
  · have hown' : env.topology_.NodeIsOnRank p env.my_rank = false := by simpa using hown
    have hnil := collectIndicators_not_owner env p hown'
    rw [checkPasses_of_nil env p hnil, if_pos rfl, refineGroup_of_nil env p hnil, hown']
    simp

/-- Instance of C5 on the example forest with node 4 reporting `Refine`: the children of
parent 2 all exist, and exactly node 4 is appended to the refine list. -/
theorem C5_refine_is_per_child_witness :
    (∀ c ∈ (exampleEnv.setIndicator 2 4 RemeshIdentifier.Refine).IdsOfChildren 2,
      (exampleEnv.setIndicator 2 4 RemeshIdentifier.Refine).topology_.NodeExists c = true) ∧
    (∃ rm', visitParent (exampleEnv.setIndicator 2 4 RemeshIdentifier.Refine) 2 ([], [])
      = Except.ok (rm', [] ++
        ((exampleEnv.setIndicator 2 4 RemeshIdentifier.Refine).IdsOfChildren 2).filter (fun c =>
          (exampleEnv.setIndicator 2 4 RemeshIdentifier.Refine).topology_.NodeIsOnRank 2
            (exampleEnv.setIndicator 2 4 RemeshIdentifier.Refine).my_rank &&
          decide (childIndicator (exampleEnv.setIndicator 2 4 RemeshIdentifier.Refine) 2 c
            = RemeshIdentifier.Refine)))) ∧
    visitParent (exampleEnv.setIndicator 2 4 RemeshIdentifier.Refine) 2 ([], [])
      = Except.ok ([], [4]) :=
  ⟨by decide,
    C5_refine_is_per_child (exampleEnv.setIndicator 2 4 RemeshIdentifier.Refine) 2 [] []
      (by decide), rfl⟩

theorem length_flatMap_le_one {α β : Type} (f : α → List β) (l : List α)
    (h : ∀ a ∈ l, (f a).length ≤ 1) : (l.flatMap f).length ≤ l.length := by
  induction l with
  | nil => simp
  | cons a l ih =>
    have h1 := h a (List.mem_cons_self a l)
    have h2 := ih (fun b hb => h b (List.mem_cons_of_mem a hb))
    simp only [List.flatMap_cons, List.length_append, List.length_cons]
    omega

theorem length_flatMap_eq_length {α β : Type} (f : α → List β) (l : List α)
    (h : ∀ a ∈ l, (f a).length ≤ 1) (he : (l.flatMap f).length = l.length) :
    ∀ a ∈ l, (f a).length = 1 := by
  induction l with
  | nil => intro a ha; exact absurd ha (List.not_mem_nil a)
  | cons a l ih =>
    have h1 := h a (List.mem_cons_self a l)
    have h2 := length_flatMap_le_one f l (fun b hb => h b (List.mem_cons_of_mem a hb))
    simp only [List.flatMap_cons, List.length_append, List.length_cons] at he
    intro b hb
    rcases List.mem_cons.mp hb with rfl | hb'
    · omega
    · exact ih (fun b hb => h b (List.mem_cons_of_mem a hb)) (by omega) b hb'

theorem collectChild_length_le (env : RemeshEnv) (p c : nid_t) :
    (collectChild env p c []).length ≤ 1 := by
  unfold collectChild
  simp only []
  split_ifs <;> simp

theorem collectChild_length_one (env : RemeshEnv) (p c : nid_t)
    (h : (collectChild env p c []).length = 1) :
    env.topology_.NodeIsOnRank p env.my_rank = true ∧ env.topology_.NodeExists c = true := by
  by_cases hex : env.topology_.NodeExists c = true
  · by_cases hown : env.topology_.NodeIsOnRank p env.my_rank = true
    · exact ⟨hown, hex⟩
    · rw [collectChild_not_owner env p c (by simpa using hown)] at h
      exact absurd h (by decide)
  · rw [collectChild_absent env p c (by simpa using hex)] at h
    exact absurd h (by decide)

/-- Whenever the consistency check passes in a build without `PERFORMANCE`, either no
indicator was collected or the rank owns the parent and every child exists. -/
theorem collectIndicators_cases_of_check (env : RemeshEnv) (p : nid_t)
    (hperf : env.performance = false) (hchk : checkPasses env p = true) :
    collectIndicators env p = [] ∨
      (env.topology_.NodeIsOnRank p env.my_rank = true ∧
        ∀ c ∈ env.IdsOfChildren p, env.topology_.NodeExists c = true) := by
  unfold checkPasses at hchk
  rw [hperf] at hchk
  by_cases hnil : collectIndicators env p = []
  · exact Or.inl hnil
  · right
    have hlen : (collectIndicators env p).length = (env.IdsOfChildren p).length := by
      cases h : collectIndicators env p with
      | nil => exact absurd h hnil
      | cons a l =>
        rw [h] at hchk
        simpa using hchk
    rw [collectIndicators_eq_flatMap] at hlen hnil
    have hone := length_flatMap_eq_length _ _
      (fun c _ => collectChild_length_le env p c) hlen
    cases hcs : env.IdsOfChildren p with
    | nil => rw [hcs] at hnil; exact absurd rfl hnil
    | cons c cs =>
      have hc : c ∈ env.IdsOfChildren p := by rw [hcs]; exact List.mem_cons_self c cs
      refine ⟨(collectChild_length_one env p c (hone c hc)).1, ?_⟩
      intro d hd
      rw [← hcs] at hd
      exact (collectChild_length_one env p d (hone d hd)).2

theorem childIndicator_multi (env : RemeshEnv) (p c : nid_t)
    (h : childIndicator env p c ≠ RemeshIdentifier.Neutral) :
    env.topology_.IsNodeMultiPhase c = false := by
  unfold childIndicator at h
  cases hm : env.topology_.IsNodeMultiPhase c
  · rfl
  · rw [hm] at h
    exact absurd rfl h

/-- The entries a visited parent contributes never contain a multi-material node, and
a multi-material parent contributes nothing to the coarsen list. -/
theorem groups_single_material (env : RemeshEnv) (q : nid_t)
    (hcases : collectIndicators env q = [] ∨
      (env.topology_.NodeIsOnRank q env.my_rank = true ∧
        ∀ c ∈ env.IdsOfChildren q, env.topology_.NodeExists c = true)) :
    (∀ x ∈ refineGroup env q, env.topology_.IsNodeMultiPhase x = false) ∧
    (∀ x ∈ coarsenGroup env q, env.topology_.IsNodeMultiPhase x = false ∧
      x ∈ env.IdsOfChildren q ∧ env.topology_.IsNodeMultiPhase q = false) := by
  rcases hcases with hnil | ⟨hown, hall⟩
  · rw [refineGroup_of_nil env q hnil, coarsenGroup_of_nil env q hnil]
    exact ⟨fun x hx => absurd hx (List.not_mem_nil x), fun x hx => absurd hx (List.not_mem_nil x)⟩
  · constructor
    · intro x hx
      rw [refineGroup_owner env q hown hall, List.mem_filter] at hx
      apply childIndicator_multi env q x
      rw [of_decide_eq_true hx.2]
      decide
    · intro x hx
      by_cases hne : env.IdsOfChildren q = []
      · unfold coarsenGroup at hx
        rw [hne] at hx
        simp at hx
      · rw [coarsenGroup_owner env q hown hall hne] at hx
        split_ifs at hx with h
        · refine ⟨?_, hx, h.2⟩
          apply childIndicator_multi env q x
          rw [h.1 x hx]
          decide
        · exact absurd hx (List.not_mem_nil x)

/-- C6: whenever `DetermineRemeshingNodes` returns, every entry it appended to the refine
list and every entry it appended to the coarsen list is a single-material node, and every
entry appended to the coarsen list has a single-material parent.  The id scheme is assumed
to give every child its parent back (`ParentIdOfNode`), and in a `PERFORMANCE` build, where
the sibling-count check is compiled out, the sibling group of every visited parent is
assumed to exist completely or not at all. -/
theorem C6_no_multi_material_node_listed (env : RemeshEnv) (parent_levels : List Nat)
    (rm rf : List nid_t) (out : List nid_t × List nid_t)
    (hparent : ∀ q c, c ∈ env.IdsOfChildren q → env.ParentIdOfNode c = q)
    (hwf : env.performance = false ∨ ∀ q ∈ visitedParents env parent_levels,
      (∀ c ∈ env.IdsOfChildren q, env.topology_.NodeExists c = true) ∨
      (∀ c ∈ env.IdsOfChildren q, env.topology_.NodeExists c = false))
    (hrun : DetermineRemeshingNodes env parent_levels rm rf = Except.ok out) :
    ∃ removed refined, out = (rm ++ removed, rf ++ refined) ∧
      (∀ x ∈ refined, env.topology_.IsNodeMultiPhase x = false) ∧
      (∀ x ∈ removed, env.topology_.IsNodeMultiPhase x = false) ∧
      (∀ x ∈ removed, env.topology_.IsNodeMultiPhase (env.ParentIdOfNode x) = false) := by
  rw [DetermineRemeshingNodes_eq] at hrun
  by_cases hchk : (visitedParents env parent_levels).all (checkPasses env) = true
  · rw [if_pos hchk] at hrun
    have hout : out = (rm ++ (visitedParents env parent_levels).flatMap (coarsenGroup env),
        rf ++ (visitedParents env parent_levels).flatMap (refineGroup env)) := by
      injection hrun with h
      exact h.symm
    have hcases : ∀ q ∈ visitedParents env parent_levels,
        collectIndicators env q = [] ∨
          (env.topology_.NodeIsOnRank q env.my_rank = true ∧
            ∀ c ∈ env.IdsOfChildren q, env.topology_.NodeExists c = true) := by
      intro q hq
      rcases hwf with hperf | hsib
      · exact collectIndicators_cases_of_check env q hperf (List.all_eq_true.mp hchk q hq)
      · rcases hsib q hq with hall | hnone
        · by_cases hown : env.topology_.NodeIsOnRank q env.my_rank = true
          · exact Or.inr ⟨hown, hall⟩
          · exact Or.inl (collectIndicators_not_owner env q (by simpa using hown))
        · exact Or.inl (collectIndicators_absent env q hnone)
    refine ⟨_, _, hout, ?_, ?_, ?_⟩
    · intro x hx
      obtain ⟨q, hq, hxq⟩ := List.mem_flatMap.mp hx
      exact (groups_single_material env q (hcases q hq)).1 x hxq
    · intro x hx
      obtain ⟨q, hq, hxq⟩ := List.mem_flatMap.mp hx
      exact ((groups_single_material env q (hcases q hq)).2 x hxq).1
    · intro x hx
      obtain ⟨q, hq, hxq⟩ := List.mem_flatMap.mp hx
      have h := (groups_single_material env q (hcases q hq)).2 x hxq
      rw [hparent q x h.2.1]
      exact h.2.2
  · rw [if_neg hchk] at hrun
    exact Except.noConfusion hrun

/-- Instances of C6 on the example forest with multi-material nodes.  In the default build
with leaf 5 multi-material and every analysis answering `Coarse`, only the children 6 and 7
of parent 3 are listed for coarsening: the sibling group of the multi-material leaf stays.
In a `PERFORMANCE` build with leaf 5 multi-material and every analysis answering `Refine`,
the leaves 4, 6 and 7 are listed for refinement, leaf 5 is not.  In a `PERFORMANCE` build
with parent 3 multi-material and every analysis answering `Coarse`, only the children of
parent 2 are listed: the children 6 and 7 of the multi-material parent stay. -/
theorem C6_no_multi_material_node_listed_witness :
    (((exampleMultiPhaseEnv [5] RemeshIdentifier.Coarse false).topology_.IsNodeMultiPhase 5
        = true ∧
      (exampleMultiPhaseEnv [5] RemeshIdentifier.Coarse false).performance = false ∧
      DetermineRemeshingNodes (exampleMultiPhaseEnv [5] RemeshIdentifier.Coarse false) [1] [] []
        = Except.ok ([6, 7], [])) ∧
      ∃ removed refined, (([6, 7], []) : List nid_t × List nid_t)
          = ([] ++ removed, [] ++ refined) ∧
        (∀ x ∈ refined,
          (exampleMultiPhaseEnv [5] RemeshIdentifier.Coarse false).topology_.IsNodeMultiPhase x
            = false) ∧
        (∀ x ∈ removed,
          (exampleMultiPhaseEnv [5] RemeshIdentifier.Coarse false).topology_.IsNodeMultiPhase x
            = false) ∧
        (∀ x ∈ removed,
          (exampleMultiPhaseEnv [5] RemeshIdentifier.Coarse false).topology_.IsNodeMultiPhase
            ((exampleMultiPhaseEnv [5] RemeshIdentifier.Coarse false).ParentIdOfNode x)
            = false)) ∧
    (((exampleMultiPhaseEnv [5] RemeshIdentifier.Refine true).topology_.IsNodeMultiPhase 5
        = true ∧
      (exampleMultiPhaseEnv [5] RemeshIdentifier.Refine true).performance = true ∧
      (∀ q ∈ visitedParents (exampleMultiPhaseEnv [5] RemeshIdentifier.Refine true) [1],
        ∀ c ∈ (exampleMultiPhaseEnv [5] RemeshIdentifier.Refine true).IdsOfChildren q,
          (exampleMultiPhaseEnv [5] RemeshIdentifier.Refine true).topology_.NodeExists c
            = true) ∧
      DetermineRemeshingNodes (exampleMultiPhaseEnv [5] RemeshIdentifier.Refine true) [1] [] []
        = Except.ok ([], [4, 6, 7])) ∧
      ∃ removed refined, (([], [4, 6, 7]) : List nid_t × List nid_t)
          = ([] ++ removed, [] ++ refined) ∧
        (∀ x ∈ refined,
          (exampleMultiPhaseEnv [5] RemeshIdentifier.Refine true).topology_.IsNodeMultiPhase x
            = false) ∧
        (∀ x ∈ removed,
          (exampleMultiPhaseEnv [5] RemeshIdentifier.Refine true).topology_.IsNodeMultiPhase x
            = false) ∧
        (∀ x ∈ removed,
          (exampleMultiPhaseEnv [5] RemeshIdentifier.Refine true).topology_.IsNodeMultiPhase
            ((exampleMultiPhaseEnv [5] RemeshIdentifier.Refine true).ParentIdOfNode x)
            = false)) ∧
    (((exampleMultiPhaseEnv [3] RemeshIdentifier.Coarse true).topology_.IsNodeMultiPhase 3
        = true ∧
      (exampleMultiPhaseEnv [3] RemeshIdentifier.Coarse true).performance = true ∧
      (∀ q ∈ visitedParents (exampleMultiPhaseEnv [3] RemeshIdentifier.Coarse true) [1],
        ∀ c ∈ (exampleMultiPhaseEnv [3] RemeshIdentifier.Coarse true).IdsOfChildren q,
          (exampleMultiPhaseEnv [3] RemeshIdentifier.Coarse true).topology_.NodeExists c
            = true) ∧
      DetermineRemeshingNodes (exampleMultiPhaseEnv [3] RemeshIdentifier.Coarse true) [1] [] []
        = Except.ok ([4, 5], [])) ∧
      ∃ removed refined, (([4, 5], []) : List nid_t × List nid_t)
          = ([] ++ removed, [] ++ refined) ∧
        (∀ x ∈ refined,
          (exampleMultiPhaseEnv [3] RemeshIdentifier.Coarse true).topology_.IsNodeMultiPhase x
            = false) ∧
        (∀ x ∈ removed,
          (exampleMultiPhaseEnv [3] RemeshIdentifier.Coarse true).topology_.IsNodeMultiPhase x
            = false) ∧
        (∀ x ∈ removed,
          (exampleMultiPhaseEnv [3] RemeshIdentifier.Coarse true).topology_.IsNodeMultiPhase
            ((exampleMultiPhaseEnv [3] RemeshIdentifier.Coarse true).ParentIdOfNode x)
            = false)) :=
  have hparent : ∀ (multi : List nid_t) (indicator : RemeshIdentifier) (performance : Bool),
      ∀ q c, c ∈ (exampleMultiPhaseEnv multi indicator performance).IdsOfChildren q →
        (exampleMultiPhaseEnv multi indicator performance).ParentIdOfNode c = q := by
    intro multi indicator performance (q : Nat) (c : Nat) hc
    have h : c = 2 * q ∨ c = 2 * q + 1 := by simpa [exampleMultiPhaseEnv, exampleEnv] using hc
    show (c / 2 : Nat) = q
    omega
  have hgroups5 : ∀ q ∈ visitedParents (exampleMultiPhaseEnv [5] RemeshIdentifier.Refine true) [1],
      ∀ c ∈ (exampleMultiPhaseEnv [5] RemeshIdentifier.Refine true).IdsOfChildren q,
        (exampleMultiPhaseEnv [5] RemeshIdentifier.Refine true).topology_.NodeExists c
          = true := by
    decide
  have hgroups3 : ∀ q ∈ visitedParents (exampleMultiPhaseEnv [3] RemeshIdentifier.Coarse true) [1],
      ∀ c ∈ (exampleMultiPhaseEnv [3] RemeshIdentifier.Coarse true).IdsOfChildren q,
        (exampleMultiPhaseEnv [3] RemeshIdentifier.Coarse true).topology_.NodeExists c
          = true := by
    decide
  ⟨⟨⟨rfl, rfl, rfl⟩,
      C6_no_multi_material_node_listed (exampleMultiPhaseEnv [5] RemeshIdentifier.Coarse false)
        [1] [] [] ([6, 7], []) (hparent _ _ _) (Or.inl rfl) rfl⟩,
    ⟨⟨rfl, rfl, hgroups5, rfl⟩,
      C6_no_multi_material_node_listed (exampleMultiPhaseEnv [5] RemeshIdentifier.Refine true)
        [1] [] [] ([], [4, 6, 7]) (hparent _ _ _)
        (Or.inr (fun q hq => Or.inl (hgroups5 q hq))) rfl⟩,
    ⟨⟨rfl, rfl, hgroups3, rfl⟩,
      C6_no_multi_material_node_listed (exampleMultiPhaseEnv [3] RemeshIdentifier.Coarse true)
        [1] [] [] ([4, 5], []) (hparent _ _ _)
        (Or.inr (fun q hq => Or.inl (hgroups3 q hq))) rfl⟩⟩

/-! ### Remeshing -/

theorem mem_unique (x : nid_t) (l : List nid_t) (h : x ∈ unique l) : x ∈ l := by
  induction l using unique.induct with
  | case1 => exact h
  | case2 a => exact h
  | case3 a l ih =>
    rw [unique, if_pos rfl] at h
    exact List.mem_cons_of_mem a (ih h)
  | case4 a b l hab ih =>
    rw [unique, if_neg hab] at h
    rcases List.mem_cons.mp h with rfl | h'
    · exact List.mem_cons_self _ _
    · exact List.mem_cons_of_mem a (ih h')

theorem RemeshWithLists_guards (env : RemeshEnv) (commit : RemeshCommit)
    (levels_to_update_ascending : List Nat) (decisions : List (List nid_t × List nid_t)) :
    (∀ id, RemeshEvent.RefineNode id ∈
        RemeshWithLists env commit levels_to_update_ascending decisions →
      env.topology_.NodeIsLeaf id = true ∧ env.LevelOfNode id ≠ env.all_levels_.getLastD 0) ∧
    (∀ parent_id, RemeshEvent.CoarseNodeWithId parent_id ∈
        RemeshWithLists env commit levels_to_update_ascending decisions →
      env.LevelOfNode parent_id ≠ 0) ∧
    (∀ id, RemeshEvent.RemoveNodeWithId id ∈
        RemeshWithLists env commit levels_to_update_ascending decisions →
      env.LevelOfNode id ≠ 1) := by
  refine ⟨?_, ?_, ?_⟩
  · intro id h
    simp [RemeshWithLists, UpdateTopology, LocalToGlobalData, cutRefinementList] at h
    obtain ⟨l, ⟨a, b, _, rfl⟩, hm⟩ := h
    simp at hm
    simp only [ne_eq, List.getLastD_eq_getLast?]
    exact ⟨hm.2.2.1, hm.2.2.2⟩
  · intro parent_id h
    simp [RemeshWithLists, UpdateTopology, LocalToGlobalData, cutRefinementList] at h
    rcases h with ⟨l, ⟨a, b, _, rfl⟩, hm⟩ | h
    · simp at hm
    · exact h.2
  · intro id h
    simp [RemeshWithLists, UpdateTopology, LocalToGlobalData, cutRefinementList] at h
    rcases h with ⟨l, ⟨a, b, _, rfl⟩, hm⟩ | h
    · simp at hm
    · exact h.2

/-- C7: in `Remesh`, for every content of the refine and coarsen lists the ranks
determined, every node passed to `RefineNode` is a leaf that is not on the maximum level
`all_levels_.back()`, no parent passed to `TopologyManager::CoarseNodeWithId` is on level 0,
and no node removed from the tree is on level 1; the same holds for every run of `Remesh`
that gets past the remeshing decision. -/
theorem C7_remesh_level_guards (env : RemeshEnv) (commit : RemeshCommit)
    (levels_to_update_ascending : List Nat) :
    (∀ decisions : List (List nid_t × List nid_t),
      (∀ id, RemeshEvent.RefineNode id ∈
          RemeshWithLists env commit levels_to_update_ascending decisions →
        env.topology_.NodeIsLeaf id = true ∧
          env.LevelOfNode id ≠ env.all_levels_.getLastD 0) ∧
      (∀ parent_id, RemeshEvent.CoarseNodeWithId parent_id ∈
          RemeshWithLists env commit levels_to_update_ascending decisions →
        env.LevelOfNode parent_id ≠ 0) ∧
      (∀ id, RemeshEvent.RemoveNodeWithId id ∈
          RemeshWithLists env commit levels_to_update_ascending decisions →
        env.LevelOfNode id ≠ 1)) ∧
    (∀ (number_of_ranks : Nat) (trace : List RemeshEvent),
      Remesh env commit number_of_ranks levels_to_update_ascending = Except.ok trace →
      (∀ id, RemeshEvent.RefineNode id ∈ trace →
        env.topology_.NodeIsLeaf id = true ∧
          env.LevelOfNode id ≠ env.all_levels_.getLastD 0) ∧
      (∀ parent_id, RemeshEvent.CoarseNodeWithId parent_id ∈ trace →
        env.LevelOfNode parent_id ≠ 0) ∧
      (∀ id, RemeshEvent.RemoveNodeWithId id ∈ trace → env.LevelOfNode id ≠ 1)) := by
  refine ⟨fun decisions =>
    RemeshWithLists_guards env commit levels_to_update_ascending decisions, ?_⟩
  intro number_of_ranks trace hrun
  unfold Remesh at hrun
  simp only [bind, Except.bind, pure, Except.pure] at hrun
  split at hrun
  · exact Except.noConfusion hrun
  · injection hrun with h
    rw [← h]
    exact RemeshWithLists_guards env commit levels_to_update_ascending _

/-! ### Load balancing -/

theorem mem_CreateNode (tree : Tree) (id x : nid_t) :
    x ∈ (tree.CreateNode id).ids ↔ x = id ∨ x ∈ tree.ids := by
  unfold Tree.CreateNode
  by_cases h : id ∈ tree.ids
  · simp only [h, if_true]
    constructor
    · exact Or.inr
    · rintro (rfl | h')
      · exact h
      · exact h'
  · simp only [h, if_false, List.mem_cons]

theorem mem_RemoveNodeWithId (tree : Tree) (id x : nid_t) :
    x ∈ (tree.RemoveNodeWithId id).ids ↔ x ∈ tree.ids ∧ x ≠ id := by
  unfold Tree.RemoveNodeWithId
  simp [List.mem_filter]

theorem postMove_ids (env : BalanceEnv) (lv : List Nat) (state : BalanceState)
    (move : nid_t × Int × Int) (x : nid_t) :
    x ∈ (postMove env lv state move).tree_.ids ↔
      x ∈ state.tree_.ids ∨
        (move.1 = x ∧ move.2.1 ≠ env.my_rank_id ∧ move.2.2 = env.my_rank_id) := by
  unfold postMove
  simp only []
  by_cases hc : move.2.1 = env.my_rank_id
  · simp [hc]
  · by_cases hf : move.2.2 = env.my_rank_id
    · simp only [hc, hf, if_false, if_true]
      have : ∀ t : Tree, (t.SetInterfaceBlock move.1).ids = t.ids := fun _ => rfl
      split_ifs
      · rw [this, mem_CreateNode]
        constructor
        · rintro (h | h)
          · exact Or.inr ⟨h.symm, hc, trivial⟩
          · exact Or.inl h
        · rintro (h | ⟨h, _⟩)
          · exact Or.inr h
          · exact Or.inl h.symm
      · rw [mem_CreateNode]
        constructor
        · rintro (h | h)
          · exact Or.inr ⟨h.symm, hc, trivial⟩
          · exact Or.inl h
        · rintro (h | ⟨h, _⟩)
          · exact Or.inr h
          · exact Or.inl h.symm
    · simp [hc, hf]

theorem foldl_postMove_ids (env : BalanceEnv) (lv : List Nat) (moves : List (nid_t × Int × Int))
    (state : BalanceState) (x : nid_t) :
    x ∈ (moves.foldl (postMove env lv) state).tree_.ids ↔
      x ∈ state.tree_.ids ∨
        ∃ move ∈ moves, move.1 = x ∧ move.2.1 ≠ env.my_rank_id ∧ move.2.2 = env.my_rank_id := by
  induction moves generalizing state with
  | nil => simp
  | cons m ms ih =>
    rw [List.foldl_cons, ih, postMove_ids]
    simp only [List.mem_cons, exists_eq_or_imp]
    tauto

theorem foldl_removeMoved_ids (env : BalanceEnv) (moves : List (nid_t × Int × Int))
    (state : BalanceState) (x : nid_t) :
    x ∈ (moves.foldl (removeMoved env) state).tree_.ids ↔
      x ∈ state.tree_.ids ∧ ∀ move ∈ moves, move.2.1 = env.my_rank_id → move.1 ≠ x := by
  induction moves generalizing state with
  | nil => simp
  | cons m ms ih =>
    rw [List.foldl_cons, ih]
    unfold removeMoved
    by_cases hc : m.2.1 = env.my_rank_id
    · simp only [hc, if_true, mem_RemoveNodeWithId, List.mem_cons, forall_eq_or_imp]
      constructor
      · rintro ⟨⟨h1, h2⟩, h3⟩
        exact ⟨h1, fun _ => fun h => h2 h.symm, h3⟩
      · rintro ⟨h1, h2, h3⟩
        exact ⟨⟨h1, fun h => h2 trivial h.symm⟩, h3⟩
    · simp only [hc, if_false, List.mem_cons, forall_eq_or_imp]
      constructor
      · rintro ⟨h1, h3⟩
        exact ⟨h1, fun h => h.elim, h3⟩
      · rintro ⟨h1, _, h3⟩
        exact ⟨h1, h3⟩

theorem foldl_recomputePrimeStates_tree (env : BalanceEnv) (ids : List nid_t)
    (state : BalanceState) :
    (ids.foldl (recomputePrimeStates env) state).tree_ = state.tree_ := by
  induction ids generalizing state with
  | nil => rfl
  | cons a l ih =>
    rw [List.foldl_cons, ih]
    unfold recomputePrimeStates
    split_ifs <;> rfl

/-- The nodes a rank holds after `LoadBalancing`: those it held or received, except those
it gave away. -/
theorem LoadBalancing_ids (env : BalanceEnv) (lv : List Nat) (force : Bool) (tree_ : Tree)
    (hrun : (env.IsLoadBalancingNecessary || force) = true) (x : nid_t) :
    x ∈ (LoadBalancing env lv force tree_).tree_.ids ↔
      (x ∈ tree_.ids ∨ ∃ move ∈ env.ids_rank_map,
          move.1 = x ∧ move.2.1 ≠ env.my_rank_id ∧ move.2.2 = env.my_rank_id) ∧
        ∀ move ∈ env.ids_rank_map, move.2.1 = env.my_rank_id → move.1 ≠ x := by
  unfold LoadBalancing
  rw [if_pos hrun]
  simp only []
  rw [foldl_recomputePrimeStates_tree, foldl_removeMoved_ids]
  simp only []
  rw [foldl_postMove_ids]

/-- C8: let the move list have pairwise distinct ids, current rank different from future
rank and future ranks inside the communicator, and let every listed id be held before the
call by its current rank and by no other rank.  After every rank executed `LoadBalancing`
(with the branch taken), each listed id is held by exactly its future rank, every id that
is not listed is held by the same ranks as before, and the set of ids held by some rank is
unchanged. -/
theorem C8_load_balancing_preserves_ownership (env : BalanceEnv)
    (updated_levels_descending : List Nat) (force : Bool) (number_of_ranks : Nat)
    (trees : Int → Tree)
    (hrun : (env.IsLoadBalancingNecessary || force) = true)
    (hdistinct : (env.ids_rank_map.map (fun move => move.1)).Nodup)
    (hdiff : ∀ move ∈ env.ids_rank_map, move.2.1 ≠ move.2.2)
    (hfuture : ∀ move ∈ env.ids_rank_map, move.2.2 ∈ ranksOf number_of_ranks)
    (hheld : ∀ move ∈ env.ids_rank_map, move.2.1 ∈ ranksOf number_of_ranks ∧
      ∀ rank ∈ ranksOf number_of_ranks, (move.1 ∈ (trees rank).ids ↔ rank = move.2.1)) :
    (∀ move ∈ env.ids_rank_map, ∀ rank ∈ ranksOf number_of_ranks,
      (move.1 ∈ (treeAfterBalancing env updated_levels_descending force trees rank).ids ↔
        rank = move.2.2)) ∧
    (∀ id, id ∉ env.ids_rank_map.map (fun move => move.1) → ∀ rank,
      (id ∈ (treeAfterBalancing env updated_levels_descending force trees rank).ids ↔
        id ∈ (trees rank).ids)) ∧
    (∀ id, (∃ rank ∈ ranksOf number_of_ranks,
        id ∈ (treeAfterBalancing env updated_levels_descending force trees rank).ids) ↔
      (∃ rank ∈ ranksOf number_of_ranks, id ∈ (trees rank).ids)) := by
  have hmem : ∀ rank x,
      x ∈ (treeAfterBalancing env updated_levels_descending force trees rank).ids ↔
        (x ∈ (trees rank).ids ∨ ∃ move ∈ env.ids_rank_map,
            move.1 = x ∧ move.2.1 ≠ rank ∧ move.2.2 = rank) ∧
          ∀ move ∈ env.ids_rank_map, move.2.1 = rank → move.1 ≠ x := by
    intro rank x
    unfold treeAfterBalancing
    exact LoadBalancing_ids { env with my_rank_id := rank } updated_levels_descending
      force (trees rank) hrun x
  have huniq : ∀ m1 ∈ env.ids_rank_map, ∀ m2 ∈ env.ids_rank_map, m1.1 = m2.1 → m1 = m2 :=
    fun m1 h1 m2 h2 he => List.inj_on_of_nodup_map hdistinct h1 h2 he
  have hlisted : ∀ move ∈ env.ids_rank_map, ∀ rank ∈ ranksOf number_of_ranks,
      (move.1 ∈ (treeAfterBalancing env updated_levels_descending force trees rank).ids ↔
        rank = move.2.2) := by
    intro move hmove rank hrank
    rw [hmem]
    constructor
    · rintro ⟨h | ⟨m, hm, he, _, hf⟩, hgive⟩
      · have hcur := ((hheld move hmove).2 rank hrank).mp h
        exact absurd rfl (hgive move hmove hcur.symm)
      · rw [huniq m hm move hmove he] at hf
        exact hf.symm
    · intro hr
      refine ⟨Or.inr ⟨move, hmove, rfl, ?_, hr.symm⟩, ?_⟩
      · rw [hr]
        exact hdiff move hmove
      · intro m hm hcur he
        rw [huniq m hm move hmove he, hr] at hcur
        exact hdiff move hmove hcur
  have hother : ∀ id, id ∉ env.ids_rank_map.map (fun move => move.1) → ∀ rank,
      (id ∈ (treeAfterBalancing env updated_levels_descending force trees rank).ids ↔
        id ∈ (trees rank).ids) := by
    intro id hid rank
    rw [hmem]
    have hno : ∀ move ∈ env.ids_rank_map, move.1 ≠ id := by
      intro move hmove he
      exact hid (List.mem_map.mpr ⟨move, hmove, he⟩)
    constructor
    · rintro ⟨h | ⟨m, hm, he, _⟩, _⟩
      · exact h
      · exact absurd he (hno m hm)
    · intro h
      exact ⟨Or.inl h, fun m hm _ => hno m hm⟩
  refine ⟨hlisted, hother, ?_⟩
  intro id
  by_cases hid : id ∈ env.ids_rank_map.map (fun move => move.1)
  · obtain ⟨move, hmove, he⟩ := List.mem_map.mp hid
    subst he
    constructor
    · intro _
      exact ⟨move.2.1, (hheld move hmove).1,
        ((hheld move hmove).2 _ (hheld move hmove).1).mpr rfl⟩
    · intro _
      exact ⟨move.2.2, hfuture move hmove,
        (hlisted move hmove _ (hfuture move hmove)).mpr rfl⟩
  · constructor
    · rintro ⟨rank, hrank, h⟩
      exact ⟨rank, hrank, (hother id hid rank).mp h⟩
    · rintro ⟨rank, hrank, h⟩
      exact ⟨rank, hrank, (hother id hid rank).mpr h⟩

/-- Instance of C8: on two ranks, node 5 moves from rank 0 to rank 1; afterwards rank 1
holds it and rank 0 does not. -/
theorem C8_load_balancing_preserves_ownership_witness :
    ((exampleBalanceEnv.IsLoadBalancingNecessary || false) = true ∧
      (exampleBalanceEnv.ids_rank_map.map (fun move => move.1)).Nodup ∧
      (∀ move ∈ exampleBalanceEnv.ids_rank_map, move.2.1 ≠ move.2.2) ∧
      (∀ move ∈ exampleBalanceEnv.ids_rank_map, move.2.2 ∈ ranksOf 2) ∧
      (∀ move ∈ exampleBalanceEnv.ids_rank_map, move.2.1 ∈ ranksOf 2 ∧
        ∀ rank ∈ ranksOf 2, (move.1 ∈ (exampleTrees rank).ids ↔ rank = move.2.1))) ∧
    (5 ∈ (treeAfterBalancing exampleBalanceEnv [2] false exampleTrees 1).ids ↔
      (1 : Int) = 1) ∧
    (5 ∈ (treeAfterBalancing exampleBalanceEnv [2] false exampleTrees 0).ids ↔
      (0 : Int) = 1) :=
  ⟨⟨by decide, by decide, by decide, by decide, by decide⟩,
    (C8_load_balancing_preserves_ownership exampleBalanceEnv [2] false 2 exampleTrees
      (by decide) (by decide) (by decide) (by decide) (by decide)).1 (5, 0, 1)
      (by decide) 1 (by decide),
    (C8_load_balancing_preserves_ownership exampleBalanceEnv [2] false 2 exampleTrees
      (by decide) (by decide) (by decide) (by decide) (by decide)).1 (5, 0, 1)
      (by decide) 0 (by decide)⟩

theorem postMove_events_mono (env : BalanceEnv) (lv : List Nat) (state : BalanceState)
    (move : nid_t × Int × Int) (e : BalanceEvent) (h : e ∈ state.events) :
    e ∈ (postMove env lv state move).events := by
  unfold postMove
  simp only []
  split_ifs <;> simp [h]

theorem foldl_postMove_events_mono (env : BalanceEnv) (lv : List Nat)
    (moves : List (nid_t × Int × Int)) (state : BalanceState) (e : BalanceEvent)
    (h : e ∈ state.events) : e ∈ (moves.foldl (postMove env lv) state).events := by
  induction moves generalizing state with
  | nil => exact h
  | cons m ms ih => exact ih _ (postMove_events_mono env lv state m e h)

/-- Every send posted in the loop over the moves belongs to a move whose current rank is
the executing rank and goes to the future rank of that move. -/
theorem foldl_postMove_send_sound (env : BalanceEnv) (lv : List Nat)
    (moves : List (nid_t × Int × Int)) (state : BalanceState) (t : Transfer) (d : Int)
    (h : BalanceEvent.Send t d ∈ (moves.foldl (postMove env lv) state).events) :
    BalanceEvent.Send t d ∈ state.events ∨
      ∃ move ∈ moves, move.2.1 = env.my_rank_id ∧ move.2.2 = d ∧
        ∃ tree, t ∈ sentTransfers env tree lv move.1 := by
  induction moves generalizing state with
  | nil => exact Or.inl h
  | cons m ms ih =>
    rcases ih _ h with h' | ⟨mv, hmv, h1, h2, h3⟩
    · unfold postMove at h'
      simp only [] at h'
      by_cases hc : m.2.1 = env.my_rank_id
      · rw [if_pos hc] at h'
        simp only [List.mem_append, List.mem_map] at h'
        rcases h' with h' | ⟨t', ht', he⟩
        · exact Or.inl h'
        · injection he with he1 he2
          subst he1
          exact Or.inr ⟨m, List.mem_cons_self m ms, hc, he2, state.tree_, ht'⟩
      · rw [if_neg hc] at h'
        by_cases hf : m.2.2 = env.my_rank_id
        · rw [if_pos hf] at h'
          simp only [List.mem_append, List.mem_singleton] at h'
          rcases h' with (h' | h') | h'
          · exact Or.inl h'
          · exact BalanceEvent.noConfusion h'
          · exfalso
            unfold receiveOperations at h'
            simp only [List.mem_append, List.mem_map] at h'
            rcases h' with ⟨_, _, he⟩ | h'
            · exact BalanceEvent.noConfusion he
            · split_ifs at h' <;> simp at h'
        · rw [if_neg hf] at h'
          exact Or.inl h'
    · exact Or.inr ⟨mv, List.mem_cons_of_mem m hmv, h1, h2, h3⟩

/-- Every per-material buffer of a move whose current rank is the executing rank is sent
to the future rank. -/
theorem foldl_postMove_send_complete (env : BalanceEnv) (lv : List Nat)
    (moves : List (nid_t × Int × Int)) (state : BalanceState) (move : nid_t × Int × Int)
    (hmove : move ∈ moves) (hc : move.2.1 = env.my_rank_id) (material : MaterialName)
    (hmat : material ∈ env.topology_.GetMaterialsOfNode move.1) (t : Transfer)
    (ht : t ∈ materialTransfers env move.1 (nodeNotUpdated env lv move.1) material) :
    BalanceEvent.Send t move.2.2 ∈ (moves.foldl (postMove env lv) state).events := by
  induction moves generalizing state with
  | nil => exact absurd hmove (List.not_mem_nil move)
  | cons m ms ih =>
    rcases List.mem_cons.mp hmove with rfl | hin
    · rw [List.foldl_cons]
      apply foldl_postMove_events_mono
      unfold postMove
      simp only []
      rw [if_pos hc]
      simp only [List.mem_append, List.mem_map]
      refine Or.inr ⟨t, ?_, rfl⟩
      unfold sentTransfers
      simp only [List.mem_append, List.mem_flatMap]
      exact Or.inl ⟨material, hmat, ht⟩
    · exact ih _ hin

theorem foldl_removeMoved_send (env : BalanceEnv) (moves : List (nid_t × Int × Int))
    (state : BalanceState) (t : Transfer) (d : Int) :
    BalanceEvent.Send t d ∈ (moves.foldl (removeMoved env) state).events ↔
      BalanceEvent.Send t d ∈ state.events := by
  induction moves generalizing state with
  | nil => rfl
  | cons m ms ih =>
    rw [List.foldl_cons, ih]
    unfold removeMoved
    split_ifs <;> simp

theorem foldl_recomputePrimeStates_send (env : BalanceEnv) (ids : List nid_t)
    (state : BalanceState) (t : Transfer) (d : Int) :
    BalanceEvent.Send t d ∈ (ids.foldl (recomputePrimeStates env) state).events ↔
      BalanceEvent.Send t d ∈ state.events := by
  induction ids generalizing state with
  | nil => rfl
  | cons a l ih =>
    rw [List.foldl_cons, ih]
    unfold recomputePrimeStates
    split_ifs <;> simp

/-- The sends of `LoadBalancing` are the sends of the loop over the moves. -/
theorem LoadBalancing_send_iff (env : BalanceEnv) (lv : List Nat) (force : Bool) (tree_ : Tree)
    (hrun : (env.IsLoadBalancingNecessary || force) = true) (t : Transfer) (d : Int) :
    BalanceEvent.Send t d ∈ (LoadBalancing env lv force tree_).events ↔
      BalanceEvent.Send t d ∈ (env.ids_rank_map.foldl (postMove env lv)
        { tree_ := tree_, events := [BalanceEvent.InvalidateCache],
          received_nodes_not_updated := [] }).events := by
  unfold LoadBalancing
  rw [if_pos hrun]
  simp only [List.mem_append, List.mem_singleton]
  rw [foldl_recomputePrimeStates_send, foldl_removeMoved_send]
  simp

theorem sentTransfers_average (env : BalanceEnv) (tree : Tree) (lv : List Nat) (id : nid_t)
    (material : MaterialName) (count : Nat) (datatype : MpiDatatype) (id' : nid_t)
    (h : (⟨id', BufferKind.AverageBuffer material, count, datatype⟩ : Transfer)
      ∈ sentTransfers env tree lv id) :
    nodeNotUpdated env lv id = true ∧ id' = id := by
  unfold sentTransfers materialTransfers at h
  simp only [List.mem_append, List.mem_flatMap] at h
  rcases h with ⟨m, _, hm⟩ | h
  · by_cases hn : nodeNotUpdated env lv id = true
    · refine ⟨hn, ?_⟩
      simp [hn] at hm
      exact hm.1
    · simp [hn] at hm
  · split_ifs at h <;> simp at h

theorem sentTransfers_initial (env : BalanceEnv) (tree : Tree) (lv : List Nat) (id : nid_t)
    (material : MaterialName) (count : Nat) (datatype : MpiDatatype) (id' : nid_t)
    (h : (⟨id', BufferKind.InitialBuffer material, count, datatype⟩ : Transfer)
      ∈ sentTransfers env tree lv id) :
    nodeNotUpdated env lv id = true ∧ id' = id := by
  unfold sentTransfers materialTransfers at h
  simp only [List.mem_append, List.mem_flatMap] at h
  rcases h with ⟨m, _, hm⟩ | h
  · by_cases hn : nodeNotUpdated env lv id = true
    · refine ⟨hn, ?_⟩
      simp [hn] at hm
      exact hm.1
    · simp [hn] at hm
  · split_ifs at h <;> simp at h

/-- C9: in `LoadBalancing` (with the branch taken), for every move whose current rank is
the executing rank and every material of the moved node, the right-hand-side buffer, the
jump-flux buffer and the jump-conservative buffer are sent to the future rank whatever the
flag is, and the average buffer and the initial buffer are sent if and only if
`node_not_updated` holds (no send of either buffer of that node is posted otherwise);
`node_not_updated` holds exactly when the level of the node is not in the list of updated
levels. -/
theorem C9_sent_buffers_follow_flag (env : BalanceEnv) (updated_levels_descending : List Nat)
    (force : Bool) (tree_ : Tree)
    (hrun : (env.IsLoadBalancingNecessary || force) = true)
    (move : nid_t × Int × Int) (hmove : move ∈ env.ids_rank_map)
    (hcurrent : move.2.1 = env.my_rank_id)
    (material : MaterialName) (hmat : material ∈ env.topology_.GetMaterialsOfNode move.1) :
    BalanceEvent.Send ⟨move.1, BufferKind.RightHandSideBuffer material, env.sizes.ANOE,
        MpiDatatype.conservatives_datatype⟩ move.2.2
      ∈ (LoadBalancing env updated_levels_descending force tree_).events ∧
    BalanceEvent.Send ⟨move.1, BufferKind.BoundaryJumpFluxes material, env.sizes.SIDES,
        MpiDatatype.boundary_jump_datatype⟩ move.2.2
      ∈ (LoadBalancing env updated_levels_descending force tree_).events ∧
    BalanceEvent.Send ⟨move.1, BufferKind.BoundaryJumpConservatives material, env.sizes.SIDES,
        MpiDatatype.boundary_jump_datatype⟩ move.2.2
      ∈ (LoadBalancing env updated_levels_descending force tree_).events ∧
    (BalanceEvent.Send ⟨move.1, BufferKind.AverageBuffer material, env.sizes.ANOE,
        MpiDatatype.conservatives_datatype⟩ move.2.2
      ∈ (LoadBalancing env updated_levels_descending force tree_).events ↔
        nodeNotUpdated env updated_levels_descending move.1 = true) ∧
    (BalanceEvent.Send ⟨move.1, BufferKind.InitialBuffer material, env.sizes.ANOE,
        MpiDatatype.conservatives_datatype⟩ move.2.2
      ∈ (LoadBalancing env updated_levels_descending force tree_).events ↔
        nodeNotUpdated env updated_levels_descending move.1 = true) ∧
    (∀ count datatype destination,
      (BalanceEvent.Send ⟨move.1, BufferKind.AverageBuffer material, count, datatype⟩ destination
          ∈ (LoadBalancing env updated_levels_descending force tree_).events ∨
        BalanceEvent.Send ⟨move.1, BufferKind.InitialBuffer material, count, datatype⟩ destination
          ∈ (LoadBalancing env updated_levels_descending force tree_).events) →
      nodeNotUpdated env updated_levels_descending move.1 = true) ∧
    (nodeNotUpdated env updated_levels_descending move.1 = true ↔
      env.LevelOfNode move.1 ∉ updated_levels_descending) := by
  have hsound_avg : ∀ count datatype destination,
      BalanceEvent.Send ⟨move.1, BufferKind.AverageBuffer material, count, datatype⟩ destination
        ∈ (LoadBalancing env updated_levels_descending force tree_).events →
      nodeNotUpdated env updated_levels_descending move.1 = true := by
    intro count datatype destination h
    rw [LoadBalancing_send_iff env _ force tree_ hrun] at h
    rcases foldl_postMove_send_sound env _ _ _ _ _ h with h' | ⟨mv, _, _, _, tree, ht⟩
    · simp at h'
    · have := sentTransfers_average env tree _ mv.1 material count datatype move.1 ht
      rw [this.2]
      exact this.1
  have hsound_init : ∀ count datatype destination,
      BalanceEvent.Send ⟨move.1, BufferKind.InitialBuffer material, count, datatype⟩ destination
        ∈ (LoadBalancing env updated_levels_descending force tree_).events →
      nodeNotUpdated env updated_levels_descending move.1 = true := by
    intro count datatype destination h
    rw [LoadBalancing_send_iff env _ force tree_ hrun] at h
    rcases foldl_postMove_send_sound env _ _ _ _ _ h with h' | ⟨mv, _, _, _, tree, ht⟩
    · simp at h'
    · have := sentTransfers_initial env tree _ mv.1 material count datatype move.1 ht
      rw [this.2]
      exact this.1
  have hcomplete : ∀ t,
      t ∈ materialTransfers env move.1
        (nodeNotUpdated env updated_levels_descending move.1) material →
      BalanceEvent.Send t move.2.2
        ∈ (LoadBalancing env updated_levels_descending force tree_).events := by
    intro t ht
    rw [LoadBalancing_send_iff env _ force tree_ hrun]
    exact foldl_postMove_send_complete env _ _ _ move hmove hcurrent material hmat t ht
  refine ⟨?_, ?_, ?_, ⟨hsound_avg _ _ _, ?_⟩, ⟨hsound_init _ _ _, ?_⟩, ?_, ?_⟩
  · exact hcomplete _ (by simp [materialTransfers])
  · exact hcomplete _ (by simp [materialTransfers])
  · exact hcomplete _ (by simp [materialTransfers])
  · intro hn
    exact hcomplete _ (by simp [materialTransfers, hn])
  · intro hn
    exact hcomplete _ (by simp [materialTransfers, hn])
  · rintro count datatype destination (h | h)
    · exact hsound_avg _ _ _ h
    · exact hsound_init _ _ _ h
  · unfold nodeNotUpdated
    simp

/-- Instance of C9 on the example: level 2 was updated, so for node 5 the average buffer
is not sent while the right-hand-side buffer is. -/
theorem C9_sent_buffers_follow_flag_witness :
    ((exampleBalanceEnv.IsLoadBalancingNecessary || false) = true ∧
      ((5, 0, 1) : nid_t × Int × Int) ∈ exampleBalanceEnv.ids_rank_map ∧
      (0 : Int) = exampleBalanceEnv.my_rank_id ∧
      (0 : MaterialName) ∈ exampleBalanceEnv.topology_.GetMaterialsOfNode 5) ∧
    (BalanceEvent.Send ⟨5, BufferKind.AverageBuffer 0, exampleBalanceEnv.sizes.ANOE,
        MpiDatatype.conservatives_datatype⟩ 1
      ∈ (LoadBalancing exampleBalanceEnv [2] false (exampleTrees 0)).events ↔
        nodeNotUpdated exampleBalanceEnv [2] 5 = true) ∧
    nodeNotUpdated exampleBalanceEnv [2] 5 = false :=
  ⟨⟨by decide, by decide, by decide, by decide⟩,
    (C9_sent_buffers_follow_flag exampleBalanceEnv [2] false (exampleTrees 0) (by decide)
      (5, 0, 1) (by decide) (by decide) 0 (by decide)).2.2.2.1,
    by decide⟩

theorem sendsOf_append (a b : List BalanceEvent) : sendsOf (a ++ b) = sendsOf a ++ sendsOf b := by
  unfold sendsOf
  exact List.filterMap_append _ _ _

theorem recvsOf_append (a b : List BalanceEvent) : recvsOf (a ++ b) = recvsOf a ++ recvsOf b := by
  unfold recvsOf
  exact List.filterMap_append _ _ _

theorem sendsOf_map_Send (ts : List Transfer) (d : Int) :
    sendsOf (ts.map (fun transfer => BalanceEvent.Send transfer d)) = ts := by
  unfold sendsOf
  induction ts with
  | nil => rfl
  | cons t ts ih => simpa [List.filterMap_cons] using ih

theorem recvsOf_map_Send (ts : List Transfer) (d : Int) :
    recvsOf (ts.map (fun transfer => BalanceEvent.Send transfer d)) = [] := by
  unfold recvsOf
  simp

theorem recvsOf_map_Recv (ts : List Transfer) (d : Int) :
    recvsOf (ts.map (fun transfer => BalanceEvent.Recv transfer d)) = ts := by
  unfold recvsOf
  induction ts with
  | nil => rfl
  | cons t ts ih => simpa [List.filterMap_cons] using ih

theorem sendsOf_map_Recv (ts : List Transfer) (d : Int) :
    sendsOf (ts.map (fun transfer => BalanceEvent.Recv transfer d)) = [] := by
  unfold sendsOf
  simp

/-- The buffers the future owner posts receives for in one move, in program order. -/
theorem recvsOf_receiveOperations (env : BalanceEnv) (lv : List Nat) (id : nid_t) (c : Int) :
    recvsOf (receiveOperations env lv id c) =
      (env.topology_.GetMaterialsOfNode id).flatMap
        (materialTransfers env id (nodeNotUpdated env lv id)) ++
      (if env.topology_.IsNodeMultiPhase id then
        [⟨id, BufferKind.InterfaceTagsReinitialized, env.sizes.FullBlockSendingSize,
            MpiDatatype.MPI_INT8_T⟩] ++
        (if env.LevelOfNode id == env.all_levels_.getLastD 0 then
          (env.topology_.GetMaterialsOfNode id).map (fun material =>
            (⟨id, BufferKind.PrimeStateBuffer material, env.sizes.ANOP,
              MpiDatatype.conservatives_datatype⟩ : Transfer)) ++
          [⟨id, BufferKind.LevelsetReinitialized, env.sizes.FullBlockSendingSize,
              MpiDatatype.MPI_DOUBLE⟩,
           ⟨id, BufferKind.VolumeFractionReinitialized, env.sizes.FullBlockSendingSize,
              MpiDatatype.MPI_DOUBLE⟩,
           ⟨id, BufferKind.InterfaceVelocity, env.sizes.FullBlockSendingSize,
              MpiDatatype.MPI_DOUBLE⟩]
        else [])
      else []) := by
  unfold receiveOperations
  simp only []
  rw [recvsOf_append, recvsOf_map_Recv]
  congr 1
  by_cases hm : env.topology_.IsNodeMultiPhase id = true
  · rw [if_pos hm, if_pos hm, recvsOf_append]
    by_cases hl : (env.LevelOfNode id == env.all_levels_.getLastD 0) = true
    · rw [if_pos hl, if_pos hl, recvsOf_append]
      have h := recvsOf_map_Recv ((env.topology_.GetMaterialsOfNode id).map (fun material =>
            (⟨id, BufferKind.PrimeStateBuffer material, env.sizes.ANOP,
              MpiDatatype.conservatives_datatype⟩ : Transfer))) c
      rw [List.map_map] at h
      rw [show ((env.topology_.GetMaterialsOfNode id).map (fun material =>
        BalanceEvent.Recv ⟨id, BufferKind.PrimeStateBuffer material, env.sizes.ANOP,
          MpiDatatype.conservatives_datatype⟩ c)) = (env.topology_.GetMaterialsOfNode id).map
          ((fun transfer => BalanceEvent.Recv transfer c) ∘ (fun material =>
            (⟨id, BufferKind.PrimeStateBuffer material, env.sizes.ANOP,
              MpiDatatype.conservatives_datatype⟩ : Transfer))) from rfl, h]
      rfl
    · rw [if_neg hl, if_neg hl]
      rfl
  · rw [if_neg hm, if_neg hm]
    rfl

/-- The receives of one move match its sends when the level-set block of a multi-material
node is present exactly on the maximum level. -/
theorem recvs_match_sends (env : BalanceEnv) (lv : List Nat) (id : nid_t) (c : Int)
    (tree : Tree)
    (hinv : env.topology_.IsNodeMultiPhase id = true →
      tree.HasLevelset id = (env.LevelOfNode id == env.all_levels_.getLastD 0)) :
    recvsOf (receiveOperations env lv id c) = sentTransfers env tree lv id := by
  rw [recvsOf_receiveOperations]
  unfold sentTransfers
  simp only []
  by_cases hm : env.topology_.IsNodeMultiPhase id = true
  · rw [if_pos hm, if_pos hm, hinv hm]
  · rw [if_neg hm, if_neg hm]

theorem sendsOf_receiveOperations (env : BalanceEnv) (lv : List Nat) (id : nid_t) (c : Int) :
    sendsOf (receiveOperations env lv id c) = [] := by
  unfold receiveOperations sendsOf
  simp only []
  rw [List.filterMap_eq_nil_iff]
  intro e he
  simp only [List.mem_append, List.mem_map] at he
  rcases he with ⟨t, _, rfl⟩ | he
  · rfl
  · split_ifs at he
    · simp only [List.mem_append, List.mem_map, List.mem_cons, List.mem_singleton,
        List.not_mem_nil, or_false] at he
      rcases he with rfl | ⟨t, _, rfl⟩ | rfl | rfl | rfl | rfl <;> rfl
    · simp only [List.mem_append, List.mem_singleton, List.not_mem_nil, or_false] at he
      rw [he]
    · simp only [List.mem_singleton] at he
      rw [he]

theorem sentTransfers_id (env : BalanceEnv) (tree : Tree) (lv : List Nat) (id : nid_t)
    (t : Transfer) (h : t ∈ sentTransfers env tree lv id) : t.id = id := by
  unfold sentTransfers materialTransfers at h
  simp only [List.mem_append, List.mem_flatMap] at h
  rcases h with ⟨m, _, hm⟩ | h
  · split_ifs at hm
    · simp only [List.mem_append, List.mem_cons, List.mem_singleton, List.not_mem_nil,
        or_false] at hm
      rcases hm with (rfl | rfl | rfl) | rfl | rfl <;> rfl
    · simp only [List.mem_append, List.mem_cons, List.mem_singleton, List.not_mem_nil,
        or_false] at hm
      rcases hm with rfl | rfl | rfl <;> rfl
  · split_ifs at h
    · simp only [List.mem_append, List.mem_map, List.mem_cons, List.mem_singleton,
        List.not_mem_nil, or_false] at h
      rcases h with rfl | ⟨m, _, rfl⟩ | rfl | rfl | rfl <;> rfl
    · simp only [List.mem_append, List.mem_singleton, List.not_mem_nil, or_false] at h
      rw [h]
    · simp only [List.not_mem_nil] at h

theorem sentTransfers_congr (env : BalanceEnv) (tree tree' : Tree) (lv : List Nat) (id : nid_t)
    (h : tree.HasLevelset id = tree'.HasLevelset id) :
    sentTransfers env tree lv id = sentTransfers env tree' lv id := by
  unfold sentTransfers
  rw [h]

theorem filter_id_of_forall (id : nid_t) (ts : List Transfer) (h : ∀ t ∈ ts, t.id = id) :
    ts.filter (fun transfer => transfer.id == id) = ts := by
  rw [List.filter_eq_self]
  intro t ht
  simp [h t ht]

theorem filter_id_of_forall_ne (id id' : nid_t) (ts : List Transfer)
    (h : ∀ t ∈ ts, t.id = id') (hne : id' ≠ id) :
    ts.filter (fun transfer => transfer.id == id) = [] := by
  rw [List.filter_eq_nil_iff]
  intro t ht
  simp [h t ht, hne]

theorem recvs_id (env : BalanceEnv) (lv : List Nat) (id : nid_t) (c : Int) (t : Transfer)
    (h : t ∈ recvsOf (receiveOperations env lv id c)) : t.id = id := by
  have hs : ∀ b : Bool, recvsOf (receiveOperations env lv id c) =
      sentTransfers env { ids := [], HasLevelset := fun _ =>
        (env.LevelOfNode id == env.all_levels_.getLastD 0) } lv id :=
    fun _ => recvs_match_sends env lv id c _ (fun _ => rfl)
  rw [hs true] at h
  exact sentTransfers_id env _ lv id t h

theorem postMove_HasLevelset (env : BalanceEnv) (lv : List Nat) (state : BalanceState)
    (move : nid_t × Int × Int) (x : nid_t) (hx : move.1 ≠ x) :
    (postMove env lv state move).tree_.HasLevelset x = state.tree_.HasLevelset x := by
  have hx' : ¬ x = move.1 := fun h => hx h.symm
  unfold postMove Tree.SetInterfaceBlock Tree.CreateNode
  simp only []
  split_ifs <;> simp [hx']

/-- What one iteration of the loop over the moves adds to the sends and receives that
address node `id`. -/
theorem postMove_transfersFor (env : BalanceEnv) (lv : List Nat) (state : BalanceState)
    (move : nid_t × Int × Int) (id : nid_t) :
    sendsFor id (postMove env lv state move).events = sendsFor id state.events ++
      (if move.1 = id ∧ move.2.1 = env.my_rank_id then sentTransfers env state.tree_ lv id
        else []) ∧
    recvsFor id (postMove env lv state move).events = recvsFor id state.events ++
      (if move.1 = id ∧ move.2.1 ≠ env.my_rank_id ∧ move.2.2 = env.my_rank_id then
        recvsOf (receiveOperations env lv id move.2.1) else []) := by
  unfold postMove sendsFor recvsFor
  simp only []
  by_cases hc : move.2.1 = env.my_rank_id
  · rw [if_pos hc]
    simp only [sendsOf_append, recvsOf_append, sendsOf_map_Send, recvsOf_map_Send,
      List.filter_append, List.append_nil]
    constructor
    · by_cases hid : move.1 = id
      · rw [if_pos ⟨hid, hc⟩, hid,
          filter_id_of_forall id _ (fun t ht => sentTransfers_id env _ lv id t ht)]
      · rw [if_neg (fun h => hid h.1),
          filter_id_of_forall_ne id move.1 _
            (fun t ht => sentTransfers_id env _ lv move.1 t ht) hid]
    · rw [if_neg (fun h => h.2.1 hc), List.append_nil]
  · rw [if_neg hc]
    by_cases hf : move.2.2 = env.my_rank_id
    · rw [if_pos hf]
      have h1 : sendsOf [BalanceEvent.CreateNode move.1] = [] := rfl
      have h2 : recvsOf [BalanceEvent.CreateNode move.1] = [] := rfl
      simp only [sendsOf_append, recvsOf_append, List.filter_append, h1, h2,
        sendsOf_receiveOperations, List.filter_nil, List.append_nil]
      constructor
      · rw [if_neg (fun h => hc h.2), List.append_nil]
      · by_cases hid : move.1 = id
        · rw [if_pos ⟨hid, hc, hf⟩, hid,
            filter_id_of_forall id _ (fun t ht => recvs_id env lv id _ t ht)]
        · rw [if_neg (fun h => hid h.1),
            filter_id_of_forall_ne id move.1 _
              (fun t ht => recvs_id env lv move.1 _ t ht) hid]
    · rw [if_neg hf, if_neg (fun h => hc h.2), if_neg (fun h => hf h.2.2)]
      simp

theorem foldl_postMove_absent (env : BalanceEnv) (lv : List Nat)
    (moves : List (nid_t × Int × Int)) (state : BalanceState) (id : nid_t)
    (habs : ∀ m ∈ moves, m.1 ≠ id) :
    sendsFor id (moves.foldl (postMove env lv) state).events = sendsFor id state.events ∧
    recvsFor id (moves.foldl (postMove env lv) state).events = recvsFor id state.events := by
  induction moves generalizing state with
  | nil => exact ⟨rfl, rfl⟩
  | cons m ms ih =>
    have hm : m.1 ≠ id := habs m (List.mem_cons_self m ms)
    have h := ih (postMove env lv state m) (fun m' hm' => habs m' (List.mem_cons_of_mem m hm'))
    have hp := postMove_transfersFor env lv state m id
    rw [if_neg (fun h => hm h.1), List.append_nil] at hp
    rw [if_neg (fun h => hm h.1), List.append_nil] at hp
    rw [List.foldl_cons, h.1, h.2, hp.1, hp.2]
    exact ⟨rfl, rfl⟩

/-- With pairwise distinct ids in the move list, the sends and receives of the loop over
the moves that address the node of one move are those of its own iteration. -/
theorem foldl_postMove_transfersFor (env : BalanceEnv) (lv : List Nat)
    (moves : List (nid_t × Int × Int)) (state : BalanceState) (move : nid_t × Int × Int)
    (hmove : move ∈ moves) (hdistinct : (moves.map (fun m => m.1)).Nodup) :
    sendsFor move.1 (moves.foldl (postMove env lv) state).events =
      sendsFor move.1 state.events ++
        (if move.2.1 = env.my_rank_id then sentTransfers env state.tree_ lv move.1 else []) ∧
    recvsFor move.1 (moves.foldl (postMove env lv) state).events =
      recvsFor move.1 state.events ++
        (if move.2.1 ≠ env.my_rank_id ∧ move.2.2 = env.my_rank_id then
          recvsOf (receiveOperations env lv move.1 move.2.1) else []) := by
  induction moves generalizing state with
  | nil => exact absurd hmove (List.not_mem_nil move)
  | cons m ms ih =>
    rw [List.map_cons, List.nodup_cons] at hdistinct
    rw [List.foldl_cons]
    rcases List.mem_cons.mp hmove with rfl | hin
    · have habs : ∀ m' ∈ ms, m'.1 ≠ move.1 := by
        intro m' hm' he
        exact hdistinct.1 (List.mem_map.mpr ⟨m', hm', he⟩)
      have h := foldl_postMove_absent env lv ms (postMove env lv state move) move.1 habs
      have hp := postMove_transfersFor env lv state move move.1
      rw [h.1, h.2, hp.1, hp.2]
      simp
    · have hne : m.1 ≠ move.1 := by
        intro he
        exact hdistinct.1 (List.mem_map.mpr ⟨move, hin, he.symm⟩)
      have h := ih (postMove env lv state m) hin hdistinct.2
      have hp := postMove_transfersFor env lv state m move.1
      rw [if_neg (fun h => hne h.1), List.append_nil] at hp
      rw [if_neg (fun h => hne h.1), List.append_nil] at hp
      rw [h.1, h.2, hp.1, hp.2,
        sentTransfers_congr env _ state.tree_ lv move.1
          (postMove_HasLevelset env lv state m move.1 hne)]
      exact ⟨rfl, rfl⟩

theorem foldl_removeMoved_transfers (env : BalanceEnv) (moves : List (nid_t × Int × Int))
    (state : BalanceState) :
    sendsOf (moves.foldl (removeMoved env) state).events = sendsOf state.events ∧
    recvsOf (moves.foldl (removeMoved env) state).events = recvsOf state.events := by
  induction moves generalizing state with
  | nil => exact ⟨rfl, rfl⟩
  | cons m ms ih =>
    rw [List.foldl_cons, (ih _).1, (ih _).2]
    unfold removeMoved
    split_ifs
    · simp only [sendsOf_append, recvsOf_append]
      exact ⟨List.append_nil _, List.append_nil _⟩
    · exact ⟨rfl, rfl⟩

theorem foldl_recomputePrimeStates_transfers (env : BalanceEnv) (ids : List nid_t)
    (state : BalanceState) :
    sendsOf (ids.foldl (recomputePrimeStates env) state).events = sendsOf state.events ∧
    recvsOf (ids.foldl (recomputePrimeStates env) state).events = recvsOf state.events := by
  induction ids generalizing state with
  | nil => exact ⟨rfl, rfl⟩
  | cons a l ih =>
    rw [List.foldl_cons, (ih _).1, (ih _).2]
    unfold recomputePrimeStates
    split_ifs
    · simp only [sendsOf_append, recvsOf_append]
      exact ⟨List.append_nil _, List.append_nil _⟩
    · simp only [sendsOf_append, recvsOf_append]
      exact ⟨List.append_nil _, List.append_nil _⟩
    · exact ⟨rfl, rfl⟩

/-- The sends and receives of a whole `LoadBalancing` call that address the node of one
move of a duplicate-free move list. -/
theorem LoadBalancing_transfersFor (env : BalanceEnv) (lv : List Nat) (force : Bool)
    (tree_ : Tree) (hrun : (env.IsLoadBalancingNecessary || force) = true)
    (move : nid_t × Int × Int) (hmove : move ∈ env.ids_rank_map)
    (hdistinct : (env.ids_rank_map.map (fun m => m.1)).Nodup) :
    sendsFor move.1 (LoadBalancing env lv force tree_).events =
      (if move.2.1 = env.my_rank_id then sentTransfers env tree_ lv move.1 else []) ∧
    recvsFor move.1 (LoadBalancing env lv force tree_).events =
      (if move.2.1 ≠ env.my_rank_id ∧ move.2.2 = env.my_rank_id then
        recvsOf (receiveOperations env lv move.1 move.2.1) else []) := by
  have h := foldl_postMove_transfersFor env lv env.ids_rank_map
    { tree_ := tree_, events := [BalanceEvent.InvalidateCache],
      received_nodes_not_updated := [] } move hmove hdistinct
  unfold LoadBalancing
  rw [if_pos hrun]
  unfold sendsFor recvsFor at *
  simp only [sendsOf_append, recvsOf_append]
  rw [(foldl_recomputePrimeStates_transfers env _ _).1,
    (foldl_recomputePrimeStates_transfers env _ _).2,
    (foldl_removeMoved_transfers env _ _).1, (foldl_removeMoved_transfers env _ _).2]
  simp only [sendsOf_append, recvsOf_append]
  have e1 : sendsOf [BalanceEvent.Waitall] = [] := rfl
  have e2 : recvsOf [BalanceEvent.Waitall] = [] := rfl
  have e3 : sendsOf [BalanceEvent.LogMessage] = [] := rfl
  have e4 : recvsOf [BalanceEvent.LogMessage] = [] := rfl
  have e5 : sendsOf [BalanceEvent.InvalidateCache] = [] := rfl
  have e6 : recvsOf [BalanceEvent.InvalidateCache] = [] := rfl
  rw [e1, e2, e3, e4, List.append_nil, List.append_nil, List.append_nil, List.append_nil,
    h.1, h.2, e5, e6]
  exact ⟨rfl, rfl⟩

/-- C10: for every move whose current rank differs from its future rank, the buffers
(id, kind with material, element count, datatype) for which the future owner posts
receives in its loop iteration are, in the same order, the buffers the current owner sends
in its loop iteration; and for a move list with pairwise distinct ids the same holds for
the receives and sends addressing that node in the whole `LoadBalancing` calls of the two
ranks.  The current owner tests `node.HasLevelset()` where the future owner tests whether
the node is on the maximum level; the state is assumed to satisfy that a multi-material
node carries a level-set block exactly when it is on the maximum level. -/
theorem C10_receives_match_sends (env : BalanceEnv) (updated_levels_descending : List Nat)
    (force : Bool) (trees : Int → Tree) (move : nid_t × Int × Int)
    (hdiff : move.2.1 ≠ move.2.2)
    (hinv : env.topology_.IsNodeMultiPhase move.1 = true →
      (trees move.2.1).HasLevelset move.1 =
        (env.LevelOfNode move.1 == env.all_levels_.getLastD 0)) :
    (∀ received sent : List nid_t,
      (recvsOf (postMove { env with my_rank_id := move.2.2 } updated_levels_descending
          { tree_ := trees move.2.2, events := [], received_nodes_not_updated := received }
          move).events).map Transfer.shape =
      (sendsOf (postMove { env with my_rank_id := move.2.1 } updated_levels_descending
          { tree_ := trees move.2.1, events := [], received_nodes_not_updated := sent }
          move).events).map Transfer.shape) ∧
    ((env.IsLoadBalancingNecessary || force) = true → move ∈ env.ids_rank_map →
      (env.ids_rank_map.map (fun m => m.1)).Nodup →
      recvsFor move.1 (LoadBalancing { env with my_rank_id := move.2.2 }
          updated_levels_descending force (trees move.2.2)).events =
        sendsFor move.1 (LoadBalancing { env with my_rank_id := move.2.1 }
          updated_levels_descending force (trees move.2.1)).events ∧
      (recvsFor move.1 (LoadBalancing { env with my_rank_id := move.2.2 }
          updated_levels_descending force (trees move.2.2)).events).map Transfer.shape =
        (sendsFor move.1 (LoadBalancing { env with my_rank_id := move.2.1 }
          updated_levels_descending force (trees move.2.1)).events).map Transfer.shape) := by
  have hmatch : recvsOf (receiveOperations { env with my_rank_id := move.2.2 }
        updated_levels_descending move.1 move.2.1) =
      sentTransfers { env with my_rank_id := move.2.1 } (trees move.2.1)
        updated_levels_descending move.1 :=
    recvs_match_sends env updated_levels_descending move.1 move.2.1 (trees move.2.1) hinv
  constructor
  · intro received sent
    congr 1
    have hr : (postMove { env with my_rank_id := move.2.2 } updated_levels_descending
          { tree_ := trees move.2.2, events := [], received_nodes_not_updated := received }
          move).events = [BalanceEvent.CreateNode move.1] ++
            receiveOperations { env with my_rank_id := move.2.2 }
              updated_levels_descending move.1 move.2.1 := by
      simp [postMove, hdiff]
    have hs : (postMove { env with my_rank_id := move.2.1 } updated_levels_descending
          { tree_ := trees move.2.1, events := [], received_nodes_not_updated := sent }
          move).events =
        (sentTransfers { env with my_rank_id := move.2.1 } (trees move.2.1)
          updated_levels_descending move.1).map
            (fun transfer => BalanceEvent.Send transfer move.2.2) := by
      simp [postMove]
    rw [hr, hs, recvsOf_append, sendsOf_map_Send, hmatch]
    rfl
  · intro hrun hmove hdistinct
    have hf := (LoadBalancing_transfersFor { env with my_rank_id := move.2.2 }
      updated_levels_descending force (trees move.2.2) hrun move hmove hdistinct).2
    have hc := (LoadBalancing_transfersFor { env with my_rank_id := move.2.1 }
      updated_levels_descending force (trees move.2.1) hrun move hmove hdistinct).1
    have hfe : recvsFor move.1 (LoadBalancing { env with my_rank_id := move.2.2 }
          updated_levels_descending force (trees move.2.2)).events =
        recvsOf (receiveOperations { env with my_rank_id := move.2.2 }
          updated_levels_descending move.1 move.2.1) := by
      rw [hf]
      exact if_pos ⟨hdiff, rfl⟩
    have hce : sendsFor move.1 (LoadBalancing { env with my_rank_id := move.2.1 }
          updated_levels_descending force (trees move.2.1)).events =
        sentTransfers { env with my_rank_id := move.2.1 } (trees move.2.1)
          updated_levels_descending move.1 := by
      rw [hc]
      exact if_pos rfl
    rw [hfe, hce, hmatch]
    exact ⟨rfl, rfl⟩

/-- Instance of C10: the two-material node 5 on the maximum level carries a level-set
block on its current rank 0; eleven buffers are sent and received in the same order. -/
theorem C10_receives_match_sends_witness :
    (((0 : Int) ≠ 1) ∧
      (exampleInterfaceBalanceEnv.topology_.IsNodeMultiPhase 5 = true →
        (exampleInterfaceTrees 0).HasLevelset 5 =
          (exampleInterfaceBalanceEnv.LevelOfNode 5 ==
            exampleInterfaceBalanceEnv.all_levels_.getLastD 0)) ∧
      (exampleInterfaceBalanceEnv.IsLoadBalancingNecessary || true) = true ∧
      ((5, 0, 1) : nid_t × Int × Int) ∈ exampleInterfaceBalanceEnv.ids_rank_map ∧
      (exampleInterfaceBalanceEnv.ids_rank_map.map (fun m => m.1)).Nodup) ∧
    recvsFor 5 (LoadBalancing { exampleInterfaceBalanceEnv with my_rank_id := 1 }
        [2] true (exampleInterfaceTrees 1)).events =
      sendsFor 5 (LoadBalancing { exampleInterfaceBalanceEnv with my_rank_id := 0 }
        [2] true (exampleInterfaceTrees 0)).events ∧
    (sendsFor 5 (LoadBalancing { exampleInterfaceBalanceEnv with my_rank_id := 0 }
        [2] true (exampleInterfaceTrees 0)).events).length = 12 :=
  ⟨⟨by decide, by decide, by decide, by decide, by decide⟩,
    ((C10_receives_match_sends exampleInterfaceBalanceEnv [2] true exampleInterfaceTrees
      (5, 0, 1) (by decide) (by decide)).2 (by decide) (by decide) (by decide)).1,
    by decide⟩

/-! ### Jump-flux adjustment -/

/-- Invariant rule for a loop whose body may throw. -/
theorem foldlM_invariant {σ α : Type} (P : σ → Prop) (f : σ → α → Except String σ)
    (l : List α) (s : σ) (hP : P s)
    (hstep : ∀ s x, x ∈ l → P s → ∃ s', f s x = Except.ok s' ∧ P s') :
    ∃ r, l.foldlM f s = Except.ok r ∧ P r := by
  induction l generalizing s with
  | nil => exact ⟨s, rfl, hP⟩
  | cons x xs ih =>
    obtain ⟨s', hs', hP'⟩ := hstep s x (List.mem_cons_self x xs) hP
    obtain ⟨r, hr, hPr⟩ := ih s' hP' (fun s y hy => hstep s y (List.mem_cons_of_mem x hy))
    refine ⟨r, ?_, hPr⟩
    rw [List.foldlM_cons, hs']
    exact hr

/-- Invariant rule for a loop that cannot throw. -/
theorem foldl_invariant {σ α : Type} (P : σ → Prop) (f : σ → α → σ)
    (l : List α) (s : σ) (hP : P s) (hstep : ∀ s x, x ∈ l → P s → P (f s x)) :
    P (l.foldl f s) := by
  induction l generalizing s with
  | nil => exact hP
  | cons x xs ih =>
    exact ih (f s x) (hstep s x (List.mem_cons_self x xs) hP)
      (fun s y hy => hstep s y (List.mem_cons_of_mem x hy))

theorem block_modifyBlock (tree : BlockTree) (id : nid_t) (material : MaterialName)
    (change : Block → Block) (n : nid_t) (m : MaterialName) :
    (tree.modifyBlock id material change).block n m =
      if n = id ∧ m = material then change (tree.block n m) else tree.block n m := by
  unfold BlockTree.modifyBlock BlockTree.block
  by_cases hn : n = id
  · by_cases hm : m = material
    · simp [hn, hm]
    · simp [hn, hm]
  · simp [hn]

theorem Frame_refl (tree : BlockTree) : Frame tree tree :=
  ⟨rfl, fun _ => ⟨rfl, rfl, fun _ => ⟨rfl, rfl, rfl, rfl, rfl⟩⟩⟩

theorem Frame_trans {a b c : BlockTree} (h1 : Frame a b) (h2 : Frame b c) : Frame a c := by
  refine ⟨h2.1.trans h1.1, fun id => ?_⟩
  obtain ⟨c1, m1, b1⟩ := h1.2 id
  obtain ⟨c2, m2, b2⟩ := h2.2 id
  refine ⟨c2.trans c1, m2.trans m1, fun material => ?_⟩
  obtain ⟨x1, x2, x3, x4, x5⟩ := b1 material
  obtain ⟨y1, y2, y3, y4, y5⟩ := b2 material
  exact ⟨y1.trans x1, y2.trans x2, y3.trans x3, y4.trans x4, y5.trans x5⟩

/-- Changing the right-hand side or the jump conservatives of one block respects the
frame. -/
theorem Frame_modifyBlock (tree : BlockTree) (id : nid_t) (material : MaterialName)
    (change : Block → Block)
    (h : (change (tree.block id material)).average_ = (tree.block id material).average_ ∧
      (change (tree.block id material)).initial_ = (tree.block id material).initial_ ∧
      (change (tree.block id material)).prime_states_ = (tree.block id material).prime_states_ ∧
      (change (tree.block id material)).parameters_ = (tree.block id material).parameters_ ∧
      (change (tree.block id material)).jump_fluxes_ = (tree.block id material).jump_fluxes_) :
    Frame tree (tree.modifyBlock id material change) := by
  refine ⟨rfl, fun n => ⟨?_, ?_, fun m => ?_⟩⟩
  · unfold BlockTree.modifyBlock
    by_cases hn : n = id <;> simp [hn]
  · unfold BlockTree.modifyBlock
    by_cases hn : n = id <;> simp [hn]
  · rw [block_modifyBlock]
    by_cases hc : n = id ∧ m = material
    · rw [if_pos hc, hc.1, hc.2]
      exact h
    · rw [if_neg hc]
      exact ⟨rfl, rfl, rfl, rfl, rfl⟩

theorem GetBoundaryJump_natural (performance : Bool) (location : BoundaryLocation)
    (h : location.isNatural = true) :
    GetBoundaryJump performance location = Except.ok (naturalFace location) := by
  cases location with
  | Diagonal index => exact Bool.noConfusion h
  | East => rfl
  | West => rfl
  | North => rfl
  | South => rfl
  | Top => rfl
  | Bottom => rfl

theorem face_setFace (jump : SurfaceBuffer) (which other : JumpFace) (values : JumpArray) :
    (jump.setFace which values).face other =
      if other = which then values else jump.face other := by
  cases which <;> cases other <;> rfl

/-- Rule for a loop whose body may throw: a preorder `R` relates every state to its
successors, and what the body establishes for its element is kept by `R`. -/
theorem foldlM_establish {σ α : Type} (R : σ → σ → Prop) (hrefl : ∀ s, R s s)
    (htrans : ∀ a b c, R a b → R b c → R a c) (Q : α → σ → Prop)
    (hQ : ∀ x s s', R s s' → Q x s → Q x s') (f : σ → α → Except String σ)
    (l : List α) (s : σ)
    (hstep : ∀ s x, x ∈ l → ∃ s', f s x = Except.ok s' ∧ R s s' ∧ Q x s') :
    ∃ r, l.foldlM f s = Except.ok r ∧ R s r ∧ ∀ x ∈ l, Q x r := by
  induction l generalizing s with
  | nil => exact ⟨s, rfl, hrefl s, fun x hx => absurd hx (List.not_mem_nil x)⟩
  | cons x xs ih =>
    obtain ⟨s', hs', hR, hQx⟩ := hstep s x (List.mem_cons_self x xs)
    obtain ⟨r, hr, hRr, hQr⟩ := ih s' (fun s y hy => hstep s y (List.mem_cons_of_mem x hy))
    refine ⟨r, ?_, htrans _ _ _ hR hRr, ?_⟩
    · rw [List.foldlM_cons, hs']
      exact hr
    · intro y hy
      rcases List.mem_cons.mp hy with rfl | hy'
      · exact hQ _ _ _ hRr hQx
      · exact hQr y hy'

theorem ResetStep_refl (env : JumpEnv) (tree : BlockTree) : ResetStep env tree tree :=
  ⟨Frame_refl tree, fun _ _ => rfl, fun _ _ _ h => h⟩

theorem ResetStep_trans (env : JumpEnv) (a b c : BlockTree) (h1 : ResetStep env a b)
    (h2 : ResetStep env b c) : ResetStep env a c :=
  ⟨Frame_trans h1.1 h2.1, fun id material => (h2.2.1 id material).trans (h1.2.1 id material),
    fun id material location h => h2.2.2 id material location (h1.2.2 id material location h)⟩

/-- One call of `Block::ResetJumpConservatives` on a natural side. -/
theorem reset_side (env : JumpEnv) (tree : BlockTree) (id : nid_t) (material : MaterialName)
    (location : BoundaryLocation) (hnat : location.isNatural = true) :
    ∃ tree', (match Block.ResetJumpConservatives env.performance env.ANOE env.ICY env.ICZ
          ((tree.GetNodeWithId id).phases material) location with
        | Except.error message => Except.error message
        | Except.ok block => Except.ok (tree.modifyBlock id material (fun _ => block)))
        = Except.ok tree' ∧
      ResetStep env tree tree' ∧ JumpConservativesZero env tree' id material location := by
  unfold Block.ResetJumpConservatives
  rw [GetBoundaryJump_natural env.performance location hnat]
  refine ⟨_, rfl, ⟨?_, ?_, ?_⟩, ?_⟩
  · exact Frame_modifyBlock tree id material _ ⟨rfl, rfl, rfl, rfl, rfl⟩
  · intro n m
    rw [block_modifyBlock]
    by_cases hc : n = id ∧ m = material
    · rw [if_pos hc, hc.1, hc.2]
      rfl
    · rw [if_neg hc]
  · intro n m loc hz e i j he hi hj
    rw [block_modifyBlock]
    by_cases hc : n = id ∧ m = material
    · rw [if_pos hc]
      unfold SurfaceBuffer.side
      simp only [face_setFace]
      by_cases hf : naturalFace loc = naturalFace location
      · rw [if_pos hf]
        unfold overwriteJump
        rw [if_pos ⟨he, hi, hj⟩]
      · rw [if_neg hf]
        have := hz e i j he hi hj
        rw [hc.1, hc.2] at this
        exact this
    · rw [if_neg hc]
      exact hz e i j he hi hj
  · intro e i j he hi hj
    rw [block_modifyBlock, if_pos ⟨rfl, rfl⟩]
    unfold SurfaceBuffer.side
    simp only [face_setFace, if_true]
    unfold overwriteJump
    rw [if_pos ⟨he, hi, hj⟩]

theorem JumpConservativesZero_of_ResetStep (env : JumpEnv) (tree tree' : BlockTree)
    (h : ResetStep env tree tree') (id : nid_t) (material : MaterialName)
    (location : BoundaryLocation) (hz : JumpConservativesZero env tree id material location) :
    JumpConservativesZero env tree' id material location :=
  h.2.2 id material location hz

/-- `resetNode` zeroes the jump conservatives of every phase of the node on every active
side. -/
theorem resetNode_spec (env : JumpEnv) (hnat : NaturalSides env) (tree : BlockTree)
    (id : nid_t) :
    ∃ tree', resetNode env tree id = Except.ok tree' ∧ ResetStep env tree tree' ∧
      ∀ material ∈ (tree.GetNodeWithId id).materials, ∀ location ∈ env.ANBS,
        JumpConservativesZero env tree' id material location := by
  unfold resetNode
  apply foldlM_establish (ResetStep env) (ResetStep_refl env) (ResetStep_trans env)
    (fun material t => ∀ location ∈ env.ANBS, JumpConservativesZero env t id material location)
  · intro material s s' hR hq location hloc
    exact hR.2.2 id material location (hq location hloc)
  · intro s material _
    apply foldlM_establish (ResetStep env) (ResetStep_refl env) (ResetStep_trans env)
      (fun location t => JumpConservativesZero env t id material location)
    · intro location s s' hR hq
      exact hR.2.2 id material location hq
    · intro t location hloc
      exact reset_side env t id material location (hnat location hloc).1

/-- `ResetJumpConservativeBuffers` returns, keeps the frame and the right-hand sides, and
zeroes the jump conservatives of every held node on the given levels, for every phase and
every active side. -/
theorem ResetJumpConservativeBuffers_spec (env : JumpEnv) (hnat : NaturalSides env)
    (levels : List Nat) (tree : BlockTree) :
    ∃ tree', ResetJumpConservativeBuffers env levels tree = Except.ok tree' ∧
      ResetStep env tree tree' ∧
      ∀ level ∈ levels, ∀ id ∈ tree.NodesOnLevel level,
        ∀ material ∈ (tree.GetNodeWithId id).materials, ∀ location ∈ env.ANBS,
          JumpConservativesZero env tree' id material location := by
  unfold ResetJumpConservativeBuffers
  obtain ⟨r, hr, hR, hQ⟩ := foldlM_establish (ResetStep env) (ResetStep_refl env)
    (ResetStep_trans env)
    (fun level t => ∀ id ∈ t.NodesOnLevel level,
      ∀ material ∈ (t.GetNodeWithId id).materials, ∀ location ∈ env.ANBS,
        JumpConservativesZero env t id material location)
    (by
      intro level s s' hR hq id hid material hmat location hloc
      rw [hR.1.1] at hid
      rw [(hR.1.2 id).2.1] at hmat
      exact hR.2.2 id material location (hq id hid material hmat location hloc))
    (fun tree level => (tree.NodesOnLevel level).foldlM (resetNode env) tree) levels tree
    (by
      intro s level _
      obtain ⟨r, hr, hR, hQ⟩ := foldlM_establish (ResetStep env) (ResetStep_refl env)
        (ResetStep_trans env)
        (fun id t => ∀ material ∈ (t.GetNodeWithId id).materials, ∀ location ∈ env.ANBS,
          JumpConservativesZero env t id material location)
        (by
          intro id s s' hR hq material hmat location hloc
          rw [(hR.1.2 id).2.1] at hmat
          exact hR.2.2 id material location (hq material hmat location hloc))
        (resetNode env) (s.NodesOnLevel level) s
        (by
          intro t id _
          obtain ⟨t', ht', hR', hQ'⟩ := resetNode_spec env hnat t id
          refine ⟨t', ht', hR', ?_⟩
          intro material hmat location hloc
          rw [(hR'.1.2 id).2.1] at hmat
          exact hQ' material hmat location hloc)
      refine ⟨r, hr, hR, ?_⟩
      intro id hid
      rw [hR.1.1] at hid
      exact hQ id hid)
  refine ⟨r, hr, hR, ?_⟩
  intro level hlevel id hid material hmat location hloc
  rw [← hR.1.1] at hid
  rw [← (hR.1.2 id).2.1] at hmat
  exact hQ level hlevel id hid material hmat location hloc

theorem foldlM_eq_foldl {σ α : Type} (f : σ → α → Except String σ) (g : σ → α → σ)
    (l : List α) (s : σ) (h : ∀ s x, x ∈ l → f s x = Except.ok (g s x)) :
    l.foldlM f s = Except.ok (l.foldl g s) := by
  induction l generalizing s with
  | nil => rfl
  | cons x xs ih =>
    rw [List.foldlM_cons, h s x (List.mem_cons_self x xs), List.foldl_cons]
    exact ih (g s x) (fun s y hy => h s y (List.mem_cons_of_mem x hy))

theorem foldlM_flatMap {σ α β : Type} (f : σ → β → Except String σ) (g : α → List β)
    (l : List α) (s : σ) :
    (l.flatMap g).foldlM f s = l.foldlM (fun s x => (g x).foldlM f s) s := by
  induction l generalizing s with
  | nil => rfl
  | cons x xs ih =>
    rw [List.flatMap_cons, List.foldlM_append, List.foldlM_cons]
    cases h : (g x).foldlM f s with
    | error e => rfl
    | ok s' => exact ih s'

theorem foldlM_map {σ α β : Type} (f : σ → β → Except String σ) (g : α → β)
    (l : List α) (s : σ) :
    (l.map g).foldlM f s = l.foldlM (fun s x => f s (g x)) s := by
  induction l generalizing s with
  | nil => rfl
  | cons x xs ih =>
    rw [List.map_cons, List.foldlM_cons, List.foldlM_cons]
    cases h : f s (g x) with
    | error e => rfl
    | ok s' => exact ih s'

theorem faceGeometry_natural (env : JumpEnv) (location : BoundaryLocation)
    (h : location.isNatural = true) :
    faceGeometry env location = Except.ok (naturalGeometry env location) ∧
      (naturalGeometry env location).direction ≠ 0 := by
  cases location with
  | Diagonal index => exact Bool.noConfusion h
  | East => exact ⟨rfl, by simp [naturalGeometry]⟩
  | West => exact ⟨rfl, by simp [naturalGeometry]⟩
  | North => exact ⟨rfl, by simp [naturalGeometry]⟩
  | South => exact ⟨rfl, by simp [naturalGeometry]⟩
  | Top => exact ⟨rfl, by simp [naturalGeometry]⟩
  | Bottom => exact ⟨rfl, by simp [naturalGeometry]⟩

theorem exchangeOwnFace_natural (env : JumpEnv) (leaf_id : nid_t) (material : MaterialName)
    (location : BoundaryLocation) (state : ExchangeState)
    (hloc : location.isNatural = true)
    (hopp : (env.OppositeDirection location).isNatural = true) :
    exchangeOwnFace env leaf_id material location
      (env.GetTopologyNeighborId leaf_id location) state =
      Except.ok (ownFaceResult env leaf_id material location state) := by
  unfold exchangeOwnFace ownFaceResult incomingJump
  have hg := faceGeometry_natural env location hloc
  rw [hg.1, GetBoundaryJump_natural env.performance location hloc]
  have hd : decide ((naturalGeometry env location).direction = 0) = false :=
    decide_eq_false hg.2
  simp only [bind, Except.bind, hd, Bool.and_false, pure, Except.pure]
  by_cases hr : env.topology_.NodeIsOnRank (env.GetTopologyNeighborId leaf_id location)
      env.my_rank = true
  · simp only [hr, if_true, GetBoundaryJump_natural env.performance _ hopp]
    rfl
  · simp only [hr]
    rfl

theorem exchangeLocation_natural (env : JumpEnv) (leaf_id : nid_t) (material : MaterialName)
    (location : BoundaryLocation) (state : ExchangeState)
    (hloc : location.isNatural = true)
    (hopp : (env.OppositeDirection location).isNatural = true) :
    exchangeLocation env leaf_id material state location =
      Except.ok (exchangeLocationResult env leaf_id material state location) := by
  unfold exchangeLocation exchangeLocationResult
  simp only []
  by_cases hq : neighborQualifies env leaf_id location = true
  · by_cases hr : env.topology_.NodeIsOnRank leaf_id env.my_rank = true
    · rw [if_pos hq, if_pos hr, if_pos ⟨hq, hr⟩]
      exact exchangeOwnFace_natural env leaf_id material location state hloc hopp
    · have hr' : env.topology_.NodeIsOnRank leaf_id env.my_rank = false := by simpa using hr
      simp [hq, hr', GetBoundaryJump_natural env.performance _ hopp]
  · have hq' : neighborQualifies env leaf_id location = false := by simpa using hq
    simp [hq']

theorem exchangeMaterial_natural (env : JumpEnv) (hnat : NaturalSides env) (leaf_id : nid_t)
    (material : MaterialName) (state : ExchangeState) :
    exchangeMaterial env leaf_id state material =
      Except.ok (exchangeMaterialResult env state (leaf_id, material)) := by
  unfold exchangeMaterial exchangeMaterialResult
  rw [foldlM_eq_foldl (exchangeLocation env leaf_id material)
    (exchangeLocationResult env leaf_id material) env.ANBS state
    (fun s location hloc => exchangeLocation_natural env leaf_id material location s
      (hnat location hloc).1 (hnat location hloc).2)]
  rfl

/-- With natural sides the exchange phase does not throw; it is the fold of the
per-material step over the visited (leaf, material) pairs. -/
theorem exchange_natural (env : JumpEnv) (hnat : NaturalSides env)
    (level_exchanging : List Nat) (state : ExchangeState) :
    exchange env level_exchanging state =
      Except.ok ((exchangePairs env level_exchanging).foldl (exchangeMaterialResult env)
        state) := by
  unfold exchange exchangePairs exchangeLeaf
  rw [← foldlM_eq_foldl (fun s (pair : nid_t × MaterialName) =>
      exchangeMaterial env pair.1 s pair.2) (exchangeMaterialResult env) _ state
    (fun s pair _ => exchangeMaterial_natural env hnat pair.1 pair.2 s)]
  rw [foldlM_flatMap]
  congr 1
  funext s level
  rw [foldlM_flatMap]
  congr 1
  funext s leaf_id
  rw [foldlM_map]

theorem slotSum_congr (f g : Nat → Nat → FieldArray) (eq i j k : Nat)
    (h : ∀ b, b < 6 → f b eq i j k = g b eq i j k) :
    slotSum f eq i j k = slotSum g eq i j k := by
  unfold slotSum
  rw [h 0 (by decide), h 1 (by decide), h 2 (by decide), h 3 (by decide), h 4 (by decide),
    h 5 (by decide)]

theorem slotSum_zero (f : Nat → Nat → FieldArray) (eq i j k : Nat)
    (h : ∀ b, b < 6 → f b eq i j k = 0) : slotSum f eq i j k = 0 := by
  unfold slotSum ConsistencyManagedSum
  rw [h 0 (by decide), h 1 (by decide), h 2 (by decide), h 3 (by decide), h 4 (by decide),
    h 5 (by decide)]
  norm_num

theorem applyCell_cells (eq : Nat) (a : ApplyState) (x : Nat × Nat × Nat) (i j k : Nat) :
    (applyCell eq a x).cells i j k =
      if (i, j, k) = x then
        a.cells i j k - slotSum a.coarse_fluxes eq i j k + slotSum a.fine_fluxes eq i j k
      else a.cells i j k := by
  unfold applyCell slotSum
  simp only []
  by_cases h : (i, j, k) = x
  · rw [if_pos h, if_pos h, ← h]
  · rw [if_neg h, if_neg h]

theorem applyCell_coarse (eq : Nat) (a : ApplyState) (x : Nat × Nat × Nat) (b e i j k : Nat) :
    (applyCell eq a x).coarse_fluxes b e i j k =
      if b < 6 ∧ e = eq ∧ (i, j, k) = x then 0 else a.coarse_fluxes b e i j k := rfl

theorem applyCell_fine (eq : Nat) (a : ApplyState) (x : Nat × Nat × Nat) (b e i j k : Nat) :
    (applyCell eq a x).fine_fluxes b e i j k =
      if b < 6 ∧ e = eq ∧ (i, j, k) = x then 0 else a.fine_fluxes b e i j k := rfl

/-- Closed form of the loops over the cells of lines 1266-1280 for one equation. -/
theorem foldl_applyCell (eq : Nat) (cs : List (Nat × Nat × Nat)) (a : ApplyState) :
    (∀ i j k, (cs.foldl (applyCell eq) a).cells i j k =
      if (i, j, k) ∈ cs then
        a.cells i j k - slotSum a.coarse_fluxes eq i j k + slotSum a.fine_fluxes eq i j k
      else a.cells i j k) ∧
    (∀ b e i j k, (cs.foldl (applyCell eq) a).coarse_fluxes b e i j k =
      if b < 6 ∧ e = eq ∧ (i, j, k) ∈ cs then 0 else a.coarse_fluxes b e i j k) ∧
    (∀ b e i j k, (cs.foldl (applyCell eq) a).fine_fluxes b e i j k =
      if b < 6 ∧ e = eq ∧ (i, j, k) ∈ cs then 0 else a.fine_fluxes b e i j k) := by
  induction cs generalizing a with
  | nil =>
    refine ⟨fun i j k => ?_, fun b e i j k => ?_, fun b e i j k => ?_⟩ <;> simp
  | cons x xs ih =>
    obtain ⟨h1, h2, h3⟩ := ih (applyCell eq a x)
    refine ⟨fun i j k => ?_, fun b e i j k => ?_, fun b e i j k => ?_⟩
    · rw [List.foldl_cons, h1, applyCell_cells]
      by_cases hx : (i, j, k) = x
      · have hc : slotSum (applyCell eq a x).coarse_fluxes eq i j k = 0 := by
          apply slotSum_zero
          intro b hb
          rw [applyCell_coarse, if_pos ⟨hb, rfl, hx⟩]
        have hf : slotSum (applyCell eq a x).fine_fluxes eq i j k = 0 := by
          apply slotSum_zero
          intro b hb
          rw [applyCell_fine, if_pos ⟨hb, rfl, hx⟩]
        have hmem : (i, j, k) ∈ x :: xs := by rw [hx]; exact List.mem_cons_self x xs
        have e1 : (if (i, j, k) ∈ x :: xs then
            a.cells i j k - slotSum a.coarse_fluxes eq i j k + slotSum a.fine_fluxes eq i j k
            else a.cells i j k) =
            a.cells i j k - slotSum a.coarse_fluxes eq i j k + slotSum a.fine_fluxes eq i j k :=
          if_pos hmem
        rw [e1, hc, hf, if_pos hx]
        split_ifs <;> ring
      · have hc : slotSum (applyCell eq a x).coarse_fluxes eq i j k =
            slotSum a.coarse_fluxes eq i j k := by
          apply slotSum_congr
          intro b _
          rw [applyCell_coarse, if_neg (fun h => hx h.2.2)]
        have hf : slotSum (applyCell eq a x).fine_fluxes eq i j k =
            slotSum a.fine_fluxes eq i j k := by
          apply slotSum_congr
          intro b _
          rw [applyCell_fine, if_neg (fun h => hx h.2.2)]
        rw [hc, hf, if_neg hx]
        by_cases hxs : (i, j, k) ∈ xs
        · rw [if_pos hxs, if_pos (List.mem_cons_of_mem x hxs)]
        · rw [if_neg hxs, if_neg (fun h => (List.mem_cons.mp h).elim hx hxs)]
    · rw [List.foldl_cons, h2, applyCell_coarse]
      by_cases hxs : (i, j, k) ∈ xs
      · by_cases hb : b < 6 ∧ e = eq
        · rw [if_pos ⟨hb.1, hb.2, hxs⟩, if_pos ⟨hb.1, hb.2, List.mem_cons_of_mem x hxs⟩]
        · rw [if_neg (fun h => hb ⟨h.1, h.2.1⟩), if_neg (fun h => hb ⟨h.1, h.2.1⟩),
            if_neg (fun h => hb ⟨h.1, h.2.1⟩)]
      · rw [if_neg (fun h => hxs h.2.2)]
        by_cases hx : b < 6 ∧ e = eq ∧ (i, j, k) = x
        · rw [if_pos hx, if_pos ⟨hx.1, hx.2.1, by rw [hx.2.2]; exact List.mem_cons_self x xs⟩]
        · rw [if_neg hx, if_neg]
          rintro ⟨h1, h2, h3⟩
          rcases List.mem_cons.mp h3 with h | h
          · exact hx ⟨h1, h2, h⟩
          · exact hxs h
    · rw [List.foldl_cons, h3, applyCell_fine]
      by_cases hxs : (i, j, k) ∈ xs
      · by_cases hb : b < 6 ∧ e = eq
        · rw [if_pos ⟨hb.1, hb.2, hxs⟩, if_pos ⟨hb.1, hb.2, List.mem_cons_of_mem x hxs⟩]
        · rw [if_neg (fun h => hb ⟨h.1, h.2.1⟩), if_neg (fun h => hb ⟨h.1, h.2.1⟩),
            if_neg (fun h => hb ⟨h.1, h.2.1⟩)]
      · rw [if_neg (fun h => hxs h.2.2)]
        by_cases hx : b < 6 ∧ e = eq ∧ (i, j, k) = x
        · rw [if_pos hx, if_pos ⟨hx.1, hx.2.1, by rw [hx.2.2]; exact List.mem_cons_self x xs⟩]
        · rw [if_neg hx, if_neg]
          rintro ⟨h1, h2, h3⟩
          rcases List.mem_cons.mp h3 with h | h
          · exact hx ⟨h1, h2, h⟩
          · exact hxs h

/-- What one iteration of the loop over the equations of lines 1264-1282 does. -/
theorem applyEquation_spec (env : JumpEnv) (leaf_id : nid_t) (material : MaterialName)
    (state : ExchangeState) (eq : Nat) :
    (∀ e i j k, ((applyEquation env leaf_id material state eq).tree_.block leaf_id
        material).right_hand_side_ e i j k =
      if e = eq ∧ (i, j, k) ∈ interiorCells env then
        (state.tree_.block leaf_id material).right_hand_side_ e i j k
          - slotSum state.coarse_fluxes e i j k + slotSum state.fine_fluxes e i j k
      else (state.tree_.block leaf_id material).right_hand_side_ e i j k) ∧
    (∀ b e i j k, (applyEquation env leaf_id material state eq).coarse_fluxes b e i j k =
      if b < 6 ∧ e = eq ∧ (i, j, k) ∈ interiorCells env then 0
      else state.coarse_fluxes b e i j k) ∧
    (∀ b e i j k, (applyEquation env leaf_id material state eq).fine_fluxes b e i j k =
      if b < 6 ∧ e = eq ∧ (i, j, k) ∈ interiorCells env then 0
      else state.fine_fluxes b e i j k) ∧
    (∀ n m, ¬(n = leaf_id ∧ m = material) →
      (applyEquation env leaf_id material state eq).tree_.block n m = state.tree_.block n m) ∧
    ((applyEquation env leaf_id material state eq).tree_.block leaf_id
        material).jump_conservatives_ =
      (state.tree_.block leaf_id material).jump_conservatives_ ∧
    Frame state.tree_ (applyEquation env leaf_id material state eq).tree_ := by
  obtain ⟨h1, h2, h3⟩ := foldl_applyCell eq (interiorCells env)
    { cells := (state.tree_.block leaf_id material).right_hand_side_ eq,
      coarse_fluxes := state.coarse_fluxes, fine_fluxes := state.fine_fluxes }
  refine ⟨?_, ?_, ?_, ?_, ?_, ?_⟩
  · intro e i j k
    unfold applyEquation
    simp only []
    rw [block_modifyBlock, if_pos ⟨rfl, rfl⟩]
    simp only []
    by_cases he : e = eq
    · rw [if_pos he]
      have := h1 i j k
      unfold BlockTree.block at this ⊢
      rw [this, he]
      by_cases hc : (i, j, k) ∈ interiorCells env
      · rw [if_pos hc, if_pos ⟨rfl, hc⟩]
      · rw [if_neg hc, if_neg (fun h => hc h.2)]
    · rw [if_neg he, if_neg (fun h => he h.1)]
  · intro b e i j k
    exact h2 b e i j k
  · intro b e i j k
    exact h3 b e i j k
  · intro n m hne
    unfold applyEquation
    simp only []
    rw [block_modifyBlock, if_neg hne]
  · unfold applyEquation
    simp only []
    rw [block_modifyBlock, if_pos ⟨rfl, rfl⟩]
  · unfold applyEquation
    exact Frame_modifyBlock _ _ _ _ ⟨rfl, rfl, rfl, rfl, rfl⟩

/-- Closed form of the loop over the equations of lines 1264-1282. -/
theorem foldl_applyEquation (env : JumpEnv) (leaf_id : nid_t) (material : MaterialName)
    (eqs : List Nat) (state : ExchangeState) :
    (∀ e i j k, ((eqs.foldl (applyEquation env leaf_id material) state).tree_.block leaf_id
        material).right_hand_side_ e i j k =
      if e ∈ eqs ∧ (i, j, k) ∈ interiorCells env then
        (state.tree_.block leaf_id material).right_hand_side_ e i j k
          - slotSum state.coarse_fluxes e i j k + slotSum state.fine_fluxes e i j k
      else (state.tree_.block leaf_id material).right_hand_side_ e i j k) ∧
    (∀ b e i j k, (eqs.foldl (applyEquation env leaf_id material) state).coarse_fluxes b e i j k =
      if b < 6 ∧ e ∈ eqs ∧ (i, j, k) ∈ interiorCells env then 0
      else state.coarse_fluxes b e i j k) ∧
    (∀ b e i j k, (eqs.foldl (applyEquation env leaf_id material) state).fine_fluxes b e i j k =
      if b < 6 ∧ e ∈ eqs ∧ (i, j, k) ∈ interiorCells env then 0
      else state.fine_fluxes b e i j k) ∧
    (∀ n m, ¬(n = leaf_id ∧ m = material) →
      (eqs.foldl (applyEquation env leaf_id material) state).tree_.block n m =
        state.tree_.block n m) ∧
    ((eqs.foldl (applyEquation env leaf_id material) state).tree_.block leaf_id
        material).jump_conservatives_ =
      (state.tree_.block leaf_id material).jump_conservatives_ ∧
    Frame state.tree_ (eqs.foldl (applyEquation env leaf_id material) state).tree_ := by
  induction eqs generalizing state with
  | nil =>
    refine ⟨fun e i j k => ?_, fun b e i j k => ?_, fun b e i j k => ?_, fun _ _ _ => rfl, rfl,
      Frame_refl _⟩ <;> simp
  | cons eq eqs ih =>
    obtain ⟨s1, s2, s3, s4, s5, s6⟩ := applyEquation_spec env leaf_id material state eq
    obtain ⟨h1, h2, h3, h4, h5, h6⟩ := ih (applyEquation env leaf_id material state eq)
    refine ⟨?_, ?_, ?_, ?_, ?_, ?_⟩
    · intro e i j k
      rw [List.foldl_cons, h1]
      by_cases hc : (i, j, k) ∈ interiorCells env
      · by_cases he : e = eq
        · have hcz : slotSum (applyEquation env leaf_id material state eq).coarse_fluxes
              e i j k = 0 := by
            apply slotSum_zero
            intro b hb
            rw [s2, if_pos ⟨hb, he, hc⟩]
          have hfz : slotSum (applyEquation env leaf_id material state eq).fine_fluxes
              e i j k = 0 := by
            apply slotSum_zero
            intro b hb
            rw [s3, if_pos ⟨hb, he, hc⟩]
          have hs1 := s1 e i j k
          rw [if_pos ⟨he, hc⟩] at hs1
          have hmem : e ∈ eq :: eqs := by rw [he]; exact List.mem_cons_self eq eqs
          rw [hs1, hcz, hfz,
            if_pos (show e ∈ eq :: eqs ∧ (i, j, k) ∈ interiorCells env from ⟨hmem, hc⟩)]
          split_ifs <;> ring
        · have hcz : slotSum (applyEquation env leaf_id material state eq).coarse_fluxes
              e i j k = slotSum state.coarse_fluxes e i j k := by
            apply slotSum_congr
            intro b _
            rw [s2, if_neg (fun h => he h.2.1)]
          have hfz : slotSum (applyEquation env leaf_id material state eq).fine_fluxes
              e i j k = slotSum state.fine_fluxes e i j k := by
            apply slotSum_congr
            intro b _
            rw [s3, if_neg (fun h => he h.2.1)]
          have hs1 := s1 e i j k
          rw [if_neg (fun h => he h.1)] at hs1
          rw [hs1, hcz, hfz]
          by_cases hes : e ∈ eqs
          · rw [if_pos ⟨hes, hc⟩, if_pos ⟨List.mem_cons_of_mem eq hes, hc⟩]
          · rw [if_neg (fun h => hes h.1),
              if_neg (fun h => (List.mem_cons.mp h.1).elim he hes)]
      · have hs1 := s1 e i j k
        rw [if_neg (fun h => hc h.2)] at hs1
        rw [hs1, if_neg (fun h => hc h.2), if_neg (fun h => hc h.2)]
    · intro b e i j k
      rw [List.foldl_cons, h2]
      have hs2 := s2 b e i j k
      by_cases hc : b < 6 ∧ (i, j, k) ∈ interiorCells env
      · by_cases he : e = eq
        · rw [if_pos ⟨hc.1, he, hc.2⟩] at hs2
          rw [hs2, if_pos (show b < 6 ∧ e ∈ eq :: eqs ∧ (i, j, k) ∈ interiorCells env from
            ⟨hc.1, by rw [he]; exact List.mem_cons_self eq eqs, hc.2⟩)]
          split_ifs <;> rfl
        · rw [if_neg (fun h => he h.2.1)] at hs2
          rw [hs2]
          by_cases hes : e ∈ eqs
          · rw [if_pos ⟨hc.1, hes, hc.2⟩, if_pos ⟨hc.1, List.mem_cons_of_mem eq hes, hc.2⟩]
          · rw [if_neg (fun h => hes h.2.1),
              if_neg (fun h => (List.mem_cons.mp h.2.1).elim he hes)]
      · rw [if_neg (fun h => hc ⟨h.1, h.2.2⟩)] at hs2
        rw [hs2, if_neg (fun h => hc ⟨h.1, h.2.2⟩), if_neg (fun h => hc ⟨h.1, h.2.2⟩)]
    · intro b e i j k
      rw [List.foldl_cons, h3]
      have hs3 := s3 b e i j k
      by_cases hc : b < 6 ∧ (i, j, k) ∈ interiorCells env
      · by_cases he : e = eq
        · rw [if_pos ⟨hc.1, he, hc.2⟩] at hs3
          rw [hs3, if_pos (show b < 6 ∧ e ∈ eq :: eqs ∧ (i, j, k) ∈ interiorCells env from
            ⟨hc.1, by rw [he]; exact List.mem_cons_self eq eqs, hc.2⟩)]
          split_ifs <;> rfl
        · rw [if_neg (fun h => he h.2.1)] at hs3
          rw [hs3]
          by_cases hes : e ∈ eqs
          · rw [if_pos ⟨hc.1, hes, hc.2⟩, if_pos ⟨hc.1, List.mem_cons_of_mem eq hes, hc.2⟩]
          · rw [if_neg (fun h => hes h.2.1),
              if_neg (fun h => (List.mem_cons.mp h.2.1).elim he hes)]
      · rw [if_neg (fun h => hc ⟨h.1, h.2.2⟩)] at hs3
        rw [hs3, if_neg (fun h => hc ⟨h.1, h.2.2⟩), if_neg (fun h => hc ⟨h.1, h.2.2⟩)]
    · intro n m hne
      rw [List.foldl_cons, h4 n m hne, s4 n m hne]
    · rw [List.foldl_cons, h5, s5]
    · rw [List.foldl_cons]
      exact Frame_trans s6 h6

theorem mem_cellRange (first last n : Nat) :
    n ∈ cellRange first last ↔ first ≤ n ∧ n ≤ last := by
  unfold cellRange
  simp only [List.mem_map, List.mem_range]
  constructor
  · rintro ⟨a, ha, rfl⟩
    omega
  · intro h
    exact ⟨n - first, by omega, by omega⟩

theorem mem_layerCells (geometry : FaceGeometry) (i j k : Nat) :
    (i, j, k) ∈ layerCells geometry ↔
      (geometry.x_start ≤ i ∧ i ≤ geometry.x_end) ∧
      (geometry.y_start ≤ j ∧ j ≤ geometry.y_end) ∧
      (geometry.z_start ≤ k ∧ k ≤ geometry.z_end) := by
  unfold layerCells
  simp only [List.mem_flatMap, List.mem_map, mem_cellRange, Prod.mk.injEq]
  constructor
  · rintro ⟨i', hi, j', hj, k', hk, rfl, rfl, rfl⟩
    exact ⟨hi, hj, hk⟩
  · rintro ⟨hi, hj, hk⟩
    exact ⟨i, hi, j, hj, k, hk, rfl, rfl, rfl⟩

theorem initialFluxes_interior (env : JumpEnv) (hTC : InteriorInsideBlock env)
    (garbage : Nat → Nat → FieldArray) (b e i j k : Nat) (hb : b < 6) (he : e ∈ env.ASOE)
    (hc : (i, j, k) ∈ interiorCells env) : initialFluxes env garbage b e i j k = 0 := by
  unfold interiorCells at hc
  rw [mem_layerCells] at hc
  unfold initialFluxes
  rw [if_pos]
  obtain ⟨h1, h2, h3⟩ := hTC
  simp only [interiorGeometry] at hc
  exact ⟨hb, he, by omega, by omega, by omega⟩

/-- What one exchange on an own face changes in the tree: only the jump conservatives of
the block of the leaf. -/
theorem ownFaceResult_tree (env : JumpEnv) (leaf_id : nid_t) (material : MaterialName)
    (location : BoundaryLocation) (state : ExchangeState) :
    Frame state.tree_ (ownFaceResult env leaf_id material location state).tree_ ∧
    SameRhs state.tree_ (ownFaceResult env leaf_id material location state).tree_ ∧
    ∀ n m, ¬(n = leaf_id ∧ m = material) →
      (ownFaceResult env leaf_id material location state).tree_.block n m =
        state.tree_.block n m := by
  refine ⟨?_, ?_, ?_⟩
  · exact Frame_modifyBlock _ _ _ _ ⟨rfl, rfl, rfl, rfl, rfl⟩
  · intro n m
    unfold ownFaceResult
    simp only []
    rw [block_modifyBlock]
    split_ifs <;> rfl
  · intro n m hne
    unfold ownFaceResult
    simp only []
    rw [block_modifyBlock, if_neg hne]

/-- The relation between the states before and after any part of the loop over the
locations for the pair `(leaf_id, material)`. -/
theorem foldl_exchangeLocationResult_tree (env : JumpEnv) (leaf_id : nid_t)
    (material : MaterialName) (locations : List BoundaryLocation) (state : ExchangeState) :
    Frame state.tree_
      (locations.foldl (exchangeLocationResult env leaf_id material) state).tree_ ∧
    SameRhs state.tree_
      (locations.foldl (exchangeLocationResult env leaf_id material) state).tree_ ∧
    ∀ n m, ¬(n = leaf_id ∧ m = material) →
      (locations.foldl (exchangeLocationResult env leaf_id material) state).tree_.block n m =
        state.tree_.block n m := by
  induction locations generalizing state with
  | nil => exact ⟨Frame_refl _, fun _ _ => rfl, fun _ _ _ => rfl⟩
  | cons location rest ih =>
    rw [List.foldl_cons]
    obtain ⟨h1, h2, h3⟩ := ih (exchangeLocationResult env leaf_id material state location)
    have hstep : Frame state.tree_
          (exchangeLocationResult env leaf_id material state location).tree_ ∧
        SameRhs state.tree_
          (exchangeLocationResult env leaf_id material state location).tree_ ∧
        ∀ n m, ¬(n = leaf_id ∧ m = material) →
          (exchangeLocationResult env leaf_id material state location).tree_.block n m =
            state.tree_.block n m := by
      unfold exchangeLocationResult
      split_ifs
      · exact ownFaceResult_tree env leaf_id material location state
      · exact ⟨Frame_refl _, fun _ _ => rfl, fun _ _ _ => rfl⟩
    obtain ⟨s1, s2, s3⟩ := hstep
    refine ⟨Frame_trans s1 h1, fun n m => (h2 n m).trans (s2 n m), fun n m hne => ?_⟩
    rw [h3 n m hne, s3 n m hne]

/-- Without a qualifying neighbor on an active side, or on a rank that does not hold the
leaf, the loop over the locations leaves the state as it is. -/
theorem foldl_exchangeLocationResult_id (env : JumpEnv) (leaf_id : nid_t)
    (material : MaterialName) (locations : List BoundaryLocation) (state : ExchangeState)
    (h : ¬(env.topology_.NodeIsOnRank leaf_id env.my_rank = true ∧
      ∃ location ∈ locations, neighborQualifies env leaf_id location = true)) :
    locations.foldl (exchangeLocationResult env leaf_id material) state = state := by
  induction locations generalizing state with
  | nil => rfl
  | cons location rest ih =>
    rw [List.foldl_cons]
    have hs : exchangeLocationResult env leaf_id material state location = state := by
      unfold exchangeLocationResult
      rw [if_neg]
      rintro ⟨hq, hr⟩
      exact h ⟨hr, location, List.mem_cons_self location rest, hq⟩
    rw [hs]
    apply ih
    rintro ⟨hr, loc, hloc, hq⟩
    exact h ⟨hr, loc, List.mem_cons_of_mem location hloc, hq⟩

/-- What one iteration of the loop over the materials does to the rest of the tree and to
the scratch arrays. -/
theorem exchangeMaterialResult_frame (env : JumpEnv) (state : ExchangeState)
    (pair : nid_t × MaterialName) :
    Frame state.tree_ (exchangeMaterialResult env state pair).tree_ ∧
    (∀ n m, ¬(n = pair.1 ∧ m = pair.2) →
      (exchangeMaterialResult env state pair).tree_.block n m = state.tree_.block n m) ∧
    (ScratchZero env state → ScratchZero env (exchangeMaterialResult env state pair)) := by
  obtain ⟨l1, l2, l3⟩ := foldl_exchangeLocationResult_tree env pair.1 pair.2 env.ANBS state
  unfold exchangeMaterialResult applyFluxes
  by_cases hr : env.topology_.NodeIsOnRank pair.1 env.my_rank = true
  · rw [if_pos hr]
    obtain ⟨a1, a2, a3, a4, a5, a6⟩ := foldl_applyEquation env pair.1 pair.2 env.ASOE
      (env.ANBS.foldl (exchangeLocationResult env pair.1 pair.2) state)
    refine ⟨Frame_trans l1 a6, fun n m hne => ?_, fun _ => ?_⟩
    · rw [a4 n m hne, l3 n m hne]
    · intro b e i j k hb he hc
      rw [a2, a3, if_pos ⟨hb, he, hc⟩, if_pos ⟨hb, he, hc⟩]
      exact ⟨rfl, rfl⟩
  · rw [if_neg hr]
    refine ⟨l1, l3, fun hz => ?_⟩
    rw [foldl_exchangeLocationResult_id env pair.1 pair.2 env.ANBS state (fun h => hr h.1)]
    exact hz

/-- On a pair whose leaf is not adjusted, one iteration of the loop over the materials
keeps the right-hand side of the pair. -/
theorem exchangeMaterialResult_rhs_kept (env : JumpEnv) (state : ExchangeState)
    (pair : nid_t × MaterialName) (hz : ScratchZero env state)
    (h : ¬(env.topology_.NodeIsOnRank pair.1 env.my_rank = true ∧
      ∃ location ∈ env.ANBS, neighborQualifies env pair.1 location = true)) :
    ((exchangeMaterialResult env state pair).tree_.block pair.1 pair.2).right_hand_side_ =
      (state.tree_.block pair.1 pair.2).right_hand_side_ := by
  unfold exchangeMaterialResult applyFluxes
  rw [foldl_exchangeLocationResult_id env pair.1 pair.2 env.ANBS state h]
  by_cases hr : env.topology_.NodeIsOnRank pair.1 env.my_rank = true
  · rw [if_pos hr]
    obtain ⟨a1, _⟩ := foldl_applyEquation env pair.1 pair.2 env.ASOE state
    funext e i j k
    rw [a1]
    by_cases hc : e ∈ env.ASOE ∧ (i, j, k) ∈ interiorCells env
    · rw [if_pos hc,
        slotSum_zero state.coarse_fluxes e i j k (fun b hb => (hz b e i j k hb hc.1 hc.2).1),
        slotSum_zero state.fine_fluxes e i j k (fun b hb => (hz b e i j k hb hc.1 hc.2).2)]
      ring
    · rw [if_neg hc]
  · rw [if_neg hr]

theorem averageDownChild_frame (env : JumpEnv) (tree : BlockTree) (child_id : nid_t) :
    Frame tree (averageDownChild env tree child_id) ∧
      SameRhs tree (averageDownChild env tree child_id) := by
  have hfold : ∀ (source : BlockTree → MaterialName → SurfaceBuffer)
      (materials : List MaterialName) (t : BlockTree),
      Frame t (materials.foldl (fun tree material =>
        tree.modifyBlock (env.ParentIdOfNode child_id) material (fun parent_block =>
          { parent_block with jump_conservatives_ :=
              (env.AverageJumpBuffer (source tree material)
                parent_block.jump_conservatives_ child_id) })) t) ∧
      SameRhs t (materials.foldl (fun tree material =>
        tree.modifyBlock (env.ParentIdOfNode child_id) material (fun parent_block =>
          { parent_block with jump_conservatives_ :=
              (env.AverageJumpBuffer (source tree material)
                parent_block.jump_conservatives_ child_id) })) t) := by
    intro source materials
    induction materials with
    | nil => exact fun t => ⟨Frame_refl t, fun _ _ => rfl⟩
    | cons m ms ih =>
      intro t
      rw [List.foldl_cons]
      obtain ⟨h1, h2⟩ := ih (t.modifyBlock (env.ParentIdOfNode child_id) m (fun parent_block =>
          { parent_block with jump_conservatives_ :=
              (env.AverageJumpBuffer (source t m) parent_block.jump_conservatives_ child_id) }))
      refine ⟨Frame_trans (Frame_modifyBlock _ _ _ _ ⟨rfl, rfl, rfl, rfl, rfl⟩) h1, ?_⟩
      intro n m'
      rw [h2 n m', block_modifyBlock]
      split_ifs <;> rfl
  unfold averageDownChild
  simp only []
  split_ifs
  · exact hfold (fun tree material =>
      ((tree.GetNodeWithId child_id).phases material).jump_conservatives_) _ tree
  · exact ⟨Frame_refl tree, fun _ _ => rfl⟩
  · exact hfold (fun _ material => env.receivedChildJump child_id material) _ tree
  · exact ⟨Frame_refl tree, fun _ _ => rfl⟩

/-- The first phase changes jump conservatives only. -/
theorem averageDown_frame (env : JumpEnv) (levels : List Nat) (tree : BlockTree) :
    Frame tree (averageDown env levels tree) ∧ SameRhs tree (averageDown env levels tree) := by
  unfold averageDown
  apply foldl_invariant (fun t => Frame tree t ∧ SameRhs tree t)
  · exact ⟨Frame_refl tree, fun _ _ => rfl⟩
  · intro t level _ ht
    apply foldl_invariant (fun t => Frame tree t ∧ SameRhs tree t)
    · exact ht
    · intro t' child _ ht'
      obtain ⟨h1, h2⟩ := averageDownChild_frame env t' child
      exact ⟨Frame_trans ht'.1 h1, fun n m => (h2 n m).trans (ht'.2 n m)⟩

/-- With natural sides, `JumpFluxAdjustment` is the reset applied to the tree after the
exchange phase. -/
theorem JumpFluxAdjustment_eq (env : JumpEnv) (hnat : NaturalSides env)
    (finished_levels_descending : List Nat)
    (coarse_garbage fine_garbage : Nat → Nat → FieldArray) (tree : BlockTree) :
    JumpFluxAdjustment env finished_levels_descending coarse_garbage fine_garbage tree =
      ResetJumpConservativeBuffers env finished_levels_descending
        (stateAfterExchange env finished_levels_descending coarse_garbage fine_garbage
          tree).tree_ := by
  unfold JumpFluxAdjustment
  simp only []
  rw [exchange_natural env hnat]
  rfl

/-- The exchange phase changes only right-hand sides and jump conservatives, and leaves
the scratch arrays zero on the interior cells. -/
theorem stateAfterExchange_frame (env : JumpEnv) (hTC : InteriorInsideBlock env)
    (finished_levels_descending : List Nat)
    (coarse_garbage fine_garbage : Nat → Nat → FieldArray) (tree : BlockTree) :
    Frame tree (stateAfterExchange env finished_levels_descending coarse_garbage fine_garbage
      tree).tree_ ∧
    ScratchZero env (stateAfterExchange env finished_levels_descending coarse_garbage
      fine_garbage tree) := by
  unfold stateAfterExchange
  apply foldl_invariant (fun st => Frame tree st.tree_ ∧ ScratchZero env st)
  · refine ⟨(averageDown_frame env _ tree).1, ?_⟩
    intro b e i j k hb he hc
    exact ⟨initialFluxes_interior env hTC coarse_garbage b e i j k hb he hc,
      initialFluxes_interior env hTC fine_garbage b e i j k hb he hc⟩
  · intro st pair _ hst
    obtain ⟨h1, _, h3⟩ := exchangeMaterialResult_frame env st pair
    exact ⟨Frame_trans hst.1 h1, h3 hst.2⟩

theorem stateAfterExchange_tree_frame (env : JumpEnv)
    (finished_levels_descending : List Nat)
    (coarse_garbage fine_garbage : Nat → Nat → FieldArray) (tree : BlockTree) :
    Frame tree (stateAfterExchange env finished_levels_descending coarse_garbage fine_garbage
      tree).tree_ := by
  unfold stateAfterExchange
  exact foldl_invariant (fun st : ExchangeState => Frame tree st.tree_)
    (exchangeMaterialResult env) _ _ (averageDown_frame env _ tree).1
    (fun st pair _ hst => Frame_trans hst (exchangeMaterialResult_frame env st pair).1)

/-- The exchange phase keeps the right-hand side of every node that is not adjusted. -/
theorem stateAfterExchange_rhs_kept (env : JumpEnv) (hTC : InteriorInsideBlock env)
    (finished_levels_descending : List Nat)
    (coarse_garbage fine_garbage : Nat → Nat → FieldArray) (tree : BlockTree)
    (id : nid_t) (material : MaterialName)
    (hnot : ¬isAdjusted env finished_levels_descending.tail id) :
    ((stateAfterExchange env finished_levels_descending coarse_garbage fine_garbage
      tree).tree_.block id material).right_hand_side_ =
      (tree.block id material).right_hand_side_ := by
  unfold stateAfterExchange
  have key := foldl_invariant
    (fun st : ExchangeState => ScratchZero env st ∧
      (st.tree_.block id material).right_hand_side_ = (tree.block id material).right_hand_side_)
    (exchangeMaterialResult env) (exchangePairs env finished_levels_descending.tail)
    { tree_ := treeAfterAveraging env finished_levels_descending tree,
      coarse_fluxes := initialFluxes env coarse_garbage,
      fine_fluxes := initialFluxes env fine_garbage }
    ⟨fun b e i j k hb he hc =>
        ⟨initialFluxes_interior env hTC coarse_garbage b e i j k hb he hc,
          initialFluxes_interior env hTC fine_garbage b e i j k hb he hc⟩,
      (averageDown_frame env _ tree).2 id material⟩
    (by
      intro st pair hpair hst
      obtain ⟨_, h2, h3⟩ := exchangeMaterialResult_frame env st pair
      refine ⟨h3 hst.1, ?_⟩
      by_cases hp : id = pair.1 ∧ material = pair.2
      · have hin : ∃ level ∈ finished_levels_descending.tail,
            pair.1 ∈ env.topology_.LeafIdsOnLevel level := by
          unfold exchangePairs at hpair
          simp only [List.mem_flatMap, List.mem_map] at hpair
          obtain ⟨level, hlevel, leaf, hleaf, m, _, he⟩ := hpair
          rw [← he]
          exact ⟨level, hlevel, hleaf⟩
        have hno : ¬(env.topology_.NodeIsOnRank pair.1 env.my_rank = true ∧
            ∃ location ∈ env.ANBS, neighborQualifies env pair.1 location = true) := by
          rintro ⟨hr, hq⟩
          apply hnot
          rw [hp.1]
          exact ⟨hr, hin, hq⟩
        rw [hp.1, hp.2, exchangeMaterialResult_rhs_kept env st pair hst.1 hno, ← hp.1, ← hp.2]
        exact hst.2
      · rw [h2 id material hp]
        exact hst.2)
  exact key.2

/-- C3: with natural active sides and the interior inside the block extent,
`JumpFluxAdjustment` returns and leaves every right-hand-side value of a node unchanged
unless the executing rank holds the node, the node is listed as a leaf of an exchanging
level and one of its active faces has a same-level neighbor that exists and is not a leaf.
In particular the right-hand side of a locally owned leaf none of whose active faces has
such a neighbor is the same after the call as before it (exact arithmetic). -/
theorem C3_right_hand_side_frame (env : JumpEnv) (finished_levels_descending : List Nat)
    (coarse_garbage fine_garbage : Nat → Nat → FieldArray) (tree : BlockTree)
    (id : nid_t) (material : MaterialName)
    (hnat : NaturalSides env) (hTC : InteriorInsideBlock env)
    (hnot : ¬isAdjusted env finished_levels_descending.tail id) :
    ∃ tree', JumpFluxAdjustment env finished_levels_descending coarse_garbage fine_garbage
        tree = Except.ok tree' ∧
      ∀ e i j k, (tree'.block id material).right_hand_side_ e i j k =
        (tree.block id material).right_hand_side_ e i j k := by
  obtain ⟨tree', hrun, hstep, _⟩ := ResetJumpConservativeBuffers_spec env hnat
    finished_levels_descending
    (stateAfterExchange env finished_levels_descending coarse_garbage fine_garbage tree).tree_
  refine ⟨tree', ?_, ?_⟩
  · rw [JumpFluxAdjustment_eq env hnat]
    exact hrun
  · intro e i j k
    rw [hstep.2.1 id material,
      stateAfterExchange_rhs_kept env hTC finished_levels_descending coarse_garbage
        fine_garbage tree id material hnot]

/-- Instance of C3 on the jump example: leaf 4 lies on level 2, which is finished but not
exchanging, and its right-hand side is kept. -/
theorem C3_right_hand_side_frame_witness :
    (NaturalSides exampleJumpEnv ∧ InteriorInsideBlock exampleJumpEnv ∧
      ¬isAdjusted exampleJumpEnv [1] 4) ∧
    ∃ tree', JumpFluxAdjustment exampleJumpEnv [2, 1] (fun _ _ _ _ _ => 7)
        (fun _ _ _ _ _ => 7) exampleBlockTree = Except.ok tree' ∧
      ∀ e i j k, (tree'.block 4 0).right_hand_side_ e i j k =
        (exampleBlockTree.block 4 0).right_hand_side_ e i j k :=
  have hnat : NaturalSides exampleJumpEnv := by
    unfold NaturalSides
    decide
  have hTC : InteriorInsideBlock exampleJumpEnv := by
    unfold InteriorInsideBlock
    decide
  have hnot : ¬isAdjusted exampleJumpEnv [1] 4 := by
    unfold isAdjusted
    decide
  ⟨⟨hnat, hTC, hnot⟩,
    C3_right_hand_side_frame exampleJumpEnv [2, 1] (fun _ _ _ _ _ => 7) (fun _ _ _ _ _ => 7)
      exampleBlockTree 4 0 hnat hTC hnot⟩

/-- C4 as stated fails: on the jump example `JumpFluxAdjustment` returns, node 4 is held on
the finished level 2, and the East jump-flux buffer of node 4 still holds 1. -/
theorem C4_jump_fluxes_not_reset :
    ∃ tree', JumpFluxAdjustment exampleJumpEnv [2, 1] (fun _ _ _ _ _ => 7)
        (fun _ _ _ _ _ => 7) exampleBlockTree = Except.ok tree' ∧
      4 ∈ tree'.NodesOnLevel 2 ∧ 0 ∈ (tree'.GetNodeWithId 4).materials ∧
      (tree'.block 4 0).jump_fluxes_.east_ 0 0 0 = 1 ∧
      (tree'.block 4 0).jump_fluxes_.east_ 0 0 0 ≠ 0 := by
  have hnat : NaturalSides exampleJumpEnv := by
    unfold NaturalSides
    decide
  obtain ⟨tree', hrun, hstep, _⟩ := ResetJumpConservativeBuffers_spec exampleJumpEnv hnat [2, 1]
    (stateAfterExchange exampleJumpEnv [2, 1] (fun _ _ _ _ _ => 7) (fun _ _ _ _ _ => 7)
      exampleBlockTree).tree_
  have hframe := Frame_trans
    (stateAfterExchange_tree_frame exampleJumpEnv [2, 1] (fun _ _ _ _ _ => 7)
      (fun _ _ _ _ _ => 7) exampleBlockTree) hstep.1
  have hflux : (tree'.block 4 0).jump_fluxes_ = (exampleBlockTree.block 4 0).jump_fluxes_ :=
    ((hframe.2 4).2.2 0).2.2.2.2
  have hval : (tree'.block 4 0).jump_fluxes_.east_ 0 0 0 = 1 := by
    rw [hflux]
    rfl
  refine ⟨tree', ?_, ?_, ?_, hval, ?_⟩
  · rw [JumpFluxAdjustment_eq exampleJumpEnv hnat]
    exact hrun
  · rw [hframe.1]
    decide
  · rw [(hframe.2 4).2.1]
    decide
  · rw [hval]
    norm_num

/-- C4, amended: with natural active sides, `JumpFluxAdjustment` returns, and afterwards,
for every node the executing rank holds on a finished level, every phase of the node and
every active natural side, the jump-conservative buffer is zero over its declared extent;
the shape of the tree and the jump-flux buffers of all blocks are the ones from before the
call. -/
theorem C4_jump_conservatives_reset (env : JumpEnv) (finished_levels_descending : List Nat)
    (coarse_garbage fine_garbage : Nat → Nat → FieldArray) (tree : BlockTree)
    (hnat : NaturalSides env) :
    ∃ tree', JumpFluxAdjustment env finished_levels_descending coarse_garbage fine_garbage
        tree = Except.ok tree' ∧
      (∀ level ∈ finished_levels_descending, ∀ id ∈ tree.NodesOnLevel level,
        ∀ material ∈ (tree.GetNodeWithId id).materials, ∀ location ∈ env.ANBS,
          ∀ e i j, e < env.ANOE → i < env.ICY → j < env.ICZ →
            (tree'.block id material).jump_conservatives_.side location e i j = 0) ∧
      tree'.NodesOnLevel = tree.NodesOnLevel ∧
      (∀ id, (tree'.GetNodeWithId id).materials = (tree.GetNodeWithId id).materials) ∧
      (∀ id material,
        (tree'.block id material).jump_fluxes_ = (tree.block id material).jump_fluxes_) := by
  obtain ⟨tree', hrun, hstep, hzero⟩ := ResetJumpConservativeBuffers_spec env hnat
    finished_levels_descending
    (stateAfterExchange env finished_levels_descending coarse_garbage fine_garbage tree).tree_
  have hex := stateAfterExchange_tree_frame env finished_levels_descending coarse_garbage
    fine_garbage tree
  have hframe := Frame_trans hex hstep.1
  refine ⟨tree', ?_, ?_, hframe.1, fun id => (hframe.2 id).2.1, ?_⟩
  · rw [JumpFluxAdjustment_eq env hnat]
    exact hrun
  · intro level hlevel id hid material hmat location hloc
    rw [← hex.1] at hid
    rw [← (hex.2 id).2.1] at hmat
    exact hzero level hlevel id hid material hmat location hloc
  · intro id material
    exact ((hframe.2 id).2.2 material).2.2.2.2

/-- Instance of the amended C4 on the jump example: the West jump conservatives of node 2
on the finished level 1 are zero after the call. -/
theorem C4_jump_conservatives_reset_witness :
    NaturalSides exampleJumpEnv ∧
    ∃ tree', JumpFluxAdjustment exampleJumpEnv [2, 1] (fun _ _ _ _ _ => 7)
        (fun _ _ _ _ _ => 7) exampleBlockTree = Except.ok tree' ∧
      (tree'.block 2 0).jump_conservatives_.side BoundaryLocation.West 0 0 0 = 0 :=
  have hnat : NaturalSides exampleJumpEnv := by
    unfold NaturalSides
    decide
  ⟨hnat,
    (C4_jump_conservatives_reset exampleJumpEnv [2, 1] (fun _ _ _ _ _ => 7)
      (fun _ _ _ _ _ => 7) exampleBlockTree hnat).elim
      (fun tree' h => ⟨tree', h.1,
        h.2.1 1 (by decide) 2 (by decide) 0 (by decide) BoundaryLocation.West (by decide)
          0 0 0 (by decide) (by decide) (by decide)⟩)⟩

theorem cellRange_nodup (first last : Nat) : (cellRange first last).Nodup := by
  unfold cellRange
  apply List.Nodup.map _ (List.nodup_range _)
  intro a b h
  exact Nat.add_left_cancel h

theorem layerCells_nodup (geometry : FaceGeometry) : (layerCells geometry).Nodup := by
  unfold layerCells
  rw [List.nodup_flatMap]
  refine ⟨fun i _ => ?_, ?_⟩
  · rw [List.nodup_flatMap]
    refine ⟨fun j _ => ?_, ?_⟩
    · apply List.Nodup.map _ (cellRange_nodup _ _)
      intro a b h
      injection h with _ h
      injection h
    · apply List.Pairwise.imp_of_mem _ (cellRange_nodup _ _)
      intro a b _ _ hab
      intro x hx1 hx2
      simp only [List.mem_map] at hx1 hx2
      obtain ⟨k1, _, rfl⟩ := hx1
      obtain ⟨k2, _, h⟩ := hx2
      injection h with _ h
      injection h with h _
      exact hab h.symm
  · apply List.Pairwise.imp_of_mem _ (cellRange_nodup _ _)
    intro a b _ _ hab
    intro x hx1 hx2
    simp only [List.mem_flatMap, List.mem_map] at hx1 hx2
    obtain ⟨j1, _, k1, _, rfl⟩ := hx1
    obtain ⟨j2, _, k2, _, h⟩ := hx2
    injection h with h _
    exact hab h.symm

/-- The two counters of the loops of lines 1200-1212 advance like quotient and remainder
of the number of visited cells. -/
theorem counter_step (wrap p : Nat) :
    (if p % wrap + 1 = wrap then (p / wrap + 1, 0) else (p / wrap, p % wrap + 1)) =
      ((p + 1) / wrap, (p + 1) % wrap) := by
  rcases Nat.eq_zero_or_pos wrap with h0 | hpos
  · subst h0
    simp
  · have hdm := Nat.div_add_mod p wrap
    have hlt := Nat.mod_lt p hpos
    by_cases h : p % wrap + 1 = wrap
    · rw [if_pos h]
      have hp : p + 1 = 0 + wrap * (p / wrap + 1) := by
        rw [Nat.mul_add, Nat.mul_one]
        omega
      have h1 : (p + 1) / wrap = p / wrap + 1 := by
        rw [hp, Nat.add_mul_div_left _ _ hpos, Nat.zero_div, Nat.zero_add]
      have h2 : (p + 1) % wrap = 0 := by
        rw [hp, Nat.add_mul_mod_self_left, Nat.zero_mod]
      rw [h1, h2]
    · rw [if_neg h]
      have hp : p + 1 = (p % wrap + 1) + wrap * (p / wrap) := by omega
      have hlt' : p % wrap + 1 < wrap := by omega
      have h1 : (p + 1) / wrap = p / wrap := by
        rw [hp, Nat.add_mul_div_left _ _ hpos, Nat.div_eq_of_lt hlt', Nat.zero_add]
      have h2 : (p + 1) % wrap = p % wrap + 1 := by
        rw [hp, Nat.add_mul_mod_self_left, Nat.mod_eq_of_lt hlt']
      rw [h1, h2]

theorem fillCell_spec (wrap : Nat) (jump_buffer : Nat → Nat → ℚ) (one_cell_size direction : ℚ)
    (state : FillState) (cell : Nat × Nat × Nat) (p : Nat)
    (h1 : state.jump_index_one = p / wrap) (h2 : state.jump_index_two = p % wrap) :
    (fillCell wrap jump_buffer one_cell_size direction state cell).jump_index_one =
        (p + 1) / wrap ∧
    (fillCell wrap jump_buffer one_cell_size direction state cell).jump_index_two =
        (p + 1) % wrap ∧
    ∀ i j k, (fillCell wrap jump_buffer one_cell_size direction state cell).fluxes i j k =
      if (i, j, k) = cell then jump_buffer (p / wrap) (p % wrap) * one_cell_size * direction
      else state.fluxes i j k := by
  have hc := counter_step wrap p
  unfold fillCell
  simp only [h1, h2]
  by_cases h : p % wrap + 1 = wrap
  · rw [if_pos h] at hc ⊢
    injection hc with hc1 hc2
    exact ⟨hc1, hc2, fun _ _ _ => rfl⟩
  · rw [if_neg h] at hc ⊢
    injection hc with hc1 hc2
    exact ⟨hc1, hc2, fun _ _ _ => rfl⟩

theorem indexOf_cell_self (c : Nat × Nat × Nat) (cs : List (Nat × Nat × Nat)) :
    List.indexOf c (c :: cs) = 0 := by
  simp [List.indexOf_cons]

theorem indexOf_cell_ne (c x : Nat × Nat × Nat) (cs : List (Nat × Nat × Nat)) (h : ¬ x = c) :
    List.indexOf x (c :: cs) = (List.indexOf x cs).succ := by
  have hb : (c == x) = false := by
    rw [beq_eq_false_iff_ne]
    exact fun e => h e.symm
  rw [List.indexOf_cons, hb]
  rfl

/-- Closed form of the three nested loops of lines 1200-1212 over the cells of a layer. -/
theorem foldl_fillCell (wrap : Nat) (jump_buffer : Nat → Nat → ℚ)
    (one_cell_size direction : ℚ) (cells : List (Nat × Nat × Nat)) (hnodup : cells.Nodup)
    (state : FillState) (p : Nat)
    (h1 : state.jump_index_one = p / wrap) (h2 : state.jump_index_two = p % wrap) :
    ∀ i j k, (cells.foldl (fillCell wrap jump_buffer one_cell_size direction) state).fluxes
        i j k =
      if (i, j, k) ∈ cells then
        jump_buffer ((p + cells.indexOf (i, j, k)) / wrap)
          ((p + cells.indexOf (i, j, k)) % wrap) * one_cell_size * direction
      else state.fluxes i j k := by
  induction cells generalizing state p with
  | nil => intro i j k; simp
  | cons c cs ih =>
    intro i j k
    rw [List.nodup_cons] at hnodup
    obtain ⟨s1, s2, s3⟩ := fillCell_spec wrap jump_buffer one_cell_size direction state c p h1 h2
    rw [List.foldl_cons, ih hnodup.2 _ (p + 1) s1 s2, s3]
    by_cases hx : (i, j, k) = c
    · have hnot : (i, j, k) ∉ cs := by rw [hx]; exact hnodup.1
      rw [if_neg hnot, if_pos hx, if_pos (by rw [hx]; exact List.mem_cons_self c cs), hx,
        indexOf_cell_self, Nat.add_zero]
    · by_cases hin : (i, j, k) ∈ cs
      · rw [if_pos hin, if_pos (List.mem_cons_of_mem c hin),
          indexOf_cell_ne c (i, j, k) cs hx]
        have : p + 1 + List.indexOf (i, j, k) cs = p + (List.indexOf (i, j, k) cs).succ := by
          omega
        rw [this]
      · rw [if_neg hin, if_neg hx, if_neg (fun h => (List.mem_cons.mp h).elim hx hin)]

/-- Closed form of the loops "Update Setup One" and "Update Step 2": for every active
equation the cells of the layer hold the jump value at their jump index, scaled by the
inverse cell size and the sign; all other entries are kept. -/
theorem fillFluxes_spec (env : JumpEnv) (location : BoundaryLocation) (one_cell_size : ℚ)
    (jump_buffer : JumpArray) (slot : Nat → FieldArray) (e i j k : Nat) :
    fillFluxes env (naturalGeometry env location) one_cell_size jump_buffer slot e i j k =
      if e ∈ env.ASOE ∧ (i, j, k) ∈ layerCells (naturalGeometry env location) then
        jump_buffer e (jumpIndexOf env location (i, j, k)).1
          (jumpIndexOf env location (i, j, k)).2 * one_cell_size *
            (naturalGeometry env location).direction
      else slot e i j k := by
  unfold fillFluxes jumpIndexOf
  generalize env.ASOE = eqs
  induction eqs generalizing slot with
  | nil => simp
  | cons eq eqs ih =>
    rw [List.foldl_cons, ih]
    have hfill := foldl_fillCell (min env.ICX (min env.ICY env.ICZ)) (jump_buffer eq)
      one_cell_size (naturalGeometry env location).direction
      (layerCells (naturalGeometry env location)) (layerCells_nodup _)
      { fluxes := slot eq, jump_index_one := 0, jump_index_two := 0 } 0
      (Nat.zero_div _).symm (Nat.zero_mod _).symm i j k
    simp only [Nat.zero_add] at hfill
    by_cases hc : (i, j, k) ∈ layerCells (naturalGeometry env location)
    · rw [if_pos hc] at hfill
      by_cases he : e = eq
      · subst he
        by_cases hes : e ∈ eqs
        · simp [hc, hes]
        · simp [hc, hes, hfill]
      · by_cases hes : e ∈ eqs
        · simp [hc, hes]
        · simp [hc, hes, he]
    · rw [if_neg hc] at hfill
      by_cases he : e = eq
      · subst he
        simp [hc, hfill]
      · simp [hc, he]

theorem naturalGeometry_direction (env : JumpEnv) (location : BoundaryLocation) :
    (naturalGeometry env location).direction = directionOf location := by
  cases location <;> rfl

theorem faceCorrection_eq (env : JumpEnv) (tree : BlockTree) (leaf_id : nid_t)
    (material : MaterialName) (e i j k : Nat) (location : BoundaryLocation) :
    faceCorrection env tree leaf_id material e i j k location =
      - staleContribution env tree leaf_id material e i j k location +
        correctedContribution env tree leaf_id material e i j k location := by
  unfold faceCorrection staleContribution correctedContribution
  rw [naturalGeometry_direction]
  split_ifs
  · ring
  · ring

theorem sum_faceCorrection (env : JumpEnv) (tree : BlockTree) (leaf_id : nid_t)
    (material : MaterialName) (e i j k : Nat) (locations : List BoundaryLocation) :
    (locations.map (faceCorrection env tree leaf_id material e i j k)).sum =
      - (locations.map (staleContribution env tree leaf_id material e i j k)).sum +
        (locations.map (correctedContribution env tree leaf_id material e i j k)).sum := by
  induction locations with
  | nil => simp
  | cons location rest ih =>
    simp only [List.map_cons, List.sum_cons]
    rw [ih, faceCorrection_eq]
    ring

/-- Adding a value to one of the six slots adds it to the sum over the slots. -/
theorem slotSum_update (f g : Nat → Nat → FieldArray) (b0 : Nat) (hb0 : b0 < 6) (v : ℚ)
    (e i j k : Nat) (h : ∀ b, g b e i j k = f b e i j k + (if b = b0 then v else 0)) :
    slotSum g e i j k = slotSum f e i j k + v := by
  unfold slotSum ConsistencyManagedSum
  rw [h 0, h 1, h 2, h 3, h 4, h 5]
  interval_cases b0 <;> simp <;> ring

/-- What one iteration of the loop over the locations stores in the scratch arrays for an
equation and a cell whose slot of the location was zero. -/
theorem exchangeLocationResult_slots (env : JumpEnv) (leaf_id : nid_t)
    (material : MaterialName) (state : ExchangeState) (location : BoundaryLocation)
    (e i j k : Nat)
    (hrank : env.topology_.NodeIsOnRank leaf_id env.my_rank = true)
    (he : e ∈ env.ASOE) (heq : e < env.ANOE)
    (hidx : (i, j, k) ∈ layerCells (naturalGeometry env location) →
      (jumpIndexOf env location (i, j, k)).1 < env.ICY ∧
        (jumpIndexOf env location (i, j, k)).2 < env.ICZ)
    (hzero : state.coarse_fluxes (env.LTI location) e i j k = 0 ∧
      state.fine_fluxes (env.LTI location) e i j k = 0) (b : Nat) :
    (exchangeLocationResult env leaf_id material state location).coarse_fluxes b e i j k =
        state.coarse_fluxes b e i j k +
          (if b = env.LTI location then
            staleContribution env state.tree_ leaf_id material e i j k location else 0) ∧
    (exchangeLocationResult env leaf_id material state location).fine_fluxes b e i j k =
        state.fine_fluxes b e i j k +
          (if b = env.LTI location then
            correctedContribution env state.tree_ leaf_id material e i j k location else 0) := by
  unfold exchangeLocationResult staleContribution correctedContribution
  by_cases hq : neighborQualifies env leaf_id location = true
  · rw [if_pos ⟨hq, hrank⟩]
    unfold ownFaceResult
    simp only []
    by_cases hb : b = env.LTI location
    · rw [hb, if_pos rfl, if_pos rfl, if_pos rfl, if_pos rfl, fillFluxes_spec, fillFluxes_spec]
      by_cases hc : (i, j, k) ∈ layerCells (naturalGeometry env location)
      · obtain ⟨h1, h2⟩ := hidx hc
        simp [he, hc, hq, hzero.1, hzero.2, overwriteJump, heq, h1, h2]
      · simp [hc, hzero.1, hzero.2]
    · simp [hb]
  · simp [hq]

/-- One iteration of the loop over the locations keeps what the contributions of another
side are computed from. -/
theorem exchangeLocationResult_contributions (env : JumpEnv) (leaf_id : nid_t)
    (material : MaterialName) (state : ExchangeState) (location other : BoundaryLocation)
    (e i j k : Nat) (hface : naturalFace other ≠ naturalFace location)
    (hother : neighborQualifies env leaf_id other = true →
      env.GetTopologyNeighborId leaf_id other ≠ leaf_id) :
    staleContribution env (exchangeLocationResult env leaf_id material state location).tree_
        leaf_id material e i j k other =
      staleContribution env state.tree_ leaf_id material e i j k other ∧
    correctedContribution env (exchangeLocationResult env leaf_id material state location).tree_
        leaf_id material e i j k other =
      correctedContribution env state.tree_ leaf_id material e i j k other := by
  unfold exchangeLocationResult
  split_ifs
  · obtain ⟨t1, _, t3⟩ := ownFaceResult_tree env leaf_id material location state
    have hblock : ((ownFaceResult env leaf_id material location state).tree_.block leaf_id
        material).jump_conservatives_.side other =
        (state.tree_.block leaf_id material).jump_conservatives_.side other := by
      unfold ownFaceResult SurfaceBuffer.side
      simp only []
      rw [block_modifyBlock, if_pos ⟨rfl, rfl⟩]
      simp only []
      rw [face_setFace, if_neg hface]
    have hsize := (t1.2 leaf_id).1
    unfold staleContribution correctedContribution
    by_cases hq : neighborQualifies env leaf_id other = true ∧
        (i, j, k) ∈ layerCells (naturalGeometry env other)
    · have hin : incomingJump env (ownFaceResult env leaf_id material location state).tree_
          leaf_id material other = incomingJump env state.tree_ leaf_id material other := by
        unfold incomingJump
        rw [t3 _ material (fun h => hother hq.1 h.1)]
      rw [if_pos hq, if_pos hq, if_pos hq, if_pos hq, hblock, hsize, hin]
      exact ⟨rfl, rfl⟩
    · rw [if_neg hq, if_neg hq, if_neg hq, if_neg hq]
      exact ⟨rfl, rfl⟩
  · exact ⟨rfl, rfl⟩

/-- Closed form of the loop over the locations for one equation and one cell: the sums
over the six slots grow by the contributions of the locations. -/
theorem foldl_exchangeLocationResult_slotSum (env : JumpEnv) (leaf_id : nid_t)
    (material : MaterialName) (e i j k : Nat)
    (hrank : env.topology_.NodeIsOnRank leaf_id env.my_rank = true)
    (he : e ∈ env.ASOE) (heq : e < env.ANOE)
    (hself : ∀ location, neighborQualifies env leaf_id location = true →
      env.GetTopologyNeighborId leaf_id location ≠ leaf_id)
    (locations : List BoundaryLocation)
    (hLTI : (locations.map env.LTI).Nodup) (hLTI6 : ∀ location ∈ locations, env.LTI location < 6)
    (hfaces : (locations.map naturalFace).Nodup)
    (hidx : ∀ location ∈ locations, (i, j, k) ∈ layerCells (naturalGeometry env location) →
      (jumpIndexOf env location (i, j, k)).1 < env.ICY ∧
        (jumpIndexOf env location (i, j, k)).2 < env.ICZ)
    (state : ExchangeState)
    (hzero : ∀ location ∈ locations, state.coarse_fluxes (env.LTI location) e i j k = 0 ∧
      state.fine_fluxes (env.LTI location) e i j k = 0) :
    slotSum (locations.foldl (exchangeLocationResult env leaf_id material) state).coarse_fluxes
        e i j k =
      slotSum state.coarse_fluxes e i j k +
        (locations.map (staleContribution env state.tree_ leaf_id material e i j k)).sum ∧
    slotSum (locations.foldl (exchangeLocationResult env leaf_id material) state).fine_fluxes
        e i j k =
      slotSum state.fine_fluxes e i j k +
        (locations.map (correctedContribution env state.tree_ leaf_id material e i j k)).sum := by
  induction locations generalizing state with
  | nil => simp
  | cons location rest ih =>
    rw [List.map_cons, List.nodup_cons] at hLTI hfaces
    have hs := exchangeLocationResult_slots env leaf_id material state location e i j k hrank
      he heq (hidx location (List.mem_cons_self location rest))
      (hzero location (List.mem_cons_self location rest))
    have hne : ∀ other ∈ rest, env.LTI other ≠ env.LTI location := by
      intro other hmem heq'
      exact hLTI.1 (heq' ▸ List.mem_map_of_mem env.LTI hmem)
    have hfne : ∀ other ∈ rest, naturalFace other ≠ naturalFace location := by
      intro other hmem heq'
      exact hfaces.1 (heq' ▸ List.mem_map_of_mem naturalFace hmem)
    have hzero1 : ∀ other ∈ rest,
        (exchangeLocationResult env leaf_id material state location).coarse_fluxes
          (env.LTI other) e i j k = 0 ∧
        (exchangeLocationResult env leaf_id material state location).fine_fluxes
          (env.LTI other) e i j k = 0 := by
      intro other hmem
      obtain ⟨c, f⟩ := hs (env.LTI other)
      rw [c, f, if_neg (hne other hmem), if_neg (hne other hmem),
        (hzero other (List.mem_cons_of_mem location hmem)).1,
        (hzero other (List.mem_cons_of_mem location hmem)).2]
      exact ⟨by ring, by ring⟩
    obtain ⟨ih1, ih2⟩ := ih hLTI.2
      (fun other hmem => hLTI6 other (List.mem_cons_of_mem location hmem)) hfaces.2
      (fun other hmem => hidx other (List.mem_cons_of_mem location hmem))
      (exchangeLocationResult env leaf_id material state location) hzero1
    have hstale : rest.map (staleContribution env
          (exchangeLocationResult env leaf_id material state location).tree_ leaf_id material
          e i j k) =
        rest.map (staleContribution env state.tree_ leaf_id material e i j k) :=
      List.map_congr_left (fun other hmem =>
        (exchangeLocationResult_contributions env leaf_id material state location other e i j k
          (hfne other hmem) (hself other)).1)
    have hcorrected : rest.map (correctedContribution env
          (exchangeLocationResult env leaf_id material state location).tree_ leaf_id material
          e i j k) =
        rest.map (correctedContribution env state.tree_ leaf_id material e i j k) :=
      List.map_congr_left (fun other hmem =>
        (exchangeLocationResult_contributions env leaf_id material state location other e i j k
          (hfne other hmem) (hself other)).2)
    have hc := slotSum_update state.coarse_fluxes
      (exchangeLocationResult env leaf_id material state location).coarse_fluxes
      (env.LTI location) (hLTI6 location (List.mem_cons_self location rest))
      (staleContribution env state.tree_ leaf_id material e i j k location) e i j k
      (fun b => (hs b).1)
    have hf := slotSum_update state.fine_fluxes
      (exchangeLocationResult env leaf_id material state location).fine_fluxes
      (env.LTI location) (hLTI6 location (List.mem_cons_self location rest))
      (correctedContribution env state.tree_ leaf_id material e i j k location) e i j k
      (fun b => (hs b).2)
    rw [List.foldl_cons, ih1, ih2, hstale, hcorrected, hc, hf, List.map_cons, List.map_cons,
      List.sum_cons, List.sum_cons]
    exact ⟨by ring, by ring⟩

/-- Closed form of one iteration of the loop over the materials for a leaf the executing
rank holds: the right-hand side of an interior cell loses the stale and gains the corrected
contributions of the active sides. -/
theorem exchangeMaterialResult_rhs (env : JumpEnv) (state : ExchangeState) (leaf_id : nid_t)
    (material : MaterialName) (e i j k : Nat)
    (hrank : env.topology_.NodeIsOnRank leaf_id env.my_rank = true)
    (he : e ∈ env.ASOE) (heq : e < env.ANOE) (hc : (i, j, k) ∈ interiorCells env)
    (hself : ∀ location, neighborQualifies env leaf_id location = true →
      env.GetTopologyNeighborId leaf_id location ≠ leaf_id)
    (hLTI : (env.ANBS.map env.LTI).Nodup) (hLTI6 : ∀ location ∈ env.ANBS, env.LTI location < 6)
    (hfaces : (env.ANBS.map naturalFace).Nodup)
    (hidx : ∀ location ∈ env.ANBS, (i, j, k) ∈ layerCells (naturalGeometry env location) →
      (jumpIndexOf env location (i, j, k)).1 < env.ICY ∧
        (jumpIndexOf env location (i, j, k)).2 < env.ICZ)
    (hz : ScratchZero env state) :
    ((exchangeMaterialResult env state (leaf_id, material)).tree_.block leaf_id
        material).right_hand_side_ e i j k =
      (state.tree_.block leaf_id material).right_hand_side_ e i j k
        - (env.ANBS.map (staleContribution env state.tree_ leaf_id material e i j k)).sum
        + (env.ANBS.map (correctedContribution env state.tree_ leaf_id material e i j k)).sum := by
  unfold exchangeMaterialResult applyFluxes
  simp only []
  rw [if_pos hrank]
  obtain ⟨a1, _⟩ := foldl_applyEquation env leaf_id material env.ASOE
    (env.ANBS.foldl (exchangeLocationResult env leaf_id material) state)
  obtain ⟨_, l2, _⟩ := foldl_exchangeLocationResult_tree env leaf_id material env.ANBS state
  obtain ⟨s1, s2⟩ := foldl_exchangeLocationResult_slotSum env leaf_id material e i j k hrank he
    heq hself env.ANBS hLTI hLTI6 hfaces hidx state
    (fun location hloc => hz (env.LTI location) e i j k (hLTI6 location hloc) he hc)
  rw [a1, if_pos ⟨he, hc⟩, l2 leaf_id material, s1, s2,
    slotSum_zero state.coarse_fluxes e i j k (fun b hb => (hz b e i j k hb he hc).1),
    slotSum_zero state.fine_fluxes e i j k (fun b hb => (hz b e i j k hb he hc).2)]
  ring

/-- What any part of the loop over the (leaf, material) pairs keeps. -/
theorem foldl_exchangeMaterialResult_frame (env : JumpEnv) (pairs : List (nid_t × MaterialName))
    (state : ExchangeState) :
    Frame state.tree_ (pairs.foldl (exchangeMaterialResult env) state).tree_ ∧
    (∀ n m, (n, m) ∉ pairs →
      (pairs.foldl (exchangeMaterialResult env) state).tree_.block n m =
        state.tree_.block n m) ∧
    (ScratchZero env state → ScratchZero env (pairs.foldl (exchangeMaterialResult env) state)) := by
  induction pairs generalizing state with
  | nil => exact ⟨Frame_refl _, fun _ _ _ => rfl, fun h => h⟩
  | cons pair rest ih =>
    rw [List.foldl_cons]
    obtain ⟨h1, h2, h3⟩ := ih (exchangeMaterialResult env state pair)
    obtain ⟨s1, s2, s3⟩ := exchangeMaterialResult_frame env state pair
    refine ⟨Frame_trans s1 h1, fun n m hnot => ?_, fun hz => h3 (s3 hz)⟩
    rw [h2 n m (fun hmem => hnot (List.mem_cons_of_mem pair hmem)),
      s2 n m (fun heq => hnot (by
        have hp : (n, m) = pair := Prod.ext heq.1 heq.2
        rw [hp]
        exact List.mem_cons_self pair rest))]

/-- A neighbor that qualifies for the exchange is not a leaf. -/
theorem neighborQualifies_not_leaf (env : JumpEnv) (leaf_id : nid_t)
    (location : BoundaryLocation) (h : neighborQualifies env leaf_id location = true) :
    env.topology_.NodeIsLeaf (env.GetTopologyNeighborId leaf_id location) = false := by
  unfold neighborQualifies at h
  simp only [] at h
  by_cases hex : env.topology_.NodeExists (env.GetTopologyNeighborId leaf_id location) = true
  · rw [hex] at h
    simpa using h
  · rw [Bool.not_eq_true] at hex
    rw [hex] at h
    simp at h

/-- The leaves of the pairs the exchange visits are listed as leaves of an exchanging
level. -/
theorem mem_exchangePairs (env : JumpEnv) (level_exchanging : List Nat) (n : nid_t)
    (m : MaterialName) :
    (n, m) ∈ exchangePairs env level_exchanging ↔
      ∃ level ∈ level_exchanging, n ∈ env.topology_.LeafIdsOnLevel level ∧
        m ∈ env.topology_.GetMaterialsOfNode n := by
  unfold exchangePairs
  simp only [List.mem_flatMap, List.mem_map]
  constructor
  · rintro ⟨level, hlevel, leaf, hleaf, material, hmat, heq⟩
    injection heq with h1 h2
    subst h1
    subst h2
    exact ⟨level, hlevel, hleaf, hmat⟩
  · rintro ⟨level, hlevel, hleaf, hmat⟩
    exact ⟨level, hlevel, n, hleaf, m, hmat, rfl⟩

/-- The contributions of a side depend on the tree only through the jump conservatives and
the cell size of the leaf and the block of a qualifying neighbor. -/
theorem contributions_congr (env : JumpEnv) (tree tree' : BlockTree) (leaf_id : nid_t)
    (material : MaterialName) (e i j k : Nat) (location : BoundaryLocation)
    (hblock : tree'.block leaf_id material = tree.block leaf_id material)
    (hsize : (tree'.GetNodeWithId leaf_id).cell_size = (tree.GetNodeWithId leaf_id).cell_size)
    (hneighbor : neighborQualifies env leaf_id location = true →
      tree'.block (env.GetTopologyNeighborId leaf_id location) material =
        tree.block (env.GetTopologyNeighborId leaf_id location) material) :
    staleContribution env tree' leaf_id material e i j k location =
      staleContribution env tree leaf_id material e i j k location ∧
    correctedContribution env tree' leaf_id material e i j k location =
      correctedContribution env tree leaf_id material e i j k location := by
  unfold staleContribution correctedContribution
  by_cases hq : neighborQualifies env leaf_id location = true ∧
      (i, j, k) ∈ layerCells (naturalGeometry env location)
  · have hin : incomingJump env tree' leaf_id material location =
        incomingJump env tree leaf_id material location := by
      unfold incomingJump
      rw [hneighbor hq.1]
    rw [if_pos hq, if_pos hq, if_pos hq, if_pos hq, hblock, hsize, hin]
    exact ⟨rfl, rfl⟩
  · rw [if_neg hq, if_neg hq, if_neg hq, if_neg hq]
    exact ⟨rfl, rfl⟩

/-- Closed form of the exchange phase for the right-hand side of a leaf the executing rank
holds: every interior cell loses the stale and gains the corrected contributions of the
active sides, computed from the tree after the first phase. -/
theorem stateAfterExchange_rhs (env : JumpEnv) (finished_levels_descending : List Nat)
    (coarse_garbage fine_garbage : Nat → Nat → FieldArray) (tree : BlockTree)
    (leaf_id : nid_t) (material : MaterialName) (e i j k : Nat)
    (hTC : InteriorInsideBlock env)
    (hLTI : (env.ANBS.map env.LTI).Nodup) (hLTI6 : ∀ location ∈ env.ANBS, env.LTI location < 6)
    (hfaces : (env.ANBS.map naturalFace).Nodup)
    (hleaf : ∀ level ∈ finished_levels_descending.tail,
      ∀ id ∈ env.topology_.LeafIdsOnLevel level, env.topology_.NodeIsLeaf id = true)
    (hpairs : (exchangePairs env finished_levels_descending.tail).Nodup)
    (hrank : env.topology_.NodeIsOnRank leaf_id env.my_rank = true)
    (hmem : (leaf_id, material) ∈ exchangePairs env finished_levels_descending.tail)
    (he : e ∈ env.ASOE) (heq : e < env.ANOE) (hc : (i, j, k) ∈ interiorCells env)
    (hidx : ∀ location ∈ env.ANBS, (i, j, k) ∈ layerCells (naturalGeometry env location) →
      (jumpIndexOf env location (i, j, k)).1 < env.ICY ∧
        (jumpIndexOf env location (i, j, k)).2 < env.ICZ) :
    ((stateAfterExchange env finished_levels_descending coarse_garbage fine_garbage
        tree).tree_.block leaf_id material).right_hand_side_ e i j k =
      (tree.block leaf_id material).right_hand_side_ e i j k
        - (env.ANBS.map (staleContribution env
            (treeAfterAveraging env finished_levels_descending tree) leaf_id material
            e i j k)).sum
        + (env.ANBS.map (correctedContribution env
            (treeAfterAveraging env finished_levels_descending tree) leaf_id material
            e i j k)).sum := by
  have hisleaf : ∀ n m, (n, m) ∈ exchangePairs env finished_levels_descending.tail →
      env.topology_.NodeIsLeaf n = true := by
    intro n m hnm
    obtain ⟨level, hlevel, hn, _⟩ := (mem_exchangePairs env _ n m).mp hnm
    exact hleaf level hlevel n hn
  have hself : ∀ location, neighborQualifies env leaf_id location = true →
      env.GetTopologyNeighborId leaf_id location ≠ leaf_id := by
    intro location hq hsame
    have h1 := neighborQualifies_not_leaf env leaf_id location hq
    rw [hsame, hisleaf leaf_id material hmem] at h1
    exact Bool.noConfusion h1
  obtain ⟨pre, post, hsplit⟩ := List.append_of_mem hmem
  rw [hsplit, List.nodup_middle, List.nodup_cons] at hpairs
  have hpre : (leaf_id, material) ∉ pre := fun h => hpairs.1 (List.mem_append_left post h)
  have hpost : (leaf_id, material) ∉ post := fun h => hpairs.1 (List.mem_append_right pre h)
  have hprepairs : ∀ x ∈ pre, x ∈ exchangePairs env finished_levels_descending.tail := by
    intro x hx
    rw [hsplit]
    exact List.mem_append_left _ hx
  unfold stateAfterExchange
  rw [hsplit, List.foldl_append, List.foldl_cons]
  obtain ⟨p1, p2, p3⟩ := foldl_exchangeMaterialResult_frame env pre
    { tree_ := treeAfterAveraging env finished_levels_descending tree,
      coarse_fluxes := initialFluxes env coarse_garbage,
      fine_fluxes := initialFluxes env fine_garbage }
  have hz := p3 (fun b e i j k hb he hc =>
    ⟨initialFluxes_interior env hTC coarse_garbage b e i j k hb he hc,
      initialFluxes_interior env hTC fine_garbage b e i j k hb he hc⟩)
  obtain ⟨_, q2, _⟩ := foldl_exchangeMaterialResult_frame env post
    (exchangeMaterialResult env (pre.foldl (exchangeMaterialResult env)
      { tree_ := treeAfterAveraging env finished_levels_descending tree,
        coarse_fluxes := initialFluxes env coarse_garbage,
        fine_fluxes := initialFluxes env fine_garbage }) (leaf_id, material))
  have hcontr : ∀ location,
      staleContribution env (pre.foldl (exchangeMaterialResult env)
        { tree_ := treeAfterAveraging env finished_levels_descending tree,
          coarse_fluxes := initialFluxes env coarse_garbage,
          fine_fluxes := initialFluxes env fine_garbage }).tree_ leaf_id material e i j k
          location =
        staleContribution env (treeAfterAveraging env finished_levels_descending tree) leaf_id
          material e i j k location ∧
      correctedContribution env (pre.foldl (exchangeMaterialResult env)
        { tree_ := treeAfterAveraging env finished_levels_descending tree,
          coarse_fluxes := initialFluxes env coarse_garbage,
          fine_fluxes := initialFluxes env fine_garbage }).tree_ leaf_id material e i j k
          location =
        correctedContribution env (treeAfterAveraging env finished_levels_descending tree)
          leaf_id material e i j k location := by
    intro location
    apply contributions_congr
    · exact p2 leaf_id material hpre
    · exact (p1.2 leaf_id).1
    · intro hq
      apply p2
      intro hin
      have h1 := neighborQualifies_not_leaf env leaf_id location hq
      rw [hisleaf _ material (hprepairs _ hin)] at h1
      exact Bool.noConfusion h1
  rw [q2 leaf_id material hpost,
    exchangeMaterialResult_rhs env _ leaf_id material e i j k hrank he heq hc hself hLTI hLTI6
      hfaces hidx hz,
    List.map_congr_left (fun location _ => (hcontr location).1),
    List.map_congr_left (fun location _ => (hcontr location).2),
    p2 leaf_id material hpre]
  simp only []
  unfold treeAfterAveraging
  rw [(averageDown_frame env _ tree).2 leaf_id material]

theorem naturalFace_injective (a b : BoundaryLocation) (ha : a.isNatural = true)
    (hb : b.isNatural = true) (h : naturalFace a = naturalFace b) : a = b := by
  cases a <;> cases b <;>
    first
      | rfl
      | exact Bool.noConfusion ha
      | exact Bool.noConfusion hb
      | exact JumpFace.noConfusion h

theorem sum_map_eq_single {α : Type} (f : α → ℚ) (l : List α) (a : α) (hnodup : l.Nodup)
    (ha : a ∈ l) (hzero : ∀ x ∈ l, x ≠ a → f x = 0) : (l.map f).sum = f a := by
  induction l with
  | nil => exact absurd ha (List.not_mem_nil a)
  | cons x xs ih =>
    rw [List.nodup_cons] at hnodup
    rw [List.map_cons, List.sum_cons]
    rcases List.mem_cons.mp ha with hax | hmem
    · have hrest : (xs.map f).sum = 0 := by
        apply List.sum_eq_zero
        intro y hy
        obtain ⟨z, hz, hzy⟩ := List.mem_map.mp hy
        rw [← hzy]
        apply hzero z (List.mem_cons_of_mem x hz)
        intro hza
        apply hnodup.1
        rw [← hax, ← hza]
        exact hz
      rw [hrest, hax, add_zero]
    · have hx : f x = 0 := by
        apply hzero x (List.mem_cons_self x xs)
        intro hxa
        apply hnodup.1
        rw [hxa]
        exact hmem
      rw [hx, zero_add]
      exact ih hnodup.2 hmem (fun y hy => hzero y (List.mem_cons_of_mem x hy))

/-- Closed form of `JumpFluxAdjustment` for the right-hand side of a leaf the executing
rank holds on an exchanging level: the call returns, and an interior cell has changed by the
sum of the corrections of the active sides. -/
theorem JumpFluxAdjustment_rhs (env : JumpEnv) (finished_levels_descending : List Nat)
    (coarse_garbage fine_garbage : Nat → Nat → FieldArray) (tree : BlockTree)
    (leaf_id : nid_t) (material : MaterialName) (e i j k : Nat)
    (hnat : NaturalSides env) (hTC : InteriorInsideBlock env)
    (hLTI : (env.ANBS.map env.LTI).Nodup) (hLTI6 : ∀ location ∈ env.ANBS, env.LTI location < 6)
    (hleaf : ∀ level ∈ finished_levels_descending.tail,
      ∀ id ∈ env.topology_.LeafIdsOnLevel level, env.topology_.NodeIsLeaf id = true)
    (hpairs : (exchangePairs env finished_levels_descending.tail).Nodup)
    (hrank : env.topology_.NodeIsOnRank leaf_id env.my_rank = true)
    (hmem : (leaf_id, material) ∈ exchangePairs env finished_levels_descending.tail)
    (he : e ∈ env.ASOE) (heq : e < env.ANOE) (hc : (i, j, k) ∈ interiorCells env)
    (hidx : ∀ location ∈ env.ANBS, (i, j, k) ∈ layerCells (naturalGeometry env location) →
      (jumpIndexOf env location (i, j, k)).1 < env.ICY ∧
        (jumpIndexOf env location (i, j, k)).2 < env.ICZ) :
    ∃ tree', JumpFluxAdjustment env finished_levels_descending coarse_garbage fine_garbage
        tree = Except.ok tree' ∧
      (tree'.block leaf_id material).right_hand_side_ e i j k =
        (tree.block leaf_id material).right_hand_side_ e i j k +
          (env.ANBS.map (faceCorrection env
            (treeAfterAveraging env finished_levels_descending tree) leaf_id material
            e i j k)).sum := by
  have hfaces : (env.ANBS.map naturalFace).Nodup :=
    List.Nodup.map_on
      (fun a ha b hb h => naturalFace_injective a b (hnat a ha).1 (hnat b hb).1 h)
      (List.Nodup.of_map env.LTI hLTI)
  obtain ⟨tree', hrun, hstep, _⟩ := ResetJumpConservativeBuffers_spec env hnat
    finished_levels_descending
    (stateAfterExchange env finished_levels_descending coarse_garbage fine_garbage tree).tree_
  refine ⟨tree', ?_, ?_⟩
  · rw [JumpFluxAdjustment_eq env hnat]
    exact hrun
  · rw [hstep.2.1 leaf_id material,
      stateAfterExchange_rhs env finished_levels_descending coarse_garbage fine_garbage tree
        leaf_id material e i j k hTC hLTI hLTI6 hfaces hleaf hpairs hrank hmem he heq hc hidx,
      sum_faceCorrection]
    ring

/-- C2 as stated fails: on the jump example the executing rank holds leaf 3 on the
exchanging level 1, its West neighbor 2 exists and is not a leaf, and the interior cell
`(1, 0, 0)` lies in the layer of the West side.  Before the exchange the right-hand side
is 10, the West jump conservative of the leaf is 1, the East jump conservative of the
neighbor is 2 (before the call as well as after the first phase) and the cell size is 1.
`JumpFluxAdjustment` returns with the value 11, while the formula with the sign -1 for West
gives 9.  The values that enter the correction of this cell are integers, so the
operations of lines 1190, 1203, 1239 and 1269-1274 do not round on them. -/
theorem C2_outward_sign_refuted :
    ∃ tree', JumpFluxAdjustment exampleJumpEnv [2, 1] (fun _ _ _ _ _ => 7)
        (fun _ _ _ _ _ => 7) exampleBlockTree = Except.ok tree' ∧
      exampleJumpEnv.topology_.NodeIsOnRank 3 exampleJumpEnv.my_rank = true ∧
      3 ∈ exampleJumpEnv.topology_.LeafIdsOnLevel 1 ∧
      neighborQualifies exampleJumpEnv 3 BoundaryLocation.West = true ∧
      neighborQualifies exampleJumpEnv 3 BoundaryLocation.East = false ∧
      (1, 0, 0) ∈ layerCells (naturalGeometry exampleJumpEnv BoundaryLocation.West) ∧
      (exampleBlockTree.block 3 0).right_hand_side_ 0 1 0 0 = 10 ∧
      ((treeAfterAveraging exampleJumpEnv [2, 1] exampleBlockTree).block 3
        0).jump_conservatives_.side BoundaryLocation.West 0 0 0 = 1 ∧
      ((treeAfterAveraging exampleJumpEnv [2, 1] exampleBlockTree).block
        (exampleJumpEnv.GetTopologyNeighborId 3 BoundaryLocation.West)
        0).jump_conservatives_.side BoundaryLocation.East 0 0 0 = 2 ∧
      (exampleBlockTree.block 3 0).jump_conservatives_.side BoundaryLocation.West 0 0 0 = 1 ∧
      (exampleBlockTree.block 2 0).jump_conservatives_.side BoundaryLocation.East 0 0 0 = 2 ∧
      (exampleBlockTree.GetNodeWithId 3).cell_size = 1 ∧
      (tree'.block 3 0).right_hand_side_ 0 1 0 0 = 11 ∧
      (tree'.block 3 0).right_hand_side_ 0 1 0 0 ≠
        10 + (- (1 : ℚ) * (-1) / 1 + 2 * (-1) / 1) := by
  have hnat : NaturalSides exampleJumpEnv := by
    unfold NaturalSides
    decide
  have hTC : InteriorInsideBlock exampleJumpEnv := by
    unfold InteriorInsideBlock
    decide
  obtain ⟨tree', hrun, hrhs⟩ := JumpFluxAdjustment_rhs exampleJumpEnv [2, 1]
    (fun _ _ _ _ _ => 7) (fun _ _ _ _ _ => 7) exampleBlockTree 3 0 0 1 0 0 hnat hTC
    (by decide) (by decide) (by decide) (by decide) (by decide) (by decide) (by decide)
    (by decide) (by decide) (by decide)
  have hEast : faceCorrection exampleJumpEnv
      (treeAfterAveraging exampleJumpEnv [2, 1] exampleBlockTree) 3 0 0 1 0 0
      BoundaryLocation.East = 0 := by
    unfold faceCorrection
    rw [if_neg]
    intro h
    exact absurd h.1 (by decide)
  have hWest : faceCorrection exampleJumpEnv
      (treeAfterAveraging exampleJumpEnv [2, 1] exampleBlockTree) 3 0 0 1 0 0
      BoundaryLocation.West = 1 := by
    unfold faceCorrection
    rw [if_pos ⟨by decide, by decide⟩]
    have hindex : jumpIndexOf exampleJumpEnv BoundaryLocation.West (1, 0, 0) = (0, 0) := by
      decide
    have hown : ((treeAfterAveraging exampleJumpEnv [2, 1] exampleBlockTree).block 3
        0).jump_conservatives_.side BoundaryLocation.West 0 0 0 = 1 := rfl
    have hneighbor : incomingJump exampleJumpEnv
        (treeAfterAveraging exampleJumpEnv [2, 1] exampleBlockTree) 3 0
        BoundaryLocation.West 0 0 0 = 2 := rfl
    have hsize : ((treeAfterAveraging exampleJumpEnv [2, 1] exampleBlockTree).GetNodeWithId
        3).cell_size = 1 := rfl
    rw [hindex]
    simp only []
    rw [hown, hneighbor, hsize]
    norm_num [directionOf]
  have hvalue : (tree'.block 3 0).right_hand_side_ 0 1 0 0 = 11 := by
    rw [hrhs]
    have hlist : exampleJumpEnv.ANBS = [BoundaryLocation.East, BoundaryLocation.West] := rfl
    have hbefore : (exampleBlockTree.block 3 0).right_hand_side_ 0 1 0 0 = 10 := rfl
    rw [hlist, List.map_cons, List.map_cons, List.map_nil, List.sum_cons, List.sum_cons,
      List.sum_nil, hEast, hWest, hbefore]
    norm_num
  refine ⟨tree', hrun, by decide, by decide, by decide, by decide, by decide, rfl, rfl, rfl, rfl,
    rfl, rfl, hvalue, ?_⟩
  rw [hvalue]
  norm_num

/-- C2, amended, a statement in exact arithmetic: every `double` is read as the rational
number it holds, and the quotient of line 1190, the products of lines 1203 and 1239 and
the sums and differences of lines 1269-1274 are taken without rounding.  The code rounds
each of these operations to `double`; the statement does not cover that round-off.

For a leaf the executing rank holds on an exchanging level, every material of the leaf,
every active equation and every interior cell, `JumpFluxAdjustment` returns and has
changed the right-hand-side value of the cell by the sum, over the active sides whose
same-level neighbor exists and is not a leaf and whose one-cell layer contains the cell, of
`- J_own * d / dx + J_nbr * d / dx`.  Here `J_own` is the jump-conservative entry of the
leaf on that side before the exchange, `J_nbr` the jump-conservative entry of the neighbor
on the opposite face (read from the tree or received), both at the jump index of the cell,
`dx` the cell size of the leaf and `d` the value of `direction`: -1 for East, North and
Top, +1 for West, South and Bottom.  When exactly one active side contributes to the cell,
the change is the correction of that side. -/
theorem C2_right_hand_side_correction (env : JumpEnv) (finished_levels_descending : List Nat)
    (coarse_garbage fine_garbage : Nat → Nat → FieldArray) (tree : BlockTree)
    (leaf_id : nid_t) (material : MaterialName) (e i j k : Nat)
    (hnat : NaturalSides env) (hTC : InteriorInsideBlock env)
    (hLTI : (env.ANBS.map env.LTI).Nodup) (hLTI6 : ∀ location ∈ env.ANBS, env.LTI location < 6)
    (hleaf : ∀ level ∈ finished_levels_descending.tail,
      ∀ id ∈ env.topology_.LeafIdsOnLevel level, env.topology_.NodeIsLeaf id = true)
    (hpairs : (exchangePairs env finished_levels_descending.tail).Nodup)
    (hrank : env.topology_.NodeIsOnRank leaf_id env.my_rank = true)
    (hlevel : ∃ level ∈ finished_levels_descending.tail,
      leaf_id ∈ env.topology_.LeafIdsOnLevel level)
    (hmaterial : material ∈ env.topology_.GetMaterialsOfNode leaf_id)
    (he : e ∈ env.ASOE) (heq : e < env.ANOE) (hc : (i, j, k) ∈ interiorCells env)
    (hidx : ∀ location ∈ env.ANBS, (i, j, k) ∈ layerCells (naturalGeometry env location) →
      (jumpIndexOf env location (i, j, k)).1 < env.ICY ∧
        (jumpIndexOf env location (i, j, k)).2 < env.ICZ) :
    ∃ tree', JumpFluxAdjustment env finished_levels_descending coarse_garbage fine_garbage
        tree = Except.ok tree' ∧
      (tree'.block leaf_id material).right_hand_side_ e i j k =
        (tree.block leaf_id material).right_hand_side_ e i j k +
          (env.ANBS.map (faceCorrection env
            (treeAfterAveraging env finished_levels_descending tree) leaf_id material
            e i j k)).sum ∧
      ∀ location ∈ env.ANBS, neighborQualifies env leaf_id location = true →
        (i, j, k) ∈ layerCells (naturalGeometry env location) →
        (∀ other ∈ env.ANBS, other ≠ location →
          ¬(neighborQualifies env leaf_id other = true ∧
            (i, j, k) ∈ layerCells (naturalGeometry env other))) →
        (tree'.block leaf_id material).right_hand_side_ e i j k =
          (tree.block leaf_id material).right_hand_side_ e i j k +
            (- (((treeAfterAveraging env finished_levels_descending tree).block leaf_id
                  material).jump_conservatives_.side location e
                  (jumpIndexOf env location (i, j, k)).1
                  (jumpIndexOf env location (i, j, k)).2 *
                directionOf location /
                ((treeAfterAveraging env finished_levels_descending tree).GetNodeWithId
                  leaf_id).cell_size) +
              incomingJump env (treeAfterAveraging env finished_levels_descending tree)
                  leaf_id material location e
                  (jumpIndexOf env location (i, j, k)).1
                  (jumpIndexOf env location (i, j, k)).2 *
                directionOf location /
                ((treeAfterAveraging env finished_levels_descending tree).GetNodeWithId
                  leaf_id).cell_size) := by
  obtain ⟨level, hlevel', hleafmem⟩ := hlevel
  obtain ⟨tree', hrun, hrhs⟩ := JumpFluxAdjustment_rhs env finished_levels_descending
    coarse_garbage fine_garbage tree leaf_id material e i j k hnat hTC hLTI hLTI6 hleaf hpairs
    hrank ((mem_exchangePairs env _ leaf_id material).mpr ⟨level, hlevel', hleafmem, hmaterial⟩)
    he heq hc hidx
  refine ⟨tree', hrun, hrhs, ?_⟩
  intro location hloc hq hcell hothers
  rw [hrhs, sum_map_eq_single _ env.ANBS location (List.Nodup.of_map env.LTI hLTI) hloc
    (fun other hother hne => by
      unfold faceCorrection
      rw [if_neg (hothers other hother hne)])]
  unfold faceCorrection
  rw [if_pos ⟨hq, hcell⟩]

/-- Instance of the amended C2 on the jump example: leaf 3, material 0, the cell
`(1, 0, 0)`; the call returns and the value has changed by the sum of the corrections of
the sides East and West. -/
theorem C2_right_hand_side_correction_witness :
    (NaturalSides exampleJumpEnv ∧ InteriorInsideBlock exampleJumpEnv ∧
      exampleJumpEnv.topology_.NodeIsOnRank 3 exampleJumpEnv.my_rank = true ∧
      (∃ level ∈ [1], 3 ∈ exampleJumpEnv.topology_.LeafIdsOnLevel level) ∧
      0 ∈ exampleJumpEnv.topology_.GetMaterialsOfNode 3 ∧
      (1, 0, 0) ∈ interiorCells exampleJumpEnv) ∧
    ∃ tree', JumpFluxAdjustment exampleJumpEnv [2, 1] (fun _ _ _ _ _ => 7)
        (fun _ _ _ _ _ => 7) exampleBlockTree = Except.ok tree' ∧
      (tree'.block 3 0).right_hand_side_ 0 1 0 0 =
        (exampleBlockTree.block 3 0).right_hand_side_ 0 1 0 0 +
          (exampleJumpEnv.ANBS.map (faceCorrection exampleJumpEnv
            (treeAfterAveraging exampleJumpEnv [2, 1] exampleBlockTree) 3 0 0 1 0 0)).sum :=
  have hnat : NaturalSides exampleJumpEnv := by
    unfold NaturalSides
    decide
  have hTC : InteriorInsideBlock exampleJumpEnv := by
    unfold InteriorInsideBlock
    decide
  ⟨⟨hnat, hTC, by decide, by decide, by decide, by decide⟩,
    (C2_right_hand_side_correction exampleJumpEnv [2, 1] (fun _ _ _ _ _ => 7)
      (fun _ _ _ _ _ => 7) exampleBlockTree 3 0 0 1 0 0 hnat hTC (by decide) (by decide)
      (by decide) (by decide) (by decide) (by decide) (by decide) (by decide) (by decide)
      (by decide) (by decide)).elim
      (fun tree' h => ⟨tree', h.1, h.2.1⟩)⟩

/-! ### Load balancing: prime states, the wait and the removal -/

theorem filter_prime_materialTransfers (env : BalanceEnv) (id : nid_t) (node_not_updated : Bool)
    (materials : List MaterialName) :
    (materials.flatMap (materialTransfers env id node_not_updated)).filter
      (fun transfer => transfer.buffer.isPrimeState) = [] := by
  rw [List.filter_eq_nil_iff]
  intro t ht
  rw [List.mem_flatMap] at ht
  obtain ⟨material, _, hm⟩ := ht
  cases node_not_updated
  · simp [materialTransfers] at hm
    rcases hm with h | h | h <;> (rw [h]; exact Bool.noConfusion)
  · simp [materialTransfers] at hm
    rcases hm with h | h | h | h | h <;> (rw [h]; exact Bool.noConfusion)

theorem filter_prime_primeStateTransfers (env : BalanceEnv) (id : nid_t) :
    (primeStateTransfers env id).filter (fun transfer => transfer.buffer.isPrimeState) =
      primeStateTransfers env id := by
  rw [List.filter_eq_self]
  intro t ht
  unfold primeStateTransfers at ht
  rw [List.mem_map] at ht
  obtain ⟨material, _, rfl⟩ := ht
  rfl

/-- The prime-state buffers among the buffers the current owner sends for one move. -/
theorem filter_prime_sentTransfers (env : BalanceEnv) (tree_ : Tree) (lv : List Nat)
    (id : nid_t) :
    (sentTransfers env tree_ lv id).filter (fun transfer => transfer.buffer.isPrimeState) =
      if env.topology_.IsNodeMultiPhase id = true ∧ tree_.HasLevelset id = true then
        primeStateTransfers env id
      else [] := by
  unfold sentTransfers
  simp only []
  rw [List.filter_append, filter_prime_materialTransfers, List.nil_append]
  by_cases hm : env.topology_.IsNodeMultiPhase id = true
  · by_cases hl : tree_.HasLevelset id = true
    · rw [if_pos hm, if_pos hl, if_pos ⟨hm, hl⟩, List.filter_append, List.filter_append]
      have hp := filter_prime_primeStateTransfers env id
      unfold primeStateTransfers at hp ⊢
      rw [hp]
      simp [BufferKind.isPrimeState]
    · rw [if_pos hm, if_neg hl, if_neg (fun h => hl h.2)]
      simp [BufferKind.isPrimeState]
  · rw [if_neg hm, if_neg (fun h => hm h.1)]
    rfl

/-- The prime-state buffers among the buffers the future owner receives for one move. -/
theorem filter_prime_receiveOperations (env : BalanceEnv) (lv : List Nat) (id : nid_t)
    (current_rank : Int) :
    (recvsOf (receiveOperations env lv id current_rank)).filter
        (fun transfer => transfer.buffer.isPrimeState) =
      if env.topology_.IsNodeMultiPhase id = true ∧
          (env.LevelOfNode id == env.all_levels_.getLastD 0) = true then
        primeStateTransfers env id
      else [] := by
  rw [recvsOf_receiveOperations, List.filter_append, filter_prime_materialTransfers,
    List.nil_append]
  by_cases hm : env.topology_.IsNodeMultiPhase id = true
  · by_cases hl : (env.LevelOfNode id == env.all_levels_.getLastD 0) = true
    · rw [if_pos hm, if_pos hl, if_pos ⟨hm, hl⟩, List.filter_append, List.filter_append]
      have hp := filter_prime_primeStateTransfers env id
      unfold primeStateTransfers at hp ⊢
      rw [hp]
      simp [BufferKind.isPrimeState]
    · rw [if_pos hm, if_neg hl, if_neg (fun h => hl h.2)]
      simp [BufferKind.isPrimeState]
  · rw [if_neg hm, if_neg (fun h => hm h.1)]
    rfl

/-- C11 as stated fails: in the interface example node 5 is a two-material node with a
level-set block on the maximum level and moves from rank 0 to rank 1.  Rank 0 posts a send
of the prime-state buffer of material 0 of node 5, and rank 1 posts the receive for it. -/
theorem C11_prime_state_buffer_transmitted :
    (exampleInterfaceBalanceEnv.IsLoadBalancingNecessary || true) = true ∧
    ((5, 0, 1) : nid_t × Int × Int) ∈ exampleInterfaceBalanceEnv.ids_rank_map ∧
    BalanceEvent.Send ⟨5, BufferKind.PrimeStateBuffer 0, 4,
        MpiDatatype.conservatives_datatype⟩ 1 ∈
      (LoadBalancing { exampleInterfaceBalanceEnv with my_rank_id := 0 } [2] true
        (exampleInterfaceTrees 0)).events ∧
    BalanceEvent.Recv ⟨5, BufferKind.PrimeStateBuffer 0, 4,
        MpiDatatype.conservatives_datatype⟩ 0 ∈
      (LoadBalancing { exampleInterfaceBalanceEnv with my_rank_id := 1 } [2] true
        (exampleInterfaceTrees 1)).events := by
  decide

/-- C11, amended: when `LoadBalancing` runs on a move list with distinct ids, the
prime-state buffers among the sends for a moved node are: one per material of the node
(`MF::ANOP()` elements of the conservatives datatype) if the executing rank is the current
owner and the node is multi-material and has a level-set block, and none otherwise.  The
prime-state buffers among the receives are: one per material if the executing rank is the
future and not the current owner and the node is multi-material and on the maximum level
`all_levels_.back()`, and none otherwise.  In particular no send and no receive for a
single-material node refers to a prime-state buffer. -/
theorem C11_prime_state_transfers (env : BalanceEnv) (updated_levels_descending : List Nat)
    (force : Bool) (tree_ : Tree) (move : nid_t × Int × Int)
    (hrun : (env.IsLoadBalancingNecessary || force) = true)
    (hmove : move ∈ env.ids_rank_map)
    (hdistinct : (env.ids_rank_map.map (fun m => m.1)).Nodup) :
    (sendsFor move.1 (LoadBalancing env updated_levels_descending force tree_).events).filter
        (fun transfer => transfer.buffer.isPrimeState) =
      (if move.2.1 = env.my_rank_id ∧ env.topology_.IsNodeMultiPhase move.1 = true ∧
          tree_.HasLevelset move.1 = true then primeStateTransfers env move.1 else []) ∧
    (recvsFor move.1 (LoadBalancing env updated_levels_descending force tree_).events).filter
        (fun transfer => transfer.buffer.isPrimeState) =
      (if (move.2.1 ≠ env.my_rank_id ∧ move.2.2 = env.my_rank_id) ∧
          env.topology_.IsNodeMultiPhase move.1 = true ∧
          (env.LevelOfNode move.1 == env.all_levels_.getLastD 0) = true then
        primeStateTransfers env move.1 else []) ∧
    (env.topology_.IsNodeMultiPhase move.1 = false →
      (∀ transfer ∈ sendsFor move.1
          (LoadBalancing env updated_levels_descending force tree_).events,
        transfer.buffer.isPrimeState = false) ∧
      (∀ transfer ∈ recvsFor move.1
          (LoadBalancing env updated_levels_descending force tree_).events,
        transfer.buffer.isPrimeState = false)) := by
  obtain ⟨hs, hr⟩ := LoadBalancing_transfersFor env updated_levels_descending force tree_ hrun
    move hmove hdistinct
  have hsend : (sendsFor move.1
        (LoadBalancing env updated_levels_descending force tree_).events).filter
        (fun transfer => transfer.buffer.isPrimeState) =
      (if move.2.1 = env.my_rank_id ∧ env.topology_.IsNodeMultiPhase move.1 = true ∧
          tree_.HasLevelset move.1 = true then primeStateTransfers env move.1 else []) := by
    rw [hs]
    by_cases hc : move.2.1 = env.my_rank_id
    · rw [if_pos hc, filter_prime_sentTransfers]
      by_cases hm : env.topology_.IsNodeMultiPhase move.1 = true ∧ tree_.HasLevelset move.1 = true
      · rw [if_pos hm, if_pos ⟨hc, hm⟩]
      · rw [if_neg hm, if_neg (fun h => hm h.2)]
    · rw [if_neg hc, if_neg (fun h => hc h.1)]
      rfl
  have hrecv : (recvsFor move.1
        (LoadBalancing env updated_levels_descending force tree_).events).filter
        (fun transfer => transfer.buffer.isPrimeState) =
      (if (move.2.1 ≠ env.my_rank_id ∧ move.2.2 = env.my_rank_id) ∧
          env.topology_.IsNodeMultiPhase move.1 = true ∧
          (env.LevelOfNode move.1 == env.all_levels_.getLastD 0) = true then
        primeStateTransfers env move.1 else []) := by
    rw [hr]
    by_cases hc : move.2.1 ≠ env.my_rank_id ∧ move.2.2 = env.my_rank_id
    · rw [if_pos hc, filter_prime_receiveOperations]
      by_cases hm : env.topology_.IsNodeMultiPhase move.1 = true ∧
          (env.LevelOfNode move.1 == env.all_levels_.getLastD 0) = true
      · rw [if_pos hm, if_pos ⟨hc, hm⟩]
      · rw [if_neg hm, if_neg (fun h => hm h.2)]
    · rw [if_neg hc, if_neg (fun h => hc h.1)]
      rfl
  refine ⟨hsend, hrecv, fun hsingle => ⟨?_, ?_⟩⟩
  · have hnil : (sendsFor move.1
          (LoadBalancing env updated_levels_descending force tree_).events).filter
          (fun transfer => transfer.buffer.isPrimeState) = [] := by
      rw [hsend, if_neg]
      intro h
      rw [hsingle] at h
      exact Bool.noConfusion h.2.1
    rw [List.filter_eq_nil_iff] at hnil
    intro transfer ht
    exact Bool.eq_false_iff.mpr (hnil transfer ht)
  · have hnil : (recvsFor move.1
          (LoadBalancing env updated_levels_descending force tree_).events).filter
          (fun transfer => transfer.buffer.isPrimeState) = [] := by
      rw [hrecv, if_neg]
      intro h
      rw [hsingle] at h
      exact Bool.noConfusion h.2.1
    rw [List.filter_eq_nil_iff] at hnil
    intro transfer ht
    exact Bool.eq_false_iff.mpr (hnil transfer ht)

/-- Instance of the amended C11 on the example forest, where the moved node 5 is a
single-material node: no send for node 5 refers to a prime-state buffer, although five
buffers of the node are sent. -/
theorem C11_prime_state_transfers_witness :
    ((exampleBalanceEnv.IsLoadBalancingNecessary || false) = true ∧
      ((5, 0, 1) : nid_t × Int × Int) ∈ exampleBalanceEnv.ids_rank_map ∧
      (exampleBalanceEnv.ids_rank_map.map (fun m => m.1)).Nodup ∧
      exampleBalanceEnv.topology_.IsNodeMultiPhase 5 = false) ∧
    (∀ transfer ∈ sendsFor 5 (LoadBalancing exampleBalanceEnv [1] false (exampleTrees 0)).events,
      transfer.buffer.isPrimeState = false) ∧
    (sendsFor 5 (LoadBalancing exampleBalanceEnv [1] false (exampleTrees 0)).events).length = 5 :=
  ⟨⟨by decide, by decide, by decide, by decide⟩,
    ((C11_prime_state_transfers exampleBalanceEnv [1] false (exampleTrees 0) (5, 0, 1)
      (by decide) (by decide) (by decide)).2.2 (by decide)).1,
    by decide⟩

theorem receiveOperations_isPosting (env : BalanceEnv) (lv : List Nat) (id : nid_t)
    (current_rank : Int) :
    ∀ event ∈ receiveOperations env lv id current_rank, event.isPosting = true := by
  intro event hevent
  unfold receiveOperations at hevent
  simp only [List.mem_append, List.mem_map] at hevent
  rcases hevent with ⟨t, _, rfl⟩ | h
  · rfl
  · by_cases hm : env.topology_.IsNodeMultiPhase id = true
    · rw [if_pos hm] at h
      simp only [List.mem_append, List.mem_singleton] at h
      rcases h with rfl | h
      · rfl
      · by_cases hl : (env.LevelOfNode id == env.all_levels_.getLastD 0) = true
        · rw [if_pos hl] at h
          simp only [List.mem_append, List.mem_map, List.mem_cons, List.mem_singleton,
            List.not_mem_nil, or_false] at h
          rcases h with ⟨m, _, rfl⟩ | rfl | rfl | rfl | rfl <;> rfl
        · rw [if_neg hl] at h
          exact absurd h (List.not_mem_nil event)
    · rw [if_neg hm, List.mem_singleton] at h
      rw [h]
      rfl

/-- What one iteration of the loop over the moves appends. -/
theorem postMove_spec (env : BalanceEnv) (lv : List Nat) (state : BalanceState)
    (move : nid_t × Int × Int) :
    ∃ posted, (postMove env lv state move).events = state.events ++ posted ∧
      (∀ event ∈ posted, event.isPosting = true) ∧
      (postMove env lv state move).received_nodes_not_updated =
        state.received_nodes_not_updated ++ receivedNotUpdated env lv [move] := by
  unfold postMove receivedNotUpdated
  simp only []
  by_cases hc : move.2.1 = env.my_rank_id
  · rw [if_pos hc]
    refine ⟨_, rfl, ?_, ?_⟩
    · intro event hevent
      rw [List.mem_map] at hevent
      obtain ⟨t, _, rfl⟩ := hevent
      rfl
    · simp [hc]
  · rw [if_neg hc]
    by_cases hf : move.2.2 = env.my_rank_id
    · rw [if_pos hf]
      refine ⟨[BalanceEvent.CreateNode move.1] ++ receiveOperations env lv move.1 move.2.1,
        by simp, ?_, ?_⟩
      · intro event hevent
        rcases List.mem_append.mp hevent with h | h
        · rw [List.mem_singleton] at h
          rw [h]
          rfl
        · exact receiveOperations_isPosting env lv move.1 move.2.1 event h
      · by_cases hn : nodeNotUpdated env lv move.1 = true
        · simp [hc, hf, hn]
        · simp [hc, hf, hn]
    · rw [if_neg hf]
      refine ⟨[], by simp, fun _ h => absurd h (List.not_mem_nil _), ?_⟩
      simp [hc, hf]

theorem receivedNotUpdated_cons (env : BalanceEnv) (lv : List Nat) (move : nid_t × Int × Int)
    (moves : List (nid_t × Int × Int)) :
    receivedNotUpdated env lv (move :: moves) =
      receivedNotUpdated env lv [move] ++ receivedNotUpdated env lv moves := by
  unfold receivedNotUpdated
  rw [← List.map_append, ← List.filter_append]
  rfl

/-- Closed form of the loop over the moves. -/
theorem foldl_postMove_spec (env : BalanceEnv) (lv : List Nat)
    (moves : List (nid_t × Int × Int)) (state : BalanceState) :
    ∃ posted, (moves.foldl (postMove env lv) state).events = state.events ++ posted ∧
      (∀ event ∈ posted, event.isPosting = true) ∧
      (moves.foldl (postMove env lv) state).received_nodes_not_updated =
        state.received_nodes_not_updated ++ receivedNotUpdated env lv moves := by
  induction moves generalizing state with
  | nil => exact ⟨[], by simp, fun _ h => absurd h (List.not_mem_nil _), by simp [receivedNotUpdated]⟩
  | cons move rest ih =>
    obtain ⟨p1, e1, q1, r1⟩ := postMove_spec env lv state move
    obtain ⟨p2, e2, q2, r2⟩ := ih (postMove env lv state move)
    refine ⟨p1 ++ p2, ?_, ?_, ?_⟩
    · rw [List.foldl_cons, e2, e1, List.append_assoc]
    · intro event hevent
      rcases List.mem_append.mp hevent with h | h
      · exact q1 event h
      · exact q2 event h
    · rw [List.foldl_cons, r2, r1, List.append_assoc, ← receivedNotUpdated_cons]

/-- Closed form of the removal loop. -/
theorem foldl_removeMoved_spec (env : BalanceEnv) (moves : List (nid_t × Int × Int))
    (state : BalanceState) :
    (moves.foldl (removeMoved env) state).events = state.events ++ removalEvents env moves ∧
    (moves.foldl (removeMoved env) state).received_nodes_not_updated =
      state.received_nodes_not_updated := by
  induction moves generalizing state with
  | nil => simp [removalEvents]
  | cons move rest ih =>
    obtain ⟨h1, h2⟩ := ih (removeMoved env state move)
    rw [List.foldl_cons, h1, h2]
    unfold removeMoved removalEvents
    by_cases hc : move.2.1 = env.my_rank_id
    · simp [hc]
    · simp [hc]

/-- Closed form of the loop over the received nodes. -/
theorem foldl_recomputePrimeStates_spec (env : BalanceEnv) (ids : List nid_t)
    (state : BalanceState) :
    (ids.foldl (recomputePrimeStates env) state).events =
      state.events ++ recomputationEvents env state.tree_ ids ∧
    (ids.foldl (recomputePrimeStates env) state).tree_ = state.tree_ := by
  induction ids generalizing state with
  | nil => simp [recomputationEvents]
  | cons id rest ih =>
    obtain ⟨h1, h2⟩ := ih (recomputePrimeStates env state id)
    have ht : (recomputePrimeStates env state id).tree_ = state.tree_ := by
      unfold recomputePrimeStates
      split_ifs <;> rfl
    rw [List.foldl_cons, h1, h2, ht]
    refine ⟨?_, rfl⟩
    unfold recomputePrimeStates recomputationEvents
    by_cases hl : env.topology_.NodeIsLeaf id = true
    · by_cases hs : state.tree_.HasLevelset id = true
      · simp [hl, hs]
      · simp [hl, hs]
    · simp [hl]

/-- Closed form of the operations of `LoadBalancing` when it runs: the cache invalidation,
the posted operations, the wait, the removals, the recomputations and the log message. -/
theorem LoadBalancing_events (env : BalanceEnv) (lv : List Nat) (force : Bool) (tree_ : Tree)
    (hrun : (env.IsLoadBalancingNecessary || force) = true) :
    ∃ posted, (∀ event ∈ posted, event.isPosting = true) ∧
      (LoadBalancing env lv force tree_).events =
        [BalanceEvent.InvalidateCache] ++ posted ++ [BalanceEvent.Waitall] ++
          removalEvents env env.ids_rank_map ++
          recomputationEvents env (LoadBalancing env lv force tree_).tree_
            (receivedNotUpdated env lv env.ids_rank_map) ++
          [BalanceEvent.LogMessage] := by
  obtain ⟨posted, e1, q1, r1⟩ := foldl_postMove_spec env lv env.ids_rank_map
    { tree_ := tree_, events := [BalanceEvent.InvalidateCache],
      received_nodes_not_updated := [] }
  refine ⟨posted, q1, ?_⟩
  unfold LoadBalancing
  rw [if_pos hrun]
  simp only []
  obtain ⟨e2, r2⟩ := foldl_removeMoved_spec env env.ids_rank_map
    { (env.ids_rank_map.foldl (postMove env lv)
        { tree_ := tree_, events := [BalanceEvent.InvalidateCache],
          received_nodes_not_updated := [] }) with
      events := (env.ids_rank_map.foldl (postMove env lv)
        { tree_ := tree_, events := [BalanceEvent.InvalidateCache],
          received_nodes_not_updated := [] }).events ++ [BalanceEvent.Waitall] }
  obtain ⟨e3, t3⟩ := foldl_recomputePrimeStates_spec env
    (env.ids_rank_map.foldl (removeMoved env)
      { (env.ids_rank_map.foldl (postMove env lv)
          { tree_ := tree_, events := [BalanceEvent.InvalidateCache],
            received_nodes_not_updated := [] }) with
        events := (env.ids_rank_map.foldl (postMove env lv)
          { tree_ := tree_, events := [BalanceEvent.InvalidateCache],
            received_nodes_not_updated := [] }).events ++
              [BalanceEvent.Waitall] }).received_nodes_not_updated
    (env.ids_rank_map.foldl (removeMoved env)
      { (env.ids_rank_map.foldl (postMove env lv)
          { tree_ := tree_, events := [BalanceEvent.InvalidateCache],
            received_nodes_not_updated := [] }) with
        events := (env.ids_rank_map.foldl (postMove env lv)
          { tree_ := tree_, events := [BalanceEvent.InvalidateCache],
            received_nodes_not_updated := [] }).events ++ [BalanceEvent.Waitall] })
  rw [e3, t3, e2, r2]
  simp only []
  rw [e1, r1]
  simp

theorem mem_receivedNotUpdated (env : BalanceEnv) (lv : List Nat)
    (moves : List (nid_t × Int × Int)) (id : nid_t) :
    id ∈ receivedNotUpdated env lv moves ↔
      ∃ move ∈ moves, move.1 = id ∧ move.2.1 ≠ env.my_rank_id ∧ move.2.2 = env.my_rank_id ∧
        nodeNotUpdated env lv id = true := by
  unfold receivedNotUpdated
  simp only [List.mem_map, List.mem_filter, Bool.and_eq_true, decide_eq_true_eq]
  constructor
  · rintro ⟨move, ⟨hmem, ⟨hc, hf⟩, hn⟩, rfl⟩
    exact ⟨move, hmem, rfl, hc, hf, hn⟩
  · rintro ⟨move, hmem, rfl, hc, hf, hn⟩
    exact ⟨move, ⟨hmem, ⟨hc, hf⟩, hn⟩, rfl⟩

theorem mem_recomputationEvents_levelset (env : BalanceEnv) (tree_ : Tree) (ids : List nid_t)
    (id : nid_t) :
    BalanceEvent.ObtainPrimeStatesForLevelsetNode id ∈ recomputationEvents env tree_ ids ↔
      id ∈ ids ∧ env.topology_.NodeIsLeaf id = true ∧ tree_.HasLevelset id = true := by
  unfold recomputationEvents
  rw [List.mem_filterMap]
  constructor
  · rintro ⟨n, hn, h⟩
    by_cases hl : env.topology_.NodeIsLeaf n = true
    · rw [if_pos hl] at h
      by_cases hs : tree_.HasLevelset n = true
      · rw [if_pos hs] at h
        injection h with h
        injection h with h
        rw [← h]
        exact ⟨hn, hl, hs⟩
      · rw [if_neg hs] at h
        injection h with h
        exact BalanceEvent.noConfusion h
    · rw [if_neg hl] at h
      exact Option.noConfusion h
  · rintro ⟨hn, hl, hs⟩
    exact ⟨id, hn, by rw [if_pos hl, if_pos hs]⟩

theorem mem_recomputationEvents_plain (env : BalanceEnv) (tree_ : Tree) (ids : List nid_t)
    (id : nid_t) :
    BalanceEvent.ObtainPrimeStatesForNonLevelsetNode id ∈ recomputationEvents env tree_ ids ↔
      id ∈ ids ∧ env.topology_.NodeIsLeaf id = true ∧ tree_.HasLevelset id = false := by
  unfold recomputationEvents
  rw [List.mem_filterMap]
  constructor
  · rintro ⟨n, hn, h⟩
    by_cases hl : env.topology_.NodeIsLeaf n = true
    · rw [if_pos hl] at h
      by_cases hs : tree_.HasLevelset n = true
      · rw [if_pos hs] at h
        injection h with h
        exact BalanceEvent.noConfusion h
      · rw [if_neg hs] at h
        injection h with h
        injection h with h
        rw [← h]
        exact ⟨hn, hl, Bool.eq_false_iff.mpr hs⟩
    · rw [if_neg hl] at h
      exact Option.noConfusion h
  · rintro ⟨hn, hl, hs⟩
    refine ⟨id, hn, ?_⟩
    rw [if_pos hl, if_neg (by rw [hs]; exact Bool.noConfusion)]

theorem recomputationEvents_kind (env : BalanceEnv) (tree_ : Tree) (ids : List nid_t) :
    ∀ event ∈ recomputationEvents env tree_ ids,
      event.isTransfer = false ∧ event.isPosting = false ∧ event ≠ BalanceEvent.Waitall ∧
        ∀ id, event ≠ BalanceEvent.RemoveNodeWithId id := by
  intro event hevent
  unfold recomputationEvents at hevent
  rw [List.mem_filterMap] at hevent
  obtain ⟨n, _, h⟩ := hevent
  by_cases hl : env.topology_.NodeIsLeaf n = true
  · rw [if_pos hl] at h
    injection h with h
    rw [← h]
    split_ifs
    · exact ⟨rfl, rfl, fun h => BalanceEvent.noConfusion h,
        fun _ h => BalanceEvent.noConfusion h⟩
    · exact ⟨rfl, rfl, fun h => BalanceEvent.noConfusion h,
        fun _ h => BalanceEvent.noConfusion h⟩
  · rw [if_neg hl] at h
    exact Option.noConfusion h

theorem removalEvents_kind (env : BalanceEnv) (moves : List (nid_t × Int × Int)) :
    ∀ event ∈ removalEvents env moves,
      event.isTransfer = false ∧ event.isPosting = false ∧ event ≠ BalanceEvent.Waitall ∧
        ∀ id, event ≠ BalanceEvent.ObtainPrimeStatesForLevelsetNode id ∧
          event ≠ BalanceEvent.ObtainPrimeStatesForNonLevelsetNode id := by
  intro event hevent
  unfold removalEvents at hevent
  rw [List.mem_map] at hevent
  obtain ⟨move, _, rfl⟩ := hevent
  exact ⟨rfl, rfl, fun h => BalanceEvent.noConfusion h,
    fun _ => ⟨fun h => BalanceEvent.noConfusion h, fun h => BalanceEvent.noConfusion h⟩⟩

theorem posting_kind (event : BalanceEvent) (h : event.isPosting = true) :
    event ≠ BalanceEvent.Waitall ∧ event ≠ BalanceEvent.InvalidateCache ∧
      event ≠ BalanceEvent.LogMessage ∧
      ∀ id, event ≠ BalanceEvent.RemoveNodeWithId id ∧
        event ≠ BalanceEvent.ObtainPrimeStatesForLevelsetNode id ∧
        event ≠ BalanceEvent.ObtainPrimeStatesForNonLevelsetNode id := by
  cases event <;>
    first
      | exact Bool.noConfusion h
      | exact ⟨fun h => BalanceEvent.noConfusion h, fun h => BalanceEvent.noConfusion h,
          fun h => BalanceEvent.noConfusion h,
          fun _ => ⟨fun h => BalanceEvent.noConfusion h, fun h => BalanceEvent.noConfusion h,
            fun h => BalanceEvent.noConfusion h⟩⟩

/-- C12 as stated fails: in the example node 2 is not a leaf and moves from rank 0 to the
executing rank 1 while its level 1 is not among the updated levels.  Rank 1 creates the
node, receives its average buffer and lists it in `received_nodes_not_updated`, but issues
neither of the two recomputations of prime states for it. -/
theorem C12_received_parent_not_recomputed :
    (exampleParentBalanceEnv.IsLoadBalancingNecessary || false) = true ∧
    ((2, 0, 1) : nid_t × Int × Int) ∈ exampleParentBalanceEnv.ids_rank_map ∧
    exampleParentBalanceEnv.my_rank_id = 1 ∧
    nodeNotUpdated exampleParentBalanceEnv [2] 2 = true ∧
    exampleParentBalanceEnv.topology_.NodeIsLeaf 2 = false ∧
    BalanceEvent.CreateNode 2 ∈
      (LoadBalancing exampleParentBalanceEnv [2] false (exampleTrees 1)).events ∧
    BalanceEvent.Recv ⟨2, BufferKind.AverageBuffer 0, 3, MpiDatatype.conservatives_datatype⟩ 0 ∈
      (LoadBalancing exampleParentBalanceEnv [2] false (exampleTrees 1)).events ∧
    2 ∈ (LoadBalancing exampleParentBalanceEnv [2] false
      (exampleTrees 1)).received_nodes_not_updated ∧
    2 ∈ (LoadBalancing exampleParentBalanceEnv [2] false (exampleTrees 1)).tree_.ids ∧
    BalanceEvent.ObtainPrimeStatesForLevelsetNode 2 ∉
      (LoadBalancing exampleParentBalanceEnv [2] false (exampleTrees 1)).events ∧
    BalanceEvent.ObtainPrimeStatesForNonLevelsetNode 2 ∉
      (LoadBalancing exampleParentBalanceEnv [2] false (exampleTrees 1)).events := by
  decide

/-- C12, amended: when `LoadBalancing` runs, its operations split at the wait into the
ones before and the ones after it.  No receive is posted after the wait and no prime state
is recomputed before it.  After the wait the prime states of node `id` are recomputed from
the average buffer exactly if the executing rank received the node in this call (it is the
future and not the current owner of a move of `id`), the level of the node is not among the
updated ones, and the node is a leaf; the level-set variant of the recomputation is used
exactly if the node carries a level-set block.  For a received node that is not a leaf
nothing is recomputed. -/
theorem C12_received_leaves_recomputed (env : BalanceEnv)
    (updated_levels_descending : List Nat) (force : Bool) (tree_ : Tree)
    (hrun : (env.IsLoadBalancingNecessary || force) = true) :
    ∃ before after,
      (LoadBalancing env updated_levels_descending force tree_).events =
        before ++ [BalanceEvent.Waitall] ++ after ∧
      (∀ event ∈ after, event.isTransfer = false) ∧
      (∀ id, BalanceEvent.ObtainPrimeStatesForLevelsetNode id ∉ before ∧
        BalanceEvent.ObtainPrimeStatesForNonLevelsetNode id ∉ before) ∧
      ∀ id,
        (BalanceEvent.ObtainPrimeStatesForLevelsetNode id ∈ after ↔
          (∃ move ∈ env.ids_rank_map, move.1 = id ∧ move.2.1 ≠ env.my_rank_id ∧
            move.2.2 = env.my_rank_id ∧
            nodeNotUpdated env updated_levels_descending id = true) ∧
          env.topology_.NodeIsLeaf id = true ∧
          (LoadBalancing env updated_levels_descending force tree_).tree_.HasLevelset id =
            true) ∧
        (BalanceEvent.ObtainPrimeStatesForNonLevelsetNode id ∈ after ↔
          (∃ move ∈ env.ids_rank_map, move.1 = id ∧ move.2.1 ≠ env.my_rank_id ∧
            move.2.2 = env.my_rank_id ∧
            nodeNotUpdated env updated_levels_descending id = true) ∧
          env.topology_.NodeIsLeaf id = true ∧
          (LoadBalancing env updated_levels_descending force tree_).tree_.HasLevelset id =
            false) := by
  obtain ⟨posted, hposted, hevents⟩ := LoadBalancing_events env updated_levels_descending force
    tree_ hrun
  refine ⟨[BalanceEvent.InvalidateCache] ++ posted,
    removalEvents env env.ids_rank_map ++
      recomputationEvents env (LoadBalancing env updated_levels_descending force tree_).tree_
        (receivedNotUpdated env updated_levels_descending env.ids_rank_map) ++
      [BalanceEvent.LogMessage], ?_, ?_, ?_, ?_⟩
  · rw [hevents]
    simp only [List.append_assoc]
  · intro event hevent
    rcases List.mem_append.mp hevent with h | h
    · rcases List.mem_append.mp h with h | h
      · exact (removalEvents_kind env _ event h).1
      · exact (recomputationEvents_kind env _ _ event h).1
    · rw [List.mem_singleton] at h
      rw [h]
      rfl
  · intro id
    constructor
    · intro h
      rcases List.mem_append.mp h with h | h
      · rw [List.mem_singleton] at h
        exact BalanceEvent.noConfusion h
      · exact ((posting_kind _ (hposted _ h)).2.2.2 id).2.1 rfl
    · intro h
      rcases List.mem_append.mp h with h | h
      · rw [List.mem_singleton] at h
        exact BalanceEvent.noConfusion h
      · exact ((posting_kind _ (hposted _ h)).2.2.2 id).2.2 rfl
  · intro id
    constructor
    · rw [← mem_receivedNotUpdated, ← mem_recomputationEvents_levelset]
      constructor
      · intro h
        rcases List.mem_append.mp h with h | h
        · rcases List.mem_append.mp h with h | h
          · exact absurd rfl ((removalEvents_kind env _ _ h).2.2.2 id).1
          · exact h
        · rw [List.mem_singleton] at h
          exact BalanceEvent.noConfusion h
      · intro h
        exact List.mem_append_left _ (List.mem_append_right _ h)
    · rw [← mem_receivedNotUpdated, ← mem_recomputationEvents_plain]
      constructor
      · intro h
        rcases List.mem_append.mp h with h | h
        · rcases List.mem_append.mp h with h | h
          · exact absurd rfl ((removalEvents_kind env _ _ h).2.2.2 id).2
          · exact h
        · rw [List.mem_singleton] at h
          exact BalanceEvent.noConfusion h
      · intro h
        exact List.mem_append_left _ (List.mem_append_right _ h)

/-- Instance of the amended C12 on the example forest: leaf 5 moves from rank 0 to the
executing rank 1, level 2 is not among the updated levels, and rank 1 recomputes the prime
states of node 5 after the wait. -/
theorem C12_received_leaves_recomputed_witness :
    (exampleBalanceEnv.IsLoadBalancingNecessary || false) = true ∧
    ∃ before after,
      (LoadBalancing { exampleBalanceEnv with my_rank_id := 1 } [1] false
        (exampleTrees 1)).events = before ++ [BalanceEvent.Waitall] ++ after ∧
      BalanceEvent.ObtainPrimeStatesForNonLevelsetNode 5 ∈ after :=
  ⟨by decide,
    (C12_received_leaves_recomputed { exampleBalanceEnv with my_rank_id := 1 } [1] false
      (exampleTrees 1) (by decide)).elim
      (fun before h => h.elim (fun after h => ⟨before, after, h.1,
        (h.2.2.2 5).2.mpr ⟨⟨(5, 0, 1), by decide, rfl, by decide, by decide, by decide⟩,
          by decide, by decide⟩⟩))⟩

/-- C13: when `LoadBalancing` runs, it executes exactly one wait-all.  Its operations are
the ones before the wait, the wait and the ones after it; no send and no receive is posted
after the wait, no node is removed from the tree before it, and after it exactly the nodes
of the moves whose current owner is the executing rank are removed. -/
theorem C13_single_wait_before_removal (env : BalanceEnv)
    (updated_levels_descending : List Nat) (force : Bool) (tree_ : Tree)
    (hrun : (env.IsLoadBalancingNecessary || force) = true) :
    (LoadBalancing env updated_levels_descending force tree_).events.count
        BalanceEvent.Waitall = 1 ∧
    ∃ before after,
      (LoadBalancing env updated_levels_descending force tree_).events =
        before ++ [BalanceEvent.Waitall] ++ after ∧
      BalanceEvent.Waitall ∉ before ∧ BalanceEvent.Waitall ∉ after ∧
      (∀ event ∈ after, event.isTransfer = false) ∧
      (∀ id, BalanceEvent.RemoveNodeWithId id ∉ before) ∧
      (∀ id, BalanceEvent.RemoveNodeWithId id ∈ after ↔
        ∃ move ∈ env.ids_rank_map, move.1 = id ∧ move.2.1 = env.my_rank_id) := by
  obtain ⟨posted, hposted, hevents⟩ := LoadBalancing_events env updated_levels_descending force
    tree_ hrun
  have hbefore : BalanceEvent.Waitall ∉ [BalanceEvent.InvalidateCache] ++ posted := by
    intro h
    rcases List.mem_append.mp h with h | h
    · rw [List.mem_singleton] at h
      exact BalanceEvent.noConfusion h
    · exact (posting_kind _ (hposted _ h)).1 rfl
  have hafter : BalanceEvent.Waitall ∉ removalEvents env env.ids_rank_map ++
      recomputationEvents env (LoadBalancing env updated_levels_descending force tree_).tree_
        (receivedNotUpdated env updated_levels_descending env.ids_rank_map) ++
      [BalanceEvent.LogMessage] := by
    intro h
    rcases List.mem_append.mp h with h | h
    · rcases List.mem_append.mp h with h | h
      · exact (removalEvents_kind env _ _ h).2.2.1 rfl
      · exact (recomputationEvents_kind env _ _ _ h).2.2.1 rfl
    · rw [List.mem_singleton] at h
      exact BalanceEvent.noConfusion h
  have hsplit : (LoadBalancing env updated_levels_descending force tree_).events =
      ([BalanceEvent.InvalidateCache] ++ posted) ++ [BalanceEvent.Waitall] ++
        (removalEvents env env.ids_rank_map ++
          recomputationEvents env
            (LoadBalancing env updated_levels_descending force tree_).tree_
            (receivedNotUpdated env updated_levels_descending env.ids_rank_map) ++
          [BalanceEvent.LogMessage]) := by
    rw [hevents]
    simp only [List.append_assoc]
  refine ⟨?_, [BalanceEvent.InvalidateCache] ++ posted, _, hsplit, hbefore, hafter, ?_, ?_, ?_⟩
  · rw [hsplit, List.count_append, List.count_append, List.count_eq_zero_of_not_mem hbefore,
      List.count_eq_zero_of_not_mem hafter]
    rfl
  · intro event hevent
    rcases List.mem_append.mp hevent with h | h
    · rcases List.mem_append.mp h with h | h
      · exact (removalEvents_kind env _ event h).1
      · exact (recomputationEvents_kind env _ _ event h).1
    · rw [List.mem_singleton] at h
      rw [h]
      rfl
  · intro id h
    rcases List.mem_append.mp h with h | h
    · rw [List.mem_singleton] at h
      exact BalanceEvent.noConfusion h
    · exact ((posting_kind _ (hposted _ h)).2.2.2 id).1 rfl
  · intro id
    constructor
    · intro h
      rcases List.mem_append.mp h with h | h
      · rcases List.mem_append.mp h with h | h
        · unfold removalEvents at h
          rw [List.mem_map] at h
          obtain ⟨move, hmove, heq⟩ := h
          rw [List.mem_filter, decide_eq_true_eq] at hmove
          injection heq with heq
          exact ⟨move, hmove.1, heq, hmove.2⟩
        · exact absurd rfl ((recomputationEvents_kind env _ _ _ h).2.2.2 id)
      · rw [List.mem_singleton] at h
        exact BalanceEvent.noConfusion h
    · rintro ⟨move, hmove, rfl, hc⟩
      apply List.mem_append_left
      apply List.mem_append_left
      unfold removalEvents
      rw [List.mem_map]
      exact ⟨move, List.mem_filter.mpr ⟨hmove, decide_eq_true hc⟩, rfl⟩

/-- Instance of C13 on the example forest: rank 0 sends leaf 5 to rank 1, waits once and
removes node 5 after the wait. -/
theorem C13_single_wait_before_removal_witness :
    (exampleBalanceEnv.IsLoadBalancingNecessary || false) = true ∧
    (LoadBalancing exampleBalanceEnv [2] false (exampleTrees 0)).events.count
        BalanceEvent.Waitall = 1 ∧
    ∃ before after,
      (LoadBalancing exampleBalanceEnv [2] false (exampleTrees 0)).events =
        before ++ [BalanceEvent.Waitall] ++ after ∧
      BalanceEvent.RemoveNodeWithId 5 ∈ after ∧ BalanceEvent.RemoveNodeWithId 5 ∉ before :=
  ⟨by decide,
    (C13_single_wait_before_removal exampleBalanceEnv [2] false (exampleTrees 0)
      (by decide)).1,
    (C13_single_wait_before_removal exampleBalanceEnv [2] false (exampleTrees 0)
      (by decide)).2.elim
      (fun before h => h.elim (fun after h => ⟨before, after, h.1,
        (h.2.2.2.2.2 5).mpr ⟨(5, 0, 1), by decide, rfl, by decide⟩, h.2.2.2.2.1 5⟩))⟩

/-! ### Order of operations in `Remesh` and the cache of the communicator -/

/-- A sequence built like the one of `Remesh` splits at the halo update. -/
theorem split_at_halo (refinements commit coarsenings invalidation removals : List RemeshEvent)
    (halo : RemeshEvent)
    (h1 : ∀ event ∈ refinements, event.isRefinementStep = true)
    (h2 : ∀ event ∈ commit, event.isRefinementStep = true)
    (h3 : ∀ event ∈ coarsenings, event.isCoarseningStep = true)
    (h4 : ∀ event ∈ invalidation, event.isCoarseningStep = true)
    (h5 : ∀ event ∈ removals, event.isCoarseningStep = true) :
    ∃ before after,
      refinements ++ commit ++ [halo] ++ coarsenings ++ invalidation ++ removals =
        before ++ [halo] ++ after ∧
      before = refinements ++ commit ∧
      (∀ event ∈ before, event.isRefinementStep = true) ∧
      (∀ event ∈ after, event.isCoarseningStep = true) := by
  refine ⟨refinements ++ commit, coarsenings ++ invalidation ++ removals, ?_, rfl, ?_, ?_⟩
  · simp only [List.append_assoc]
  · intro event hevent
    rcases List.mem_append.mp hevent with h | h
    · exact h1 event h
    · exact h2 event h
  · intro event hevent
    rcases List.mem_append.mp hevent with h | h
    · rcases List.mem_append.mp h with h | h
      · exact h3 event h
      · exact h4 event h
    · exact h5 event h

/-- The operations of `Remesh` split at the material halo update: before it lie the calls
of `RefineNode` and the topology commit, after it the coarsenings and the removals. -/
theorem RemeshWithLists_order (env : RemeshEnv) (commit : RemeshCommit)
    (levels_to_update_ascending : List Nat) (decisions : List (List nid_t × List nid_t)) :
    ∃ before after,
      RemeshWithLists env commit levels_to_update_ascending decisions =
        before ++ [RemeshEvent.MaterialHaloUpdate levels_to_update_ascending.tail] ++ after ∧
      RemeshEvent.TopologyCommit ∈ before ∧
      (∀ event ∈ before, event.isRefinementStep = true) ∧
      (∀ event ∈ after, event.isCoarseningStep = true) := by
  unfold RemeshWithLists
  simp only []
  obtain ⟨before, after, hsplit, hbefore, h1, h2⟩ := split_at_halo
    (((LocalToGlobalData (decisions.map (fun lists => cutRefinementList env lists.2))).filter
      (fun leaf_id => env.topology_.NodeIsOnRank leaf_id env.my_rank)).map
        RemeshEvent.RefineNode)
    (UpdateTopology commit.changed)
    (((unique (((LocalToGlobalData (decisions.map (fun lists => lists.1))).map
      env.ParentIdOfNode).insertionSort (· ≤ ·))).filter
        (fun parent_id => !(env.LevelOfNode parent_id == 0))).map RemeshEvent.CoarseNodeWithId)
    (if !((unique (((LocalToGlobalData (decisions.map (fun lists => lists.1))).map
      env.ParentIdOfNode).insertionSort (· ≤ ·))).filter
        (fun parent_id => !(env.LevelOfNode parent_id == 0))).isEmpty
      then [RemeshEvent.InvalidateCache] else [])
    (((unique (((LocalToGlobalData (decisions.map (fun lists => lists.1))).filter (fun id =>
      commit.topology_after.NodeIsOnRank id env.my_rank)).insertionSort (· ≤ ·))).filter
        (fun id => !(env.LevelOfNode id == 1))).map RemeshEvent.RemoveNodeWithId)
    (RemeshEvent.MaterialHaloUpdate levels_to_update_ascending.tail)
    (by
      intro event hevent
      rw [List.mem_map] at hevent
      obtain ⟨id, _, rfl⟩ := hevent
      rfl)
    (by
      intro event hevent
      unfold UpdateTopology at hevent
      rcases List.mem_cons.mp hevent with h | h
      · rw [h]
        rfl
      · split_ifs at h
        · rw [List.mem_singleton] at h
          rw [h]
          rfl
        · exact absurd h (List.not_mem_nil event))
    (by
      intro event hevent
      rw [List.mem_map] at hevent
      obtain ⟨id, _, rfl⟩ := hevent
      rfl)
    (by
      intro event hevent
      split_ifs at hevent
      · rw [List.mem_singleton] at hevent
        rw [hevent]
        rfl
      · exact absurd hevent (List.not_mem_nil event))
    (by
      intro event hevent
      rw [List.mem_map] at hevent
      obtain ⟨id, _, rfl⟩ := hevent
      rfl)
  refine ⟨before, after, hsplit, ?_, h1, h2⟩
  rw [hbefore]
  apply List.mem_append_right
  unfold UpdateTopology
  exact List.mem_cons_self _ _

theorem refinementStep_kind (event : RemeshEvent) (h : event.isRefinementStep = true) :
    (∀ id, event ≠ RemeshEvent.CoarseNodeWithId id ∧ event ≠ RemeshEvent.RemoveNodeWithId id) ∧
      ∀ levels, event ≠ RemeshEvent.MaterialHaloUpdate levels := by
  cases event <;>
    first
      | exact Bool.noConfusion h
      | exact ⟨fun _ => ⟨fun h => RemeshEvent.noConfusion h, fun h => RemeshEvent.noConfusion h⟩,
          fun _ h => RemeshEvent.noConfusion h⟩

theorem coarseningStep_kind (event : RemeshEvent) (h : event.isCoarseningStep = true) :
    (∀ id, event ≠ RemeshEvent.RefineNode id) ∧ event ≠ RemeshEvent.TopologyCommit ∧
      ∀ levels, event ≠ RemeshEvent.MaterialHaloUpdate levels := by
  cases event <;>
    first
      | exact Bool.noConfusion h
      | exact ⟨fun _ h => RemeshEvent.noConfusion h, fun h => RemeshEvent.noConfusion h,
          fun _ h => RemeshEvent.noConfusion h⟩

/-- C14: for every content of the refine and coarsen lists the ranks determined, the
operations of `Remesh` are the ones before the material halo update, the halo update on
the levels `levels_to_update_ascending` without the lowest one, and the ones after it.  The
topology commit lies before the halo update; no `RefineNode` call and no commit lies after
it; no `CoarseNodeWithId` and no `RemoveNodeWithId` call lies before it; there is no other
material halo update.  The same holds for every run of `Remesh` that gets past the remeshing
decision. -/
theorem C14_halo_update_between_refinement_and_coarsening (env : RemeshEnv)
    (commit : RemeshCommit) (levels_to_update_ascending : List Nat) :
    (∀ decisions : List (List nid_t × List nid_t), ∃ before after,
      RemeshWithLists env commit levels_to_update_ascending decisions =
        before ++ [RemeshEvent.MaterialHaloUpdate levels_to_update_ascending.tail] ++ after ∧
      RemeshEvent.TopologyCommit ∈ before ∧
      (∀ id, RemeshEvent.RefineNode id ∉ after) ∧ RemeshEvent.TopologyCommit ∉ after ∧
      (∀ id, RemeshEvent.CoarseNodeWithId id ∉ before ∧
        RemeshEvent.RemoveNodeWithId id ∉ before) ∧
      (∀ levels, RemeshEvent.MaterialHaloUpdate levels ∉ before ∧
        RemeshEvent.MaterialHaloUpdate levels ∉ after)) ∧
    (∀ (number_of_ranks : Nat) (trace : List RemeshEvent),
      Remesh env commit number_of_ranks levels_to_update_ascending = Except.ok trace →
      ∃ before after,
        trace =
          before ++ [RemeshEvent.MaterialHaloUpdate levels_to_update_ascending.tail] ++ after ∧
        RemeshEvent.TopologyCommit ∈ before ∧
        (∀ id, RemeshEvent.RefineNode id ∉ after) ∧ RemeshEvent.TopologyCommit ∉ after ∧
        (∀ id, RemeshEvent.CoarseNodeWithId id ∉ before ∧
          RemeshEvent.RemoveNodeWithId id ∉ before) ∧
        (∀ levels, RemeshEvent.MaterialHaloUpdate levels ∉ before ∧
          RemeshEvent.MaterialHaloUpdate levels ∉ after)) := by
  have key : ∀ decisions : List (List nid_t × List nid_t), ∃ before after,
      RemeshWithLists env commit levels_to_update_ascending decisions =
        before ++ [RemeshEvent.MaterialHaloUpdate levels_to_update_ascending.tail] ++ after ∧
      RemeshEvent.TopologyCommit ∈ before ∧
      (∀ id, RemeshEvent.RefineNode id ∉ after) ∧ RemeshEvent.TopologyCommit ∉ after ∧
      (∀ id, RemeshEvent.CoarseNodeWithId id ∉ before ∧
        RemeshEvent.RemoveNodeWithId id ∉ before) ∧
      (∀ levels, RemeshEvent.MaterialHaloUpdate levels ∉ before ∧
        RemeshEvent.MaterialHaloUpdate levels ∉ after) := by
    intro decisions
    obtain ⟨before, after, hsplit, hcommit, h1, h2⟩ :=
      RemeshWithLists_order env commit levels_to_update_ascending decisions
    refine ⟨before, after, hsplit, hcommit, ?_, ?_, ?_, ?_⟩
    · intro id h
      exact (coarseningStep_kind _ (h2 _ h)).1 id rfl
    · intro h
      exact (coarseningStep_kind _ (h2 _ h)).2.1 rfl
    · intro id
      exact ⟨fun h => ((refinementStep_kind _ (h1 _ h)).1 id).1 rfl,
        fun h => ((refinementStep_kind _ (h1 _ h)).1 id).2 rfl⟩
    · intro levels
      exact ⟨fun h => (refinementStep_kind _ (h1 _ h)).2 levels rfl,
        fun h => (coarseningStep_kind _ (h2 _ h)).2.2 levels rfl⟩
  refine ⟨key, ?_⟩
  intro number_of_ranks trace hrun
  unfold Remesh at hrun
  simp only [bind, Except.bind, pure, Except.pure] at hrun
  split at hrun
  · exact Except.noConfusion hrun
  · injection hrun with h
    rw [← h]
    exact key _

/-! ### The cache protocol -/

theorem cacheProtocol_append_other (stale : Bool) (events rest : List CacheEvent)
    (h : ∀ event ∈ events, event = CacheEvent.Other) :
    cacheProtocol stale (events ++ rest) = cacheProtocol stale rest := by
  induction events with
  | nil => rfl
  | cons event events ih =>
    rw [h event (List.mem_cons_self event events), List.cons_append, cacheProtocol]
    exact ih (fun e he => h e (List.mem_cons_of_mem event he))

theorem cacheProtocol_append_shape (stale : Bool) (events rest : List CacheEvent)
    (h : ∀ event ∈ events, event = CacheEvent.ShapeChange) :
    cacheProtocol stale (events ++ rest) = cacheProtocol (stale || !events.isEmpty) rest := by
  induction events generalizing stale with
  | nil => simp
  | cons event events ih =>
    rw [h event (List.mem_cons_self event events), List.cons_append, cacheProtocol,
      ih true (fun e he => h e (List.mem_cons_of_mem event he))]
    simp

/-- A sequence built like the coarsening part of `Remesh` leaves the cache valid. -/
theorem cacheProtocol_coarsening (before coarsenings after : List CacheEvent)
    (h1 : ∀ event ∈ before, event = CacheEvent.Other)
    (h2 : ∀ event ∈ coarsenings, event = CacheEvent.ShapeChange)
    (h3 : ∀ event ∈ after, event = CacheEvent.Other) :
    cacheProtocol false (before ++ coarsenings ++
      (if !coarsenings.isEmpty then [CacheEvent.InvalidateCache] else []) ++ after) =
      some false := by
  rw [List.append_assoc, List.append_assoc, cacheProtocol_append_other false before _ h1,
    cacheProtocol_append_shape false coarsenings _ h2]
  have hafter : cacheProtocol false after = some false := by
    have h := cacheProtocol_append_other false after [] h3
    rw [List.append_nil] at h
    rw [h]
    rfl
  cases hc : coarsenings.isEmpty
  · simp only [Bool.not_false, Bool.or_true, if_true, List.singleton_append, cacheProtocol]
    exact hafter
  · simp only [Bool.not_true, Bool.or_false, Bool.false_eq_true, if_false, List.nil_append]
    exact hafter

theorem cacheView_invalidation (changed : Bool) (parents : List nid_t) :
    (if !parents.isEmpty then [RemeshEvent.InvalidateCache] else []).map
        (RemeshEvent.cacheView changed) =
      if !((parents.map RemeshEvent.CoarseNodeWithId).map
          (RemeshEvent.cacheView changed)).isEmpty then [CacheEvent.InvalidateCache]
      else [] := by
  cases parents <;> rfl

theorem cacheView_coarsenings (changed : Bool) (parents : List nid_t) :
    ∀ event ∈ (parents.map RemeshEvent.CoarseNodeWithId).map (RemeshEvent.cacheView changed),
      event = CacheEvent.ShapeChange := by
  intro event hevent
  simp only [List.mem_map] at hevent
  obtain ⟨_, ⟨id, _, rfl⟩, rfl⟩ := hevent
  rfl

theorem cacheView_removals (changed : Bool) (removed : List nid_t) :
    ∀ event ∈ (removed.map RemeshEvent.RemoveNodeWithId).map (RemeshEvent.cacheView changed),
      event = CacheEvent.Other := by
  intro event hevent
  simp only [List.mem_map] at hevent
  obtain ⟨_, ⟨id, _, rfl⟩, rfl⟩ := hevent
  rfl

theorem cacheView_refinements (changed : Bool) (refined : List nid_t) :
    ∀ event ∈ (refined.map RemeshEvent.RefineNode).map (RemeshEvent.cacheView changed),
      event = CacheEvent.Other := by
  intro event hevent
  simp only [List.mem_map] at hevent
  obtain ⟨_, ⟨id, _, rfl⟩, rfl⟩ := hevent
  rfl

/-- A sequence built like the one of `Remesh` passes the protocol of the cache. -/
theorem cacheProtocol_remesh (changed : Bool) (refined parents removed : List nid_t)
    (levels : List Nat) :
    cacheProtocol false
      ((refined.map RemeshEvent.RefineNode ++ UpdateTopology changed ++
        [RemeshEvent.MaterialHaloUpdate levels] ++
        parents.map RemeshEvent.CoarseNodeWithId ++
        (if !parents.isEmpty then [RemeshEvent.InvalidateCache] else []) ++
        removed.map RemeshEvent.RemoveNodeWithId).map (RemeshEvent.cacheView changed)) =
      some false := by
  simp only [List.map_append]
  rw [cacheView_invalidation]
  simp only [List.append_assoc]
  rw [cacheProtocol_append_other false _ _ (cacheView_refinements changed refined)]
  have hcommit : ∀ rest, cacheProtocol false
      ((UpdateTopology changed).map (RemeshEvent.cacheView changed) ++ rest) =
        cacheProtocol false rest := by
    intro rest
    cases changed <;> rfl
  rw [hcommit]
  have hhalo : ∀ rest, cacheProtocol false
      ([RemeshEvent.MaterialHaloUpdate levels].map (RemeshEvent.cacheView changed) ++ rest) =
        cacheProtocol false rest := by
    intro rest
    rfl
  rw [hhalo]
  have h := cacheProtocol_coarsening []
    ((parents.map RemeshEvent.CoarseNodeWithId).map (RemeshEvent.cacheView changed))
    ((removed.map RemeshEvent.RemoveNodeWithId).map (RemeshEvent.cacheView changed))
    (fun _ h => absurd h (List.not_mem_nil _)) (cacheView_coarsenings changed parents)
    (cacheView_removals changed removed)
  simp only [List.nil_append, List.append_assoc] at h
  exact h

theorem RemeshWithLists_cache (env : RemeshEnv) (commit : RemeshCommit)
    (levels_to_update_ascending : List Nat) (decisions : List (List nid_t × List nid_t)) :
    cacheProtocol false ((RemeshWithLists env commit levels_to_update_ascending decisions).map
      (RemeshEvent.cacheView commit.changed)) = some false := by
  unfold RemeshWithLists
  exact cacheProtocol_remesh commit.changed _ _ _ _

theorem coarsenInitialLevelWithLists_cache (env : RemeshEnv) (coarsable_list : List nid_t)
    (lists_of_ranks : List (List nid_t)) (changed : Bool) :
    cacheProtocol false ((coarsenInitialLevelWithLists env coarsable_list lists_of_ranks).map
      (RemeshEvent.cacheView changed)) = some false := by
  unfold coarsenInitialLevelWithLists
  simp only [List.map_append]
  rw [cacheView_invalidation]
  have h := cacheProtocol_coarsening
    (((coarsable_list.filter (fun coarsable_id =>
      env.topology_.NodeIsOnRank coarsable_id env.my_rank)).map
        RemeshEvent.RemoveNodeWithId).map (RemeshEvent.cacheView changed))
    ((((LocalToGlobalData lists_of_ranks).map env.ParentIdOfNode).map
      RemeshEvent.CoarseNodeWithId).map (RemeshEvent.cacheView changed))
    [] (cacheView_removals changed _) (cacheView_coarsenings changed _)
    (fun _ h => absurd h (List.not_mem_nil _))
  rw [List.append_nil] at h
  exact h

theorem balance_cacheView_other (event : BalanceEvent)
    (h : event ≠ BalanceEvent.InvalidateCache) : event.cacheView = CacheEvent.Other := by
  cases event <;>
    first
      | rfl
      | exact absurd rfl h

/-- A call of `LoadBalancing` that runs leaves the cache valid; one that does not run
leaves it as it is. -/
theorem balanceCacheTrace_protocol (env : BalanceEnv) (lv : List Nat) (force : Bool)
    (tree_ : Tree) (stale : Bool) :
    cacheProtocol stale (balanceCacheTrace env lv force tree_) =
      some (stale && !(env.IsLoadBalancingNecessary || force)) := by
  unfold balanceCacheTrace
  by_cases hrun : (env.IsLoadBalancingNecessary || force) = true
  · obtain ⟨posted, hposted, hevents⟩ := LoadBalancing_events env lv force tree_ hrun
    rw [hevents, if_pos hrun, hrun]
    simp only [List.append_assoc, List.map_append, List.map_cons, List.map_nil,
      List.singleton_append, List.cons_append, List.nil_append]
    have hother : ∀ event ∈ posted.map BalanceEvent.cacheView ++
        (BalanceEvent.cacheView BalanceEvent.Waitall ::
          ((removalEvents env env.ids_rank_map).map BalanceEvent.cacheView ++
            ((recomputationEvents env (LoadBalancing env lv force tree_).tree_
              (receivedNotUpdated env lv env.ids_rank_map)).map BalanceEvent.cacheView ++
              [BalanceEvent.cacheView BalanceEvent.LogMessage]))),
        event = CacheEvent.Other := by
      intro event hevent
      rcases List.mem_append.mp hevent with h | h
      · obtain ⟨e, he, rfl⟩ := List.mem_map.mp h
        exact balance_cacheView_other e (posting_kind e (hposted e he)).2.1
      · rcases List.mem_cons.mp h with h | h
        · rw [h]
          rfl
        · rcases List.mem_append.mp h with h | h
          · obtain ⟨e, he, rfl⟩ := List.mem_map.mp h
            unfold removalEvents at he
            obtain ⟨move, _, rfl⟩ := List.mem_map.mp he
            rfl
          · rcases List.mem_append.mp h with h | h
            · obtain ⟨e, he, rfl⟩ := List.mem_map.mp h
              apply balance_cacheView_other
              intro hinv
              have hk := (recomputationEvents_kind env _ _ e he).2.2.1
              unfold recomputationEvents at he
              rw [List.mem_filterMap] at he
              obtain ⟨n, _, hn⟩ := he
              rw [hinv] at hn
              split_ifs at hn <;> injection hn with hn <;> exact BalanceEvent.noConfusion hn
            · rw [List.mem_singleton] at h
              rw [h]
              rfl
    have h := cacheProtocol_append_other false _ [] hother
    rw [List.append_nil] at h
    show cacheProtocol false _ = _
    rw [h]
    simp [cacheProtocol]
  · rw [if_neg hrun]
    have hfalse : (env.IsLoadBalancingNecessary || force) = false := Bool.eq_false_iff.mpr hrun
    unfold LoadBalancing
    rw [if_neg hrun, hfalse]
    simp [cacheProtocol]

/-- C16: `ModularAlgorithmAssembler::UpdateTopology` issues the commit first and
invalidates the cache exactly if the commit returns true.  Run against a valid cache, the
operations of `Remesh` (a commit that reports a change or not, followed by the halo update,
followed by the coarsening of the parents) never issue a halo update on a stale cache and
leave the cache valid, for every content of the lists and for every run that gets past the
remeshing decision; so do the operations of the coarsening of `CreateNewSimulation`.  A call
of `LoadBalancing` that runs reassigns ranks and leaves the cache valid whatever its state
was before; a call that does not run changes neither the ownership nor the cache. -/
theorem C16_cache_invalidated_after_shape_change :
    (∀ changed : Bool,
      (UpdateTopology changed).head? = some RemeshEvent.TopologyCommit ∧
      (RemeshEvent.InvalidateCache ∈ UpdateTopology changed ↔ changed = true)) ∧
    (∀ (env : RemeshEnv) (commit : RemeshCommit) (levels_to_update_ascending : List Nat)
        (decisions : List (List nid_t × List nid_t)),
      cacheProtocol false
        ((RemeshWithLists env commit levels_to_update_ascending decisions).map
          (RemeshEvent.cacheView commit.changed)) = some false) ∧
    (∀ (env : RemeshEnv) (commit : RemeshCommit) (number_of_ranks : Nat)
        (levels_to_update_ascending : List Nat) (trace : List RemeshEvent),
      Remesh env commit number_of_ranks levels_to_update_ascending = Except.ok trace →
      cacheProtocol false (trace.map (RemeshEvent.cacheView commit.changed)) = some false) ∧
    (∀ (env : RemeshEnv) (coarsable_list : List nid_t) (lists_of_ranks : List (List nid_t)),
      cacheProtocol false
        ((coarsenInitialLevelWithLists env coarsable_list lists_of_ranks).map
          (RemeshEvent.cacheView false)) = some false) ∧
    (∀ (env : RemeshEnv) (number_of_ranks level : Nat) (refinement_list : Nat → List nid_t)
        (trace : List RemeshEvent),
      coarsenInitialLevel env number_of_ranks level refinement_list = Except.ok trace →
      cacheProtocol false (trace.map (RemeshEvent.cacheView false)) = some false) ∧
    (∀ (env : BalanceEnv) (updated_levels_descending : List Nat) (force : Bool)
        (tree_ : Tree) (stale : Bool),
      cacheProtocol stale (balanceCacheTrace env updated_levels_descending force tree_) =
        some (stale && !(env.IsLoadBalancingNecessary || force))) := by
  refine ⟨?_, ?_, ?_, ?_, ?_, ?_⟩
  · intro changed
    cases changed
    · exact ⟨rfl, by decide⟩
    · exact ⟨rfl, by decide⟩
  · exact RemeshWithLists_cache
  · intro env commit number_of_ranks levels_to_update_ascending trace hrun
    unfold Remesh at hrun
    simp only [bind, Except.bind, pure, Except.pure] at hrun
    split at hrun
    · exact Except.noConfusion hrun
    · injection hrun with h
      rw [← h]
      exact RemeshWithLists_cache env commit levels_to_update_ascending _
  · intro env coarsable_list lists_of_ranks
    exact coarsenInitialLevelWithLists_cache env coarsable_list lists_of_ranks false
  · intro env number_of_ranks level refinement_list trace hrun
    unfold coarsenInitialLevel at hrun
    by_cases hlevel : level > 1
    · rw [if_pos hlevel] at hrun
      simp only [bind, Except.bind, pure, Except.pure] at hrun
      split at hrun
      · exact Except.noConfusion hrun
      · split at hrun
        · exact Except.noConfusion hrun
        · injection hrun with h
          rw [← h]
          exact coarsenInitialLevelWithLists_cache env _ _ false
    · rw [if_neg hlevel] at hrun
      injection hrun with h
      rw [← h]
      rfl
  · exact balanceCacheTrace_protocol

/-! ### Access to the jump buffers and construction of a block -/

/-- C18 as stated fails: in a build with `PERFORMANCE` defined, `GetBoundaryJump` does not
raise an error for a location that is none of the six natural sides but returns the array
`top_`. -/
theorem C18_performance_build_returns_top :
    (BoundaryLocation.Diagonal 0).isNatural = false ∧
    GetBoundaryJump true (BoundaryLocation.Diagonal 0) = Except.ok JumpFace.top_ ∧
    GetBoundaryJumpConst true (BoundaryLocation.Diagonal 0) = Except.ok JumpFace.top_ ∧
    GetBoundaryJump true (BoundaryLocation.Diagonal 0) ≠
      Except.error "Jump flux Buffer with given Index does not exist" := by
  refine ⟨rfl, rfl, rfl, ?_⟩
  intro h
  exact Except.noConfusion h

/-- C18, amended: `GetBoundaryJump` returns for East, West, North, South, Bottom and Top
the corresponding one of the six arrays of the `SurfaceBuffer`, which are pairwise distinct
(writing through one reference leaves the other five arrays as they are), identically in
the const and the non-const overload, and so do `Block::GetBoundaryJumpFluxes` and
`Block::GetBoundaryJumpConservatives` on the two surface buffers of the block.  For every
other value of `BoundaryLocation` a build without `PERFORMANCE` raises `std::logic_error`,
and a build with `PERFORMANCE` returns the array `top_`. -/
theorem C18_boundary_jump_selection (performance : Bool) :
    GetBoundaryJump performance BoundaryLocation.East = Except.ok JumpFace.east_ ∧
    GetBoundaryJump performance BoundaryLocation.West = Except.ok JumpFace.west_ ∧
    GetBoundaryJump performance BoundaryLocation.North = Except.ok JumpFace.north_ ∧
    GetBoundaryJump performance BoundaryLocation.South = Except.ok JumpFace.south_ ∧
    GetBoundaryJump performance BoundaryLocation.Bottom = Except.ok JumpFace.bottom_ ∧
    GetBoundaryJump performance BoundaryLocation.Top = Except.ok JumpFace.top_ ∧
    [JumpFace.east_, JumpFace.west_, JumpFace.north_, JumpFace.south_, JumpFace.bottom_,
      JumpFace.top_].Nodup ∧
    (∀ (jump : SurfaceBuffer) (which other : JumpFace) (values : JumpArray),
      other ≠ which → (jump.setFace which values).face other = jump.face other) ∧
    (∀ (jump : SurfaceBuffer) (which : JumpFace) (values : JumpArray),
      (jump.setFace which values).face which = values) ∧
    (∀ location, GetBoundaryJumpConst performance location =
      GetBoundaryJump performance location) ∧
    (∀ (block : Block) (location : BoundaryLocation),
      Block.GetBoundaryJumpFluxesConst performance block location =
        Block.GetBoundaryJumpFluxes performance block location ∧
      Block.GetBoundaryJumpConservativesConst performance block location =
        Block.GetBoundaryJumpConservatives performance block location) ∧
    (∀ (block : Block) (location : BoundaryLocation), location.isNatural = true →
      Block.GetBoundaryJumpFluxes performance block location =
        Except.ok (block.jump_fluxes_.face (naturalFace location)) ∧
      Block.GetBoundaryJumpConservatives performance block location =
        Except.ok (block.jump_conservatives_.face (naturalFace location))) ∧
    (∀ location, location.isNatural = false →
      GetBoundaryJump performance location =
        (if performance then Except.ok JumpFace.top_
          else Except.error "Jump flux Buffer with given Index does not exist")) := by
  have hconst : ∀ location, GetBoundaryJumpConst performance location =
      GetBoundaryJump performance location := by
    intro location
    cases location <;> rfl
  refine ⟨rfl, rfl, rfl, rfl, rfl, rfl, by decide, ?_, ?_, hconst, ?_, ?_, ?_⟩
  · intro jump which other values hne
    rw [face_setFace, if_neg hne]
  · intro jump which values
    rw [face_setFace, if_pos rfl]
  · intro block location
    unfold Block.GetBoundaryJumpFluxesConst Block.GetBoundaryJumpFluxes
      Block.GetBoundaryJumpConservativesConst Block.GetBoundaryJumpConservatives
    rw [hconst]
    exact ⟨rfl, rfl⟩
  · intro block location hnat
    unfold Block.GetBoundaryJumpFluxes Block.GetBoundaryJumpConservatives
    rw [GetBoundaryJump_natural performance location hnat]
    exact ⟨rfl, rfl⟩
  · intro location hnat
    cases location with
    | Diagonal index => rfl
    | East => exact Bool.noConfusion hnat
    | West => exact Bool.noConfusion hnat
    | North => exact Bool.noConfusion hnat
    | South => exact Bool.noConfusion hnat
    | Top => exact Bool.noConfusion hnat
    | Bottom => exact Bool.noConfusion hnat

theorem ResetJumpFluxes_natural (performance : Bool) (ANOE ICY ICZ : Nat) (block : Block)
    (location : BoundaryLocation) (h : location.isNatural = true) :
    Block.ResetJumpFluxes performance ANOE ICY ICZ block location =
      Except.ok { block with jump_fluxes_ :=
        (block.jump_fluxes_.setFace (naturalFace location)
          (overwriteJump ANOE ICY ICZ (block.jump_fluxes_.face (naturalFace location))
            (fun _ _ _ => 0))) } := by
  unfold Block.ResetJumpFluxes
  rw [GetBoundaryJump_natural performance location h]

theorem ResetJumpConservatives_natural (performance : Bool) (ANOE ICY ICZ : Nat)
    (block : Block) (location : BoundaryLocation) (h : location.isNatural = true) :
    Block.ResetJumpConservatives performance ANOE ICY ICZ block location =
      Except.ok { block with jump_conservatives_ :=
        (block.jump_conservatives_.setFace (naturalFace location)
          (overwriteJump ANOE ICY ICZ (block.jump_conservatives_.face (naturalFace location))
            (fun _ _ _ => 0))) } := by
  unfold Block.ResetJumpConservatives
  rw [GetBoundaryJump_natural performance location h]

/-- The loop of lines 89-91 over natural sides returns and resets the jump fluxes side by
side. -/
theorem foldlM_ResetJumpFluxes (performance : Bool) (ANOE ICY ICZ : Nat)
    (locations : List BoundaryLocation)
    (hnat : ∀ location ∈ locations, location.isNatural = true) (block : Block) :
    locations.foldlM (fun block location =>
        Block.ResetJumpFluxes performance ANOE ICY ICZ block location) block =
      Except.ok { block with jump_fluxes_ :=
        (resetFaces ANOE ICY ICZ locations block.jump_fluxes_) } := by
  induction locations generalizing block with
  | nil => rfl
  | cons location rest ih =>
    rw [List.foldlM_cons,
      ResetJumpFluxes_natural performance ANOE ICY ICZ block location
        (hnat location (List.mem_cons_self location rest))]
    exact ih (fun l hl => hnat l (List.mem_cons_of_mem location hl)) _

/-- The loop of lines 93-95 over natural sides returns and resets the jump conservatives
side by side. -/
theorem foldlM_ResetJumpConservatives (performance : Bool) (ANOE ICY ICZ : Nat)
    (locations : List BoundaryLocation)
    (hnat : ∀ location ∈ locations, location.isNatural = true) (block : Block) :
    locations.foldlM (fun block location =>
        Block.ResetJumpConservatives performance ANOE ICY ICZ block location) block =
      Except.ok { block with jump_conservatives_ :=
        (resetFaces ANOE ICY ICZ locations block.jump_conservatives_) } := by
  induction locations generalizing block with
  | nil => rfl
  | cons location rest ih =>
    rw [List.foldlM_cons,
      ResetJumpConservatives_natural performance ANOE ICY ICZ block location
        (hnat location (List.mem_cons_self location rest))]
    exact ih (fun l hl => hnat l (List.mem_cons_of_mem location hl)) _

theorem resetFace_zero (ANOE ICY ICZ : Nat) (jump : SurfaceBuffer) (reset which : JumpFace)
    (h : which = reset ∨ JumpZero ANOE ICY ICZ (jump.face which)) :
    JumpZero ANOE ICY ICZ
      ((jump.setFace reset
        (overwriteJump ANOE ICY ICZ (jump.face reset) (fun _ _ _ => 0))).face which) := by
  intro e i j he hi hj
  rw [face_setFace]
  by_cases hw : which = reset
  · rw [if_pos hw]
    unfold overwriteJump
    rw [if_pos ⟨he, hi, hj⟩]
  · rw [if_neg hw]
    rcases h with h | h
    · exact absurd h hw
    · exact h e i j he hi hj

/-- After the reset of a list of sides, an array vanishes over its extent if it did before
or if it is the array of one of the sides. -/
theorem resetFaces_zero (ANOE ICY ICZ : Nat) (locations : List BoundaryLocation)
    (jump : SurfaceBuffer) (which : JumpFace)
    (h : JumpZero ANOE ICY ICZ (jump.face which) ∨
      ∃ location ∈ locations, naturalFace location = which) :
    JumpZero ANOE ICY ICZ ((resetFaces ANOE ICY ICZ locations jump).face which) := by
  induction locations generalizing jump with
  | nil =>
    rcases h with h | ⟨location, hmem, _⟩
    · exact h
    · exact absurd hmem (List.not_mem_nil location)
  | cons location rest ih =>
    unfold resetFaces
    rw [List.foldl_cons]
    apply ih
    rcases h with h | ⟨l, hmem, hl⟩
    · exact Or.inl (resetFace_zero ANOE ICY ICZ jump _ which (Or.inr h))
    · rcases List.mem_cons.mp hmem with heq | hrest
      · left
        apply resetFace_zero
        left
        rw [← hl, heq]
      · exact Or.inr ⟨l, hrest, hl⟩

theorem naturalFace_surjective (which : JumpFace) :
    ∃ location : BoundaryLocation, location.isNatural = true ∧ naturalFace location = which := by
  cases which
  · exact ⟨BoundaryLocation.East, rfl, rfl⟩
  · exact ⟨BoundaryLocation.West, rfl, rfl⟩
  · exact ⟨BoundaryLocation.North, rfl, rfl⟩
  · exact ⟨BoundaryLocation.South, rfl, rfl⟩
  · exact ⟨BoundaryLocation.Top, rfl, rfl⟩
  · exact ⟨BoundaryLocation.Bottom, rfl, rfl⟩

/-- C15: when `CC::NBS()` lists the six natural sides and the parameter buffer has fields
only if the parameter model is active, the constructor of `Block` returns, and in the new
block every entry of the average, right-hand-side, initial and prime-state buffers, every
entry of the parameter buffer, and every entry of the jump-flux and jump-conservative
buffers on all six faces is 0, whatever the members held before. -/
theorem C15_new_block_is_zero (config : BlockConfig) (uninitialised : Block)
    (hnatural : ∀ location ∈ config.NBS, location.isNatural = true)
    (hsides : ∀ location : BoundaryLocation, location.isNatural = true → location ∈ config.NBS)
    (hparameters : config.ParameterModelActive = true ∨ config.ANOPA = 0) :
    ∃ block, Block.construct config uninitialised = Except.ok block ∧
      (∀ e i j k, block.average_ e i j k = 0 ∧ block.right_hand_side_ e i j k = 0 ∧
        block.initial_ e i j k = 0 ∧ block.prime_states_ e i j k = 0) ∧
      (∀ p i j k, p < config.ANOPA → block.parameters_ p i j k = 0) ∧
      (∀ which : JumpFace,
        JumpZero config.ANOE config.ICY config.ICZ (block.jump_fluxes_.face which) ∧
        JumpZero config.ANOE config.ICY config.ICZ (block.jump_conservatives_.face which)) := by
  have hface : ∀ which : JumpFace, ∃ location ∈ config.NBS, naturalFace location = which := by
    intro which
    obtain ⟨location, hn, hw⟩ := naturalFace_surjective which
    exact ⟨location, hsides location hn, hw⟩
  unfold Block.construct
  simp only [bind, Except.bind]
  rw [foldlM_ResetJumpFluxes config.performance config.ANOE config.ICY config.ICZ config.NBS
    hnatural]
  simp only []
  rw [foldlM_ResetJumpConservatives config.performance config.ANOE config.ICY config.ICZ
    config.NBS hnatural]
  refine ⟨_, rfl, ?_, ?_, ?_⟩
  · intro e i j k
    by_cases hp : config.ParameterModelActive = true
    · simp only [hp, if_true]
      exact ⟨rfl, rfl, rfl, rfl⟩
    · simp only [hp, if_false]
      exact ⟨rfl, rfl, rfl, rfl⟩
  · intro p i j k hlt
    rcases hparameters with hp | hz
    · simp only [hp, if_true]
      rfl
    · rw [hz] at hlt
      exact absurd hlt (Nat.not_lt_zero p)
  · intro which
    constructor
    · exact resetFaces_zero config.ANOE config.ICY config.ICZ config.NBS _ which
        (Or.inr (hface which))
    · exact resetFaces_zero config.ANOE config.ICY config.ICZ config.NBS _ which
        (Or.inr (hface which))

/-- Instance of C15 for a build without parameter model: a block constructed over members
that all hold 7 has right-hand side 0 and East jump fluxes 0. -/
theorem C15_new_block_is_zero_witness :
    ((∀ location ∈ exampleBlockConfig.NBS, location.isNatural = true) ∧
      (exampleBlockConfig.ParameterModelActive = true ∨ exampleBlockConfig.ANOPA = 0)) ∧
    ∃ block, Block.construct exampleBlockConfig
        { average_ := fun _ _ _ _ => 7, right_hand_side_ := fun _ _ _ _ => 7,
          initial_ := fun _ _ _ _ => 7, prime_states_ := fun _ _ _ _ => 7,
          parameters_ := fun _ _ _ _ => 7, jump_fluxes_ := constantSurface 7,
          jump_conservatives_ := constantSurface 7 } = Except.ok block ∧
      block.right_hand_side_ 0 1 0 0 = 0 ∧ block.jump_fluxes_.east_ 0 0 0 = 0 :=
  ⟨⟨by decide, by decide⟩,
    (C15_new_block_is_zero exampleBlockConfig _ (by decide)
      (fun location h => by
        cases location <;>
          first
            | exact Bool.noConfusion h
            | decide)
      (by decide)).elim
      (fun block h => ⟨block, h.1, (h.2.1 0 1 0 0).2.1,
        (h.2.2.2 JumpFace.east_).1 0 0 0 (by decide) (by decide) (by decide)⟩)⟩

/-! ### The consistency check of the remeshing decision -/

theorem checkPasses_eq_false_iff (env : RemeshEnv) (p : nid_t) :
    checkPasses env p = false ↔
      env.performance = false ∧ collectIndicators env p ≠ [] ∧
        (collectIndicators env p).length ≠ (env.IdsOfChildren p).length := by
  unfold checkPasses
  cases env.performance <;> cases hl : collectIndicators env p <;> simp

theorem collectIndicators_ne_nil (env : RemeshEnv) (p : nid_t)
    (hown : env.topology_.NodeIsOnRank p env.my_rank = true)
    (hchild : ∃ c ∈ env.IdsOfChildren p, env.topology_.NodeExists c = true) :
    collectIndicators env p ≠ [] := by
  obtain ⟨c, hc, hex⟩ := hchild
  intro hnil
  have hmem : childIndicator env p c ∈ collectIndicators env p := by
    rw [collectIndicators_eq_flatMap, List.mem_flatMap]
    exact ⟨c, hc, by rw [collectChild_owner env p c hown hex]; exact List.mem_singleton_self _⟩
  rw [hnil] at hmem
  exact absurd hmem (List.not_mem_nil _)

/-- `DetermineRemeshingNodes` throws exactly in a build without `PERFORMANCE` in which a
visited parent has indicators whose number differs from the number of its children. -/
theorem DetermineRemeshingNodes_error_iff (env : RemeshEnv) (parent_levels : List Nat)
    (rm rf : List nid_t) :
    DetermineRemeshingNodes env parent_levels rm rf = Except.error "This must not happen" ↔
      env.performance = false ∧ ∃ p ∈ visitedParents env parent_levels,
        collectIndicators env p ≠ [] ∧
          (collectIndicators env p).length ≠ (env.IdsOfChildren p).length := by
  rw [DetermineRemeshingNodes_eq]
  by_cases hall : (visitedParents env parent_levels).all (checkPasses env) = true
  · rw [if_pos hall]
    constructor
    · intro h
      exact Except.noConfusion h
    · rintro ⟨hperf, p, hp, hne, hlen⟩
      rw [List.all_eq_true] at hall
      have h1 := hall p hp
      have h2 := (checkPasses_eq_false_iff env p).mpr ⟨hperf, hne, hlen⟩
      rw [h1] at h2
      exact Bool.noConfusion h2
  · rw [if_neg hall]
    constructor
    · intro _
      rw [List.all_eq_true] at hall
      push_neg at hall
      obtain ⟨p, hp, hfail⟩ := hall
      obtain ⟨hperf, hne, hlen⟩ :=
        (checkPasses_eq_false_iff env p).mp (Bool.eq_false_iff.mpr hfail)
      exact ⟨hperf, p, hp, hne, hlen⟩
    · intro _
      rfl

/-- C17 as stated fails: in a build with `PERFORMANCE` defined, parent 3 of the incomplete
example is held by the executing rank and has the existing child 6, one indicator is
collected for its two children, and `DetermineRemeshingNodes` returns without an error. -/
theorem C17_performance_build_skips_check :
    (exampleIncompleteEnv true).topology_.NodeIsOnRank 3 (exampleIncompleteEnv true).my_rank =
      true ∧
    6 ∈ (exampleIncompleteEnv true).IdsOfChildren 3 ∧
    (exampleIncompleteEnv true).topology_.NodeExists 6 = true ∧
    3 ∈ visitedParents (exampleIncompleteEnv true) [1] ∧
    (collectIndicators (exampleIncompleteEnv true) 3).length = 1 ∧
    ((exampleIncompleteEnv true).IdsOfChildren 3).length = 2 ∧
    visitParent (exampleIncompleteEnv true) 3 ([], []) = Except.ok ([6, 7], []) ∧
    DetermineRemeshingNodes (exampleIncompleteEnv true) [1] [] [] =
      Except.ok ([4, 5, 6, 7], []) :=
  ⟨by decide, by decide, by decide, by decide, by decide, by decide, rfl, rfl⟩

/-- C17, amended: for a parent held by the executing rank that has at least one existing
child, at least one indicator is collected.  In a build without `PERFORMANCE` the iteration
of `DetermineRemeshingNodes` for the parent throws `std::logic_error` if and only if the
number of collected indicators differs from the number of the children of the parent, and
the whole call throws if and only if this happens for a visited parent with indicators.  In
a build with `PERFORMANCE` neither the iteration nor the call throws. -/
theorem C17_indicator_count_check (env : RemeshEnv) (parent_id : nid_t)
    (hown : env.topology_.NodeIsOnRank parent_id env.my_rank = true)
    (hchild : ∃ child_id ∈ env.IdsOfChildren parent_id,
      env.topology_.NodeExists child_id = true) :
    collectIndicators env parent_id ≠ [] ∧
    (∀ lists : List nid_t × List nid_t,
      visitParent env parent_id lists = Except.error "This must not happen" ↔
        env.performance = false ∧
          (collectIndicators env parent_id).length ≠ (env.IdsOfChildren parent_id).length) ∧
    (∀ lists : List nid_t × List nid_t,
      (∃ result, visitParent env parent_id lists = Except.ok result) ↔
        ¬(env.performance = false ∧
          (collectIndicators env parent_id).length ≠ (env.IdsOfChildren parent_id).length)) ∧
    (∀ (parent_levels : List Nat) (rm rf : List nid_t),
      DetermineRemeshingNodes env parent_levels rm rf = Except.error "This must not happen" ↔
        env.performance = false ∧ ∃ p ∈ visitedParents env parent_levels,
          collectIndicators env p ≠ [] ∧
            (collectIndicators env p).length ≠ (env.IdsOfChildren p).length) ∧
    (env.performance = true → ∀ (parent_levels : List Nat) (rm rf : List nid_t),
      ∃ result, DetermineRemeshingNodes env parent_levels rm rf = Except.ok result) := by
  have hne := collectIndicators_ne_nil env parent_id hown hchild
  have hcheck : checkPasses env parent_id = false ↔
      env.performance = false ∧
        (collectIndicators env parent_id).length ≠ (env.IdsOfChildren parent_id).length := by
    rw [checkPasses_eq_false_iff]
    exact ⟨fun h => ⟨h.1, h.2.2⟩, fun h => ⟨h.1, hne, h.2⟩⟩
  refine ⟨hne, ?_, ?_, DetermineRemeshingNodes_error_iff env, ?_⟩
  · rintro ⟨rm, rf⟩
    rw [visitParent_eq, ← hcheck]
    cases checkPasses env parent_id
    · simp
    · simp
  · rintro ⟨rm, rf⟩
    rw [visitParent_eq, ← hcheck]
    cases checkPasses env parent_id
    · simp
    · simp
  · intro hperf parent_levels rm rf
    rw [DetermineRemeshingNodes_eq]
    have hall : (visitedParents env parent_levels).all (checkPasses env) = true := by
      rw [List.all_eq_true]
      intro p _
      cases hp : checkPasses env p
      · have h := ((checkPasses_eq_false_iff env p).mp hp).1
        rw [hperf] at h
        exact Bool.noConfusion h
      · rfl
    rw [if_pos hall]
    exact ⟨_, rfl⟩

/-- Instance of the amended C17 in a build without `PERFORMANCE`: for parent 3 of the
incomplete example one indicator is collected for two children, and the call throws. -/
theorem C17_indicator_count_check_witness :
    ((exampleIncompleteEnv false).topology_.NodeIsOnRank 3 (exampleIncompleteEnv false).my_rank =
        true ∧
      ∃ child_id ∈ (exampleIncompleteEnv false).IdsOfChildren 3,
        (exampleIncompleteEnv false).topology_.NodeExists child_id = true) ∧
    visitParent (exampleIncompleteEnv false) 3 ([], []) =
      Except.error "This must not happen" ∧
    DetermineRemeshingNodes (exampleIncompleteEnv false) [1] [] [] =
      Except.error "This must not happen" :=
  have hown : (exampleIncompleteEnv false).topology_.NodeIsOnRank 3
      (exampleIncompleteEnv false).my_rank = true := by decide
  have hchild : ∃ child_id ∈ (exampleIncompleteEnv false).IdsOfChildren 3,
      (exampleIncompleteEnv false).topology_.NodeExists child_id = true :=
    ⟨6, by decide, by decide⟩
  ⟨⟨hown, hchild⟩,
    ((C17_indicator_count_check (exampleIncompleteEnv false) 3 hown hchild).2.1 ([], [])).mpr
      ⟨by decide, by decide⟩,
    ((C17_indicator_count_check (exampleIncompleteEnv false) 3 hown hchild).2.2.2.1 [1] []
      []).mpr ⟨by decide, 3, by decide, by decide, by decide⟩⟩

/-! ### The outermost time loop -/

theorem loopFrom_exit (config : LoopConfig) (steps : Nat → MacroStep) (fuel pass : Nat)
    (time : ℚ) (healthy : Bool) (h : ¬(time < config.end_time_ ∧ healthy = true)) :
    loopFrom config steps fuel pass time healthy = some { events := [], exception := none } := by
  cases fuel with
  | zero => rw [loopFrom, if_neg h]
  | succ fuel => rw [loopFrom, if_neg h]

/-- A pass whose call of `Advance()` throws ends at that call. -/
theorem loopBody_thrown (config : LoopConfig) (step : MacroStep) (time : ℚ) (healthy : Bool)
    (what : String) (h : step.advance_exception = some what) :
    loopBody config step time healthy =
      { events := [LoopEvent.MPI_Barrier, LoopEvent.Advance]
        current_simulation_time := time
        timestep_size_is_healthy := healthy
        exception := some what } := by
  unfold loopBody
  rw [h]

/-- A pass whose call of `Advance()` returns and whose time step size collapsed: the whole
body is executed, both writes get the force flag, and the flag of the loop is cleared. -/
theorem loopBody_collapsed (config : LoopConfig) (step : MacroStep) (time : ℚ)
    (healthy : Bool) (hreturns : step.advance_exception = none) (h : collapsed config step) :
    loopBody config step time healthy =
      { events :=
          [LoopEvent.MPI_Barrier, LoopEvent.Advance, LoopEvent.ResetAllJumpBuffers,
            LoopEvent.MPI_Barrier, LoopEvent.LogNodeNumbers, LoopEvent.LogPerformanceNumbers] ++
          (if config.WTL then [LoopEvent.WriteTimestepFile] else []) ++
          [LoopEvent.FinishMacroTimestep, LoopEvent.LogMessage, LoopEvent.FlushAlpaca] ++
          (if config.TR then [LoopEvent.MPI_Barrier] else []) ++
          [LoopEvent.WriteRestartFile step.run_time true,
            LoopEvent.WriteFullOutput step.run_time true] ++
          (if step.full_output_written && config.Profile then [LoopEvent.LogMessage] else []) ++
          (if config.TR then [LoopEvent.MPI_Barrier] else [])
        current_simulation_time := step.run_time
        timestep_size_is_healthy := false
        exception := none } := by
  unfold collapsed at h
  unfold loopBody
  rw [hreturns]
  simp only []
  rw [if_pos h]
  rfl

theorem loopBody_healthy (config : LoopConfig) (step : MacroStep) (time : ℚ)
    (hreturns : step.advance_exception = none) (h : ¬collapsed config step) :
    (loopBody config step time true).timestep_size_is_healthy = true ∧
      (loopBody config step time true).current_simulation_time = step.run_time ∧
      (loopBody config step time true).exception = none := by
  unfold collapsed at h
  unfold loopBody
  rw [hreturns]
  simp only []
  rw [if_neg h]
  exact ⟨rfl, trivial, trivial⟩

/-- Healthy passes that stay below the end time, followed by a pass whose time step size
collapsed: the loop ends after that pass, without an exception. -/
theorem loopFrom_passes (config : LoopConfig) (steps : Nat → MacroStep) (count : Nat) :
    ∀ (pass fuel : Nat) (time : ℚ), time < config.end_time_ →
      (∀ i ≤ count, (steps (pass + i)).advance_exception = none) →
      (∀ i < count, ¬collapsed config (steps (pass + i)) ∧
        (steps (pass + i)).run_time < config.end_time_) →
      collapsed config (steps (pass + count)) → count < fuel →
      loopFrom config steps fuel pass time true =
        some
          { events := passEvents config steps pass count time ++
              ([LoopEvent.MPI_Barrier, LoopEvent.Advance, LoopEvent.ResetAllJumpBuffers,
                  LoopEvent.MPI_Barrier, LoopEvent.LogNodeNumbers,
                  LoopEvent.LogPerformanceNumbers] ++
                (if config.WTL then [LoopEvent.WriteTimestepFile] else []) ++
                [LoopEvent.FinishMacroTimestep, LoopEvent.LogMessage, LoopEvent.FlushAlpaca] ++
                (if config.TR then [LoopEvent.MPI_Barrier] else []) ++
                [LoopEvent.WriteRestartFile (steps (pass + count)).run_time true,
                  LoopEvent.WriteFullOutput (steps (pass + count)).run_time true] ++
                (if (steps (pass + count)).full_output_written && config.Profile then
                  [LoopEvent.LogMessage] else []) ++
                (if config.TR then [LoopEvent.MPI_Barrier] else []))
            exception := none } := by
  induction count with
  | zero =>
    intro pass fuel time htime hreturns _ hcollapsed hfuel
    obtain ⟨f, rfl⟩ : ∃ f, fuel = f + 1 := ⟨fuel - 1, by omega⟩
    have hbody := loopBody_collapsed config (steps pass) time true
      (hreturns 0 (Nat.le_refl 0)) hcollapsed
    rw [loopFrom, if_pos ⟨htime, rfl⟩, hbody]
    simp only []
    rw [loopFrom_exit config steps f (pass + 1) (steps pass).run_time false
      (fun hc => Bool.noConfusion hc.2)]
    simp [passEvents]
  | succ count ih =>
    intro pass fuel time htime hreturns hhealthy hcollapsed hfuel
    obtain ⟨f, rfl⟩ : ∃ f, fuel = f + 1 := ⟨fuel - 1, by omega⟩
    obtain ⟨h0, h1⟩ := hhealthy 0 (Nat.succ_pos count)
    obtain ⟨b1, b2, b3⟩ := loopBody_healthy config (steps pass) time
      (hreturns 0 (Nat.zero_le _)) h0
    rw [loopFrom, if_pos ⟨htime, rfl⟩, b3]
    simp only []
    rw [b1, b2,
      ih (pass + 1) f (steps pass).run_time h1
        (fun i hi => by
          have h := hreturns (i + 1) (Nat.succ_le_succ hi)
          rw [show pass + (i + 1) = pass + 1 + i by omega] at h
          exact h)
        (fun i hi => by
          have h := hhealthy (i + 1) (Nat.succ_lt_succ hi)
          rw [show pass + (i + 1) = pass + 1 + i by omega] at h
          exact h)
        (by
          rw [show pass + 1 + count = pass + (count + 1) by omega]
          exact hcollapsed)
        (by omega)]
    rw [show pass + 1 + count = pass + (count + 1) by omega]
    simp only [Option.map_some', passEvents, b2, List.append_assoc]

/-- The error path of the loop: when the first call of `Advance()` throws, the exception
leaves `ComputeLoop` right after that call, and no file is written. -/
theorem ComputeLoop_advance_throws (config : LoopConfig) (steps : Nat → MacroStep)
    (current_run_time : ℚ) (fuel : Nat) (what : String)
    (hstart : current_run_time < config.end_time_)
    (hthrows : (steps 0).advance_exception = some what) :
    ComputeLoop config steps current_run_time (fuel + 1) =
      some
        { events := [LoopEvent.FlushAlpaca, LoopEvent.MPI_Barrier, LoopEvent.Advance]
          exception := some what } := by
  unfold ComputeLoop
  rw [loopFrom,
    if_pos (show current_run_time < config.end_time_ ∧ true = true from ⟨hstart, rfl⟩),
    loopBody_thrown config (steps 0) current_run_time true what hthrows]
  rfl

/-- The error path on the loop example: the file `ABORTFILE` is found during the second
call of `Advance()`; the run ends at that call with the exception, after the first pass
and without a forced write. -/
theorem ComputeLoop_aborted_example :
    ComputeLoop exampleLoopConfig exampleAbortedSteps 0 5 =
      some
        { events :=
            [LoopEvent.FlushAlpaca,
              LoopEvent.MPI_Barrier, LoopEvent.Advance, LoopEvent.ResetAllJumpBuffers,
              LoopEvent.MPI_Barrier, LoopEvent.LogNodeNumbers, LoopEvent.LogPerformanceNumbers,
              LoopEvent.FinishMacroTimestep, LoopEvent.LogMessage, LoopEvent.FlushAlpaca,
              LoopEvent.WriteRestartFile 1 false, LoopEvent.WriteFullOutput 1 false,
              LoopEvent.MPI_Barrier, LoopEvent.Advance]
          exception := some "The simulation was aborted by the user! \n" } := by
  norm_num [ComputeLoop, loopFrom, loopBody, exampleAbortedSteps, exampleSteps,
    exampleLoopConfig]

/-- C19: let the loop of `ComputeLoop` be entered below the end time, let the calls of
`Advance()` of the first `healthy_passes + 1` macro steps return, let the first
`healthy_passes` macro steps have a healthy last micro time step size and end below the end
time, and let the last micro time step size `s` of the next macro step satisfy
`0 < s < CC::MTS()`.  Then `ComputeLoop` returns without an exception, wherever the
simulation time stands after that macro step, and its calls are: the opening `FlushAlpaca`,
the healthy passes, the whole pass of the collapsed macro step, with `Advance`,
`FinishMacroTimestep` and then `WriteRestartFile` and `WriteFullOutput` for the run time
after the macro step with the force flag set, and then only the closing log messages: no
further pass is made. -/
theorem C19_collapsed_time_step_ends_loop (config : LoopConfig) (steps : Nat → MacroStep)
    (current_run_time : ℚ) (healthy_passes fuel : Nat)
    (hstart : current_run_time < config.end_time_)
    (hreturns : ∀ i ≤ healthy_passes, (steps i).advance_exception = none)
    (hhealthy : ∀ i < healthy_passes, ¬collapsed config (steps i) ∧
      (steps i).run_time < config.end_time_)
    (hcollapsed : collapsed config (steps healthy_passes))
    (hfuel : healthy_passes < fuel) :
    ComputeLoop config steps current_run_time fuel =
      some
        { events := [LoopEvent.FlushAlpaca] ++
            passEvents config steps 0 healthy_passes current_run_time ++
            ([LoopEvent.MPI_Barrier, LoopEvent.Advance, LoopEvent.ResetAllJumpBuffers,
                LoopEvent.MPI_Barrier, LoopEvent.LogNodeNumbers,
                LoopEvent.LogPerformanceNumbers] ++
              (if config.WTL then [LoopEvent.WriteTimestepFile] else []) ++
              [LoopEvent.FinishMacroTimestep, LoopEvent.LogMessage, LoopEvent.FlushAlpaca] ++
              (if config.TR then [LoopEvent.MPI_Barrier] else []) ++
              [LoopEvent.WriteRestartFile (steps healthy_passes).run_time true,
                LoopEvent.WriteFullOutput (steps healthy_passes).run_time true] ++
              (if (steps healthy_passes).full_output_written && config.Profile then
                [LoopEvent.LogMessage] else []) ++
              (if config.TR then [LoopEvent.MPI_Barrier] else [])) ++
            (if config.Profile then [LoopEvent.LogMessage] else []) ++
            [LoopEvent.LogMessage] ++
            (if config.TR then [LoopEvent.LogMessage] else [])
          exception := none } := by
  have hloop := loopFrom_passes config steps healthy_passes 0 fuel current_run_time hstart
    (fun i hi => by
      rw [Nat.zero_add]
      exact hreturns i hi)
    (fun i hi => by
      rw [Nat.zero_add]
      exact hhealthy i hi)
    (by
      rw [Nat.zero_add]
      exact hcollapsed)
    hfuel
  rw [Nat.zero_add] at hloop
  unfold ComputeLoop
  rw [hloop]
  simp only [Option.map_some', List.append_assoc]

/-- Instance of C19 on the loop example: after one healthy macro step the last micro time
step size is 1/10000, below the minimum 1/1000.  `ComputeLoop` makes two passes and
returns without an exception at run time 2, below the end time 10; the first pass writes
both files without the force flag, the second one with it. -/
theorem C19_collapsed_time_step_ends_loop_witness :
    ((0 : ℚ) < exampleLoopConfig.end_time_ ∧ collapsed exampleLoopConfig (exampleSteps 1) ∧
      (exampleSteps 1).advance_exception = none ∧
      (exampleSteps 1).run_time < exampleLoopConfig.end_time_) ∧
    ComputeLoop exampleLoopConfig exampleSteps 0 5 =
      some
        { events :=
            [LoopEvent.FlushAlpaca,
              LoopEvent.MPI_Barrier, LoopEvent.Advance, LoopEvent.ResetAllJumpBuffers,
              LoopEvent.MPI_Barrier, LoopEvent.LogNodeNumbers, LoopEvent.LogPerformanceNumbers,
              LoopEvent.FinishMacroTimestep, LoopEvent.LogMessage, LoopEvent.FlushAlpaca,
              LoopEvent.WriteRestartFile 1 false, LoopEvent.WriteFullOutput 1 false,
              LoopEvent.MPI_Barrier, LoopEvent.Advance, LoopEvent.ResetAllJumpBuffers,
              LoopEvent.MPI_Barrier, LoopEvent.LogNodeNumbers, LoopEvent.LogPerformanceNumbers,
              LoopEvent.FinishMacroTimestep, LoopEvent.LogMessage, LoopEvent.FlushAlpaca,
              LoopEvent.WriteRestartFile 2 true, LoopEvent.WriteFullOutput 2 true,
              LoopEvent.LogMessage]
          exception := none } :=
  have hstart : (0 : ℚ) < exampleLoopConfig.end_time_ := by
    norm_num [exampleLoopConfig]
  have hcollapsed : collapsed exampleLoopConfig (exampleSteps 1) := by
    norm_num [collapsed, exampleLoopConfig, exampleSteps]
  have hreturns : ∀ i ≤ 1, (exampleSteps i).advance_exception = none := by
    intro i hi
    interval_cases i <;> rfl
  have hhealthy : ∀ i < 1, ¬collapsed exampleLoopConfig (exampleSteps i) ∧
      (exampleSteps i).run_time < exampleLoopConfig.end_time_ := by
    intro i hi
    interval_cases i
    norm_num [collapsed, exampleLoopConfig, exampleSteps]
  ⟨⟨hstart, hcollapsed, rfl, by norm_num [exampleLoopConfig, exampleSteps]⟩, by
    have h := C19_collapsed_time_step_ends_loop exampleLoopConfig exampleSteps 0 1 5 hstart
      hreturns hhealthy hcollapsed (by decide)
    rw [h]
    norm_num [passEvents, loopBody, exampleSteps, exampleLoopConfig]⟩

/-! ### Neighbor ids -/

theorem stepDown_stepUp (periodic : Bool) (count position : Nat) (hin : position < count)
    (hinner : periodic = true ∨ position + 1 ≠ count) :
    stepDown periodic count (stepUp periodic count position) = position ∧
      stepUp periodic count position < count := by
  unfold stepDown stepUp
  by_cases hwrap : periodic = true ∧ position + 1 = count
  · rw [if_pos hwrap, if_pos ⟨hwrap.1, rfl⟩]
    omega
  · rw [if_neg hwrap, if_neg (fun h => Nat.succ_ne_zero position h.2)]
    refine ⟨by omega, ?_⟩
    rcases hinner with hp | hne
    · have : position + 1 ≠ count := fun h => hwrap ⟨hp, h⟩
      omega
    · omega

theorem examplePairScheme_encodes : EncodesLevelAndIndex exampleNeighborTopology := by
  intro level index _
  simp [exampleNeighborTopology, examplePairScheme, Nat.unpair_pair]

theorem examplePairScheme_isNodeId (level : Nat) (index : Nat × Nat × Nat)
    (h : InDomain exampleNeighborTopology.number_of_nodes_on_level_zero_ level index) :
    IsNodeId exampleNeighborTopology (examplePairScheme.IdOfIndex level index) := by
  obtain ⟨h1, h2⟩ := examplePairScheme_encodes level index h
  unfold IsNodeId
  have e1 : exampleNeighborTopology.scheme = examplePairScheme := rfl
  rw [e1] at h1 h2 ⊢
  rw [h1, h2]
  exact ⟨rfl, h⟩

/-- C20: for every id of a node of the domain that is not at an external domain boundary
in the East direction, the West neighbor of the East neighbor is the id, provided the
identifier scheme encodes level and spatial index and the domain is periodic towards East
exactly if it is periodic towards West. -/
theorem C20_east_west_neighbor_inverse (topology : NeighborTopology) (id : nid_t)
    (hscheme : EncodesLevelAndIndex topology)
    (hid : IsNodeId topology id)
    (hperiodic : topology.active_periodic_locations_ BoundaryLocation.East =
      topology.active_periodic_locations_ BoundaryLocation.West)
    (hinner : topology.IsExternalTopologyBoundary BoundaryLocation.East id = false) :
    topology.GetTopologyNeighborId
        (topology.GetTopologyNeighborId id BoundaryLocation.East) BoundaryLocation.West = id ∧
    IsNodeId topology (topology.GetTopologyNeighborId id BoundaryLocation.East) ∧
    topology.scheme.LevelOfNode (topology.GetTopologyNeighborId id BoundaryLocation.East) =
      topology.scheme.LevelOfNode id := by
  obtain ⟨hself, hx, hy, hz⟩ := hid
  have hcond : topology.active_periodic_locations_ BoundaryLocation.East = true ∨
      (topology.scheme.IndexOfNode id).1 + 1 ≠
        nodesAlongAxis topology.number_of_nodes_on_level_zero_.1
          (topology.scheme.LevelOfNode id) := by
    unfold NeighborTopology.IsExternalTopologyBoundary PeriodicIsExternalBoundary at hinner
    simp only [] at hinner
    cases hp : topology.active_periodic_locations_ BoundaryLocation.East
    · right
      rw [hp] at hinner
      simpa using hinner
    · exact Or.inl rfl
  obtain ⟨hback, hlt⟩ := stepDown_stepUp
    (topology.active_periodic_locations_ BoundaryLocation.East)
    (nodesAlongAxis topology.number_of_nodes_on_level_zero_.1 (topology.scheme.LevelOfNode id))
    (topology.scheme.IndexOfNode id).1 hx hcond
  obtain ⟨hlevel, hindex⟩ := hscheme (topology.scheme.LevelOfNode id)
    (stepUp (topology.active_periodic_locations_ BoundaryLocation.East)
        (nodesAlongAxis topology.number_of_nodes_on_level_zero_.1
          (topology.scheme.LevelOfNode id)) (topology.scheme.IndexOfNode id).1,
      (topology.scheme.IndexOfNode id).2.1, (topology.scheme.IndexOfNode id).2.2)
    ⟨hlt, hy, hz⟩
  have heast : topology.GetTopologyNeighborId id BoundaryLocation.East =
      topology.scheme.IdOfIndex (topology.scheme.LevelOfNode id)
        (stepUp (topology.active_periodic_locations_ BoundaryLocation.East)
            (nodesAlongAxis topology.number_of_nodes_on_level_zero_.1
              (topology.scheme.LevelOfNode id)) (topology.scheme.IndexOfNode id).1,
          (topology.scheme.IndexOfNode id).2.1, (topology.scheme.IndexOfNode id).2.2) := rfl
  refine ⟨?_, ?_, ?_⟩
  · rw [heast]
    unfold NeighborTopology.GetTopologyNeighborId GetPeriodicNeighborId
    simp only []
    rw [hlevel, hindex, ← hperiodic]
    simp only []
    rw [hback]
    exact hself
  · rw [heast]
    unfold IsNodeId
    rw [hlevel, hindex]
    exact ⟨rfl, hlt, hy, hz⟩
  · rw [heast, hlevel]

/-- Instance of C20 on a domain of two nodes on level zero without periodic boundaries,
with the pairing scheme: the node with index `(0, 0, 0)` on level 0 is not at the East
boundary, and the West neighbor of its East neighbor is the node itself. -/
theorem C20_east_west_neighbor_inverse_witness :
    (EncodesLevelAndIndex exampleNeighborTopology ∧
      IsNodeId exampleNeighborTopology (examplePairScheme.IdOfIndex 0 (0, 0, 0)) ∧
      exampleNeighborTopology.IsExternalTopologyBoundary BoundaryLocation.East
        (examplePairScheme.IdOfIndex 0 (0, 0, 0)) = false) ∧
    exampleNeighborTopology.GetTopologyNeighborId
        (exampleNeighborTopology.GetTopologyNeighborId
          (examplePairScheme.IdOfIndex 0 (0, 0, 0)) BoundaryLocation.East)
        BoundaryLocation.West = examplePairScheme.IdOfIndex 0 (0, 0, 0) :=
  have hid : IsNodeId exampleNeighborTopology (examplePairScheme.IdOfIndex 0 (0, 0, 0)) :=
    examplePairScheme_isNodeId 0 (0, 0, 0) (by
      unfold InDomain nodesAlongAxis exampleNeighborTopology
      decide)
  have hinner : exampleNeighborTopology.IsExternalTopologyBoundary BoundaryLocation.East
      (examplePairScheme.IdOfIndex 0 (0, 0, 0)) = false := by
    simp [NeighborTopology.IsExternalTopologyBoundary, PeriodicIsExternalBoundary,
      exampleNeighborTopology, examplePairScheme, Nat.unpair_pair, nodesAlongAxis]
  ⟨⟨examplePairScheme_encodes, hid, hinner⟩,
    (C20_east_west_neighbor_inverse exampleNeighborTopology
      (examplePairScheme.IdOfIndex 0 (0, 0, 0)) examplePairScheme_encodes hid rfl hinner).1⟩

/-! ### Levels of a micro time step -/

theorem xor_double (a b : Bool) (m n : Nat) :
    (2 * m + a.toNat) ^^^ (2 * n + b.toNat) = 2 * (m ^^^ n) + (a != b).toNat := by
  have h := Nat.xor_bit a m b n
  rw [Nat.bit_val, Nat.bit_val, Nat.bit_val] at h
  exact h

theorem xor_succ_even (m : Nat) : (2 * m + 1) ^^^ (2 * m) = 1 := by
  have h := xor_double true false m m
  simp only [Bool.toNat_true, Bool.toNat_false, Nat.add_zero, Nat.xor_self] at h
  exact h

theorem xor_succ_odd (m : Nat) : (2 * m + 1 + 1) ^^^ (2 * m + 1) = 2 * ((m + 1) ^^^ m) + 1 := by
  have h := xor_double false true (m + 1) m
  simp only [Bool.toNat_true, Bool.toNat_false, Nat.add_zero] at h
  have e : 2 * m + 1 + 1 = 2 * (m + 1) := by ring
  rw [e, h]
  rfl

theorem trailingOnes_even (m : Nat) : trailingOnes (2 * m) = 0 := by
  rw [trailingOnes, dif_neg (by omega)]

theorem trailingOnes_odd (m : Nat) : trailingOnes (2 * m + 1) = trailingOnes m + 1 := by
  rw [trailingOnes, dif_pos (by omega)]
  have e : (2 * m + 1) / 2 = m := by omega
  rw [e]

theorem xor_succ_self (t : Nat) : (t + 1) ^^^ t = 2 ^ (trailingOnes t + 1) - 1 := by
  induction t using Nat.strong_induction_on with
  | _ t ih =>
    rcases Nat.even_or_odd' t with ⟨m, rfl | rfl⟩
    · rw [xor_succ_even, trailingOnes_even]
      rfl
    · rw [xor_succ_odd, trailingOnes_odd, ih m (by omega)]
      have hp : 1 ≤ 2 ^ (trailingOnes m + 1) := Nat.one_le_two_pow
      rw [pow_succ 2 (trailingOnes m + 1)]
      omega

theorem trailingOnes_dvd (t : Nat) :
    2 ^ trailingOnes t ∣ t + 1 ∧ ¬ 2 ^ (trailingOnes t + 1) ∣ t + 1 := by
  induction t using Nat.strong_induction_on with
  | _ t ih =>
    rcases Nat.even_or_odd' t with ⟨m, rfl | rfl⟩
    · rw [trailingOnes_even]
      constructor
      · simp
      · simp only [zero_add, pow_one]
        omega
    · rw [trailingOnes_odd]
      obtain ⟨h1, h2⟩ := ih m (by omega)
      have ht : 2 * m + 1 + 1 = 2 * (m + 1) := by ring
      rw [ht]
      constructor
      · rw [pow_succ, mul_comm _ 2]
        exact Nat.mul_dvd_mul_left 2 h1
      · intro hd
        apply h2
        rw [pow_succ _ (trailingOnes m + 1), mul_comm _ 2] at hd
        exact (Nat.mul_dvd_mul_iff_left (show 0 < 2 by norm_num)).mp hd

theorem bitsetCount16_mask (n : Nat) (hn : n ≤ 16) : bitsetCount16 (2 ^ n - 1) = n := by
  unfold bitsetCount16
  have : (List.range 16).filter (fun i => (2 ^ n - 1).testBit i) =
      (List.range 16).filter (fun i => decide (i < n)) := by
    apply List.filter_congr
    intro i _
    exact Nat.testBit_two_pow_sub_one n i
  rw [this]
  interval_cases n <;> rfl

theorem bitsetCount16_le (value : Nat) : bitsetCount16 value ≤ 16 := by
  unfold bitsetCount16
  exact (List.length_filter_le _ _).trans (by simp)

theorem iota_eq_range' (length first : Nat) (h : first + length ≤ 2 ^ 32) :
    iota length first = List.range' first length := by
  unfold iota
  rw [List.range'_eq_map_range]
  apply List.map_congr_left
  intro n hn
  have hn' : n < length := List.mem_range.mp hn
  have h1 : first + n < 2 ^ 32 := by omega
  rw [Nat.mod_eq_of_lt (show first + n < 2 ^ 64 by omega), Nat.mod_eq_of_lt h1]

/-- Closed form of `GetLevels` as long as nothing wraps and the bitset holds all set
bits. -/
theorem GetLevels_eq (all_levels_ : List Nat) (timestep : Nat)
    (ht : timestep + 1 < 2 ^ 32) (hk : trailingOnes timestep + 1 ≤ 16)
    (hl : trailingOnes timestep ≤ all_levels_.getLastD 0)
    (hmax : all_levels_.getLastD 0 < 2 ^ 32) :
    GetLevels all_levels_ timestep =
      (List.range (trailingOnes timestep + 1)).map (fun i => all_levels_.getLastD 0 - i) := by
  unfold GetLevels
  simp only []
  rw [Nat.mod_eq_of_lt ht, xor_succ_self, bitsetCount16_mask _ hk]
  have hfirst : ((all_levels_.getLastD 0 + 2 ^ 64 - (trailingOnes timestep + 1)) % 2 ^ 64 + 1)
      % 2 ^ 64 = all_levels_.getLastD 0 - trailingOnes timestep := by
    omega
  rw [hfirst, iota_eq_range' _ _ (by omega), List.reverse_range']
  apply List.map_congr_left
  intro i hi
  have hi' : i < trailingOnes timestep + 1 := List.mem_range.mp hi
  omega

theorem trailingOnes_le (Lmax t : Nat) (ht : t < 2 ^ Lmax) : trailingOnes t ≤ Lmax := by
  have h := (trailingOnes_dvd t).1
  have hle : 2 ^ trailingOnes t ≤ t + 1 := Nat.le_of_dvd (by omega) h
  have hlt : 2 ^ trailingOnes t ≤ 2 ^ Lmax := by omega
  exact (Nat.pow_le_pow_iff_right (by norm_num)).mp hlt

theorem mem_GetLevels (all_levels_ : List Nat) (timestep level : Nat)
    (hmax : all_levels_.getLastD 0 ≤ 15) (ht : timestep < 2 ^ all_levels_.getLastD 0)
    (hl : level ≤ all_levels_.getLastD 0) :
    level ∈ GetLevels all_levels_ timestep ↔
      2 ^ (all_levels_.getLastD 0 - level) ∣ timestep + 1 := by
  have hk := trailingOnes_le _ _ ht
  have hpow : (2 : Nat) ^ all_levels_.getLastD 0 ≤ 2 ^ 15 :=
    Nat.pow_le_pow_right (by norm_num) hmax
  rw [GetLevels_eq all_levels_ timestep (by omega) (by omega) hk (by omega)]
  obtain ⟨h1, h2⟩ := trailingOnes_dvd timestep
  simp only [List.mem_map, List.mem_range]
  constructor
  · rintro ⟨i, hi, rfl⟩
    refine (Nat.pow_dvd_pow 2 ?_).trans h1
    omega
  · intro hd
    refine ⟨all_levels_.getLastD 0 - level, ?_, by omega⟩
    by_contra hlt
    apply h2
    refine (Nat.pow_dvd_pow 2 ?_).trans hd
    omega

theorem length_filter_range (n : Nat) (p : Nat → Prop) [DecidablePred p] :
    ((List.range n).filter (fun t => decide (p t))).length =
      (Finset.filter p (Finset.range n)).card := by
  rfl

theorem timesListed_eq (all_levels_ : List Nat) (level : Nat)
    (hmax : all_levels_.getLastD 0 ≤ 15) (hl : level ≤ all_levels_.getLastD 0) :
    timesListed all_levels_ level = 2 ^ level := by
  unfold timesListed
  have hfilter : (List.range (2 ^ all_levels_.getLastD 0)).filter (fun timestep =>
        decide (level ∈ GetLevels all_levels_ timestep)) =
      (List.range (2 ^ all_levels_.getLastD 0)).filter (fun timestep =>
        decide (2 ^ (all_levels_.getLastD 0 - level) ∣ timestep + 1)) := by
    apply List.filter_congr
    intro t ht
    rw [decide_eq_decide]
    exact mem_GetLevels all_levels_ t level hmax (List.mem_range.mp ht) hl
  rw [hfilter, length_filter_range, Nat.card_multiples]
  have e : all_levels_.getLastD 0 = (all_levels_.getLastD 0 - level) + level := by omega
  nth_rewrite 1 [e]
  rw [pow_add, Nat.mul_div_cancel_left _ (by positivity)]

theorem sum_filter_flatMap {α β : Type} (l : List α) (f : α → List β) (p : β → Bool)
    (g : β → Nat) :
    (((l.flatMap f).filter p).map g).sum =
      (l.map (fun a => (((f a).filter p).map g).sum)).sum := by
  induction l with
  | nil => rfl
  | cons a l ih =>
    simp only [List.flatMap_cons, List.filter_append, List.map_append, List.sum_append,
      List.map_cons, List.sum_cons, ih]

theorem sum_map_indicator {α : Type} (l : List α) (p : α → Prop) [DecidablePred p] (c : Nat) :
    (l.map (fun a => if p a then c else 0)).sum =
      c * (l.filter (fun a => decide (p a))).length := by
  induction l with
  | nil => rfl
  | cons a l ih =>
    by_cases h : p a
    · rw [List.map_cons, List.sum_cons, List.filter_cons, if_pos (decide_eq_true h), if_pos h,
        List.length_cons, ih]
      ring
    · rw [List.map_cons, List.sum_cons, List.filter_cons, if_neg h,
        if_neg (show ¬ decide (p a) = true by simpa using h), ih, Nat.zero_add]

theorem length_filter_eq_range (n a : Nat) (h : a < n) :
    ((List.range n).filter (fun x => decide (x = a))).length = 1 := by
  have h1 : List.count a (List.range n) = 1 :=
    List.count_eq_one_of_mem (List.nodup_range n) (List.mem_range.mpr h)
  rw [List.count, List.countP_eq_length_filter] at h1
  rw [← h1]
  congr 1

theorem GetLevels_nodup (all_levels_ : List Nat) (timestep : Nat)
    (hmax : all_levels_.getLastD 0 ≤ 15) (ht : timestep < 2 ^ all_levels_.getLastD 0) :
    (GetLevels all_levels_ timestep).Nodup := by
  have hk := trailingOnes_le _ _ ht
  have hpow : (2 : Nat) ^ all_levels_.getLastD 0 ≤ 2 ^ 15 :=
    Nat.pow_le_pow_right (by norm_num) hmax
  rw [GetLevels_eq all_levels_ timestep (by omega) (by omega) hk (by omega)]
  apply List.Nodup.map_on _ (List.nodup_range _)
  intro x hx y hy hxy
  have hx' := List.mem_range.mp hx
  have hy' := List.mem_range.mp hy
  omega

theorem Integrate_steps (all_levels_ updated_levels : List Nat) (stage level wanted : Nat)
    (hnodup : updated_levels.Nodup) (hl : level ≤ all_levels_.getLastD 0)
    (hmax : all_levels_.getLastD 0 ≤ 15) :
    (((Integrate all_levels_ updated_levels stage).filter (fun step =>
      decide (step.level = level ∧ step.stage = wanted))).map
        (fun step => step.number_of_timesteps)).sum =
      if level ∈ updated_levels ∧ stage = wanted then 2 ^ (all_levels_.getLastD 0 - level)
      else 0 := by
  unfold Integrate
  induction updated_levels with
  | nil => simp
  | cons a rest ih =>
    have hn := List.nodup_cons.mp hnodup
    rw [List.map_cons, List.filter_cons]
    dsimp only
    by_cases hc : a = level ∧ stage = wanted
    · rw [if_pos (decide_eq_true hc), List.map_cons, List.sum_cons, ih hn.2]
      obtain ⟨rfl, rfl⟩ := hc
      rw [if_neg (fun h => hn.1 h.1), if_pos ⟨List.mem_cons_self _ _, rfl⟩]
      have hpow : (2 : Nat) ^ (all_levels_.getLastD 0 - a) ≤ 2 ^ 15 :=
        Nat.pow_le_pow_right (by norm_num) (by omega)
      have e : (all_levels_.getLastD 0 + 2 ^ 32 - a) % 2 ^ 32 = all_levels_.getLastD 0 - a := by
        omega
      dsimp only
      rw [e, Nat.one_shiftLeft, Nat.mod_eq_of_lt (by omega), Nat.add_zero]
    · rw [if_neg (by simpa using hc), ih hn.2]
      by_cases hs : stage = wanted
      · have ha : ¬ level = a := fun h => hc ⟨h.symm, hs⟩
        simp only [hs, and_true, List.mem_cons, ha, false_or]
      · simp only [hs, and_false]

theorem stepsAdvanced_eq (all_levels_ : List Nat) (NumberOfStages level stage : Nat)
    (hmax : all_levels_.getLastD 0 ≤ 15) (hl : level ≤ all_levels_.getLastD 0)
    (hs : stage < NumberOfStages) :
    stepsAdvanced all_levels_ NumberOfStages level stage = 2 ^ all_levels_.getLastD 0 := by
  have hpow : (2 : Nat) ^ all_levels_.getLastD 0 ≤ 2 ^ 15 :=
    Nat.pow_le_pow_right (by norm_num) hmax
  unfold stepsAdvanced Advance
  simp only []
  rw [Nat.one_shiftLeft, Nat.mod_eq_of_lt (by omega), sum_filter_flatMap]
  have hinner : ∀ timestep ∈ List.range (2 ^ all_levels_.getLastD 0),
      ((((List.range NumberOfStages).flatMap (fun stage' =>
        Integrate all_levels_ (GetLevels all_levels_ timestep) stage')).filter (fun step =>
          decide (step.level = level ∧ step.stage = stage))).map
            (fun step => step.number_of_timesteps)).sum =
      if level ∈ GetLevels all_levels_ timestep then 2 ^ (all_levels_.getLastD 0 - level)
      else 0 := by
    intro timestep ht
    have hnodup := GetLevels_nodup all_levels_ timestep hmax (List.mem_range.mp ht)
    rw [sum_filter_flatMap]
    have hstage : ∀ stage' ∈ List.range NumberOfStages,
        (((Integrate all_levels_ (GetLevels all_levels_ timestep) stage').filter (fun step =>
          decide (step.level = level ∧ step.stage = stage))).map
            (fun step => step.number_of_timesteps)).sum =
        if stage' = stage then
          (if level ∈ GetLevels all_levels_ timestep then 2 ^ (all_levels_.getLastD 0 - level)
            else 0)
        else 0 := by
      intro stage' _
      rw [Integrate_steps all_levels_ _ stage' level stage hnodup hl hmax]
      by_cases h1 : stage' = stage <;> by_cases h2 : level ∈ GetLevels all_levels_ timestep <;>
        simp [h1, h2]
    rw [List.map_congr_left hstage, sum_map_indicator, length_filter_eq_range _ _ hs,
      Nat.mul_one]
  rw [List.map_congr_left hinner, sum_map_indicator]
  have hcount := timesListed_eq all_levels_ level hmax hl
  unfold timesListed at hcount
  rw [hcount, ← pow_add]
  congr 1
  omega

theorem GetLevels_bound (all_levels_ : List Nat) (timestep : Nat)
    (h16 : 16 ≤ all_levels_.getLastD 0) (hmax : all_levels_.getLastD 0 < 2 ^ 32) :
    ∀ level ∈ GetLevels all_levels_ timestep, all_levels_.getLastD 0 ≤ level + 15 := by
  intro level hmem
  unfold GetLevels iota at hmem
  simp only [List.mem_reverse, List.mem_map, List.mem_range] at hmem
  obtain ⟨n, hn, rfl⟩ := hmem
  have hh := bitsetCount16_le (((timestep + 1) % 2 ^ 32) ^^^ timestep)
  omega

theorem Integrate_number (all_levels_ updated_levels : List Nat) (stage : Nat)
    (hmax : all_levels_.getLastD 0 ≤ 15) (step : IntegrationStep)
    (hstep : step ∈ Integrate all_levels_ updated_levels stage)
    (hl : step.level ≤ all_levels_.getLastD 0) :
    step.level ∈ updated_levels ∧ step.stage = stage ∧
      step.number_of_timesteps = 2 ^ (all_levels_.getLastD 0 - step.level) := by
  unfold Integrate at hstep
  obtain ⟨level, hlevel, rfl⟩ := List.mem_map.mp hstep
  dsimp only at hl ⊢
  refine ⟨hlevel, rfl, ?_⟩
  have hpow : (2 : Nat) ^ (all_levels_.getLastD 0 - level) ≤ 2 ^ 15 :=
    Nat.pow_le_pow_right (by norm_num) (by omega)
  have e : (all_levels_.getLastD 0 + 2 ^ 32 - level) % 2 ^ 32 = all_levels_.getLastD 0 - level := by
    omega
  rw [e, Nat.one_shiftLeft, Nat.mod_eq_of_lt (by omega)]

theorem Advance_levels (all_levels_ : List Nat) (NumberOfStages : Nat) (step : IntegrationStep)
    (hstep : step ∈ Advance all_levels_ NumberOfStages) :
    ∃ timestep, step.level ∈ GetLevels all_levels_ timestep := by
  unfold Advance Integrate at hstep
  simp only [List.mem_flatMap, List.mem_map, List.mem_range] at hstep
  obtain ⟨timestep, _, stage, _, level, hlevel, rfl⟩ := hstep
  exact ⟨timestep, hlevel⟩

/-- C22: for a maximum level `all_levels_.back()` of at most 15 and a micro time step `t`
below `2 ^ Lmax`, `GetLevels( t )` is the list `Lmax, Lmax - 1, ..., Lmax - k`, where `k` is
the number of trailing 1-bits of `t`, the largest `k` such that `2 ^ k` divides `t + 1`.
Since `k ≤ Lmax` no level is below 0; the list is not empty, starts at `Lmax` and descends
in steps of one. -/
theorem C22_levels_of_micro_time_step (all_levels_ : List Nat) (timestep : Nat)
    (hmax : all_levels_.getLastD 0 ≤ 15) (ht : timestep < 2 ^ all_levels_.getLastD 0) :
    ∃ k, k = trailingOnes timestep ∧ 2 ^ k ∣ timestep + 1 ∧ ¬ 2 ^ (k + 1) ∣ timestep + 1 ∧
      k ≤ all_levels_.getLastD 0 ∧
      GetLevels all_levels_ timestep =
        (List.range (k + 1)).map (fun i => all_levels_.getLastD 0 - i) ∧
      GetLevels all_levels_ timestep ≠ [] ∧
      (GetLevels all_levels_ timestep).head? = some (all_levels_.getLastD 0) ∧
      List.Chain' (fun a b => a = b + 1) (GetLevels all_levels_ timestep) := by
  have hk := trailingOnes_le _ _ ht
  have hpow : (2 : Nat) ^ all_levels_.getLastD 0 ≤ 2 ^ 15 :=
    Nat.pow_le_pow_right (by norm_num) hmax
  have heq := GetLevels_eq all_levels_ timestep (by omega) (by omega) hk (by omega)
  obtain ⟨h1, h2⟩ := trailingOnes_dvd timestep
  refine ⟨trailingOnes timestep, rfl, h1, h2, hk, heq, ?_, ?_, ?_⟩
  · rw [heq, List.range_succ_eq_map]
    exact List.cons_ne_nil _ _
  · rw [heq, List.range_succ_eq_map]
    rfl
  · rw [heq, List.chain'_map, List.chain'_range_succ]
    intro m hm
    omega

/-- Instance of C22: with the levels 0, 1, 2 the micro time step 3 has two trailing 1-bits
and updates the levels 2, 1, 0. -/
theorem C22_levels_of_micro_time_step_witness :
    (([0, 1, 2] : List Nat).getLastD 0 ≤ 15 ∧ 3 < 2 ^ ([0, 1, 2] : List Nat).getLastD 0) ∧
    GetLevels [0, 1, 2] 3 = [2, 1, 0] ∧
    ∃ k, k = trailingOnes 3 ∧ 2 ^ k ∣ 3 + 1 ∧ ¬ 2 ^ (k + 1) ∣ 3 + 1 ∧
      k ≤ ([0, 1, 2] : List Nat).getLastD 0 ∧
      GetLevels [0, 1, 2] 3 =
        (List.range (k + 1)).map (fun i => ([0, 1, 2] : List Nat).getLastD 0 - i) ∧
      GetLevels [0, 1, 2] 3 ≠ [] ∧
      (GetLevels [0, 1, 2] 3).head? = some (([0, 1, 2] : List Nat).getLastD 0) ∧
      List.Chain' (fun a b => a = b + 1) (GetLevels [0, 1, 2] 3) :=
  ⟨⟨by decide, by decide⟩, by decide,
    C22_levels_of_micro_time_step [0, 1, 2] 3 (by decide) (by decide)⟩

/-- C23 as stated fails: with the levels 0 to 16 `Advance` runs `2 ^ 16` micro time steps,
`GetLevels` lists level 0 in none of them instead of in `2 ^ 0`, and level 0 is advanced by
no step at all in stage 0 of a three-stage integrator. -/
theorem C23_level_zero_never_advanced :
    (List.range 17).getLastD 0 = 16 ∧
    timesListed (List.range 17) 0 = 0 ∧
    timesListed (List.range 17) 0 ≠ 2 ^ 0 ∧
    stepsAdvanced (List.range 17) 3 0 0 = 0 ∧
    stepsAdvanced (List.range 17) 3 0 0 ≠ 2 ^ (List.range 17).getLastD 0 := by
  have hlast : (List.range 17).getLastD 0 = 16 := by decide
  have hnot : ∀ timestep, 0 ∉ GetLevels (List.range 17) timestep := by
    intro timestep hmem
    have h := GetLevels_bound (List.range 17) timestep (by rw [hlast]) (by rw [hlast]; norm_num)
      0 hmem
    rw [hlast] at h
    omega
  have htimes : timesListed (List.range 17) 0 = 0 := by
    unfold timesListed
    rw [List.length_eq_zero, List.filter_eq_nil_iff]
    intro timestep _
    simpa using hnot timestep
  have hsteps : stepsAdvanced (List.range 17) 3 0 0 = 0 := by
    unfold stepsAdvanced
    have hnil : (Advance (List.range 17) 3).filter (fun step =>
        decide (step.level = 0 ∧ step.stage = 0)) = [] := by
      rw [List.filter_eq_nil_iff]
      intro step hstep
      obtain ⟨timestep, hmem⟩ := Advance_levels _ _ step hstep
      have hne : step.level ≠ 0 := fun h => hnot timestep (h ▸ hmem)
      simp [hne]
    rw [hnil]
    rfl
  refine ⟨hlast, htimes, ?_, hsteps, ?_⟩
  · rw [htimes]
    decide
  · rw [hsteps, hlast]
    decide

/-- C23, amended: for a maximum level `all_levels_.back()` of at most 15 and every level
`l` from 0 to the maximum level, `GetLevels` lists `l` in exactly `2 ^ l` of the `2 ^ Lmax`
micro time steps of one call of `Advance`; every step of `Integrate` for level `l` advances
it by `2 ^ (Lmax - l)` steps of the finest level; and in every stage of the time integrator
`Advance` advances level `l` by `2 ^ Lmax` steps of the finest level in total. -/
theorem C23_levels_advance_equally (all_levels_ : List Nat) (NumberOfStages level : Nat)
    (hmax : all_levels_.getLastD 0 ≤ 15) (hl : level ≤ all_levels_.getLastD 0) :
    timesListed all_levels_ level = 2 ^ level ∧
    (∀ updated_levels stage step, step ∈ Integrate all_levels_ updated_levels stage →
      step.level = level →
        step.number_of_timesteps = 2 ^ (all_levels_.getLastD 0 - level)) ∧
    ∀ stage, stage < NumberOfStages →
      stepsAdvanced all_levels_ NumberOfStages level stage = 2 ^ all_levels_.getLastD 0 := by
  refine ⟨timesListed_eq all_levels_ level hmax hl, ?_, ?_⟩
  · intro updated_levels stage step hstep hlevel
    have h := Integrate_number all_levels_ updated_levels stage hmax step hstep
      (by rw [hlevel]; exact hl)
    rw [← hlevel]
    exact h.2.2
  · intro stage hs
    exact stepsAdvanced_eq all_levels_ NumberOfStages level stage hmax hl hs

/-- Instance of the amended C23: with the levels 0, 1, 2 level 1 is listed in two of the
four micro time steps and advanced by four steps of the finest level in every stage. -/
theorem C23_levels_advance_equally_witness :
    (([0, 1, 2] : List Nat).getLastD 0 ≤ 15 ∧ 1 ≤ ([0, 1, 2] : List Nat).getLastD 0) ∧
    timesListed [0, 1, 2] 1 = 2 ^ 1 ∧
    stepsAdvanced [0, 1, 2] 3 1 0 = 2 ^ ([0, 1, 2] : List Nat).getLastD 0 :=
  ⟨⟨by decide, by decide⟩,
    (C23_levels_advance_equally [0, 1, 2] 3 1 (by decide) (by decide)).1,
    (C23_levels_advance_equally [0, 1, 2] 3 1 (by decide) (by decide)).2.2 0 (by decide)⟩

/-! ### Which nodes `Remesh` refines and coarsens -/

theorem mapM_ok_eq_map {α β : Type} (f : α → Except String β) (g : α → β) (l : List α)
    (ys : List β) (hg : ∀ x ∈ l, ∀ y, f x = Except.ok y → y = g x)
    (h : l.mapM f = Except.ok ys) : ys = l.map g := by
  induction l generalizing ys with
  | nil =>
    rw [List.mapM_nil] at h
    injection h with h
    exact h.symm
  | cons x l ih =>
    rw [List.mapM_cons] at h
    simp only [bind, Except.bind, pure, Except.pure] at h
    cases hx : f x with
    | error e =>
      rw [hx] at h
      exact Except.noConfusion h
    | ok y =>
      rw [hx] at h
      cases hl : l.mapM f with
      | error e =>
        rw [hl] at h
        exact Except.noConfusion h
      | ok zs =>
        rw [hl] at h
        injection h with h
        rw [← h, List.map_cons, ← hg x (List.mem_cons_self x l) y hx,
          ← ih zs (fun a ha => hg a (List.mem_cons_of_mem x ha)) hl]

/-- A run of `Remesh` that gets past the remeshing decision issues the operations of
`RemeshWithLists` for the decisions `rankDecision` of the ranks. -/
theorem Remesh_ok (env : RemeshEnv) (commit : RemeshCommit) (number_of_ranks : Nat)
    (levels_to_update_ascending : List Nat) (trace : List RemeshEvent)
    (hrun : Remesh env commit number_of_ranks levels_to_update_ascending = Except.ok trace) :
    trace = RemeshWithLists env commit levels_to_update_ascending
      ((List.range number_of_ranks).map (rankDecision env levels_to_update_ascending)) := by
  unfold Remesh at hrun
  simp only [bind, Except.bind, pure, Except.pure] at hrun
  split at hrun
  · exact Except.noConfusion hrun
  · rename_i decisions hdec
    injection hrun with h
    rw [← h]
    congr 1
    apply mapM_ok_eq_map _ _ _ _ _ hdec
    intro rank _ y hy
    rw [DetermineRemeshingNodes_eq] at hy
    split_ifs at hy
    injection hy with hy
    rw [← hy]
    rfl

theorem appendRefined_mem (rl : List RemeshIdentifier) (cs : List nid_t) (x : nid_t)
    (h : x ∈ appendRefined rl cs []) : x ∈ cs ∧ RemeshIdentifier.Refine ∈ rl := by
  induction rl generalizing cs with
  | nil => cases cs <;> simp [appendRefined] at h
  | cons r rl ih =>
    cases cs with
    | nil => simp [appendRefined] at h
    | cons c cs =>
      rw [appendRefined, appendRefined_append] at h
      rcases List.mem_append.mp h with h1 | h2
      · by_cases hr : r = RemeshIdentifier.Refine
        · rw [if_pos hr] at h1
          simp only [List.nil_append, List.mem_singleton] at h1
          exact ⟨h1 ▸ List.mem_cons_self c cs, hr ▸ List.mem_cons_self r rl⟩
        · rw [if_neg hr] at h1
          exact absurd h1 (List.not_mem_nil x)
      · obtain ⟨a, b⟩ := ih cs h2
        exact ⟨List.mem_cons_of_mem c a, List.mem_cons_of_mem r b⟩

theorem mem_refineGroup (env : RemeshEnv) (p x : nid_t) (h : x ∈ refineGroup env p) :
    x ∈ env.IdsOfChildren p ∧ RemeshIdentifier.Refine ∈ collectIndicators env p :=
  appendRefined_mem _ _ x h

theorem mem_coarsenGroup (env : RemeshEnv) (p x : nid_t) (h : x ∈ coarsenGroup env p) :
    x ∈ env.IdsOfChildren p ∧
      ∀ r ∈ collectIndicators env p, r = RemeshIdentifier.Coarse := by
  unfold coarsenGroup at h
  split_ifs at h with hc
  · refine ⟨h, fun r hr => ?_⟩
    simp only [Bool.and_eq_true, List.all_eq_true] at hc
    simpa using hc.2 r hr
  · exact absurd h (List.not_mem_nil x)

/-- No parent contributes to both lists. -/
theorem groups_exclusive (env : RemeshEnv) (p x y : nid_t) (hx : x ∈ coarsenGroup env p)
    (hy : y ∈ refineGroup env p) : False := by
  have h := (mem_coarsenGroup env p x hx).2 _ (mem_refineGroup env p y hy).2
  exact RemeshIdentifier.noConfusion h

/-- C28: a call of `DetermineRemeshingNodes` with an empty coarsen list, as `Remesh` and
`CreateNewSimulation` issue it, and with a refine list that holds no child of a parent the
call visits, returns lists in which no node of the coarsen list is in the refine list and
no node of the coarsen list has a sibling, a node with the same parent, in the refine
list.  Every node has the parent whose child it is. -/
theorem C28_refine_and_coarsen_lists_disjoint (env : RemeshEnv) (parent_levels : List Nat)
    (refine_list result_remove result_refine : List nid_t)
    (hparent : ∀ p c, c ∈ env.IdsOfChildren p → env.ParentIdOfNode c = p)
    (hrefine : ∀ s ∈ refine_list,
      env.ParentIdOfNode s ∉ visitedParents env parent_levels)
    (hrun : DetermineRemeshingNodes env parent_levels [] refine_list =
      Except.ok (result_remove, result_refine)) :
    (∀ c ∈ result_remove, c ∉ result_refine) ∧
    (∀ c ∈ result_remove, ∀ s ∈ result_refine,
      env.ParentIdOfNode s ≠ env.ParentIdOfNode c) := by
  rw [DetermineRemeshingNodes_eq] at hrun
  split_ifs at hrun
  injection hrun with hrun
  injection hrun with hrm hrf
  have hsib : ∀ c ∈ result_remove, ∀ s ∈ result_refine,
      env.ParentIdOfNode s ≠ env.ParentIdOfNode c := by
    intro c hc s hs
    rw [← hrm, List.nil_append, List.mem_flatMap] at hc
    obtain ⟨p, hp, hcp⟩ := hc
    have hpc := hparent p c (mem_coarsenGroup env p c hcp).1
    rw [← hrf] at hs
    rcases List.mem_append.mp hs with hs | hs
    · intro heq
      apply hrefine s hs
      rw [heq, hpc]
      exact hp
    · obtain ⟨q, _, hsq⟩ := List.mem_flatMap.mp hs
      have hqs := hparent q s (mem_refineGroup env q s hsq).1
      intro heq
      rw [hqs, hpc] at heq
      rw [heq] at hsq
      exact groups_exclusive env p c s hcp hsq
  exact ⟨fun c hc hmem => hsib c hc c hmem rfl, hsib⟩

/-- Instance of C28 on the example forest: the siblings 4 and 5 are listed for coarsening,
leaf 6 for refinement, and its sibling 7 is in neither list. -/
theorem C28_refine_and_coarsen_lists_disjoint_witness :
    ((∀ p c, c ∈ exampleMixedEnv.IdsOfChildren p → exampleMixedEnv.ParentIdOfNode c = p) ∧
      DetermineRemeshingNodes exampleMixedEnv [1] [] [] = Except.ok ([4, 5], [6])) ∧
    (∀ c ∈ [4, 5], c ∉ [6]) ∧
    (∀ c ∈ [4, 5], ∀ s ∈ [6],
      exampleMixedEnv.ParentIdOfNode s ≠ exampleMixedEnv.ParentIdOfNode c) :=
  have hparent : ∀ p c, c ∈ exampleMixedEnv.IdsOfChildren p →
      exampleMixedEnv.ParentIdOfNode c = p := by
    intro (p : Nat) (c : Nat) hc
    have h : c = 2 * p ∨ c = 2 * p + 1 := by
      simpa [exampleMixedEnv, exampleEnv] using hc
    show c / 2 = p
    omega
  ⟨⟨hparent, rfl⟩,
    C28_refine_and_coarsen_lists_disjoint exampleMixedEnv [1] [] [4, 5] [6] hparent
      (fun s hs => absurd hs (List.not_mem_nil s)) rfl⟩

/-- A leaf is passed to `RefineNode` only as a child of a parent `DetermineRemeshingNodes`
visits, i.e. of a node on a level of the input list below the current maximum level. -/
theorem Remesh_refined_child (env : RemeshEnv) (commit : RemeshCommit) (number_of_ranks : Nat)
    (levels_to_update_ascending : List Nat) (trace : List RemeshEvent)
    (hrun : Remesh env commit number_of_ranks levels_to_update_ascending = Except.ok trace)
    (id : nid_t) (hid : RemeshEvent.RefineNode id ∈ trace) :
    ∃ level ∈ levels_to_update_ascending, level < env.topology_.GetCurrentMaximumLevel ∧
      ∃ p ∈ env.topology_.GlobalIdsOnLevel level, id ∈ env.IdsOfChildren p := by
  rw [Remesh_ok env commit number_of_ranks levels_to_update_ascending trace hrun] at hid
  simp [RemeshWithLists, UpdateTopology, LocalToGlobalData, cutRefinementList,
    rankDecision] at hid
  obtain ⟨rank, _, ⟨p, hp, hmem⟩, _⟩ := hid
  unfold visitedParents parentLevels at hp
  obtain ⟨level, hlevel, hpl⟩ := List.mem_flatMap.mp hp
  rw [List.mem_filter] at hlevel
  refine ⟨level, hlevel.1, ?_, p, hpl, (mem_refineGroup _ p id hmem).1⟩
  simpa using hlevel.2
/-! ### Order of the structural operations of `Remesh` -/

theorem unique_sorted (l : List nid_t) (h : l.Sorted (· ≤ ·)) : (unique l).Sorted (· < ·) := by
  induction l using unique.induct with
  | case1 => exact List.sorted_nil
  | case2 a => exact List.sorted_singleton a
  | case3 a l ih =>
    rw [unique, if_pos rfl]
    exact ih (List.Sorted.of_cons h)
  | case4 a b l hab ih =>
    rw [unique, if_neg hab]
    have htail := List.Sorted.of_cons h
    refine List.sorted_cons.mpr ⟨fun x hx => ?_, ih htail⟩
    have hx' := mem_unique x (b :: l) hx
    have hab' : a ≤ b := List.rel_of_sorted_cons h b (List.mem_cons_self b l)
    have hbx : b ≤ x := by
      rcases List.mem_cons.mp hx' with rfl | hxl
      · exact le_refl _
      · exact List.rel_of_sorted_cons htail x hxl
    exact lt_of_lt_of_le (lt_of_le_of_ne hab' hab) hbx

theorem unique_mem_iff (x : nid_t) (l : List nid_t) : x ∈ unique l ↔ x ∈ l := by
  refine ⟨mem_unique x l, ?_⟩
  induction l using unique.induct with
  | case1 => exact fun h => h
  | case2 a => exact fun h => h
  | case3 a l ih =>
    intro h
    rw [unique, if_pos rfl]
    rcases List.mem_cons.mp h with rfl | h'
    · exact ih (List.mem_cons_self _ _)
    · exact ih h'
  | case4 a b l hab ih =>
    intro h
    rw [unique, if_neg hab]
    rcases List.mem_cons.mp h with rfl | h'
    · exact List.mem_cons_self _ _
    · exact List.mem_cons_of_mem a (ih h')

theorem refinedIds_append (a b : List RemeshEvent) :
    refinedIds (a ++ b) = refinedIds a ++ refinedIds b :=
  List.filterMap_append a b _

theorem coarsenedParents_append (a b : List RemeshEvent) :
    coarsenedParents (a ++ b) = coarsenedParents a ++ coarsenedParents b :=
  List.filterMap_append a b _

theorem removedIds_append (a b : List RemeshEvent) :
    removedIds (a ++ b) = removedIds a ++ removedIds b :=
  List.filterMap_append a b _

theorem refinedIds_map (l : List nid_t) :
    refinedIds (l.map RemeshEvent.RefineNode) = l ∧
    refinedIds (l.map RemeshEvent.CoarseNodeWithId) = [] ∧
    refinedIds (l.map RemeshEvent.RemoveNodeWithId) = [] := by
  induction l with
  | nil => exact ⟨rfl, rfl, rfl⟩
  | cons a l ih =>
    obtain ⟨h1, h2, h3⟩ := ih
    unfold refinedIds at h1 h2 h3 ⊢
    simp only [List.map_cons, List.filterMap_cons, h1, h2, h3, and_self]

theorem coarsenedParents_map (l : List nid_t) :
    coarsenedParents (l.map RemeshEvent.RefineNode) = [] ∧
    coarsenedParents (l.map RemeshEvent.CoarseNodeWithId) = l ∧
    coarsenedParents (l.map RemeshEvent.RemoveNodeWithId) = [] := by
  induction l with
  | nil => exact ⟨rfl, rfl, rfl⟩
  | cons a l ih =>
    obtain ⟨h1, h2, h3⟩ := ih
    unfold coarsenedParents at h1 h2 h3 ⊢
    simp only [List.map_cons, List.filterMap_cons, h1, h2, h3, and_self]

theorem removedIds_map (l : List nid_t) :
    removedIds (l.map RemeshEvent.RefineNode) = [] ∧
    removedIds (l.map RemeshEvent.CoarseNodeWithId) = [] ∧
    removedIds (l.map RemeshEvent.RemoveNodeWithId) = l := by
  induction l with
  | nil => exact ⟨rfl, rfl, rfl⟩
  | cons a l ih =>
    obtain ⟨h1, h2, h3⟩ := ih
    unfold removedIds at h1 h2 h3 ⊢
    simp only [List.map_cons, List.filterMap_cons, h1, h2, h3, and_self]

theorem refinedIds_UpdateTopology (changed : Bool) : refinedIds (UpdateTopology changed) = [] := by
  cases changed <;> rfl

theorem refinedIds_halo (halo_levels : List Nat) :
    refinedIds [RemeshEvent.MaterialHaloUpdate halo_levels] = [] :=
  rfl

theorem refinedIds_invalidation (invalidate : Bool) :
    refinedIds (if invalidate = true then [RemeshEvent.InvalidateCache] else []) = [] := by
  cases invalidate <;> rfl

theorem coarsenedParents_UpdateTopology (changed : Bool) : coarsenedParents (UpdateTopology changed) = [] := by
  cases changed <;> rfl

theorem coarsenedParents_halo (halo_levels : List Nat) :
    coarsenedParents [RemeshEvent.MaterialHaloUpdate halo_levels] = [] :=
  rfl

theorem coarsenedParents_invalidation (invalidate : Bool) :
    coarsenedParents (if invalidate = true then [RemeshEvent.InvalidateCache] else []) = [] := by
  cases invalidate <;> rfl

theorem removedIds_UpdateTopology (changed : Bool) : removedIds (UpdateTopology changed) = [] := by
  cases changed <;> rfl

theorem removedIds_halo (halo_levels : List Nat) :
    removedIds [RemeshEvent.MaterialHaloUpdate halo_levels] = [] :=
  rfl

theorem removedIds_invalidation (invalidate : Bool) :
    removedIds (if invalidate = true then [RemeshEvent.InvalidateCache] else []) = [] := by
  cases invalidate <;> rfl

/-- The three sequences of structural operations `RemeshWithLists` issues. -/
theorem RemeshWithLists_sequences (env : RemeshEnv) (commit : RemeshCommit)
    (levels_to_update_ascending : List Nat) (decisions : List (List nid_t × List nid_t)) :
    refinedIds (RemeshWithLists env commit levels_to_update_ascending decisions) =
      (LocalToGlobalData (decisions.map (fun lists => cutRefinementList env lists.2))).filter
        (fun leaf_id => env.topology_.NodeIsOnRank leaf_id env.my_rank) ∧
    coarsenedParents (RemeshWithLists env commit levels_to_update_ascending decisions) =
      (unique (((LocalToGlobalData (decisions.map (fun lists => lists.1))).map
        env.ParentIdOfNode).insertionSort (· ≤ ·))).filter
          (fun parent_id => !(env.LevelOfNode parent_id == 0)) ∧
    removedIds (RemeshWithLists env commit levels_to_update_ascending decisions) =
      (unique (((LocalToGlobalData (decisions.map (fun lists => lists.1))).filter
        (fun id => commit.topology_after.NodeIsOnRank id env.my_rank)).insertionSort
          (· ≤ ·))).filter (fun id => !(env.LevelOfNode id == 1)) := by
  unfold RemeshWithLists
  simp only []
  refine ⟨?_, ?_, ?_⟩
  · simp only [refinedIds_append, (refinedIds_map _).1, (refinedIds_map _).2.1,
      (refinedIds_map _).2.2, refinedIds_UpdateTopology, refinedIds_halo,
      refinedIds_invalidation, List.append_nil]
  · simp only [coarsenedParents_append, (coarsenedParents_map _).1, (coarsenedParents_map _).2.1,
      (coarsenedParents_map _).2.2, coarsenedParents_UpdateTopology, coarsenedParents_halo,
      coarsenedParents_invalidation, List.append_nil, List.nil_append]
  · simp only [removedIds_append, (removedIds_map _).1, (removedIds_map _).2.1,
      (removedIds_map _).2.2, removedIds_UpdateTopology, removedIds_halo,
      removedIds_invalidation, List.append_nil, List.nil_append]

theorem appendRefined_sublist (rl : List RemeshIdentifier) (cs : List nid_t) :
    (appendRefined rl cs []).Sublist cs := by
  induction rl generalizing cs with
  | nil => cases cs <;> simp [appendRefined]
  | cons r rl ih =>
    cases cs with
    | nil => simp [appendRefined]
    | cons c cs =>
      rw [appendRefined, appendRefined_append]
      by_cases hr : r = RemeshIdentifier.Refine
      · rw [if_pos hr]
        exact List.Sublist.cons₂ c (ih cs)
      · rw [if_neg hr]
        exact List.Sublist.cons c (ih cs)

/-- A rank lists children for refinement only for a parent it holds. -/
theorem refineGroup_owner_of_mem (env : RemeshEnv) (p x : nid_t) (h : x ∈ refineGroup env p) :
    env.topology_.NodeIsOnRank p env.my_rank = true := by
  by_contra hown
  have hfalse : env.topology_.NodeIsOnRank p env.my_rank = false := by
    cases hb : env.topology_.NodeIsOnRank p env.my_rank
    · rfl
    · exact absurd hb hown
  rw [refineGroup_of_nil env p (collectIndicators_not_owner env p hfalse)] at h
  exact absurd h (List.not_mem_nil x)

/-- The list of leaves gathered for refinement holds no leaf twice when no parent is
visited twice, no parent lists a child twice, every node has one parent and every node is
held by one rank. -/
theorem gathered_refine_nodup (env : RemeshEnv) (levels_to_update_ascending : List Nat)
    (number_of_ranks : Nat)
    (hvisited : (visitedParents env (parentLevels env levels_to_update_ascending)).Nodup)
    (hchildren : ∀ p, (env.IdsOfChildren p).Nodup)
    (hparent : ∀ p c, c ∈ env.IdsOfChildren p → env.ParentIdOfNode c = p)
    (hrank : ∀ id rank, env.topology_.NodeIsOnRank id rank = true →
      env.topology_.GetRankOfNode id = rank) :
    ((List.range number_of_ranks).flatMap (fun rank =>
      cutRefinementList env (rankDecision env levels_to_update_ascending rank).2)).Nodup := by
  rw [List.nodup_flatMap]
  constructor
  · intro rank _
    unfold cutRefinementList rankDecision
    apply List.Nodup.filter
    rw [List.nodup_flatMap]
    constructor
    · intro p _
      exact List.Nodup.sublist (appendRefined_sublist _ _) (hchildren p)
    · apply List.Nodup.pairwise_of_forall_ne hvisited
      intro p _ q _ hpq x hxp hxq
      apply hpq
      rw [← hparent p x (mem_refineGroup _ p x hxp).1, ← hparent q x (mem_refineGroup _ q x hxq).1]
  · apply List.Nodup.pairwise_of_forall_ne (List.nodup_range number_of_ranks)
    intro r _ s _ hrs x hxr hxs
    apply hrs
    unfold cutRefinementList rankDecision at hxr hxs
    obtain ⟨p, _, hxp⟩ := List.mem_flatMap.mp (List.mem_filter.mp hxr).1
    obtain ⟨q, _, hxq⟩ := List.mem_flatMap.mp (List.mem_filter.mp hxs).1
    have hpq : p = q := by
      rw [← hparent p x (mem_refineGroup _ p x hxp).1, ← hparent q x (mem_refineGroup _ q x hxq).1]
    have h1 := hrank p _ (refineGroup_owner_of_mem { env with my_rank := Int.ofNat r } p x hxp)
    have h2 := hrank q _ (refineGroup_owner_of_mem { env with my_rank := Int.ofNat s } q x hxq)
    rw [← hpq] at h2
    have h3 : (Int.ofNat r) = Int.ofNat s := h1.symm.trans h2
    exact Int.ofNat.inj h3

theorem gathered_refine_eq (env : RemeshEnv) (levels_to_update_ascending : List Nat)
    (number_of_ranks : Nat) :
    LocalToGlobalData (((List.range number_of_ranks).map
        (rankDecision env levels_to_update_ascending)).map
          (fun lists => cutRefinementList env lists.2)) =
      (List.range number_of_ranks).flatMap (fun rank =>
        cutRefinementList env (rankDecision env levels_to_update_ascending rank).2) := by
  unfold LocalToGlobalData
  rw [List.map_map, List.flatMap_map]
  rfl

/-- C24 fails on the code.  On the example forest (levels 0 to 3, nodes up to level 2)
`Advance` calls `Remesh` with the levels 2 and 3 after micro time step 1.  Node 4 is a leaf
on the listed level 2, which is not the maximum level 3.  Whatever the wavelet analysis
answers and however many ranks take part, this call passes no node to `RefineNode`: only
the children of nodes on a listed level are analysed, and the parent of node 4 is on level
1.  With every analysis answering `Refine` the call issues the commit and the halo update
only, while the call with the levels 1, 2 and 3 refines the leaves 4 to 7. -/
theorem C24_lowest_listed_level_not_refined :
    exampleEnv.topology_.NodeIsLeaf 4 = true ∧ exampleEnv.LevelOfNode 4 = 2 ∧
    exampleEnv.all_levels_.getLastD 0 = 3 ∧
    (GetLevels exampleEnv.all_levels_ 1).reverse = [2, 3] ∧
    (∀ (analysis : nid_t → nid_t → RemeshIdentifier) (commit : RemeshCommit)
        (number_of_ranks : Nat) (trace : List RemeshEvent),
      Remesh { exampleEnv with ChildNeedsRemeshing := analysis } commit number_of_ranks [2, 3] =
        Except.ok trace → ∀ id, RemeshEvent.RefineNode id ∉ trace) ∧
    Remesh { exampleEnv with ChildNeedsRemeshing := fun _ _ => RemeshIdentifier.Refine }
        { changed := false, topology_after := exampleTopology } 1 [2, 3] =
      Except.ok [RemeshEvent.TopologyCommit, RemeshEvent.MaterialHaloUpdate [3]] ∧
    Remesh { exampleEnv with ChildNeedsRemeshing := fun _ _ => RemeshIdentifier.Refine }
        { changed := true, topology_after := exampleTopology } 1 [1, 2, 3] =
      Except.ok [RemeshEvent.RefineNode 4, RemeshEvent.RefineNode 5, RemeshEvent.RefineNode 6,
        RemeshEvent.RefineNode 7, RemeshEvent.TopologyCommit, RemeshEvent.InvalidateCache,
        RemeshEvent.MaterialHaloUpdate [2, 3]] := by
  refine ⟨by decide, by decide, by decide, by decide, ?_, rfl, rfl⟩
  intro analysis commit number_of_ranks trace hrun id hid
  obtain ⟨level, hlevel, hlt, _⟩ := Remesh_refined_child _ commit number_of_ranks [2, 3] trace
    hrun id hid
  have hmax : level < 2 := hlt
  simp only [List.mem_cons, List.mem_singleton, List.not_mem_nil, or_false] at hlevel
  omega

/-- C25 as stated fails for the leaves passed to `RefineNode`: on the example forest
distributed over two ranks, with every analysis answering `Refine`, rank 0 refines the
leaves in the order 6, 7, 4, 5, the order in which the lists of rank 0 and rank 1 are
gathered. -/
theorem C25_refinement_order_not_ascending :
    ∃ trace, Remesh (exampleSplitEnv RemeshIdentifier.Refine)
        { changed := true, topology_after := (exampleSplitEnv RemeshIdentifier.Refine).topology_ }
        2 [1, 2, 3] = Except.ok trace ∧
      refinedIds trace = [6, 7, 4, 5] ∧ ¬ (refinedIds trace).Sorted (· < ·) :=
  ⟨[RemeshEvent.RefineNode 6, RemeshEvent.RefineNode 7, RemeshEvent.RefineNode 4,
      RemeshEvent.RefineNode 5, RemeshEvent.TopologyCommit, RemeshEvent.InvalidateCache,
      RemeshEvent.MaterialHaloUpdate [2, 3]], rfl, rfl, by decide⟩

/-- C25, amended: in every run of `Remesh` that gets past the remeshing decision, the
parents passed to `TopologyManager::CoarseNodeWithId` and the nodes removed from the tree
are each in strictly ascending id order and free of duplicates.  The leaves passed to
`RefineNode` are those of the gathered refine list the executing rank holds, in the order
of the gathered list (rank by rank, within a rank in the order in which the parents are
visited); they are free of duplicates when no parent is visited twice, no parent lists a
child twice, every node has one parent and every node is held by one rank. -/
theorem C25_coarsening_sequences_ascending (env : RemeshEnv) (commit : RemeshCommit)
    (number_of_ranks : Nat) (levels_to_update_ascending : List Nat) (trace : List RemeshEvent)
    (hrun : Remesh env commit number_of_ranks levels_to_update_ascending = Except.ok trace) :
    (coarsenedParents trace).Sorted (· < ·) ∧ (coarsenedParents trace).Nodup ∧
    (removedIds trace).Sorted (· < ·) ∧ (removedIds trace).Nodup ∧
    refinedIds trace =
      ((List.range number_of_ranks).flatMap (fun rank =>
        cutRefinementList env (rankDecision env levels_to_update_ascending rank).2)).filter
          (fun leaf_id => env.topology_.NodeIsOnRank leaf_id env.my_rank) ∧
    ((visitedParents env (parentLevels env levels_to_update_ascending)).Nodup →
      (∀ p, (env.IdsOfChildren p).Nodup) →
      (∀ p c, c ∈ env.IdsOfChildren p → env.ParentIdOfNode c = p) →
      (∀ id rank, env.topology_.NodeIsOnRank id rank = true →
        env.topology_.GetRankOfNode id = rank) →
      (refinedIds trace).Nodup) := by
  rw [Remesh_ok env commit number_of_ranks levels_to_update_ascending trace hrun]
  obtain ⟨h1, h2, h3⟩ := RemeshWithLists_sequences env commit levels_to_update_ascending
    ((List.range number_of_ranks).map (rankDecision env levels_to_update_ascending))
  have hsorted : ∀ l : List nid_t, (unique (l.insertionSort (· ≤ ·))).Sorted (· < ·) :=
    fun l => unique_sorted _ (List.sorted_insertionSort (· ≤ ·) l)
  have hcoarse : (coarsenedParents (RemeshWithLists env commit levels_to_update_ascending
      ((List.range number_of_ranks).map (rankDecision env levels_to_update_ascending)))).Sorted
        (· < ·) := by
    rw [h2]
    exact List.Sorted.filter _ (hsorted _)
  have hremove : (removedIds (RemeshWithLists env commit levels_to_update_ascending
      ((List.range number_of_ranks).map (rankDecision env levels_to_update_ascending)))).Sorted
        (· < ·) := by
    rw [h3]
    exact List.Sorted.filter _ (hsorted _)
  refine ⟨hcoarse, hcoarse.nodup, hremove, hremove.nodup, ?_, ?_⟩
  · rw [h1, gathered_refine_eq]
  · intro hvisited hchildren hparent hrank
    rw [h1, gathered_refine_eq]
    exact List.Nodup.filter _ (gathered_refine_nodup env levels_to_update_ascending
      number_of_ranks hvisited hchildren hparent hrank)

/-- Instance of the amended C25 on the example forest distributed over two ranks, with
every analysis answering `Coarse`: the coarsen list is gathered in the order 6, 7, 4, 5,
the parents 2 and 3 are coarsened in this order and the nodes 4, 5, 6, 7 are removed in
this order. -/
theorem C25_coarsening_sequences_ascending_witness :
    Remesh (exampleSplitEnv RemeshIdentifier.Coarse)
        { changed := false, topology_after := (exampleSplitEnv RemeshIdentifier.Coarse).topology_ }
        2 [1, 2, 3] =
      Except.ok [RemeshEvent.TopologyCommit, RemeshEvent.MaterialHaloUpdate [2, 3],
        RemeshEvent.CoarseNodeWithId 2, RemeshEvent.CoarseNodeWithId 3,
        RemeshEvent.InvalidateCache, RemeshEvent.RemoveNodeWithId 4,
        RemeshEvent.RemoveNodeWithId 5, RemeshEvent.RemoveNodeWithId 6,
        RemeshEvent.RemoveNodeWithId 7] ∧
    ([2, 3] : List nid_t).Sorted (· < ·) ∧ ([4, 5, 6, 7] : List nid_t).Sorted (· < ·) :=
  ⟨rfl,
    (C25_coarsening_sequences_ascending (exampleSplitEnv RemeshIdentifier.Coarse)
      { changed := false, topology_after := (exampleSplitEnv RemeshIdentifier.Coarse).topology_ }
      2 [1, 2, 3] _ rfl).1,
    (C25_coarsening_sequences_ascending (exampleSplitEnv RemeshIdentifier.Coarse)
      { changed := false, topology_after := (exampleSplitEnv RemeshIdentifier.Coarse).topology_ }
      2 [1, 2, 3] _ rfl).2.2.1⟩

theorem mem_removedIds (trace : List RemeshEvent) (id : nid_t) :
    id ∈ removedIds trace ↔ RemeshEvent.RemoveNodeWithId id ∈ trace := by
  unfold removedIds
  rw [List.mem_filterMap]
  constructor
  · rintro ⟨event, hevent, hsome⟩
    cases event <;> simp at hsome
    rw [← hsome]
    exact hevent
  · intro h
    exact ⟨_, h, rfl⟩

theorem mem_coarsenedParents (trace : List RemeshEvent) (id : nid_t) :
    id ∈ coarsenedParents trace ↔ RemeshEvent.CoarseNodeWithId id ∈ trace := by
  unfold coarsenedParents
  rw [List.mem_filterMap]
  constructor
  · rintro ⟨event, hevent, hsome⟩
    cases event <;> simp at hsome
    rw [← hsome]
    exact hevent
  · intro h
    exact ⟨_, h, rfl⟩

theorem mapM_ok_each {α β : Type} (f : α → Except String β) (l : List α) (ys : List β)
    (h : l.mapM f = Except.ok ys) : ∀ x ∈ l, ∃ y, f x = Except.ok y := by
  induction l generalizing ys with
  | nil => exact fun x hx => absurd hx (List.not_mem_nil x)
  | cons a l ih =>
    rw [List.mapM_cons] at h
    simp only [bind, Except.bind, pure, Except.pure] at h
    cases ha : f a with
    | error e =>
      rw [ha] at h
      exact Except.noConfusion h
    | ok y =>
      rw [ha] at h
      cases hl : l.mapM f with
      | error e =>
        rw [hl] at h
        exact Except.noConfusion h
      | ok zs =>
        intro x hx
        rcases List.mem_cons.mp hx with rfl | hx'
        · exact ⟨y, ha⟩
        · exact ih zs hl x hx'

/-- In a run of `Remesh` that gets past the remeshing decision every rank determined the
lists `rankDecision`. -/
theorem Remesh_decisions (env : RemeshEnv) (commit : RemeshCommit) (number_of_ranks : Nat)
    (levels_to_update_ascending : List Nat) (trace : List RemeshEvent)
    (hrun : Remesh env commit number_of_ranks levels_to_update_ascending = Except.ok trace)
    (rank : Nat) (hrank : rank < number_of_ranks) :
    DetermineRemeshingNodes { env with my_rank := Int.ofNat rank }
        (parentLevels env levels_to_update_ascending) [] [] =
      Except.ok (rankDecision env levels_to_update_ascending rank) := by
  unfold Remesh at hrun
  simp only [bind, Except.bind, pure, Except.pure] at hrun
  split at hrun
  · exact Except.noConfusion hrun
  · rename_i decisions hdec
    obtain ⟨y, hy⟩ := mapM_ok_each _ _ _ hdec rank (List.mem_range.mpr hrank)
    have hy' := hy
    rw [DetermineRemeshingNodes_eq] at hy'
    split_ifs at hy'
    injection hy' with hy'
    rw [hy, ← hy']
    rfl

/-- C26: in a run of `Remesh` that gets past the remeshing decision, let `c` be a node of
the globally gathered coarsen list (the lists the ranks determined, concatenated) that the
executing rank holds after the commit, with a parent one level below it.  Then `c` is
removed from the tree of the rank if and only if the parent of `c` is passed to
`TopologyManager::CoarseNodeWithId`; both happen exactly when `c` is not on level 1. -/
theorem C26_removed_iff_parent_coarsened (env : RemeshEnv) (commit : RemeshCommit)
    (number_of_ranks : Nat) (levels_to_update_ascending : List Nat) (trace : List RemeshEvent)
    (c : nid_t)
    (hrun : Remesh env commit number_of_ranks levels_to_update_ascending = Except.ok trace)
    (hc : c ∈ LocalToGlobalData ((List.range number_of_ranks).map (fun rank =>
      (rankDecision env levels_to_update_ascending rank).1)))
    (hown : commit.topology_after.NodeIsOnRank c env.my_rank = true)
    (hlevel : env.LevelOfNode (env.ParentIdOfNode c) + 1 = env.LevelOfNode c) :
    (∀ rank, rank < number_of_ranks →
      DetermineRemeshingNodes { env with my_rank := Int.ofNat rank }
          (parentLevels env levels_to_update_ascending) [] [] =
        Except.ok (rankDecision env levels_to_update_ascending rank)) ∧
    (RemeshEvent.RemoveNodeWithId c ∈ trace ↔
      RemeshEvent.CoarseNodeWithId (env.ParentIdOfNode c) ∈ trace) ∧
    (RemeshEvent.RemoveNodeWithId c ∈ trace ↔ env.LevelOfNode c ≠ 1) := by
  refine ⟨Remesh_decisions env commit number_of_ranks levels_to_update_ascending trace hrun,
    ?_⟩
  rw [Remesh_ok env commit number_of_ranks levels_to_update_ascending trace hrun]
  obtain ⟨_, h2, h3⟩ := RemeshWithLists_sequences env commit levels_to_update_ascending
    ((List.range number_of_ranks).map (rankDecision env levels_to_update_ascending))
  have hc' : c ∈ LocalToGlobalData (((List.range number_of_ranks).map
      (rankDecision env levels_to_update_ascending)).map (fun lists => lists.1)) := by
    rw [List.map_map]
    exact hc
  have hremoved : RemeshEvent.RemoveNodeWithId c ∈
      RemeshWithLists env commit levels_to_update_ascending
        ((List.range number_of_ranks).map (rankDecision env levels_to_update_ascending)) ↔
      env.LevelOfNode c ≠ 1 := by
    rw [← mem_removedIds, h3, List.mem_filter, unique_mem_iff, List.mem_insertionSort,
      List.mem_filter]
    constructor
    · intro h
      simpa using h.2
    · intro h
      exact ⟨⟨hc', hown⟩, by simpa using h⟩
  have hcoarsened : RemeshEvent.CoarseNodeWithId (env.ParentIdOfNode c) ∈
      RemeshWithLists env commit levels_to_update_ascending
        ((List.range number_of_ranks).map (rankDecision env levels_to_update_ascending)) ↔
      env.LevelOfNode (env.ParentIdOfNode c) ≠ 0 := by
    rw [← mem_coarsenedParents, h2, List.mem_filter, unique_mem_iff, List.mem_insertionSort]
    constructor
    · intro h
      simpa using h.2
    · intro h
      exact ⟨List.mem_map_of_mem _ hc', by simpa using h⟩
  refine ⟨?_, hremoved⟩
  rw [hremoved, hcoarsened]
  constructor
  · intro h h0
    apply h
    omega
  · intro h h1
    apply h
    omega

/-- Instance of C26 on the example forest distributed over two ranks, with every analysis
answering `Coarse`: node 4 is listed for coarsening by rank 1, which holds its parent 2,
and is held by rank 0; rank 0 removes node 4 and parent 2 is coarsened. -/
theorem C26_removed_iff_parent_coarsened_witness :
    (Remesh (exampleSplitEnv RemeshIdentifier.Coarse)
        { changed := false, topology_after := (exampleSplitEnv RemeshIdentifier.Coarse).topology_ }
        2 [1, 2, 3] =
      Except.ok [RemeshEvent.TopologyCommit, RemeshEvent.MaterialHaloUpdate [2, 3],
        RemeshEvent.CoarseNodeWithId 2, RemeshEvent.CoarseNodeWithId 3,
        RemeshEvent.InvalidateCache, RemeshEvent.RemoveNodeWithId 4,
        RemeshEvent.RemoveNodeWithId 5, RemeshEvent.RemoveNodeWithId 6,
        RemeshEvent.RemoveNodeWithId 7] ∧
      LocalToGlobalData ((List.range 2).map (fun rank =>
        (rankDecision (exampleSplitEnv RemeshIdentifier.Coarse) [1, 2, 3] rank).1)) =
          [6, 7, 4, 5] ∧
      (exampleSplitEnv RemeshIdentifier.Coarse).topology_.NodeIsOnRank 4 0 = true ∧
      (exampleSplitEnv RemeshIdentifier.Coarse).topology_.NodeIsOnRank 2 0 = false) ∧
    (RemeshEvent.RemoveNodeWithId 4 ∈
        [RemeshEvent.TopologyCommit, RemeshEvent.MaterialHaloUpdate [2, 3],
          RemeshEvent.CoarseNodeWithId 2, RemeshEvent.CoarseNodeWithId 3,
          RemeshEvent.InvalidateCache, RemeshEvent.RemoveNodeWithId 4,
          RemeshEvent.RemoveNodeWithId 5, RemeshEvent.RemoveNodeWithId 6,
          RemeshEvent.RemoveNodeWithId 7] ↔
      RemeshEvent.CoarseNodeWithId
          ((exampleSplitEnv RemeshIdentifier.Coarse).ParentIdOfNode 4) ∈
        [RemeshEvent.TopologyCommit, RemeshEvent.MaterialHaloUpdate [2, 3],
          RemeshEvent.CoarseNodeWithId 2, RemeshEvent.CoarseNodeWithId 3,
          RemeshEvent.InvalidateCache, RemeshEvent.RemoveNodeWithId 4,
          RemeshEvent.RemoveNodeWithId 5, RemeshEvent.RemoveNodeWithId 6,
          RemeshEvent.RemoveNodeWithId 7]) :=
  ⟨⟨rfl, by decide, by decide, by decide⟩,
    (C26_removed_iff_parent_coarsened (exampleSplitEnv RemeshIdentifier.Coarse)
      { changed := false, topology_after := (exampleSplitEnv RemeshIdentifier.Coarse).topology_ }
      2 [1, 2, 3] _ 4 rfl (by decide) (by decide) (by decide)).2.1⟩

theorem WENO7_entry_constant (c : ℚ) (i : Nat) (h : i < 8) :
    WENO7.entry (fun _ => c) i = some c := by
  unfold WENO7.entry
  rw [dif_pos h]

theorem WENO7_smoothness_constant (c : ℚ) :
    WENO7.smoothnessIndicators c c c c c c c = (0, 0, 0, 0) := by
  unfold WENO7.smoothnessIndicators
  simp only [WENO7.coef_smoothness_0_01_, WENO7.coef_smoothness_0_02_,
    WENO7.coef_smoothness_0_03_, WENO7.coef_smoothness_0_04_, WENO7.coef_smoothness_0_06_,
    WENO7.coef_smoothness_0_07_, WENO7.coef_smoothness_0_08_, WENO7.coef_smoothness_0_10_,
    WENO7.coef_smoothness_0_11_, WENO7.coef_smoothness_0_13_, WENO7.coef_smoothness_1_01_,
    WENO7.coef_smoothness_1_02_, WENO7.coef_smoothness_1_03_, WENO7.coef_smoothness_1_04_,
    WENO7.coef_smoothness_1_06_, WENO7.coef_smoothness_1_07_, WENO7.coef_smoothness_1_08_,
    WENO7.coef_smoothness_1_10_, WENO7.coef_smoothness_1_11_, WENO7.coef_smoothness_1_13_,
    WENO7.coef_smoothness_2_01_, WENO7.coef_smoothness_2_02_, WENO7.coef_smoothness_2_03_,
    WENO7.coef_smoothness_2_04_, WENO7.coef_smoothness_2_06_, WENO7.coef_smoothness_2_07_,
    WENO7.coef_smoothness_2_08_, WENO7.coef_smoothness_2_10_, WENO7.coef_smoothness_2_11_,
    WENO7.coef_smoothness_2_13_, WENO7.coef_smoothness_3_01_, WENO7.coef_smoothness_3_02_,
    WENO7.coef_smoothness_3_03_, WENO7.coef_smoothness_3_04_, WENO7.coef_smoothness_3_06_,
    WENO7.coef_smoothness_3_07_, WENO7.coef_smoothness_3_08_, WENO7.coef_smoothness_3_10_,
    WENO7.coef_smoothness_3_11_, WENO7.coef_smoothness_3_13_]
  refine Prod.ext ?_ (Prod.ext ?_ (Prod.ext ?_ ?_)) <;> simp only [] <;> ring

theorem WENO7_weights_smooth :
    WENO7.nonlinearWeights (0, 0, 0, 0) =
      (WENO7.coef_weights_1_, WENO7.coef_weights_2_, WENO7.coef_weights_3_,
        WENO7.coef_weights_4_) := by
  unfold WENO7.nonlinearWeights
  simp only [WENO7.coef_weights_1_, WENO7.coef_weights_2_, WENO7.coef_weights_3_,
    WENO7.coef_weights_4_, WENO7.epsilon_weno7_]
  refine Prod.ext ?_ (Prod.ext ?_ (Prod.ext ?_ ?_)) <;> norm_num

theorem WENO7_candidates_constant (c : ℚ) :
    WENO7.candidates c c c c c c c = (c, c, c, c) := by
  unfold WENO7.candidates
  simp only [WENO7.coef_stencils_1_, WENO7.coef_stencils_2_, WENO7.coef_stencils_3_,
    WENO7.coef_stencils_4_, WENO7.coef_stencils_6_, WENO7.coef_stencils_7_,
    WENO7.coef_stencils_8_, WENO7.coef_stencils_9_, WENO7.coef_stencils_11_,
    WENO7.coef_stencils_12_, WENO7.coef_stencils_13_, WENO7.coef_stencils_14_,
    WENO7.coef_stencils_16_, WENO7.coef_stencils_17_, WENO7.coef_stencils_18_,
    WENO7.coef_stencils_19_]
  refine Prod.ext ?_ (Prod.ext ?_ (Prod.ext ?_ ?_)) <;> simp only [] <;> ring

/-- C30: in exact arithmetic, for every value `c` and every admissible evaluation offset
and direction, `WENO7::ApplyImplementation` applied to an array whose entries all equal `c`
returns `c`.  The four smoothness indicators vanish, the nonlinear weights are the linear
weights 1/35, 12/35, 18/35 and 4/35, which sum to 1, and the coefficients of each candidate
stencil sum to 1. -/
theorem C30_weno7_reproduces_constants (c cell_size : ℚ) (evaluation_properties : Int × Int)
    (hadmissible : WENO7.Admissible evaluation_properties) :
    WENO7.ApplyImplementation (fun _ => c) evaluation_properties cell_size = some c ∧
    WENO7.smoothnessIndicators c c c c c c c = (0, 0, 0, 0) ∧
    WENO7.nonlinearWeights (WENO7.smoothnessIndicators c c c c c c c) =
      (1 / 35, 12 / 35, 18 / 35, 4 / 35) ∧
    WENO7.coef_weights_1_ + WENO7.coef_weights_2_ + WENO7.coef_weights_3_ +
      WENO7.coef_weights_4_ = 1 ∧
    WENO7.coef_stencils_1_ + WENO7.coef_stencils_2_ + WENO7.coef_stencils_3_ +
      WENO7.coef_stencils_4_ = 1 ∧
    WENO7.coef_stencils_6_ + WENO7.coef_stencils_7_ + WENO7.coef_stencils_8_ +
      WENO7.coef_stencils_9_ = 1 ∧
    WENO7.coef_stencils_11_ + WENO7.coef_stencils_12_ + WENO7.coef_stencils_13_ +
      WENO7.coef_stencils_14_ = 1 ∧
    WENO7.coef_stencils_16_ + WENO7.coef_stencils_17_ + WENO7.coef_stencils_18_ +
      WENO7.coef_stencils_19_ = 1 := by
  have hentry : ∀ n ∈ ([-3, -2, -1, 0, 1, 2, 3] : List Int),
      WENO7.entry (fun _ => c) (WENO7.index evaluation_properties n) = some c :=
    fun n hn => WENO7_entry_constant c _ (hadmissible n hn)
  refine ⟨?_, WENO7_smoothness_constant c, ?_, ?_, ?_, ?_, ?_, ?_⟩
  · unfold WENO7.ApplyImplementation
    rw [hentry (-3) (by decide), hentry (-2) (by decide), hentry (-1) (by decide),
      hentry 0 (by decide), hentry 1 (by decide), hentry 2 (by decide), hentry 3 (by decide)]
    simp only [Option.bind_eq_bind, Option.some_bind, pure]
    rw [WENO7_smoothness_constant, WENO7_weights_smooth, WENO7_candidates_constant]
    unfold WENO7.weightedAverage
    simp only [WENO7.coef_weights_1_, WENO7.coef_weights_2_, WENO7.coef_weights_3_,
      WENO7.coef_weights_4_]
    congr 1
    ring
  · rw [WENO7_smoothness_constant, WENO7_weights_smooth]
    rfl
  · norm_num [WENO7.coef_weights_1_, WENO7.coef_weights_2_, WENO7.coef_weights_3_,
      WENO7.coef_weights_4_]
  · norm_num [WENO7.coef_stencils_1_, WENO7.coef_stencils_2_, WENO7.coef_stencils_3_,
      WENO7.coef_stencils_4_]
  · norm_num [WENO7.coef_stencils_6_, WENO7.coef_stencils_7_, WENO7.coef_stencils_8_,
      WENO7.coef_stencils_9_]
  · norm_num [WENO7.coef_stencils_11_, WENO7.coef_stencils_12_, WENO7.coef_stencils_13_,
      WENO7.coef_stencils_14_]
  · norm_num [WENO7.coef_stencils_16_, WENO7.coef_stencils_17_, WENO7.coef_stencils_18_,
      WENO7.coef_stencils_19_]

/-- Instance of C30: the offsets and directions `(0, 1)` and `(1, -1)` are admissible, and
for both the stencil applied to the constant array 5 returns 5. -/
theorem C30_weno7_reproduces_constants_witness :
    (WENO7.Admissible (0, 1) ∧ WENO7.Admissible (1, -1)) ∧
    WENO7.ApplyImplementation (fun _ => 5) (0, 1) 1 = some 5 ∧
    WENO7.ApplyImplementation (fun _ => 5) (1, -1) 1 = some 5 :=
  ⟨⟨by decide, by decide⟩,
    (C30_weno7_reproduces_constants 5 1 (0, 1) (by decide)).1,
    (C30_weno7_reproduces_constants 5 1 (1, -1) (by decide)).1⟩

/-! ### The scratch arrays of the jump-flux adjustment -/

/-- The exchange phase is the loop of the per-material step over the visited pairs. -/
theorem exchange_eq_pairs (env : JumpEnv) (level_exchanging : List Nat)
    (state : ExchangeState) :
    exchange env level_exchanging state =
      (exchangePairs env level_exchanging).foldlM
        (fun state pair => exchangeMaterial env pair.1 state pair.2) state := by
  unfold exchange exchangePairs exchangeLeaf
  rw [foldlM_flatMap]
  congr 1
  funext s level
  rw [foldlM_flatMap]
  congr 1
  funext s leaf_id
  rw [foldlM_map]

/-- The one-cell layer of a side lies inside the interior. -/
theorem layer_subset_interior (env : JumpEnv)
    (hinterior : env.FICX ≤ env.LICX ∧ env.FICY ≤ env.LICY ∧ env.FICZ ≤ env.LICZ)
    (location : BoundaryLocation) (i j k : Nat)
    (h : (i, j, k) ∈ layerCells (naturalGeometry env location)) :
    (i, j, k) ∈ interiorCells env := by
  unfold interiorCells
  rw [mem_layerCells] at h ⊢
  obtain ⟨h1, h2, h3⟩ := hinterior
  cases location <;> simp only [naturalGeometry, interiorGeometry] at h ⊢ <;> omega

/-- One iteration of the loop over the locations changes the scratch arrays only on the
layer of the side, and there it stores values that depend on the tree only. -/
theorem exchangeLocationResult_scratch (env : JumpEnv) (leaf_id : nid_t)
    (material : MaterialName) (location : BoundaryLocation) (s t : ExchangeState)
    (htree : s.tree_ = t.tree_) (b e i j k : Nat) :
    ((i, j, k) ∉ layerCells (naturalGeometry env location) →
      (exchangeLocationResult env leaf_id material s location).coarse_fluxes b e i j k =
        s.coarse_fluxes b e i j k ∧
      (exchangeLocationResult env leaf_id material s location).fine_fluxes b e i j k =
        s.fine_fluxes b e i j k) ∧
    (s.coarse_fluxes b e i j k = t.coarse_fluxes b e i j k →
      (exchangeLocationResult env leaf_id material s location).coarse_fluxes b e i j k =
        (exchangeLocationResult env leaf_id material t location).coarse_fluxes b e i j k) ∧
    (s.fine_fluxes b e i j k = t.fine_fluxes b e i j k →
      (exchangeLocationResult env leaf_id material s location).fine_fluxes b e i j k =
        (exchangeLocationResult env leaf_id material t location).fine_fluxes b e i j k) ∧
    (exchangeLocationResult env leaf_id material s location).tree_ =
      (exchangeLocationResult env leaf_id material t location).tree_ := by
  unfold exchangeLocationResult
  by_cases hq : neighborQualifies env leaf_id location = true ∧
      env.topology_.NodeIsOnRank leaf_id env.my_rank = true
  · rw [if_pos hq, if_pos hq]
    unfold ownFaceResult
    simp only []
    by_cases hb : b = env.LTI location
    · subst hb
      simp only [if_true, fillFluxes_spec, htree]
      refine ⟨fun hc => ?_, fun h => ?_, fun h => ?_, trivial⟩
      · rw [if_neg (fun hh => hc hh.2), if_neg (fun hh => hc hh.2)]
        exact ⟨rfl, rfl⟩
      · rw [h]
      · rw [h]
    · simp only [hb, if_false, htree]
      exact ⟨fun _ => ⟨trivial, trivial⟩, fun h => h, fun h => h, trivial⟩
  · rw [if_neg hq, if_neg hq]
    exact ⟨fun _ => ⟨rfl, rfl⟩, fun h => h, fun h => h, htree⟩

/-- The loop over the locations changes the scratch arrays only on the layers of the sides
it visits, and what it stores depends on the tree only. -/
theorem foldl_exchangeLocationResult_scratch (env : JumpEnv) (leaf_id : nid_t)
    (material : MaterialName) (locations : List BoundaryLocation) (s t : ExchangeState)
    (htree : s.tree_ = t.tree_) (b e i j k : Nat) :
    ((∀ location ∈ locations, (i, j, k) ∉ layerCells (naturalGeometry env location)) →
      (locations.foldl (exchangeLocationResult env leaf_id material) s).coarse_fluxes b e i j k =
        s.coarse_fluxes b e i j k ∧
      (locations.foldl (exchangeLocationResult env leaf_id material) s).fine_fluxes b e i j k =
        s.fine_fluxes b e i j k) ∧
    (s.coarse_fluxes b e i j k = t.coarse_fluxes b e i j k →
      (locations.foldl (exchangeLocationResult env leaf_id material) s).coarse_fluxes b e i j k =
        (locations.foldl (exchangeLocationResult env leaf_id material) t).coarse_fluxes
          b e i j k) ∧
    (s.fine_fluxes b e i j k = t.fine_fluxes b e i j k →
      (locations.foldl (exchangeLocationResult env leaf_id material) s).fine_fluxes b e i j k =
        (locations.foldl (exchangeLocationResult env leaf_id material) t).fine_fluxes
          b e i j k) ∧
    (locations.foldl (exchangeLocationResult env leaf_id material) s).tree_ =
      (locations.foldl (exchangeLocationResult env leaf_id material) t).tree_ := by
  induction locations generalizing s t with
  | nil => exact ⟨fun _ => ⟨rfl, rfl⟩, fun h => h, fun h => h, htree⟩
  | cons location rest ih =>
    obtain ⟨s1, s2, s3, s4⟩ :=
      exchangeLocationResult_scratch env leaf_id material location s t htree b e i j k
    obtain ⟨r1, r2, r3, r4⟩ := ih (exchangeLocationResult env leaf_id material s location)
      (exchangeLocationResult env leaf_id material t location) s4
    simp only [List.foldl_cons]
    refine ⟨fun hout => ?_, fun h => r2 (s2 h), fun h => r3 (s3 h), r4⟩
    obtain ⟨a1, a2⟩ := r1 (fun loc hloc => hout loc (List.mem_cons_of_mem location hloc))
    obtain ⟨b1, b2⟩ := s1 (hout location (List.mem_cons_self location rest))
    exact ⟨a1.trans b1, a2.trans b2⟩

/-- One iteration of the loop over the (leaf, material) pairs leaves the scratch arrays zero
over their whole extent. -/
theorem exchangeMaterialResult_entirelyZero (env : JumpEnv)
    (hASOE : ∀ e, e < env.ANOE → e ∈ env.ASOE)
    (hinterior : env.FICX ≤ env.LICX ∧ env.FICY ≤ env.LICY ∧ env.FICZ ≤ env.LICZ)
    (state : ExchangeState) (pair : nid_t × MaterialName)
    (hz : ScratchEntirelyZero env state) :
    ScratchEntirelyZero env (exchangeMaterialResult env state pair) := by
  intro b e i j k hb he hi hj hk
  unfold exchangeMaterialResult applyFluxes
  by_cases hr : env.topology_.NodeIsOnRank pair.1 env.my_rank = true
  · rw [if_pos hr]
    obtain ⟨_, a2, a3, _⟩ := foldl_applyEquation env pair.1 pair.2 env.ASOE
      (env.ANBS.foldl (exchangeLocationResult env pair.1 pair.2) state)
    rw [a2, a3]
    by_cases hc : (i, j, k) ∈ interiorCells env
    · rw [if_pos ⟨hb, hASOE e he, hc⟩, if_pos ⟨hb, hASOE e he, hc⟩]
      exact ⟨rfl, rfl⟩
    · rw [if_neg (fun h => hc h.2.2), if_neg (fun h => hc h.2.2)]
      obtain ⟨h1, h2⟩ := (foldl_exchangeLocationResult_scratch env pair.1 pair.2 env.ANBS state
        state rfl b e i j k).1
        (fun location _ hmem => hc (layer_subset_interior env hinterior location i j k hmem))
      rw [h1, h2]
      exact hz b e i j k hb he hi hj hk
  · rw [if_neg hr, foldl_exchangeLocationResult_id env pair.1 pair.2 env.ANBS state
      (fun h => hr h.1)]
    exact hz b e i j k hb he hi hj hk

/-- The right-hand sides after one iteration of the loop over the (leaf, material) pairs
depend on the scratch arrays only through the entries of the six slots for the active
equations on the interior cells. -/
theorem exchangeMaterialResult_rhs_congr (env : JumpEnv) (s t : ExchangeState)
    (pair : nid_t × MaterialName) (htree : s.tree_ = t.tree_)
    (hagree : ∀ b e i j k, b < 6 → e ∈ env.ASOE → (i, j, k) ∈ interiorCells env →
      s.coarse_fluxes b e i j k = t.coarse_fluxes b e i j k ∧
      s.fine_fluxes b e i j k = t.fine_fluxes b e i j k)
    (n : nid_t) (m : MaterialName) :
    ((exchangeMaterialResult env s pair).tree_.block n m).right_hand_side_ =
      ((exchangeMaterialResult env t pair).tree_.block n m).right_hand_side_ := by
  have hmid := fun b e i j k =>
    foldl_exchangeLocationResult_scratch env pair.1 pair.2 env.ANBS s t htree b e i j k
  have hmidtree := (hmid 0 0 0 0 0).2.2.2
  unfold exchangeMaterialResult applyFluxes
  by_cases hr : env.topology_.NodeIsOnRank pair.1 env.my_rank = true
  · rw [if_pos hr, if_pos hr]
    obtain ⟨a1, _, _, a4, _⟩ := foldl_applyEquation env pair.1 pair.2 env.ASOE
      (env.ANBS.foldl (exchangeLocationResult env pair.1 pair.2) s)
    obtain ⟨c1, _, _, c4, _⟩ := foldl_applyEquation env pair.1 pair.2 env.ASOE
      (env.ANBS.foldl (exchangeLocationResult env pair.1 pair.2) t)
    by_cases hnm : n = pair.1 ∧ m = pair.2
    · obtain ⟨rfl, rfl⟩ := hnm
      funext e i j k
      rw [a1, c1, hmidtree]
      by_cases hc : e ∈ env.ASOE ∧ (i, j, k) ∈ interiorCells env
      · rw [if_pos hc, if_pos hc,
          slotSum_congr _ _ e i j k (fun b hb =>
            (hmid b e i j k).2.1 (hagree b e i j k hb hc.1 hc.2).1),
          slotSum_congr _ _ e i j k (fun b hb =>
            (hmid b e i j k).2.2.1 (hagree b e i j k hb hc.1 hc.2).2)]
      · rw [if_neg hc, if_neg hc]
    · rw [a4 n m hnm, c4 n m hnm, hmidtree]
  · rw [if_neg hr, if_neg hr, hmidtree]

/-- With natural sides the loop over the first pairs does not throw. -/
theorem stateBeforePair_natural (env : JumpEnv) (hnat : NaturalSides env)
    (finished_levels_descending : List Nat)
    (coarse_garbage fine_garbage : Nat → Nat → FieldArray) (tree : BlockTree) (n : Nat) :
    stateBeforePair env finished_levels_descending coarse_garbage fine_garbage tree n =
      Except.ok (((exchangePairs env finished_levels_descending.tail).take n).foldl
        (exchangeMaterialResult env)
        { tree_ := treeAfterAveraging env finished_levels_descending tree,
          coarse_fluxes := initialFluxes env coarse_garbage,
          fine_fluxes := initialFluxes env fine_garbage }) := by
  unfold stateBeforePair
  exact foldlM_eq_foldl (fun s (pair : nid_t × MaterialName) =>
      exchangeMaterial env pair.1 s pair.2) (exchangeMaterialResult env) _ _
    (fun s pair _ => exchangeMaterial_natural env hnat pair.1 pair.2 s)

/-- C29: in `JumpFluxAdjustment` with natural active sides, equations indexed `0` to
`ANOE - 1` and interior cells inside the block, the loop over the (leaf, material) pairs
reaches every pair, and at the start of the processing of every pair the scratch arrays
`coarse_fluxes` and `fine_fluxes` are zero over their whole extent.  Processing a pair
from this state yields the same right-hand sides as processing it with freshly zeroed
scratch arrays: nothing left by the leaves and materials processed before enters the
correction. -/
theorem C29_scratch_arrays_zero_for_every_pair (env : JumpEnv)
    (finished_levels_descending : List Nat)
    (coarse_garbage fine_garbage : Nat → Nat → FieldArray) (tree : BlockTree) (n : Nat)
    (hnat : NaturalSides env)
    (hASOE : ∀ e, e ∈ env.ASOE ↔ e < env.ANOE)
    (hinterior : env.FICX ≤ env.LICX ∧ env.FICY ≤ env.LICY ∧ env.FICZ ≤ env.LICZ)
    (hTC : InteriorInsideBlock env) :
    stateBeforePair env finished_levels_descending coarse_garbage fine_garbage tree
        (exchangePairs env finished_levels_descending.tail).length =
      exchange env finished_levels_descending.tail
        { tree_ := treeAfterAveraging env finished_levels_descending tree,
          coarse_fluxes := initialFluxes env coarse_garbage,
          fine_fluxes := initialFluxes env fine_garbage } ∧
    ∃ state,
      stateBeforePair env finished_levels_descending coarse_garbage fine_garbage tree n =
        Except.ok state ∧
      ScratchEntirelyZero env state ∧
      ∀ leaf_id material, ∃ after fresh,
        exchangeMaterial env leaf_id state material = Except.ok after ∧
        exchangeMaterial env leaf_id state.withFreshScratch material = Except.ok fresh ∧
        ∀ id m, (after.tree_.block id m).right_hand_side_ =
          (fresh.tree_.block id m).right_hand_side_ := by
  constructor
  · unfold stateBeforePair
    rw [List.take_length, exchange_eq_pairs]
  · refine ⟨_, stateBeforePair_natural env hnat finished_levels_descending coarse_garbage
      fine_garbage tree n, ?_⟩
    have hzero : ScratchEntirelyZero env
        (((exchangePairs env finished_levels_descending.tail).take n).foldl
          (exchangeMaterialResult env)
          { tree_ := treeAfterAveraging env finished_levels_descending tree,
            coarse_fluxes := initialFluxes env coarse_garbage,
            fine_fluxes := initialFluxes env fine_garbage }) := by
      apply foldl_invariant (ScratchEntirelyZero env)
      · intro b e i j k hb he hi hj hk
        unfold initialFluxes
        simp only []
        rw [if_pos ⟨hb, (hASOE e).mpr he, hi, hj, hk⟩, if_pos ⟨hb, (hASOE e).mpr he, hi, hj, hk⟩]
        exact ⟨rfl, rfl⟩
      · intro s pair _ hs
        exact exchangeMaterialResult_entirelyZero env (fun e he => (hASOE e).mpr he) hinterior
          s pair hs
    refine ⟨hzero, fun leaf_id material => ⟨_, _,
      exchangeMaterial_natural env hnat leaf_id material _,
      exchangeMaterial_natural env hnat leaf_id material _, ?_⟩⟩
    intro id m
    refine exchangeMaterialResult_rhs_congr env _ _ (leaf_id, material) ?_ ?_ id m
    · rfl
    · intro b e i j k hb he hc
      unfold interiorCells at hc
      rw [mem_layerCells] at hc
      simp only [interiorGeometry] at hc
      obtain ⟨h1, h2, h3⟩ := hTC
      exact hzero b e i j k hb ((hASOE e).mp he) (by omega) (by omega) (by omega)

/-- Instance of C29 on the jump example: after the pair of leaf 3, the only pair of the
exchanging level 1, the scratch arrays are zero over their whole extent although they were
declared holding 7 everywhere. -/
theorem C29_scratch_arrays_zero_for_every_pair_witness :
    (NaturalSides exampleJumpEnv ∧ (∀ e, e ∈ exampleJumpEnv.ASOE ↔ e < exampleJumpEnv.ANOE) ∧
      (exampleJumpEnv.FICX ≤ exampleJumpEnv.LICX ∧ exampleJumpEnv.FICY ≤ exampleJumpEnv.LICY ∧
        exampleJumpEnv.FICZ ≤ exampleJumpEnv.LICZ) ∧
      InteriorInsideBlock exampleJumpEnv) ∧
    exchangePairs exampleJumpEnv [1] = [(3, 0)] ∧
    ∃ state,
      stateBeforePair exampleJumpEnv [2, 1] (fun _ _ _ _ _ => 7) (fun _ _ _ _ _ => 7)
        exampleBlockTree 1 = Except.ok state ∧
      ScratchEntirelyZero exampleJumpEnv state :=
  have hnat : NaturalSides exampleJumpEnv := by
    unfold NaturalSides
    decide
  have hASOE : ∀ e, e ∈ exampleJumpEnv.ASOE ↔ e < exampleJumpEnv.ANOE := by
    intro e
    show e ∈ [0] ↔ e < 1
    simp
  have hinterior : exampleJumpEnv.FICX ≤ exampleJumpEnv.LICX ∧
      exampleJumpEnv.FICY ≤ exampleJumpEnv.LICY ∧ exampleJumpEnv.FICZ ≤ exampleJumpEnv.LICZ := by
    decide
  have hTC : InteriorInsideBlock exampleJumpEnv := by
    unfold InteriorInsideBlock
    decide
  ⟨⟨hnat, hASOE, hinterior, hTC⟩, by decide,
    (C29_scratch_arrays_zero_for_every_pair exampleJumpEnv [2, 1] (fun _ _ _ _ _ => 7)
      (fun _ _ _ _ _ => 7) exampleBlockTree 1 hnat hASOE hinterior hTC).2.elim
      (fun state h => ⟨state, h.1, h.2.1⟩)⟩

end Alpaca
